import Mathlib

/-!
# FiveCo legacy register-access dissector (`epan/dissectors/packet-5co-legacy.c`)

A shallow embedding of `dissect_FiveCoLegacy` and `checksum_fiveco`, and theorems that
settle the statements of the specification against it.

Conventions of the embedding.

* A delivery buffer (`tvbuff_t`) is a list of octets. The tvbuff accessors are not part of
  the dissector's file; they are modelled from the interface the specification names
  ("bounds-checked big-endian byte/field access"): an access outside the buffer raises the
  bounds exception, which unwinds out of the dissector.
* `proto_tree_add_item` is not part of the dissector's file either. A field that carries a
  value is read from the buffer, and the call raises the bounds exception when its range
  leaves the buffer; a field of type `FT_NONE` or `FT_PROTOCOL` is an interior node of the
  tree, whose range the library cuts at the end of the buffer. The type of each field is
  the one the source registers it with (`Hf.ft`).
* C integer variables are natural numbers; every assignment to a `guint16`, `guint32` or
  `guint64` variable that can exceed its width is reduced modulo `2^16`, `2^32`, `2^64`.
* The column text and the protocol tree are external objects; the dissector's effect on
  them is recorded as the ordered trace of the calls it makes (`Event`).
* The file-scope variables `g_unInternalID`, `FiveCo_requests_hash` and the per-packet
  protocol data are the explicit `State`.
* Loops whose trip count the source does not bound (`while`, and `for` without a step) take
  an iteration budget; `Res.fuel` and `Outcome.timeout` report that the budget ran out.
-/

namespace FiveCo

/-! ## Buffers and bounds-checked access -/

/-- One octet. -/
abbrev Byte := Fin 256

/-- A tvbuff: the octets of one delivery. -/
abbrev Tvb := List Byte

/-- Result of a computation that may be cut short by an exception. -/
inductive Res (α : Type) where
  /-- normal completion -/
  | ok (a : α)
  /-- an exception raised by a bounds-checked accessor unwound the computation -/
  | exn
  /-- the iteration budget of the model was used up -/
  | fuel
  deriving DecidableEq, Repr

/-- Sequencing of `Res` computations. -/
def Res.bind {α β : Type} (x : Res α) (f : α → Res β) : Res β :=
  match x with
  | .ok a => f a
  | .exn => .exn
  | .fuel => .fuel

instance : Monad Res where
  pure := Res.ok
  bind := Res.bind

/-- Modelled from the spec: `tvb_captured_length` (epan/tvbuff.c, not under src/), the
number of octets of the delivery. A tvbuff length is a `guint`; lists of `2^32` octets or
more model no buffer. -/
def tvb_captured_length (tvb : Tvb) : Nat := tvb.length

/-- Modelled from the spec: `tvb_get_guint8` (epan/tvbuff.c, not under src/), the
"bounds-checked byte access" of the consumed interface: the octet at `offset`, or the
bounds exception when `offset` is outside the buffer. -/
def tvb_get_guint8 (tvb : Tvb) (offset : Nat) : Res Nat :=
  match tvb[offset]? with
  | some b => .ok b.val
  | none => .exn

/-- Modelled from the spec: `tvb_get_ntohs` (epan/tvbuff.c, not under src/), the
bounds-checked big-endian 16-bit read. -/
def tvb_get_ntohs (tvb : Tvb) (offset : Nat) : Res Nat :=
  match tvb[offset]?, tvb[offset + 1]? with
  | some a, some b => .ok (a.val * 256 + b.val)
  | _, _ => .exn

/-- Modelled from the spec: `tvb_get_guint24` with `ENC_BIG_ENDIAN` (epan/tvbuff.c, not
under src/), the bounds-checked big-endian 24-bit read. -/
def tvb_get_guint24 (tvb : Tvb) (offset : Nat) : Res Nat :=
  match tvb[offset]?, tvb[offset + 1]?, tvb[offset + 2]? with
  | some a, some b, some c => .ok (a.val * 65536 + b.val * 256 + c.val)
  | _, _, _ => .exn

/-- Modelled from the spec: `tvb_memcpy` (epan/tvbuff.c, not under src/), the bounds-checked
copy of the byte range `[offset, offset + length)`. -/
def tvb_memcpy (tvb : Tvb) (offset length : Nat) : Res (List Byte) :=
  if offset + length ≤ tvb.length then .ok ((tvb.drop offset).take length) else .exn

/-! ## `checksum_fiveco` (lines 726-755) -/

/-- The `for (i = 0; i < size; i++)` loop of `checksum_fiveco`; `n` is the number of
iterations still to run, the state is `(Sum, AddHighByte)`. `Sum` is a `guint32`. -/
def checksum_loop (byte_tab : Tvb) (start_offset : Nat) :
    Nat → Nat → Nat → Nat → Res (Nat × Nat)
  | 0, _, Sum, AddHighByte => .ok (Sum, AddHighByte)
  | n + 1, i, Sum, AddHighByte =>
    -- tvb_memcpy(byte_tab, (guint8 *)&temp, start_offset + i, 1);
    match tvb_get_guint8 byte_tab (start_offset + i) with
    | .ok temp =>
      if AddHighByte ≠ 0 then
        -- Sum += (temp << 8) ^ 0xFF00; AddHighByte = 0;
        checksum_loop byte_tab start_offset n (i + 1)
          ((Sum + ((temp <<< 8) ^^^ 0xFF00)) % 4294967296) 0
      else
        -- Sum += (temp) ^ 0x00FF; AddHighByte = 1;
        checksum_loop byte_tab start_offset n (i + 1)
          ((Sum + (temp ^^^ 0x00FF)) % 4294967296) 1
    | .exn => .exn
    | .fuel => .fuel

/-- The function `checksum_fiveco(byte_tab, start_offset, size)`. Both `start_offset` and
`size` are `guint16` parameters: callers pass values already reduced modulo `2^16`. -/
def checksum_fiveco (byte_tab : Tvb) (start_offset size : Nat) : Res Nat :=
  match checksum_loop byte_tab start_offset size 0 0 1 with
  | .ok (Sum, AddHighByte) =>
    -- if (AddHighByte == 0) Sum += 0xFF;
    let Sum := if AddHighByte = 0 then (Sum + 0xFF) % 4294967296 else Sum
    -- ChecksumCalculated = ((Sum >> 16) & 0xFFFF) + (Sum & 0xFFFF);
    let ChecksumCalculated := (((Sum >>> 16) &&& 0xFFFF) + (Sum &&& 0xFFFF)) % 4294967296
    -- ChecksumCalculated = ((ChecksumCalculated >> 16) & 0xFFFF) + (ChecksumCalculated & 0xFFFF);
    let ChecksumCalculated :=
      (((ChecksumCalculated >>> 16) &&& 0xFFFF) + (ChecksumCalculated &&& 0xFFFF)) % 4294967296
    -- return (guint16)ChecksumCalculated;
    .ok (ChecksumCalculated % 65536)
  | .exn => .exn
  | .fuel => .fuel

/-! ### The checksum as the specification words it -/

/-- The octet at index `i` of a byte sequence, as a number (`0` outside it). -/
def byteAt (b : List Byte) (i : Nat) : Nat :=
  match b[i]? with
  | some x => x.val
  | none => 0

/-- The spec's accumulator: high-role terms at even indices, low-role terms at odd
indices, and a final `0xFF` when the byte count is odd. -/
def specSum (b : List Byte) : Nat :=
  (((List.range b.length).filter (fun i => i % 2 = 0)).map
      (fun i => (byteAt b i * 256) ^^^ 0xFF00)).sum
  + (((List.range b.length).filter (fun i => i % 2 = 1)).map
      (fun i => byteAt b i ^^^ 0x00FF)).sum
  + (if b.length % 2 = 1 then 0xFF else 0)

/-- The spec's folding step: upper 16 bits added to lower 16 bits. -/
def fold16 (x : Nat) : Nat := (x >>> 16) + (x &&& 0xFFFF)

/-! ## Constants and tables of the dissector -/

/-- The constant `FIVECO_LEGACY_HEADER_LENGTH`. -/
def FIVECO_LEGACY_HEADER_LENGTH : Nat := 6

/-- The macro `FIVECO_LEGACY_MIN_LENGTH`, textually `FIVECO_LEGACY_HEADER_LENGTH + 2`. -/
def FIVECO_LEGACY_MIN_LENGTH : Nat := FIVECO_LEGACY_HEADER_LENGTH + 2

/-! The enumeration `fiveco_functions`. -/

def I2C_READ : Nat := 0x0001
def I2C_WRITE : Nat := 0x0002
def I2C_READ_ANSWER : Nat := 0x0003
def I2C_WRITE_ANSWER : Nat := 0x0004
def I2C_SCAN : Nat := 0x0005
def I2C_SCAN_ANSWER : Nat := 0x0006
def I2C_READ_WRITE_ACK : Nat := 0x0007
def I2C_READ_WRITE_ACK_ANSWER : Nat := 0x0008
def I2C_READ_WRITE_ACK_ERROR : Nat := 0x0009
def READ_REGISTER : Nat := 0x0021
def WRITE_REGISTER : Nat := 0x0022
def READ_REGISTER_ANSWER : Nat := 0x0023
def WRITE_REGISTER_ANSWER : Nat := 0x0024
def WRITE_REGISTER_QUIET : Nat := 0x0025
def EASY_IP_ADDRESS_CONFIG : Nat := 0x002A
def EASY_IP_ADDRESS_CONFIG_ANSWER : Nat := 0x002B
def FLASH_AREA_ERASE : Nat := 0x0031
def FLASH_AREA_LOAD : Nat := 0x0032
def FLASH_AREA_ANSWER : Nat := 0x0033

/-- The table `packettypenames` (lines 124-144), without its `{0, NULL}` terminator. -/
def packettypenames : List (Nat × String) :=
  [ (I2C_READ, "I2C Read (deprecated)"),
    (I2C_READ_ANSWER, "I2C Read Answer (deprecated)"),
    (I2C_WRITE, "I2C Write (deprecated)"),
    (I2C_WRITE_ANSWER, "I2C Write Answer (deprecated)"),
    (I2C_SCAN, "I2C Scan"),
    (I2C_SCAN_ANSWER, "I2C Scan Answer"),
    (I2C_READ_WRITE_ACK, "I2C Read and write with ack"),
    (I2C_READ_WRITE_ACK_ANSWER, "I2C Read and write with ack Answer"),
    (I2C_READ_WRITE_ACK_ERROR, "I2C Read and write error"),
    (READ_REGISTER, "Read register"),
    (READ_REGISTER_ANSWER, "Read register Answer"),
    (WRITE_REGISTER, "Write register"),
    (WRITE_REGISTER_ANSWER, "Write register Answer"),
    (WRITE_REGISTER_QUIET, "Write register (no answer wanted)"),
    (EASY_IP_ADDRESS_CONFIG, "Easy IP address config"),
    (EASY_IP_ADDRESS_CONFIG_ANSWER, "Easy IP address config Acknowledge"),
    (FLASH_AREA_ERASE, "Flash area Erase"),
    (FLASH_AREA_LOAD, "Flash area Upload"),
    (FLASH_AREA_ANSWER, "Flash area Answer") ]

/-- Modelled from the spec: `try_val_to_str` (epan/value_string.c, not under src/), the
membership test of the command code in the known enum: the name of the first table entry
with that value, or `NULL`. -/
def try_val_to_str (val : Nat) (vs : List (Nat × String)) : Option String :=
  (vs.find? (fun e => e.1 == val)).map (fun e => e.2)

/-- The field types (`enum ftenum`) the dissector's file names: those of the register
table and those of the registrations of `hf_base`; `FT_PROTOCOL` is the type of a protocol
item. -/
inductive ftenum where
  | FT_NONE | FT_PROTOCOL | FT_UINT8 | FT_UINT16 | FT_UINT32 | FT_UINT48 | FT_STRING
  | FT_ETHER | FT_IPv4
  deriving DecidableEq, Repr

/-- The conversion functions a register entry may point to (`pFct`). -/
inductive DispFct where
  | dispType | dispVersion | dispMAC | dispIP | dispMask | dispTimeout
  deriving DecidableEq, Repr

/-- The structure `FCOSRegisterDef`; `nsWsHeaderID` is the field id `Hf.nsWsHeaderID`
of the entry and `pFct` is `none` for `NULL`. -/
structure FCOSRegisterDef where
  unValue : Nat
  unSize : Nat
  name : String
  abbrev_ : String
  ft : ftenum
  pFct : Option DispFct
  deriving DecidableEq, Repr

/-- The table `aRegisters` (lines 183-205). -/
def aRegisters : List FCOSRegisterDef :=
  [ ⟨0x00, 4, "Register Type/Model", "5co-legacy.RegTypeModel", .FT_UINT32, some .dispType⟩,
    ⟨0x01, 4, "Register Version", "5co-legacy.RegVersion", .FT_UINT32, some .dispVersion⟩,
    ⟨0x02, 0, "Function Reset device", "5co-legacy.RegReset", .FT_NONE, none⟩,
    ⟨0x03, 0, "Function Save user parameters", "5co-legacy.RegSave", .FT_NONE, none⟩,
    ⟨0x04, 0, "Function Restore user parameters", "5co-legacy.RegRestore", .FT_NONE, none⟩,
    ⟨0x05, 0, "Function Restore factory parameters", "5co-legacy.RegRestoreFact", .FT_NONE, none⟩,
    ⟨0x06, 0, "Function Save factory parameters", "5co-legacy.SaveFact", .FT_NONE, none⟩,
    ⟨0x07, 0, "Register unknown", "5co-legacy.RegUnknown07", .FT_NONE, none⟩,
    ⟨0x08, 0, "Register unknown", "5co-legacy.RegUnknown08", .FT_NONE, none⟩,
    ⟨0x09, 0, "Register unknown", "5co-legacy.RegUnknown09", .FT_NONE, none⟩,
    ⟨0x0A, 0, "Register unknown", "5co-legacy.RegUnknown0A", .FT_NONE, none⟩,
    ⟨0x0B, 0, "Register unknown", "5co-legacy.RegUnknown0B", .FT_NONE, none⟩,
    ⟨0x0C, 0, "Register unknown", "5co-legacy.RegUnknown0C", .FT_NONE, none⟩,
    ⟨0x0D, 0, "Register unknown", "5co-legacy.RegUnknown0D", .FT_NONE, none⟩,
    ⟨0x0E, 0, "Register unknown", "5co-legacy.RegUnknown0E", .FT_NONE, none⟩,
    ⟨0x0F, 0, "Register unknown", "5co-legacy.RegUnknown0F", .FT_NONE, none⟩,
    ⟨0x10, 4, "Register Communication options", "5co-legacy.RegComOption", .FT_UINT32, none⟩,
    ⟨0x11, 6, "Register Ethernet MAC Address", "5co-legacy.RegMAC", .FT_UINT48, some .dispMAC⟩,
    ⟨0x12, 4, "Register IP Address", "5co-legacy.RegIPAdd", .FT_UINT32, some .dispIP⟩,
    ⟨0x13, 4, "Register IP Mask", "5co-legacy.RegIPMask", .FT_UINT32, some .dispMask⟩,
    ⟨0x14, 1, "Register TCP Timeout", "5co-legacy.RegTCPTimeout", .FT_UINT8, some .dispTimeout⟩,
    ⟨0x15, 16, "Register Module name", "5co-legacy.RegName", .FT_STRING, none⟩ ]

/-- The test `(ucRegAdd < array_length(aRegisters)) && (aRegisters[ucRegAdd].unValue ==
ucRegAdd)` of the register decoders, giving the entry when it holds. -/
def known_register (ucRegAdd : Nat) : Option FCOSRegisterDef :=
  match aRegisters[ucRegAdd]? with
  | some r => if r.unValue = ucRegAdd then some r else none
  | none => none

/-! ## The column text and the protocol tree, as a trace of calls -/

/-- The header-field ids `hf_fiveco_*`, the protocol id and the per-register ids. -/
inductive Hf where
  | proto_FiveCoLegacy
  | hf_fiveco_header | hf_fiveco_fct | hf_fiveco_id | hf_fiveco_length | hf_fiveco_data
  | hf_fiveco_cks | hf_fiveco_i2cadd | hf_fiveco_i2c2write | hf_fiveco_i2cwrite
  | hf_fiveco_i2c2read | hf_fiveco_i2c2scan | hf_fiveco_i2canswer
  | hf_fiveco_i2cwriteanswer | hf_fiveco_i2cscaned | hf_fiveco_i2cerror | hf_fiveco_i2cack
  | hf_fiveco_regread | hf_fiveco_regreadunknown | hf_fiveco_regreaduk
  | hf_fiveco_EasyIPMAC | hf_fiveco_EasyIPIP | hf_fiveco_EasyIPSM
  /-- `aRegisters[ucRegAdd].nsWsHeaderID` -/
  | nsWsHeaderID (ucRegAdd : Nat)
  deriving DecidableEq, Repr

/-- The type each field is registered with: the static fields as `hf_base` lists them
(lines 206-229); a register field (lines 808-818) with the type of its catalog entry when
the entry has a conversion function and as `FT_NONE` when it has none, so also for the
string register `0x15`; the protocol id is an `FT_PROTOCOL`. -/
def Hf.ft : Hf → ftenum
  | .proto_FiveCoLegacy => .FT_PROTOCOL
  | .hf_fiveco_header => .FT_NONE
  | .hf_fiveco_fct => .FT_UINT16
  | .hf_fiveco_id => .FT_UINT16
  | .hf_fiveco_length => .FT_UINT16
  | .hf_fiveco_data => .FT_NONE
  | .hf_fiveco_cks => .FT_UINT16
  | .hf_fiveco_i2cadd => .FT_UINT8
  | .hf_fiveco_i2c2write => .FT_UINT8
  | .hf_fiveco_i2cwrite => .FT_NONE
  | .hf_fiveco_i2c2read => .FT_UINT8
  | .hf_fiveco_i2canswer => .FT_NONE
  | .hf_fiveco_i2cwriteanswer => .FT_NONE
  | .hf_fiveco_i2cack => .FT_UINT8
  | .hf_fiveco_i2c2scan => .FT_NONE
  | .hf_fiveco_i2cscaned => .FT_NONE
  | .hf_fiveco_i2cerror => .FT_NONE
  | .hf_fiveco_regread => .FT_NONE
  | .hf_fiveco_regreadunknown => .FT_NONE
  | .hf_fiveco_regreaduk => .FT_NONE
  | .hf_fiveco_EasyIPMAC => .FT_ETHER
  | .hf_fiveco_EasyIPIP => .FT_IPv4
  | .hf_fiveco_EasyIPSM => .FT_IPv4
  | .nsWsHeaderID ucRegAdd =>
    match aRegisters[ucRegAdd]? with
    | some r => if r.pFct.isSome then r.ft else .FT_NONE
    | none => .FT_NONE

/-- A field that carries no value of its own (`FT_NONE`, `FT_PROTOCOL`): an interior node
of the tree, for which the library reads nothing from the buffer. -/
def Hf.no_value (hf : Hf) : Bool := hf.ft == .FT_NONE || hf.ft == .FT_PROTOCOL

/-- A tree item as the dissector sees it: the field and the byte range it was added with.
It stands for the `proto_item *` the call returned. -/
structure Item where
  hf : Hf
  start : Nat
  length : Nat
  deriving DecidableEq, Repr

/-- The texts the dissector appends to tree items, one constructor per format string, with
the format arguments. -/
inductive Txt where
  /-- `" (%s)"` with `val_to_str(header_type, packettypenames, ...)` -/
  | type_name (header_type : Nat)
  /-- `": "` -/
  | colon
  /-- `"0x%.2X "` -/
  | hex (b : Nat)
  /-- `" %s"` with a register name -/
  | reg_name (name : String)
  /-- `" (0x%.2X)"` -/
  | paren_hex (ucRegAdd : Nat)
  /-- `": %.16s"` with the string read from the buffer -/
  | str16 (s : List Byte)
  /-- `" %s (Add: 0x%.2X, Size: %d bytes): "` -/
  | raw_header (name : String) (ucRegAdd ucRegSize : Nat)
  /-- `" (Interpretation depends on product type)"` -/
  | depends_on_product
  /-- `" WARNING : Answer already found ! Maybe packets ID not incremented."` -/
  | answer_already_found
  /-- `" from address %d (%d bytes written) : "` -/
  | from_address (ucAdd ucBytesToWrite : Nat)
  /-- `" to address %d (%d bytes written)"` -/
  | to_address (ucAdd ucBytesToWrite : Nat)
  /-- `" (%d bytes to load into flash at offset %d)"` -/
  | flash_load (unSize unOffset : Nat)
  /-- `" (%s)"` with the status string read from the buffer -/
  | flash_answer (s : List Byte)
  /-- `" (ERROR: No data should be present with that packet type !!)"` -/
  | no_data_expected
  deriving DecidableEq, Repr

/-- The calls the dissector makes on the column text and on the protocol tree. -/
inductive Event where
  /-- `col_set_str(pinfo->cinfo, COL_PROTOCOL, PROTO_TAG_FIVECO)` -/
  | col_protocol
  /-- `col_clear(pinfo->cinfo, COL_INFO)` -/
  | col_clear
  /-- `col_append_fstr(..., "%s ID=%d Len=%d", ...)`, with a leading comma when `comma` -/
  | col_frame (comma : Bool) (header_type header_id header_data_length : Nat)
  /-- `col_append_str(..., " [BAD CHECKSUM !!]")` -/
  | col_bad_checksum
  /-- `proto_tree_add_item` -/
  | add_item (item : Item)
  /-- `proto_item_append_text` on the item -/
  | append_text (item : Item) (t : Txt)
  /-- `proto_tree_add_checksum(..., computed_checksum, ENC_BIG_ENDIAN,
  PROTO_CHECKSUM_VERIFY)` at `start`, where the buffer holds `received` -/
  | add_checksum (start computed received : Nat)
  deriving DecidableEq, Repr

/-- A computation that makes calls on the column text and the tree and may be cut short
by an exception; the calls made before the exception stay. -/
structure W (α : Type) where
  out : List Event
  res : Res α
  deriving DecidableEq

/-- Sequencing of `W` computations. -/
def W.bind {α β : Type} (x : W α) (f : α → W β) : W β :=
  match x.res with
  | .ok a => ⟨x.out ++ (f a).out, (f a).res⟩
  | .exn => ⟨x.out, .exn⟩
  | .fuel => ⟨x.out, .fuel⟩

instance : Monad W where
  pure a := ⟨[], .ok a⟩
  bind := W.bind

/-- A `Res` computation, making no call. -/
def W.lift {α : Type} (r : Res α) : W α := ⟨[], r⟩

/-- The end of the iteration budget. -/
def W.timeout {α : Type} : W α := ⟨[], .fuel⟩

/-- Modelled from the spec: `proto_tree_add_item` (epan/proto.c, not under src/), adding
the field `hf` over the byte range `[start, start + length)`. A field that carries a value
is read from the buffer through the "bounds-checked byte/field access" of the consumed
interface: the call raises the bounds exception when the range leaves the buffer. A field
of type `FT_NONE` or `FT_PROTOCOL` carries no value and nothing is read for it: a range
that runs past the end of the buffer is cut short there by the library and the call
succeeds; only a start beyond the end of the buffer raises. The trace records the call
with the range the dissector asked for. -/
def proto_tree_add_item (hf : Hf) (tvb : Tvb) (start length : Nat) : W Item :=
  if (if hf.no_value then start ≤ tvb.length else start + length ≤ tvb.length) then
    ⟨[.add_item ⟨hf, start, length⟩], .ok ⟨hf, start, length⟩⟩
  else ⟨[], .exn⟩

/-- Modelled from the spec: `proto_item_append_text` (epan/proto.c, not under src/). -/
def proto_item_append_text (item : Item) (t : Txt) : W Unit :=
  ⟨[.append_text item t], .ok ()⟩

/-- Modelled from the spec: `proto_tree_add_checksum` with `PROTO_CHECKSUM_VERIFY`
(epan/proto.c, not under src/): reads the 16-bit big-endian field at `offset` and adds it
with the verdict against `computed_checksum`. -/
def proto_tree_add_checksum (tvb : Tvb) (offset computed_checksum : Nat) : W Unit :=
  match tvb_get_ntohs tvb offset with
  | .ok received => ⟨[.add_checksum offset computed_checksum received], .ok ()⟩
  | .exn => ⟨[], .exn⟩
  | .fuel => ⟨[], .fuel⟩

/-- Modelled from the spec: `tvb_get_raw_bytes_as_string` (epan/tvbuff.c, not under
src/): copies at most `bufsize - 1` octets from `offset`, fewer when the buffer ends
first, and terminates them; a `bufsize` of 0 is refused with an exception. -/
def tvb_get_raw_bytes_as_string (tvb : Tvb) (offset bufsize : Nat) : Res (List Byte) :=
  if bufsize = 0 then .exn else .ok ((tvb.drop offset).take (bufsize - 1))

/-! ## Correlator state -/

/-- The structure `FCOSConvRequestKey`. -/
structure FCOSConvRequestKey where
  conversation : Nat
  unInternalID : Nat
  usExpCmd : Nat
  deriving DecidableEq, Repr

/-- The structure `FCOSConvRequestVal`; `pData` is the tvbuff made over the private copy
of the request parameters. -/
structure FCOSConvRequestVal where
  usParaLen : Nat
  isReplied : Nat
  pData : List Byte
  deriving DecidableEq, Repr

/-- The function `fiveco_hash_equal` (lines 774-786). -/
def fiveco_hash_equal (v1 v2 : FCOSConvRequestKey) : Bool :=
  v1.conversation == v2.conversation && v1.usExpCmd == v2.usExpCmd &&
    v1.unInternalID == v2.unInternalID

/-- The hash table `FiveCo_requests_hash`, as the list of its entries. -/
abbrev RequestsHash := List (FCOSConvRequestKey × FCOSConvRequestVal)

/-- GLib's `g_hash_table_lookup` on a table created with `fiveco_hash_equal`. -/
def g_hash_table_lookup (t : RequestsHash) (key : FCOSConvRequestKey) :
    Option FCOSConvRequestVal :=
  (t.find? (fun e => fiveco_hash_equal e.1 key)).map (fun e => e.2)

/-- GLib's `g_hash_table_insert`: the value of an entry with an equal key is replaced,
otherwise the entry is added. -/
def g_hash_table_insert (t : RequestsHash) (key : FCOSConvRequestKey)
    (value : FCOSConvRequestVal) : RequestsHash :=
  if t.any (fun e => fiveco_hash_equal e.1 key) then
    t.map (fun e => if fiveco_hash_equal e.1 key then (e.1, value) else e)
  else t ++ [(key, value)]

/-- The mutable state the dissector keeps between calls: the counter `g_unInternalID`
(a `guint64`), the table `FiveCo_requests_hash`, and the per-packet protocol data of
`proto_FiveCoLegacy` as pairs (packet number, stored internal id). -/
structure State where
  g_unInternalID : Nat
  FiveCo_requests_hash : RequestsHash
  proto_data : List (Nat × Nat)
  deriving DecidableEq, Repr

/-- Modelled from the spec: `p_get_proto_data(wmem_file_scope(), pinfo, proto_FiveCoLegacy,
pinfo->num)` (epan/proto_data.c, not under src/), the "per-occurrence persistent
annotation storage keyed by a stable frame identifier": the value stored for the packet,
or `NULL`. -/
def p_get_proto_data (d : List (Nat × Nat)) (num : Nat) : Option Nat :=
  (d.find? (fun e => e.1 == num)).map (fun e => e.2)

/-- Modelled from the spec: `p_add_proto_data` (epan/proto_data.c, not under src/). -/
def p_add_proto_data (d : List (Nat × Nat)) (num value : Nat) : List (Nat × Nat) :=
  (num, value) :: d

/-- What the dissector reads of `packet_info`: the packet number `pinfo->num`, the flag
`pinfo->fd->visited`, and the index of the conversation that
`find_or_create_conversation(pinfo)` yields (the flow-identity service). -/
structure packet_info where
  num : Nat
  visited : Bool
  conv_index : Nat
  deriving DecidableEq, Repr

/-! ## The command payload decoder (lines 400-711) -/

/-- The loops `for (j = 0; j < n; j++) { proto_item_append_text(item, "0x%.2X ",
tvb_get_guint8(tvb, base + i)); i += 1; }`, with `i` a `guint16`; gives the final `i`.
The loops that read at `i++` directly have `base = 0`. -/
def hex_loop (tvb : Tvb) (item : Item) (base : Nat) : Nat → Nat → W Nat
  | 0, i => pure i
  | n + 1, i => do
    let b ← W.lift (tvb_get_guint8 tvb (base + i))
    proto_item_append_text item (.hex b)
    hex_loop tvb item base n ((i + 1) % 65536)

/-- The loop of `case I2C_READ: case I2C_READ_WRITE_ACK:` (lines 409-428). -/
def i2c_read_loop (tvb : Tvb) (tcp_data_offset header_data_length : Nat) :
    Nat → Nat → W Unit
  | 0, i => if i < header_data_length then W.timeout else pure ()
  | fuel + 1, i =>
    if i < header_data_length then do
      let _ ← proto_tree_add_item .hf_fiveco_i2cadd tvb (tcp_data_offset + i) 1
      let i := (i + 1) % 65536
      let data_i2c_length ← W.lift (tvb_get_guint8 tvb (tcp_data_offset + i))
      let _ ← proto_tree_add_item .hf_fiveco_i2c2write tvb (tcp_data_offset + i) 1
      let i := (i + 1) % 65536
      let fiveco_data_item ←
        proto_tree_add_item .hf_fiveco_i2cwrite tvb (tcp_data_offset + i) data_i2c_length
      proto_item_append_text fiveco_data_item .colon
      let i ← hex_loop tvb fiveco_data_item tcp_data_offset data_i2c_length i
      let _ ← proto_tree_add_item .hf_fiveco_i2c2read tvb (tcp_data_offset + i) 1
      let i := (i + 1) % 65536
      i2c_read_loop tvb tcp_data_offset header_data_length fuel i
    else pure ()

/-- The loop of `case I2C_WRITE:` (lines 431-448). -/
def i2c_write_loop (tvb : Tvb) (tcp_data_offset header_data_length : Nat) :
    Nat → Nat → W Unit
  | 0, i => if i < header_data_length then W.timeout else pure ()
  | fuel + 1, i =>
    if i < header_data_length then do
      let _ ← proto_tree_add_item .hf_fiveco_i2cadd tvb (tcp_data_offset + i) 1
      let i := (i + 1) % 65536
      let data_i2c_length ← W.lift (tvb_get_guint8 tvb (tcp_data_offset + i))
      let _ ← proto_tree_add_item .hf_fiveco_i2c2write tvb (tcp_data_offset + i) 1
      let i := (i + 1) % 65536
      let fiveco_data_item ←
        proto_tree_add_item .hf_fiveco_i2cwrite tvb (tcp_data_offset + i) data_i2c_length
      proto_item_append_text fiveco_data_item .colon
      let i ← hex_loop tvb fiveco_data_item tcp_data_offset data_i2c_length i
      i2c_write_loop tvb tcp_data_offset header_data_length fuel i
    else pure ()

/-- The loop `for (i = 0; i < header_data_length; i++)` of `case READ_REGISTER:` (lines
481-497); `n` is the number of iterations still to run. -/
def read_register_loop (tvb : Tvb) (tcp_data_offset : Nat) : Nat → Nat → W Unit
  | 0, _ => pure ()
  | n + 1, i => do
    let ucRegAdd ← W.lift (tvb_get_guint8 tvb (tcp_data_offset + i))
    let fiveco_data_item ←
      match known_register ucRegAdd with
      | some r => do
        let item ← proto_tree_add_item .hf_fiveco_regread tvb (tcp_data_offset + i) 0
        proto_item_append_text item (.reg_name r.name)
        pure item
      | none => proto_tree_add_item .hf_fiveco_regreadunknown tvb (tcp_data_offset + i) 0
    proto_item_append_text fiveco_data_item (.paren_hex ucRegAdd)
    read_register_loop tvb tcp_data_offset n (i + 1)

/-- The body shared by the register write decoder and the register answer decoder once a
known register `r` is to be rendered at `i` (lines 509-541 and 638-672); gives the new
`i`. -/
def render_register (tvb : Tvb) (ucRegAdd : Nat) (r : FCOSRegisterDef) (i : Nat) : W Nat := do
  let ucRegSize := r.unSize % 256
  if r.pFct.isSome then
    -- If a display function is defined, call it
    let _ ← proto_tree_add_item (.nsWsHeaderID ucRegAdd) tvb i ucRegSize
    pure ((i + ucRegSize) % 65536)
  else if r.ft = .FT_STRING then
    -- else if register type is string, display it as string
    let fiveco_data_item ← proto_tree_add_item (.nsWsHeaderID ucRegAdd) tvb i ucRegSize
    let string_buf ← W.lift (tvb_get_raw_bytes_as_string tvb i (ucRegSize + 1))
    proto_item_append_text fiveco_data_item (.str16 string_buf)
    pure ((i + ucRegSize) % 65536)
  else
    -- else display raw data in hex
    let fiveco_data_item ← proto_tree_add_item .hf_fiveco_regread tvb i ucRegSize
    proto_item_append_text fiveco_data_item (.raw_header r.name ucRegAdd ucRegSize)
    hex_loop tvb fiveco_data_item 0 ucRegSize i

/-- The loop `for (i = tcp_data_offset; i < tcp_data_offset + header_data_length;)` of
`case WRITE_REGISTER: case WRITE_REGISTER_QUIET:` (lines 502-551). `i` is a `guint16`, the
bound is computed in `int`. -/
def write_register_loop (tvb : Tvb) (tcp_data_offset header_data_length : Nat) :
    Nat → Nat → W Unit
  | 0, i => if i < tcp_data_offset + header_data_length then W.timeout else pure ()
  | fuel + 1, i =>
    if i < tcp_data_offset + header_data_length then do
      -- ucRegAdd = tvb_get_guint8(tvb, i++);
      let ucRegAdd ← W.lift (tvb_get_guint8 tvb i)
      let i := (i + 1) % 65536
      match known_register ucRegAdd with
      | some r => do
        let i ← render_register tvb ucRegAdd r i
        write_register_loop tvb tcp_data_offset header_data_length fuel i
      | none => do
        -- Else tell user that data cannot be interpreted
        let fiveco_data_item ← proto_tree_add_item .hf_fiveco_regreaduk tvb i
          (tcp_data_offset + header_data_length - i)
        proto_item_append_text fiveco_data_item .depends_on_product
        -- break;
    else pure ()

/-- The loop of `case I2C_READ_ANSWER: case I2C_WRITE_ANSWER: case
I2C_READ_WRITE_ACK_ANSWER:` (lines 572-607); `i` is the answer index, `y` the request
index, both `guint16`. -/
def i2c_answer_loop (tvb : Tvb) (tcp_data_offset header_data_length header_type : Nat)
    (pRequestVal : FCOSConvRequestVal) : Nat → Nat → Nat → W Unit
  | 0, i, y =>
    if y < pRequestVal.usParaLen ∧ i < tcp_data_offset + header_data_length then W.timeout
    else pure ()
  | fuel + 1, i, y =>
    if y < pRequestVal.usParaLen ∧ i < tcp_data_offset + header_data_length then do
      -- ucAdd = tvb_get_guint8(pRequestVal->pData, y++);
      let ucAdd ← W.lift (tvb_get_guint8 pRequestVal.pData y)
      let y := (y + 1) % 65536
      -- ucBytesToWrite = tvb_get_guint8(pRequestVal->pData, y);
      let ucBytesToWrite ← W.lift (tvb_get_guint8 pRequestVal.pData y)
      -- y += 1 + ucBytesToWrite;
      let y := (y + (1 + ucBytesToWrite)) % 65536
      -- ucBytesToRead = tvb_get_guint8(pRequestVal->pData, y++);
      let ucBytesToRead ← W.lift (tvb_get_guint8 pRequestVal.pData y)
      let y := (y + 1) % 65536
      if ucBytesToRead > 0 then do
        let fiveco_data_item ← proto_tree_add_item .hf_fiveco_i2canswer tvb i ucBytesToRead
        proto_item_append_text fiveco_data_item (.from_address ucAdd ucBytesToWrite)
        let i ← hex_loop tvb fiveco_data_item 0 ucBytesToRead i
        if header_type = 0x08 then do
          let _ ← proto_tree_add_item .hf_fiveco_i2cack tvb i 1
          i2c_answer_loop tvb tcp_data_offset header_data_length header_type pRequestVal
            fuel ((i + 1) % 65536) y
        else
          i2c_answer_loop tvb tcp_data_offset header_data_length header_type pRequestVal
            fuel i y
      else if header_type = I2C_READ_WRITE_ACK_ANSWER then do
        -- if it's an answer to a write but with ack, display it
        let fiveco_data_item ←
          proto_tree_add_item .hf_fiveco_i2cwriteanswer tvb i ucBytesToRead
        proto_item_append_text fiveco_data_item (.to_address ucAdd ucBytesToWrite)
        let _ ← proto_tree_add_item .hf_fiveco_i2cack tvb i 1
        i2c_answer_loop tvb tcp_data_offset header_data_length header_type pRequestVal
          fuel ((i + 1) % 65536) y
      else
        i2c_answer_loop tvb tcp_data_offset header_data_length header_type pRequestVal
          fuel i y
    else pure ()

/-- The loop of `case READ_REGISTER_ANSWER:` (lines 628-685). The answer's address octet
is read, and `i` stepped, only when the requested address is a known register. -/
def read_register_answer_loop (tvb : Tvb) (tcp_data_offset header_data_length : Nat)
    (pRequestVal : FCOSConvRequestVal) : Nat → Nat → Nat → W Unit
  | 0, i, y =>
    if y < pRequestVal.usParaLen ∧ i < tcp_data_offset + header_data_length then W.timeout
    else pure ()
  | fuel + 1, i, y =>
    if y < pRequestVal.usParaLen ∧ i < tcp_data_offset + header_data_length then do
      -- ucRegAdd = tvb_get_guint8(pRequestVal->pData, y++);
      let ucRegAdd ← W.lift (tvb_get_guint8 pRequestVal.pData y)
      let y := (y + 1) % 65536
      match known_register ucRegAdd with
      | some r => do
        -- (ucRegAdd == tvb_get_guint8(tvb, i++))
        let b ← W.lift (tvb_get_guint8 tvb i)
        let i := (i + 1) % 65536
        if ucRegAdd = b then do
          let i ← render_register tvb ucRegAdd r i
          read_register_answer_loop tvb tcp_data_offset header_data_length pRequestVal
            fuel i y
        else do
          let fiveco_data_item ← proto_tree_add_item .hf_fiveco_regreaduk tvb i
            (tcp_data_offset + header_data_length - i)
          proto_item_append_text fiveco_data_item .depends_on_product
          -- break;
      | none => do
        let fiveco_data_item ← proto_tree_add_item .hf_fiveco_regreaduk tvb i
          (tcp_data_offset + header_data_length - i)
        proto_item_append_text fiveco_data_item .depends_on_product
        -- break;
    else pure ()

/-- The `switch (header_type)` over the parameters of a frame (lines 405-710), entered
when `header_data_length > 0`. `tcp_data_offset` is the start of the parameters,
`fiveco_data_item` the item of `hf_fiveco_data`, `pRequestVal` the request record the
correlator left (`none` for `NULL`); `fuel` is the budget of each unbounded loop. -/
def decode_payload (fuel : Nat) (tvb : Tvb)
    (tcp_data_offset header_data_length header_type : Nat)
    (pRequestVal : Option FCOSConvRequestVal) (fiveco_data_item : Item) : W Unit :=
  if header_type = I2C_READ ∨ header_type = I2C_READ_WRITE_ACK then
    i2c_read_loop tvb tcp_data_offset header_data_length fuel 0
  else if header_type = I2C_WRITE then
    i2c_write_loop tvb tcp_data_offset header_data_length fuel 0
  else if header_type = I2C_SCAN then do
    let item ← proto_tree_add_item .hf_fiveco_i2c2scan tvb (tcp_data_offset + 0)
      header_data_length
    proto_item_append_text item .colon
    -- If specific address exists in packet, display them
    let _ ← hex_loop tvb item tcp_data_offset header_data_length 0
  else if header_type = I2C_SCAN_ANSWER then do
    let item ← proto_tree_add_item .hf_fiveco_i2cscaned tvb (tcp_data_offset + 0)
      header_data_length
    proto_item_append_text item .colon
    -- Display slave address presents in answer
    let _ ← hex_loop tvb item tcp_data_offset header_data_length 0
  else if header_type = I2C_READ_WRITE_ACK_ERROR then do
    let item ← proto_tree_add_item .hf_fiveco_i2cerror tvb (tcp_data_offset + 0)
      header_data_length
    proto_item_append_text item .colon
    let b ← W.lift (tvb_get_guint8 tvb tcp_data_offset)
    proto_item_append_text item (.hex b)
  else if header_type = READ_REGISTER then
    -- List registers asked for read
    read_register_loop tvb tcp_data_offset header_data_length 0
  else if header_type = WRITE_REGISTER ∨ header_type = WRITE_REGISTER_QUIET then
    -- List register asked to write with data to fill in until an unknown one is found
    write_register_loop tvb tcp_data_offset header_data_length fuel tcp_data_offset
  else if header_type = EASY_IP_ADDRESS_CONFIG then do
    let _ ← proto_tree_add_item .hf_fiveco_EasyIPMAC tvb (tcp_data_offset + 0) 6
    let _ ← proto_tree_add_item .hf_fiveco_EasyIPIP tvb (tcp_data_offset + 6) 4
    let _ ← proto_tree_add_item .hf_fiveco_EasyIPSM tvb (tcp_data_offset + 10) 4
  else if header_type = I2C_READ_ANSWER ∨ header_type = I2C_WRITE_ANSWER ∨
      header_type = I2C_READ_WRITE_ACK_ANSWER then
    match pRequestVal with
    | some v =>
      if v.isReplied ≠ 0 then
        proto_item_append_text fiveco_data_item .answer_already_found
      else
        i2c_answer_loop tvb tcp_data_offset header_data_length header_type v fuel
          tcp_data_offset 0
    | none => proto_item_append_text fiveco_data_item .depends_on_product
  else if header_type = READ_REGISTER_ANSWER then
    match pRequestVal with
    | some v =>
      if v.isReplied ≠ 0 then
        proto_item_append_text fiveco_data_item .answer_already_found
      else
        read_register_answer_loop tvb tcp_data_offset header_data_length v fuel
          tcp_data_offset 0
    | none => pure ()
  else if header_type = FLASH_AREA_LOAD then do
    let unOffset ← W.lift (tvb_get_guint24 tvb tcp_data_offset)
    let unSize ← W.lift (tvb_get_guint24 tvb (tcp_data_offset + 3))
    proto_item_append_text fiveco_data_item (.flash_load unSize unOffset)
  else if header_type = FLASH_AREA_ANSWER then do
    let string_buf ← W.lift
      (tvb_get_raw_bytes_as_string tvb tcp_data_offset (header_data_length - 1))
    proto_item_append_text fiveco_data_item (.flash_answer string_buf)
  else if header_type = WRITE_REGISTER_ANSWER ∨ header_type = FLASH_AREA_ERASE ∨
      header_type = EASY_IP_ADDRESS_CONFIG_ANSWER then
    proto_item_append_text fiveco_data_item .no_data_expected
  else
    proto_item_append_text fiveco_data_item .depends_on_product

/-! ## The frame reader (lines 266-721) -/

/-- Subtraction of `guint32` values. -/
def u32_sub (a b : Nat) : Nat := (a % 4294967296 + 4294967296 - b % 4294967296) % 4294967296

/-- The request-class test of lines 306-307. -/
def is_request_command (header_type : Nat) : Bool :=
  header_type == I2C_READ || header_type == I2C_WRITE || header_type == I2C_SCAN ||
    header_type == I2C_READ_WRITE_ACK || header_type == READ_REGISTER ||
    header_type == WRITE_REGISTER

/-- The `switch (header_type)` of lines 329-346 that sets `pNewRequestKey->usExpCmd`; a
command without a case keeps the value copied from `requestKey`, the command itself. -/
def expected_answer_command (header_type : Nat) : Nat :=
  if header_type = I2C_READ then I2C_READ_ANSWER
  else if header_type = I2C_WRITE then I2C_WRITE_ANSWER
  else if header_type = I2C_SCAN then I2C_SCAN_ANSWER
  else if header_type = I2C_READ_WRITE_ACK then I2C_READ_WRITE_ACK_ANSWER
  else if header_type = READ_REGISTER then READ_REGISTER_ANSWER
  else header_type

/-- The variables of `dissect_FiveCoLegacy` that live across iterations of the frame loop
(`tcp_data_offset` is a `guint16`; `isRequest` is set to `FALSE` once, before the loop),
with the state and the calls made so far. -/
structure Loop where
  tcp_data_offset : Nat
  isRequest : Bool
  st : State
  out : List Event
  deriving DecidableEq, Repr

/-- How a call of the dissector ends: it returns a value, an exception unwinds it, or the
iteration budget of the model runs out. Each carries the state and the calls made. -/
inductive Outcome where
  | returned (value : Nat) (st : State) (out : List Event)
  | exception (st : State) (out : List Event)
  | timeout (st : State) (out : List Event)
  deriving DecidableEq, Repr

/-- The result of one iteration of the frame loop. -/
inductive Step where
  /-- the end of the loop body was reached -/
  | next (s : Loop)
  /-- the function was left from inside the body -/
  | done (o : Outcome)
  deriving DecidableEq, Repr

/-- Lines 300-317: get or set the internal id of this packet number. Gives the state,
`isRequest` and `*pulInternalID`. -/
def assign_internal_id (pinfo : packet_info) (st : State) (isRequest : Bool)
    (header_type : Nat) : State × Bool × Nat :=
  match p_get_proto_data st.proto_data pinfo.num with
  | some id => (st, isRequest, id)
  | none =>
    -- If it is a new request, increment internal ID
    let isRequest := if is_request_command header_type then true else isRequest
    let g := if is_request_command header_type then
      (st.g_unInternalID + 1) % 18446744073709551616 else st.g_unInternalID
    ({ st with g_unInternalID := g, proto_data := p_add_proto_data st.proto_data pinfo.num g },
      isRequest, g)

/-- Lines 362-378: the text appended to the info column for one frame; `tcp_data_offset`
is the start of the frame. -/
def frame_summary (tcp_data_offset header_type header_id header_data_length
    checksum_cal checksum_rx : Nat) : List Event :=
  -- If the offset != 0 (not first fiveco frame in tcp packet) add a comma in info column
  [.col_frame (tcp_data_offset != 0) header_type header_id header_data_length] ++
    (if checksum_rx ≠ checksum_cal then [.col_bad_checksum] else [])

/-- Lines 399-711: the block `if (header_data_length > 0) { ... }` that adds the data
item and decodes the parameters; `tcp_data_offset` is the start of the parameters. -/
def payload_tree (fuel : Nat) (tvb : Tvb) (tcp_data_offset header_data_length header_type : Nat)
    (pRequestVal : Option FCOSConvRequestVal) : W Unit :=
  if header_data_length > 0 then do
    let fiveco_data_item ← proto_tree_add_item .hf_fiveco_data tvb tcp_data_offset
      header_data_length
    decode_payload fuel tvb tcp_data_offset header_data_length header_type pRequestVal
      fiveco_data_item
  else pure ()

/-- Lines 380-715: the tree of one frame; `tcp_data_offset` is the start of the frame. -/
def frame_tree (fuel : Nat) (tvb : Tvb) (tcp_data_offset header_type header_data_length : Nat)
    (pRequestVal : Option FCOSConvRequestVal) (checksum_cal : Nat) : W Unit := do
  let fiveco_item ← proto_tree_add_item .proto_FiveCoLegacy tvb (tcp_data_offset + 0)
    (header_data_length + 8)
  proto_item_append_text fiveco_item (.type_name header_type)
  let _ ← proto_tree_add_item .hf_fiveco_header tvb (tcp_data_offset + 0) 6
  let _ ← proto_tree_add_item .hf_fiveco_fct tvb (tcp_data_offset + 0) 2
  let _ ← proto_tree_add_item .hf_fiveco_id tvb (tcp_data_offset + 2) 2
  let _ ← proto_tree_add_item .hf_fiveco_length tvb (tcp_data_offset + 4) 2
  -- tcp_data_offset += 6;
  let tcp_data_offset := (tcp_data_offset + 6) % 65536
  -- If there are parameters (data) in packet, display them in data sub tree
  payload_tree fuel tvb tcp_data_offset header_data_length header_type pRequestVal
  -- Checksum validation and sub tree
  proto_tree_add_checksum tvb (tcp_data_offset + header_data_length) checksum_cal

/-- Lines 358-718: from the checksum computation to the end of the loop body, with the
state the correlator left. -/
def frame_rest (fuel : Nat) (tvb : Tvb) (s : Loop) (st : State) (isRequest : Bool)
    (header_type header_id header_data_length : Nat)
    (pRequestVal : Option FCOSConvRequestVal) : Step :=
  -- checksum_cal = checksum_fiveco(tvb, tcp_data_offset, header_data_length + 6);
  match checksum_fiveco tvb s.tcp_data_offset ((header_data_length + 6) % 65536) with
  | .exn => .done (.exception st s.out)
  | .fuel => .done (.timeout st s.out)
  | .ok checksum_cal =>
  -- checksum_rx = tvb_get_ntohs(tvb, tcp_data_offset + header_data_length + 6);
  match tvb_get_ntohs tvb (s.tcp_data_offset + header_data_length + 6) with
  | .exn => .done (.exception st s.out)
  | .fuel => .done (.timeout st s.out)
  | .ok checksum_rx =>
  let summary := frame_summary s.tcp_data_offset header_type header_id header_data_length
    checksum_cal checksum_rx
  let w := frame_tree fuel tvb s.tcp_data_offset header_type header_data_length pRequestVal
    checksum_cal
  match w.res with
  | .exn => .done (.exception st (s.out ++ summary ++ w.out))
  | .fuel => .done (.timeout st (s.out ++ summary ++ w.out))
  | .ok _ =>
    -- tcp_data_offset += 6; ... tcp_data_offset += header_data_length + 2;
    .next { tcp_data_offset := ((s.tcp_data_offset + 6) % 65536 + (header_data_length + 2)) % 65536,
            isRequest := isRequest, st := st, out := s.out ++ summary ++ w.out }

/-- One iteration of `while (tcp_data_offset < tcp_data_length)` (lines 284-718). -/
def frame_step (fuel : Nat) (tvb : Tvb) (pinfo : packet_info) (s : Loop) : Step :=
  let tcp_data_length := tvb_captured_length tvb
  -- header_type = tvb_get_ntohs(tvb, tcp_data_offset + 0);
  match tvb_get_ntohs tvb (s.tcp_data_offset + 0) with
  | .exn => .done (.exception s.st s.out)
  | .fuel => .done (.timeout s.st s.out)
  | .ok header_type =>
  -- if (try_val_to_str(header_type, packettypenames) == NULL) return 0;
  if try_val_to_str header_type packettypenames = none then .done (.returned 0 s.st s.out)
  else
  -- header_id = tvb_get_ntohs(tvb, tcp_data_offset + 2);
  match tvb_get_ntohs tvb (s.tcp_data_offset + 2) with
  | .exn => .done (.exception s.st s.out)
  | .fuel => .done (.timeout s.st s.out)
  | .ok header_id =>
  -- header_data_length = tvb_get_ntohs(tvb, tcp_data_offset + 4);
  match tvb_get_ntohs tvb (s.tcp_data_offset + 4) with
  | .exn => .done (.exception s.st s.out)
  | .fuel => .done (.timeout s.st s.out)
  | .ok header_data_length =>
  -- if (header_data_length > tcp_data_length - tcp_data_offset - 8) return 0;
  if header_data_length > u32_sub (u32_sub tcp_data_length s.tcp_data_offset) 8 then
    .done (.returned 0 s.st s.out)
  else
  -- Get/Set internal ID for this packet number
  let (st, isRequest, id) := assign_internal_id pinfo s.st s.isRequest header_type
  -- Get info about the request
  let requestKey : FCOSConvRequestKey :=
    { conversation := pinfo.conv_index, usExpCmd := header_type, unInternalID := id }
  let pRequestVal := g_hash_table_lookup st.FiveCo_requests_hash requestKey
  if !pinfo.visited && pRequestVal.isNone && isRequest then
    -- If unknown and if it is a request, allocate new hash element
    let pNewRequestKey : FCOSConvRequestKey :=
      { conversation := requestKey.conversation, unInternalID := st.g_unInternalID,
        usExpCmd := expected_answer_command header_type }
    -- tvb_memcpy(tvb, pNewDataBuffer, tcp_data_offset + 6, header_data_length);
    match tvb_memcpy tvb (s.tcp_data_offset + 6) header_data_length with
    | .exn => .done (.exception st s.out)
    | .fuel => .done (.timeout st s.out)
    | .ok pNewDataBuffer =>
      let v : FCOSConvRequestVal :=
        { usParaLen := header_data_length, isReplied := 0, pData := pNewDataBuffer }
      let st := { st with
        FiveCo_requests_hash := g_hash_table_insert st.FiveCo_requests_hash pNewRequestKey v }
      frame_rest fuel tvb s st isRequest header_type header_id header_data_length (some v)
  else
    frame_rest fuel tvb s st isRequest header_type header_id header_data_length pRequestVal

/-- The loop `while (tcp_data_offset < tcp_data_length)` and the final
`return tvb_captured_length(tvb)`. The first argument is the budget of the loops inside
one frame, the second the number of frames the walk may still start. -/
def frame_walk (ifuel : Nat) (tvb : Tvb) (pinfo : packet_info) : Nat → Loop → Outcome
  | 0, s =>
    if s.tcp_data_offset < tvb_captured_length tvb then .timeout s.st s.out
    else .returned (tvb_captured_length tvb) s.st s.out
  | fuel + 1, s =>
    if s.tcp_data_offset < tvb_captured_length tvb then
      match frame_step ifuel tvb pinfo s with
      | .next s' => frame_walk ifuel tvb pinfo fuel s'
      | .done o => o
    else .returned (tvb_captured_length tvb) s.st s.out

/-- The function `dissect_FiveCoLegacy(tvb, pinfo, tree, data)` run in state `st`, with
iteration budget `fuel` for the frame loop and for each loop inside a frame. -/
def dissect_FiveCoLegacy (fuel : Nat) (tvb : Tvb) (pinfo : packet_info) (st : State) :
    Outcome :=
  -- tcp_data_length = tvb_captured_length(tvb);
  -- if (tcp_data_length < FIVECO_LEGACY_MIN_LENGTH) return 0;
  if tvb_captured_length tvb < FIVECO_LEGACY_MIN_LENGTH then .returned 0 st []
  else
    frame_walk fuel tvb pinfo fuel
      { tcp_data_offset := 0, isRequest := false, st := st,
        out := [.col_protocol, .col_clear] }

/-- The function `fiveco_protocol_init` (lines 791-796): the table is destroyed and
created anew. -/
def fiveco_protocol_init (st : State) : State :=
  { st with FiveCo_requests_hash := [] }

/-! ## Auxiliary definitions used by the statements and proofs -/

/-- The two index sums of `specSum`, without the final odd-length term. -/
def accSum (b : List Byte) : Nat :=
  (((List.range b.length).filter (fun i => i % 2 = 0)).map
      (fun i => (byteAt b i * 256) ^^^ 0xFF00)).sum
  + (((List.range b.length).filter (fun i => i % 2 = 1)).map
      (fun i => byteAt b i ^^^ 0x00FF)).sum

/-- The loop state on entry to the frame loop of `dissect_FiveCoLegacy` called in state
`st`: offset 0, `isRequest = FALSE`, the protocol column set and the info column cleared. -/
def loop_start (st : State) : Loop :=
  { tcp_data_offset := 0, isRequest := false, st := st, out := [.col_protocol, .col_clear] }

/-- The loop state at the start of the frame that follows `k` completed iterations of the
frame loop begun in `s`, when the walk gets that far. -/
def frame_walk_steps (ifuel : Nat) (tvb : Tvb) (pinfo : packet_info) : Nat → Loop → Option Loop
  | 0, s => some s
  | k + 1, s =>
    if s.tcp_data_offset < tvb_captured_length tvb then
      match frame_step ifuel tvb pinfo s with
      | .next s' => frame_walk_steps ifuel tvb pinfo k s'
      | .done _ => none
    else none

/-- The 19 command codes the specification lists as known. -/
def knownCommandCodes : List Nat :=
  [0x0001, 0x0002, 0x0003, 0x0004, 0x0005, 0x0006, 0x0007, 0x0008, 0x0009,
   0x0021, 0x0022, 0x0023, 0x0024, 0x0025, 0x002A, 0x002B, 0x0031, 0x0032, 0x0033]

/-- The frames decoded into the summary: command, sequence id and payload length of each
`col_append_fstr` call, in order. -/
def frame_summaries (out : List Event) : List (Nat × Nat × Nat) :=
  out.filterMap (fun e =>
    match e with
    | .col_frame _ header_type header_id header_data_length =>
      some (header_type, header_id, header_data_length)
    | _ => none)

/-- The frames decoded into the tree: start and length of each protocol item, in order. -/
def frame_items (out : List Event) : List (Nat × Nat) :=
  out.filterMap (fun e =>
    match e with
    | .add_item item =>
      if item.hf = .proto_FiveCoLegacy then some (item.start, item.length) else none
    | _ => none)

/-- The value a call returned, if it returned. -/
def Outcome.value? : Outcome → Option Nat
  | .returned v _ _ => some v
  | _ => none

/-- The state a call left. -/
def Outcome.state : Outcome → State
  | .returned _ st _ => st
  | .exception st _ => st
  | .timeout st _ => st

/-- The calls a call made on the column text and the tree. -/
def Outcome.trace : Outcome → List Event
  | .returned _ _ out => out
  | .exception _ out => out
  | .timeout _ out => out

/-- Whether a call was unwound by an exception. -/
def Outcome.raised : Outcome → Bool
  | .exception _ _ => true
  | _ => false

/-- A delivery of `n + 8` bytes holding the header of a `FLASH_AREA_ERASE` frame with
sequence id 0 and declared payload length 65530 (`0xFFFA`), then `n` bytes `0xFF`, then
the two bytes `0xFF 0xD3`. With `n = 65530` it is one frame of 65538 bytes. -/
def delivery_ff (n : Nat) : Tvb :=
  [0x00, 0x31, 0x00, 0x00, 0xFF, 0xFA] ++ (List.replicate n 0xFF ++ [0xFF, 0xD3])

/-! ### Frames on the wire, for statements about deliveries made of whole frames -/

/-- A frame as section 6 of the specification lays it out: command, sequence id, payload
(its length is the length field) and trailer checksum. -/
structure Frame where
  cmd : Nat
  seq : Nat
  payload : List Byte
  trailer : Nat
  deriving DecidableEq, Repr

/-- The two octets of a 16-bit value, big-endian. -/
def be16 (v : Nat) : List Byte := [Fin.ofNat (v / 256), Fin.ofNat v]

/-- The header and payload octets of a frame (everything but the trailer). -/
def frame_body (f : Frame) : List Byte :=
  be16 f.cmd ++ (be16 f.seq ++ (be16 f.payload.length ++ f.payload))

/-- The octets of a frame. -/
def encode_frame (f : Frame) : List Byte := frame_body f ++ be16 f.trailer

/-- The delivery made of the frames `fs`, one after the other. -/
def encode_frames : List Frame → List Byte
  | [] => []
  | f :: fs => encode_frame f ++ encode_frames fs

/-- The fields of a frame fit their 16-bit wire fields and the command is a known one. -/
def Frame.wf (f : Frame) : Prop :=
  f.cmd ∈ knownCommandCodes ∧ f.seq < 65536 ∧ f.payload.length < 65536 ∧ f.trailer < 65536

/-- The protocol checksum of a frame: the spec's double fold of the accumulator over its
header and payload octets. -/
def frame_checksum (f : Frame) : Nat := fold16 (fold16 (specSum (frame_body f)))

/-- Lines 300-356 on a frame whose parameter octets are `payload`: the state, `isRequest`
and `pRequestVal` after the block. -/
def correlate (pinfo : packet_info) (st : State) (isRequest : Bool) (header_type : Nat)
    (payload : List Byte) : State × Bool × Option FCOSConvRequestVal :=
  let r := assign_internal_id pinfo st isRequest header_type
  let st1 := r.1
  let pRequestVal := g_hash_table_lookup st1.FiveCo_requests_hash
    { conversation := pinfo.conv_index, usExpCmd := header_type, unInternalID := r.2.2 }
  if !pinfo.visited && pRequestVal.isNone && r.2.1 then
    let v : FCOSConvRequestVal :=
      { usParaLen := payload.length, isReplied := 0, pData := payload }
    let pNewRequestKey : FCOSConvRequestKey :=
      { conversation := pinfo.conv_index, unInternalID := st1.g_unInternalID,
        usExpCmd := expected_answer_command header_type }
    ({ st1 with
        FiveCo_requests_hash := g_hash_table_insert st1.FiveCo_requests_hash pNewRequestKey v },
      r.2.1, some v)
  else (st1, r.2.1, pRequestVal)

/-- One iteration of the frame loop on a frame that passed the reader's checks, told from
the frame's fields: command, sequence id, payload, checksum computed and received. -/
def frame_step_fields (ifuel : Nat) (tvb : Tvb) (pinfo : packet_info) (s : Loop)
    (cmd seq : Nat) (payload : List Byte) (cal rx : Nat) : Step :=
  let c := correlate pinfo s.st s.isRequest cmd payload
  let summary := frame_summary s.tcp_data_offset cmd seq payload.length cal rx
  let w := frame_tree ifuel tvb s.tcp_data_offset cmd payload.length c.2.2 cal
  match w.res with
  | .exn => .done (.exception c.1 (s.out ++ summary ++ w.out))
  | .fuel => .done (.timeout c.1 (s.out ++ summary ++ w.out))
  | .ok _ =>
    .next { tcp_data_offset := s.tcp_data_offset + payload.length + 8, isRequest := c.2.1,
            st := c.1, out := s.out ++ summary ++ w.out }

/-- The walk over a delivery made of the frames `fs`, told frame by frame. -/
def walk_frames (ifuel : Nat) (tvb : Tvb) (pinfo : packet_info) : List Frame → Loop → Outcome
  | [], s => .returned (tvb_captured_length tvb) s.st s.out
  | f :: fs, s =>
    match frame_step_fields ifuel tvb pinfo s f.cmd f.seq f.payload (frame_checksum f)
        f.trailer with
    | .next s' => walk_frames ifuel tvb pinfo fs s'
    | .done o => o

/-- The events a payload decoder may produce: tree items other than the protocol item,
and texts. -/
def is_payload_event : Event → Bool
  | .add_item item => item.hf != .proto_FiveCoLegacy
  | .append_text _ _ => true
  | _ => false

/-- A computation whose calls are all payload events. -/
structure PayloadOnly {α : Type} (w : W α) : Prop where
  all : ∀ e ∈ w.out, is_payload_event e = true

/-- The start and length of each frame of a delivery that begins at `off`. -/
def frame_ranges : Nat → List Frame → List (Nat × Nat)
  | _, [] => []
  | off, f :: fs => (off, f.payload.length + 8) :: frame_ranges (off + f.payload.length + 8) fs

/-- Every frame's payload block (lines 399-711), run with the request record the
correlator hands it, runs to completion on `tvb`: no exception, no exhausted budget. The
frames are walked from the loop state `s`. -/
def payloads_complete (ifuel : Nat) (tvb : Tvb) (pinfo : packet_info) :
    List Frame → Loop → Bool
  | [], _ => true
  | f :: fs, s =>
    decide ((payload_tree ifuel tvb (s.tcp_data_offset + 6) f.payload.length f.cmd
        (correlate pinfo s.st s.isRequest f.cmd f.payload).2.2).res = .ok ()) &&
      (match frame_step_fields ifuel tvb pinfo s f.cmd f.seq f.payload (frame_checksum f)
          f.trailer with
        | .next s' => payloads_complete ifuel tvb pinfo fs s'
        | .done _ => true)

instance (f : Frame) : Decidable f.wf := by
  unfold Frame.wf
  infer_instance

/-- A trace with its checksum annotations removed: the bad-checksum text of the summary
is dropped and the verdict of the checksum item (the value received) is blanked. -/
def erase_checksum_notes (out : List Event) : List Event :=
  out.filterMap (fun e =>
    match e with
    | .col_bad_checksum => none
    | .add_checksum start computed _ => some (.add_checksum start computed 0)
    | e => some e)

/-- An outcome with the checksum annotations of its trace removed. -/
def Outcome.erase : Outcome → Outcome
  | .returned v st out => .returned v st (erase_checksum_notes out)
  | .exception st out => .exception st (erase_checksum_notes out)
  | .timeout st out => .timeout st (erase_checksum_notes out)

/-- Two frames that differ at most in their trailer. -/
def same_but_trailer (f g : Frame) : Prop :=
  f.cmd = g.cmd ∧ f.seq = g.seq ∧ f.payload = g.payload

instance (f g : Frame) : Decidable (same_but_trailer f g) := by
  unfold same_but_trailer
  infer_instance

/-- Every frame's payload block gives the same result on the two buffers (which holds
when the decoder reads no trailer byte); the frames are walked on `tvb1` from the loop
state `s`. -/
def payloads_agree (ifuel : Nat) (tvb1 tvb2 : Tvb) (pinfo : packet_info) :
    List Frame → Loop → Bool
  | [], _ => true
  | f :: fs, s =>
    decide (payload_tree ifuel tvb1 (s.tcp_data_offset + 6) f.payload.length f.cmd
        (correlate pinfo s.st s.isRequest f.cmd f.payload).2.2
      = payload_tree ifuel tvb2 (s.tcp_data_offset + 6) f.payload.length f.cmd
        (correlate pinfo s.st s.isRequest f.cmd f.payload).2.2) &&
      (match frame_step_fields ifuel tvb1 pinfo s f.cmd f.seq f.payload (frame_checksum f)
          f.trailer with
        | .next s' => payloads_agree ifuel tvb1 tvb2 pinfo fs s'
        | .done _ => true)

/-! ### The correlator across frames and deliveries -/

/-- Lines 284-298 for the frame that starts at `tcp_data_offset`: the command code, the
packet id and the parameter length read from the header, when the three reads succeed and
neither `return 0` is taken; `none` when the loop body is left before line 300. -/
def frame_header (tvb : Tvb) (tcp_data_offset : Nat) : Option (Nat × Nat × Nat) :=
  match tvb_get_ntohs tvb (tcp_data_offset + 0) with
  | .ok header_type =>
    if try_val_to_str header_type packettypenames = none then none
    else
      match tvb_get_ntohs tvb (tcp_data_offset + 2) with
      | .ok header_id =>
        match tvb_get_ntohs tvb (tcp_data_offset + 4) with
        | .ok header_data_length =>
          if header_data_length
              > u32_sub (u32_sub (tvb_captured_length tvb) tcp_data_offset) 8 then none
          else some (header_type, header_id, header_data_length)
        | _ => none
      | _ => none
  | _ => none

/-- The state after one iteration of the frame loop, however the iteration ended. -/
def Step.state : Step → State
  | .next s => s.st
  | .done o => o.state

/-- The synthetic ids given to the frames of a walk, in order: the value of
`*pulInternalID` after lines 300-317, for each frame that gets to line 300. The walk is
the one of `frame_walk`. -/
def assigned_ids (ifuel : Nat) (tvb : Tvb) (pinfo : packet_info) : Nat → Loop → List Nat
  | 0, _ => []
  | fuel + 1, s =>
    if s.tcp_data_offset < tvb_captured_length tvb then
      (match frame_header tvb s.tcp_data_offset with
        | some h => [(assign_internal_id pinfo s.st s.isRequest h.1).2.2]
        | none => []) ++
      (match frame_step ifuel tvb pinfo s with
        | .next s' => assigned_ids ifuel tvb pinfo fuel s'
        | .done _ => [])
    else []

/-- The synthetic ids given to the frames of a delivery by one call of
`dissect_FiveCoLegacy` in state `st`. -/
def dissect_ids (fuel : Nat) (tvb : Tvb) (pinfo : packet_info) (st : State) : List Nat :=
  if tvb_captured_length tvb < FIVECO_LEGACY_MIN_LENGTH then []
  else assigned_ids fuel tvb pinfo fuel (loop_start st)

/-- The state after the deliveries `ds` have been dissected one after the other, each call
starting in the state the call before left (also when that call was unwound by an
exception, which the caller catches). -/
def run_deliveries (fuel : Nat) : List (Tvb × packet_info) → State → State
  | [], st => st
  | d :: ds, st => run_deliveries fuel ds (dissect_FiveCoLegacy fuel d.1 d.2 st).state

/-- The commands whose decoder takes the request record as context (the `case` labels of
lines 558-560 and 615). -/
def answerCommandCodes : List Nat :=
  [I2C_READ_ANSWER, I2C_WRITE_ANSWER, I2C_READ_WRITE_ACK_ANSWER, READ_REGISTER_ANSWER]

/-- The records of the table that belong to the flow `c`. -/
def flow_records (c : Nat) (t : RequestsHash) : RequestsHash :=
  t.filter (fun e => e.1.conversation == c)

/-- Two states that differ at most in the records of flows other than `c`. -/
def same_flow_view (c : Nat) (st st' : State) : Prop :=
  st.g_unInternalID = st'.g_unInternalID ∧ st.proto_data = st'.proto_data ∧
    flow_records c st.FiveCo_requests_hash = flow_records c st'.FiveCo_requests_hash

/-- Two calls that ended the same way, with the same calls on the column text and the
tree, in states that differ at most in the records of flows other than `c`. -/
def Outcome.agree (c : Nat) : Outcome → Outcome → Prop
  | .returned v st out, .returned v' st' out' => v = v' ∧ out = out' ∧ same_flow_view c st st'
  | .exception st out, .exception st' out' => out = out' ∧ same_flow_view c st st'
  | .timeout st out, .timeout st' out' => out = out' ∧ same_flow_view c st st'
  | _, _ => False

instance (c : Nat) (st st' : State) : Decidable (same_flow_view c st st') := by
  unfold same_flow_view
  infer_instance

/-- Two loop states that differ at most in the records of flows other than `c`. -/
def Loop.agree (c : Nat) (s s' : Loop) : Prop :=
  s.tcp_data_offset = s'.tcp_data_offset ∧ s.isRequest = s'.isRequest ∧ s.out = s'.out ∧
    same_flow_view c s.st s'.st

/-- Two iterations of the frame loop that ended the same way, in states that differ at
most in the records of flows other than `c`. -/
def Step.agree (c : Nat) : Step → Step → Prop
  | .next s, .next s' => Loop.agree c s s'
  | .done o, .done o' => Outcome.agree c o o'
  | _, _ => False

/-! ## Payload layouts (C21-C30) -/

/-- The octets `bs` lie in the buffer at `pos`. -/
def at_offset (tvb : Tvb) (pos : Nat) (bs : List Byte) : Prop :=
  pos + bs.length ≤ tvb.length ∧ (tvb.drop pos).take bs.length = bs

instance (tvb : Tvb) (pos : Nat) (bs : List Byte) : Decidable (at_offset tvb pos bs) := by
  unfold at_offset
  infer_instance

/-- The entry the specification gives the address octet `a` at index `j` of a
`READ_REGISTER` list (section 4.3): the catalog name for a known address, the unknown
marker otherwise, then the address as `(0xAA)`. -/
def spec_read_register_entry (tcp_data_offset j : Nat) (a : Byte) : List Event :=
  match known_register a.val with
  | some r =>
    [.add_item ⟨.hf_fiveco_regread, tcp_data_offset + j, 0⟩,
     .append_text ⟨.hf_fiveco_regread, tcp_data_offset + j, 0⟩ (.reg_name r.name),
     .append_text ⟨.hf_fiveco_regread, tcp_data_offset + j, 0⟩ (.paren_hex a.val)]
  | none =>
    [.add_item ⟨.hf_fiveco_regreadunknown, tcp_data_offset + j, 0⟩,
     .append_text ⟨.hf_fiveco_regreadunknown, tcp_data_offset + j, 0⟩ (.paren_hex a.val)]

/-- The entries of a `READ_REGISTER` list, one per address octet, from index `j` on. -/
def spec_read_register_entries (tcp_data_offset : Nat) : Nat → List Byte → List (List Event)
  | _, [] => []
  | j, a :: as =>
    spec_read_register_entry tcp_data_offset j a :: spec_read_register_entries tcp_data_offset (j + 1) as

/-- The payload made of register tuples: each address octet followed by its value
octets (sections 4.4 and 4.5 of the specification). -/
def encode_tuples : List (Byte × List Byte) → List Byte
  | [] => []
  | t :: ts => t.1 :: (t.2 ++ encode_tuples ts)

/-- A register tuple whose address is in the catalog and whose value has the size the
catalog declares. -/
def tuple_ok (t : Byte × List Byte) : Prop :=
  match known_register t.1.val with
  | some r => t.2.length = r.unSize
  | none => False

instance (t : Byte × List Byte) : Decidable (tuple_ok t) := by
  unfold tuple_ok
  split <;> infer_instance

/-- The entry the specification gives a register tuple whose address octet is at `p`
(section 4.4): the value octets, at `p + 1`, rendered by the register's formatting
strategy: the register's own field for a custom formatter, the field and the text for a
string, the hex dump otherwise. -/
def spec_register_entry (p : Nat) (t : Byte × List Byte) : List Event :=
  match known_register t.1.val with
  | none => []
  | some r =>
    if r.pFct.isSome then [.add_item ⟨.nsWsHeaderID t.1.val, p + 1, r.unSize⟩]
    else if r.ft = .FT_STRING then
      [.add_item ⟨.nsWsHeaderID t.1.val, p + 1, r.unSize⟩,
       .append_text ⟨.nsWsHeaderID t.1.val, p + 1, r.unSize⟩ (.str16 t.2)]
    else
      [.add_item ⟨.hf_fiveco_regread, p + 1, r.unSize⟩,
       .append_text ⟨.hf_fiveco_regread, p + 1, r.unSize⟩
         (.raw_header r.name t.1.val r.unSize)]
      ++ t.2.map (fun b => .append_text ⟨.hf_fiveco_regread, p + 1, r.unSize⟩ (.hex b.val))

/-- The entries of a list of register tuples that starts at `p`, one per tuple. -/
def spec_register_entries : Nat → List (Byte × List Byte) → List (List Event)
  | _, [] => []
  | p, t :: ts => spec_register_entry p t :: spec_register_entries (p + 1 + t.2.length) ts

/-- The marker of the octets the register decoders do not interpret, over `length`
octets from `start`. -/
def spec_uninterpreted_marker (start length : Nat) : List Event :=
  [.add_item ⟨.hf_fiveco_regreaduk, start, length⟩,
   .append_text ⟨.hf_fiveco_regreaduk, start, length⟩ .depends_on_product]

/-- The offset of the address octet of tuple `j` in a list of tuples that starts at
`p`. -/
def tuple_start (p : Nat) (ts : List (Byte × List Byte)) (j : Nat) : Nat :=
  p + (encode_tuples (ts.take j)).length

/-- The delivery of one `WRITE_REGISTER` frame with sequence id 1 that writes the value 5
to the register `0x14` (TCP Timeout) `k` times; the length field of the header is that of
`k = 32765`, a payload of 65530 octets. -/
def delivery_timeouts (k : Nat) : Tvb :=
  [0x00, 0x22, 0x00, 0x01, 0xFF, 0xFA]
    ++ (encode_tuples (List.replicate k (0x14, [0x05])) ++ [0xB1, 0xEE])

/-! ## The register conversion functions (lines 876-931) -/

/-- The conversion `%d` of the C library applied to the 32-bit pattern `v` of an `int`
argument. -/
def fmt_d (v : Nat) : List Char :=
  if v % 4294967296 < 2147483648 then Nat.toDigits 10 (v % 4294967296)
  else '-' :: Nat.toDigits 10 (4294967296 - v % 4294967296)

/-- The C library's `snprintf(result, size, ...)`, given the text the format and the
arguments produce: at most `size - 1` characters of it are stored, then the
terminator. -/
def snprintf (size : Nat) (formatted : List Char) : String :=
  String.mk (formatted.take (size - 1))

/-- The function `dispTimeout` (lines 925-931); `timeout` is a `guint32`. -/
def dispTimeout (timeout : Nat) : String :=
  if timeout ≠ 0 then snprintf 12 (fmt_d timeout ++ " secondes".toList)
  else snprintf 8 "Disabled".toList

/-- The text the specification gives a TCP Timeout value: `<n> secondes` with `n` in
decimal, and `Disabled` for 0. -/
def spec_timeout_text (n : Nat) : String :=
  if n = 0 then "Disabled" else String.mk (Nat.toDigits 10 n ++ " secondes".toList)

/-! ## I2C sub-records (sections 4.1 and 4.2 of the specification) -/

/-- A sub-record of an I2C request: the slave address, the octets to write and the number
of octets to read; `I2C_WRITE` sub-records carry no read length. -/
structure I2CSub where
  addr : Byte
  written : List Byte
  toRead : Byte
  deriving DecidableEq, Repr

/-- The octets of one sub-record: address, write length, written octets and, when
`withRead`, the read length. -/
def encode_i2c_sub (withRead : Bool) (r : I2CSub) : List Byte :=
  r.addr :: Fin.ofNat r.written.length :: (r.written ++ (if withRead then [r.toRead] else []))

/-- The payload of an I2C request made of the sub-records `rs`. -/
def encode_i2c (withRead : Bool) : List I2CSub → List Byte
  | [] => []
  | r :: rs => encode_i2c_sub withRead r ++ encode_i2c withRead rs

/-- The entry the specification gives a sub-record whose address octet is at index `i`
of the payload: the address, the write length, the written octets with their hex dump
and, when present, the read length. -/
def spec_i2c_request_entry (withRead : Bool) (tcp_data_offset i : Nat) (r : I2CSub) : List Event :=
  [.add_item ⟨.hf_fiveco_i2cadd, tcp_data_offset + i, 1⟩,
   .add_item ⟨.hf_fiveco_i2c2write, tcp_data_offset + (i + 1), 1⟩,
   .add_item ⟨.hf_fiveco_i2cwrite, tcp_data_offset + (i + 2), r.written.length⟩,
   .append_text ⟨.hf_fiveco_i2cwrite, tcp_data_offset + (i + 2), r.written.length⟩ .colon]
  ++ r.written.map (fun b =>
      .append_text ⟨.hf_fiveco_i2cwrite, tcp_data_offset + (i + 2), r.written.length⟩
        (.hex b.val))
  ++ (if withRead then
        [.add_item ⟨.hf_fiveco_i2c2read, tcp_data_offset + (i + 2 + r.written.length), 1⟩]
      else [])

/-- The entries of the sub-records `rs`, the first one at index `i` of the payload. -/
def spec_i2c_request_entries (withRead : Bool) (tcp_data_offset : Nat) :
    Nat → List I2CSub → List (List Event)
  | _, [] => []
  | i, r :: rs =>
    spec_i2c_request_entry withRead tcp_data_offset i r ::
      spec_i2c_request_entries withRead tcp_data_offset (i + (encode_i2c_sub withRead r).length) rs

/-- The index in the payload of the address octet of sub-record `j`. -/
def i2c_sub_start (withRead : Bool) (rs : List I2CSub) (j : Nat) : Nat :=
  (encode_i2c withRead (rs.take j)).length

/-- The loop of the I2C request decoder for the layout with (`I2C_READ`,
`I2C_READ_WRITE_ACK`) or without (`I2C_WRITE`) a read length. -/
def i2c_request_loop (withRead : Bool) (tvb : Tvb) (tcp_data_offset header_data_length : Nat) :
    Nat → Nat → W Unit :=
  if withRead then i2c_read_loop tvb tcp_data_offset header_data_length
  else i2c_write_loop tvb tcp_data_offset header_data_length

/-- What an I2C answer holds for one sub-record of the request: the sub-record, the
octets read and, in an `I2C_READ_WRITE_ACK_ANSWER`, the acknowledge octet. -/
structure I2CReply where
  sub : I2CSub
  result : List Byte
  ack : Byte
  deriving DecidableEq, Repr

/-- The payload of an I2C answer: for each sub-record of the request its result octets
and, when `withAck`, one acknowledge octet. -/
def encode_i2c_answer (withAck : Bool) : List I2CReply → List Byte
  | [] => []
  | x :: xs => x.result ++ (if withAck then [x.ack] else []) ++ encode_i2c_answer withAck xs

/-- The stored request record of the sub-records `rs` of an `I2C_READ` or
`I2C_READ_WRITE_ACK` request (lines 331-345). -/
def i2c_request_record (rs : List I2CSub) : FCOSConvRequestVal :=
  { usParaLen := (encode_i2c true rs).length, isReplied := 0, pData := encode_i2c true rs }

/-- The entry the specification gives one sub-record in an I2C answer whose octets for
it start at `p` (section 4.2): when octets were read, one result item over them, with
the address and the write length of the sub-record and their hex dump; in an
`I2C_READ_WRITE_ACK_ANSWER` the acknowledge octet after them, and for a sub-record that
read nothing the write answer and its acknowledge octet. -/
def spec_i2c_answer_entry (withAck : Bool) (p : Nat) (x : I2CReply) : List Event :=
  if 0 < x.result.length then
    [.add_item ⟨.hf_fiveco_i2canswer, p, x.result.length⟩,
     .append_text ⟨.hf_fiveco_i2canswer, p, x.result.length⟩
       (.from_address x.sub.addr.val x.sub.written.length)]
    ++ x.result.map (fun b =>
        .append_text ⟨.hf_fiveco_i2canswer, p, x.result.length⟩ (.hex b.val))
    ++ (if withAck then [.add_item ⟨.hf_fiveco_i2cack, p + x.result.length, 1⟩] else [])
  else if withAck then
    [.add_item ⟨.hf_fiveco_i2cwriteanswer, p, 0⟩,
     .append_text ⟨.hf_fiveco_i2cwriteanswer, p, 0⟩
       (.to_address x.sub.addr.val x.sub.written.length),
     .add_item ⟨.hf_fiveco_i2cack, p, 1⟩]
  else []

/-- The entries of an I2C answer whose octets start at `p`, one per sub-record. -/
def spec_i2c_answer_entries (withAck : Bool) : Nat → List I2CReply → List (List Event)
  | _, [] => []
  | p, x :: xs =>
    spec_i2c_answer_entry withAck p x ::
      spec_i2c_answer_entries withAck (p + x.result.length + (if withAck then 1 else 0)) xs

/-- The offset of the octets of sub-record `j` in an I2C answer that starts at `p`. -/
def i2c_reply_start (withAck : Bool) (p : Nat) (xs : List I2CReply) (j : Nat) : Nat :=
  p + (encode_i2c_answer withAck (xs.take j)).length

/-- A delivery of two frames: a `FLASH_AREA_ERASE` frame with sequence id 1 and `n`
parameter octets 0 (the length field of the header is that of `n = 65518`, a frame of
65526 octets), then the octets `frame`. With `n = 65518` the second frame starts at
offset 65526 and its parameters at offset 65532. -/
def delivery_after_filler (n : Nat) (frame : List Byte) : Tvb :=
  [0x00, 0x31, 0x00, 0x01, 0xFF, 0xEE] ++ (List.replicate n 0x00 ++ ([0xFF, 0xDE] ++ frame))

/-- The `READ_REGISTER` request frame for the registers of the tuples `ts`: its payload
is the list of their addresses. -/
def read_register_request (seq : Nat) (ts : List (Byte × List Byte)) (trailer : Nat) : Frame :=
  { cmd := READ_REGISTER, seq := seq, payload := ts.map (fun t => t.1), trailer := trailer }

/-- The `READ_REGISTER_ANSWER` frame that holds the tuples `ts`: each address followed by
the value octets. -/
def read_register_answer (seq : Nat) (ts : List (Byte × List Byte)) (trailer : Nat) : Frame :=
  { cmd := READ_REGISTER_ANSWER, seq := seq, payload := encode_tuples ts, trailer := trailer }

/-- The delivery of one `READ_REGISTER_ANSWER` frame with sequence id 2 that holds the
value 5 of the register `0x14` (TCP Timeout) `k` times; the length field of the header is
that of `k = 32766`, a payload of 65532 octets. -/
def delivery_timeout_answers (k : Nat) : Tvb :=
  [0x00, 0x23, 0x00, 0x02, 0xFF, 0xFC]
    ++ (encode_tuples (List.replicate k (0x14, [0x05])) ++ [0x9D, 0xE5])

/-! ## The checksum: accumulator width and the Internet checksum (C33, C34) -/

/-- The loop of `checksum_fiveco` with `Sum` kept in unbounded integers: what the
accumulator would hold if a `guint32` could not overflow. It is the loop of lines 734-747
without the reduction modulo `2^32`, for comparison with `checksum_loop`. -/
def ideal_checksum_loop (byte_tab : Tvb) (start_offset : Nat) :
    Nat → Nat → Nat → Nat → Res (Nat × Nat)
  | 0, _, Sum, AddHighByte => .ok (Sum, AddHighByte)
  | n + 1, i, Sum, AddHighByte =>
    match tvb_get_guint8 byte_tab (start_offset + i) with
    | .ok temp =>
      if AddHighByte ≠ 0 then
        ideal_checksum_loop byte_tab start_offset n (i + 1) (Sum + ((temp <<< 8) ^^^ 0xFF00)) 0
      else
        ideal_checksum_loop byte_tab start_offset n (i + 1) (Sum + (temp ^^^ 0x00FF)) 1
    | .exn => .exn
    | .fuel => .fuel

/-- Lines 728-753 of `checksum_fiveco`: the value of `ChecksumCalculated` after the two
folding steps, before the conversion to `guint16` of the `return` (line 754). -/
def checksum_folded (byte_tab : Tvb) (start_offset size : Nat) : Res Nat :=
  match checksum_loop byte_tab start_offset size 0 0 1 with
  | .ok (Sum, AddHighByte) =>
    -- if (AddHighByte == 0) Sum += 0xFF;
    let Sum := if AddHighByte = 0 then (Sum + 0xFF) % 4294967296 else Sum
    -- ChecksumCalculated = ((Sum >> 16) & 0xFFFF) + (Sum & 0xFFFF);
    let ChecksumCalculated := (((Sum >>> 16) &&& 0xFFFF) + (Sum &&& 0xFFFF)) % 4294967296
    -- ChecksumCalculated = ((ChecksumCalculated >> 16) & 0xFFFF) + (ChecksumCalculated & 0xFFFF);
    let ChecksumCalculated :=
      (((ChecksumCalculated >>> 16) &&& 0xFFFF) + (ChecksumCalculated &&& 0xFFFF)) % 4294967296
    .ok ChecksumCalculated
  | .exn => .exn
  | .fuel => .fuel

/-- The big-endian 16-bit words of a byte sequence, an odd trailing octet being padded
with a zero low octet (RFC 1071). -/
def spec_words : List Byte → List Nat
  | [] => []
  | [a] => [a.val * 256]
  | a :: c :: rest => (a.val * 256 + c.val) :: spec_words rest

/-- The Internet checksum (RFC 1071) of a byte sequence: the complement in 16 bits of the
end-around-carry folded sum of its words. The sum of at most 32768 words is below `2^31`,
where two foldings leave no carry. -/
def spec_ip_checksum (b : List Byte) : Nat :=
  (fold16 (fold16 (spec_words b).sum)) ^^^ 0xFFFF

/-! ## The address and version formatters (lines 884-923) -/

/-- The octet `pData[k]` of `guint8 *pData = (guint8*)(&v)` for a `guint32` `v` (lines 913
and 920), on a little-endian host (the x86 and ARM hosts the dissector is built for):
the octet of weight `2^(8k)`. -/
def pData (v k : Nat) : Nat := (v >>> (8 * k)) % 256

/-- The function `dispIP` (lines 911-916); `ip` is a `guint32`. -/
def dispIP (ip : Nat) : String :=
  snprintf 15 (fmt_d (pData ip 3) ++ '.' :: (fmt_d (pData ip 2) ++ '.' ::
    (fmt_d (pData ip 1) ++ '.' :: fmt_d (pData ip 0))))

/-- The function `dispMask` (lines 918-923); `mask` is a `guint32`. -/
def dispMask (mask : Nat) : String :=
  snprintf 15 (fmt_d (pData mask 3) ++ '.' :: (fmt_d (pData mask 2) ++ '.' ::
    (fmt_d (pData mask 1) ++ '.' :: fmt_d (pData mask 0))))

/-- The function `dispVersion` (lines 884-901); `version` is a `guint32`. -/
def dispVersion (version : Nat) : String :=
  if version &&& 0xFF000000 = 0 then
    let nValueH := (version >>> 16) &&& 0xFFFF
    let nValueL := version &&& 0xFFFF
    snprintf 11 ("FW: ".toList ++ (fmt_d nValueH ++ '.' :: fmt_d nValueL))
  else
    let nHWHigh := (version >>> 24) &&& 0xFF
    let nHWLow := (version >>> 16) &&& 0xFF
    let nFWHigh := (version >>> 8) &&& 0xFF
    let nFWLow := (version >>> 8) &&& 0xFF
    snprintf 25 ("HW: ".toList ++ (fmt_d nHWHigh ++ '.' :: (fmt_d nHWLow ++
      (" / FW: ".toList ++ (fmt_d nFWHigh ++ '.' :: fmt_d nFWLow)))))

/-- The 32-bit value with the octets `b3 b2 b1 b0`, from most to least significant. -/
def u32_of_bytes (b3 b2 b1 b0 : Byte) : Nat :=
  b3.val * 16777216 + b2.val * 65536 + b1.val * 256 + b0.val

/-- The dotted-decimal text `b3.b2.b1.b0` the specification gives an IPv4 address or
mask. -/
def spec_dotted_text (b3 b2 b1 b0 : Byte) : String :=
  String.mk (Nat.toDigits 10 b3.val ++ '.' :: (Nat.toDigits 10 b2.val ++ '.' ::
    (Nat.toDigits 10 b1.val ++ '.' :: Nat.toDigits 10 b0.val)))

/-- The text the specification gives a version value with the octets `b3 b2 b1 b0`:
`FW: H.L` with the two 16-bit halves when `b3` is 0, `HW: b3.b2 / FW: b1.b0`
otherwise. -/
def spec_version_text (b3 b2 b1 b0 : Byte) : String :=
  if b3.val = 0 then
    String.mk ("FW: ".toList ++ (Nat.toDigits 10 (b3.val * 256 + b2.val) ++ '.' ::
      Nat.toDigits 10 (b1.val * 256 + b0.val)))
  else
    String.mk ("HW: ".toList ++ (Nat.toDigits 10 b3.val ++ '.' :: (Nat.toDigits 10 b2.val ++
      (" / FW: ".toList ++ (Nat.toDigits 10 b1.val ++ '.' :: Nat.toDigits 10 b0.val)))))

/-! ## The items of a trace and their ranges (C36) -/

/-- The tree item a call is about: the item added, or the item a text is appended to. -/
def Event.item? : Event → Option Item
  | .add_item item => some item
  | .append_text item _ => some item
  | _ => none

/-! ## A delivery longer than the frame offset can count (C38) -/

/-- A delivery of `k` frames `FLASH_AREA_ERASE` with sequence id 0 and no parameter, of 8
octets each; with `k = 8192` it has 65536 octets. -/
def delivery_minimal_frames (k : Nat) : Tvb :=
  (List.replicate k [0x00, 0x31, 0x00, 0x00, 0x00, 0x00, 0xFF, 0xCE]).flatten

/-! ## The ids given to the frames of a run (C31) -/

/-- A frame that gets to the id assignment (lines 300-317), as the correlator sees it:
the value of the counter `g_unInternalID` before the assignment, the command of the
frame, the id `*pulInternalID` given to the frame (the id of the key its record is
looked up under, line 321) and the value of the counter after the assignment. -/
structure Assigned where
  before : Nat
  header_type : Nat
  id : Nat
  after : Nat
  deriving DecidableEq, Repr

/-- The frames of a walk that get to the id assignment, in order. The walk is the one of
`frame_walk`. -/
def assigned_frames (ifuel : Nat) (tvb : Tvb) (pinfo : packet_info) :
    Nat → Loop → List Assigned
  | 0, _ => []
  | fuel + 1, s =>
    if s.tcp_data_offset < tvb_captured_length tvb then
      (match frame_header tvb s.tcp_data_offset with
        | some h =>
          [{ before := s.st.g_unInternalID, header_type := h.1,
             id := (assign_internal_id pinfo s.st s.isRequest h.1).2.2,
             after := (assign_internal_id pinfo s.st s.isRequest h.1).1.g_unInternalID }]
        | none => []) ++
      (match frame_step ifuel tvb pinfo s with
        | .next s' => assigned_frames ifuel tvb pinfo fuel s'
        | .done _ => [])
    else []

/-- The frames of a delivery that get to the id assignment in one call of
`dissect_FiveCoLegacy` in state `st`. -/
def dissect_assigned (fuel : Nat) (tvb : Tvb) (pinfo : packet_info) (st : State) :
    List Assigned :=
  if tvb_captured_length tvb < FIVECO_LEGACY_MIN_LENGTH then []
  else assigned_frames fuel tvb pinfo fuel (loop_start st)

/-- The frames that get to the id assignment while the deliveries `ds` are dissected one
after the other from the state `st`, in the order of observation, whatever their
flows. -/
def run_assigned (fuel : Nat) : List (Tvb × packet_info) → State → List Assigned
  | [], _ => []
  | d :: ds, st =>
    dissect_assigned fuel d.1 d.2 st
      ++ run_assigned fuel ds (dissect_FiveCoLegacy fuel d.1 d.2 st).state

/-- Every delivery of `ds` is observed for the first time: when its turn comes, no id is
stored for its packet number. -/
def first_observed (fuel : Nat) : List (Tvb × packet_info) → State → Prop
  | [], _ => True
  | d :: ds, st =>
    p_get_proto_data st.proto_data d.2.num = none ∧
      first_observed fuel ds (dissect_FiveCoLegacy fuel d.1 d.2 st).state

/-- The frames `es` follow one another from the counter value `g` to the counter value
`g'`: each frame finds the counter as the frame before left it. -/
def linked : Nat → List Assigned → Nat → Prop
  | g, [], g' => g' = g
  | g, e :: es, g' => e.before = g ∧ linked e.after es g'

/-- Three deliveries observed one after the other: a register read on flow 7 (packet 1),
a register read on flow 8 (packet 2), and the answer to the first on flow 7 (packet 3). -/
def deliveries_two_flows : List (Tvb × packet_info) :=
  [([0x00, 0x21, 0x00, 0x01, 0x00, 0x01, 0x14, 0xEB, 0xDC], ⟨1, false, 7⟩),
   ([0x00, 0x21, 0x00, 0x01, 0x00, 0x01, 0x14, 0xEB, 0xDC], ⟨2, false, 8⟩),
   ([0x00, 0x23, 0x00, 0x02, 0x00, 0x02, 0x14, 0x2D, 0xEB, 0xAB], ⟨3, false, 7⟩)]

/-! ## The reads of the stored request in the I2C answer replay (C37) -/

/-- The calls on the tree of one iteration of the I2C answer loop (lines 582-606), once
the three octets of the stored request have been read; gives the answer index `i` the
iteration leaves. -/
def i2c_answer_body (tvb : Tvb) (header_type ucAdd ucBytesToWrite ucBytesToRead i : Nat) :
    W Nat :=
  if ucBytesToRead > 0 then do
    let fiveco_data_item ← proto_tree_add_item .hf_fiveco_i2canswer tvb i ucBytesToRead
    proto_item_append_text fiveco_data_item (.from_address ucAdd ucBytesToWrite)
    let i ← hex_loop tvb fiveco_data_item 0 ucBytesToRead i
    if header_type = 0x08 then do
      let _ ← proto_tree_add_item .hf_fiveco_i2cack tvb i 1
      pure ((i + 1) % 65536)
    else pure i
  else if header_type = I2C_READ_WRITE_ACK_ANSWER then do
    -- if it's an answer to a write but with ack, display it
    let fiveco_data_item ← proto_tree_add_item .hf_fiveco_i2cwriteanswer tvb i ucBytesToRead
    proto_item_append_text fiveco_data_item (.to_address ucAdd ucBytesToWrite)
    let _ ← proto_tree_add_item .hf_fiveco_i2cack tvb i 1
    pure ((i + 1) % 65536)
  else pure i

/-- The calls `tvb_get_guint8(pRequestVal->pData, y)` that the I2C answer loop (lines
572-607) makes on the stored request, in order: the index `y` of each call and what the
call gave. The control flow is that of `i2c_answer_loop`: three calls per iteration, and
no call after one that raised or after calls on the tree that raised. -/
def i2c_answer_request_reads (tvb : Tvb) (tcp_data_offset header_data_length header_type : Nat)
    (pRequestVal : FCOSConvRequestVal) : Nat → Nat → Nat → List (Nat × Res Nat)
  | 0, _, _ => []
  | fuel + 1, i, y =>
    if y < pRequestVal.usParaLen ∧ i < tcp_data_offset + header_data_length then
      -- ucAdd = tvb_get_guint8(pRequestVal->pData, y++);
      (y, tvb_get_guint8 pRequestVal.pData y) ::
        match tvb_get_guint8 pRequestVal.pData y with
        | .ok ucAdd =>
          -- ucBytesToWrite = tvb_get_guint8(pRequestVal->pData, y);
          ((y + 1) % 65536, tvb_get_guint8 pRequestVal.pData ((y + 1) % 65536)) ::
            match tvb_get_guint8 pRequestVal.pData ((y + 1) % 65536) with
            | .ok ucBytesToWrite =>
              -- y += 1 + ucBytesToWrite; ucBytesToRead = tvb_get_guint8(pRequestVal->pData, y++);
              (((y + 1) % 65536 + (1 + ucBytesToWrite)) % 65536,
                tvb_get_guint8 pRequestVal.pData
                  (((y + 1) % 65536 + (1 + ucBytesToWrite)) % 65536)) ::
                match tvb_get_guint8 pRequestVal.pData
                    (((y + 1) % 65536 + (1 + ucBytesToWrite)) % 65536) with
                | .ok ucBytesToRead =>
                  match (i2c_answer_body tvb header_type ucAdd ucBytesToWrite ucBytesToRead
                      i).res with
                  | .ok i =>
                    i2c_answer_request_reads tvb tcp_data_offset header_data_length header_type
                      pRequestVal fuel i
                      ((((y + 1) % 65536 + (1 + ucBytesToWrite)) % 65536 + 1) % 65536)
                  | _ => []
                | _ => []
            | _ => []
        | _ => []
    else []

/-! ## Deliveries that register no request (C24) -/

/-- A delivery that leaves the counter and the table of requests as they are when it is
dissected in `st`: its packet has a stored id already (the delivery is observed again),
or the frame it starts with does not get to the id assignment of line 300, or that frame
has no request command. The id of a packet is given with its first frame (lines 301-317):
the frames after it find the stored id. -/
def no_new_request (d : Tvb × packet_info) (st : State) : Prop :=
  (p_get_proto_data st.proto_data d.2.num).isSome = true ∨
    (frame_header d.1 0).map (fun h => is_request_command h.1) ≠ some true

/-- Each of the deliveries `ds`, dissected one after the other from `st`, leaves the
counter and the table of requests as they are. -/
def no_new_requests (fuel : Nat) : List (Tvb × packet_info) → State → Prop
  | [], _ => True
  | d :: ds, st =>
    no_new_request d st ∧ no_new_requests fuel ds (dissect_FiveCoLegacy fuel d.1 d.2 st).state

/-- The state in which an answer is dissected: the state left by the delivery of the
`READ_REGISTER` request for the registers of `ts` (packet `p1`), dissected in `st`, and
then by the deliveries `mid` that follow it, dissected one after the other. -/
def state_after_request (fuel : Nat) (st : State) (p1 : packet_info) (seq1 : Nat)
    (ts : List (Byte × List Byte)) (ck1 : Nat) (mid : List (Tvb × packet_info)) : State :=
  run_deliveries fuel mid
    (dissect_FiveCoLegacy fuel (encode_frame (read_register_request seq1 ts ck1)) p1 st).state

/-- The calls of the payload block of the `READ_REGISTER_ANSWER` frame that holds the
tuples `ts`, as the specification has them: none for an empty payload, else the data item
and one entry per tuple. -/
def spec_register_answer_calls (ts : List (Byte × List Byte)) : List Event :=
  if ts.isEmpty then []
  else .add_item ⟨.hf_fiveco_data, 6, (encode_tuples ts).length⟩
    :: (spec_register_entries 6 ts).flatten

/-! ## Field values and trailer octets (C3) -/

/-- The offsets of the trailer octets in the delivery made of the frames `fs`, the first
of which starts at `off`. -/
def trailer_offsets : Nat → List Frame → List Nat
  | _, [] => []
  | off, f :: fs =>
    (off + 6 + f.payload.length) :: (off + 7 + f.payload.length)
      :: trailer_offsets (off + 8 + f.payload.length) fs

/-- The octets of the buffer that a call turns into the value of a field: those under the
range of an added item whose field carries a value. The other calls take no value from
the buffer. -/
def Event.value (tvb : Tvb) : Event → List Byte
  | .add_item item =>
    if item.hf.no_value then [] else (tvb.drop item.start).take item.length
  | _ => []

/-- No item of a field that carries a value was added over a trailer octet of the
delivery made of the frames `fs`. -/
def values_off_trailers (fs : List Frame) (out : List Event) : Bool :=
  out.all (fun e =>
    match e with
    | .add_item item =>
      item.hf.no_value ||
        (List.range' item.start item.length).all
          (fun k => !(trailer_offsets 0 fs).contains k)
    | _ => true)

/-! # Theorems -/

/-! ## The checksum (C1) -/

theorem specSum_eq (b : List Byte) :
    specSum b = accSum b + (if b.length % 2 = 1 then 0xFF else 0) := rfl

theorem byteAt_append_left (b : List Byte) (x : Byte) (i : Nat) (h : i < b.length) :
    byteAt (b ++ [x]) i = byteAt b i := by
  simp [byteAt, List.getElem?_append_left h]

theorem byteAt_append_length (b : List Byte) (x : Byte) :
    byteAt (b ++ [x]) b.length = x.val := by
  simp [byteAt]

theorem map_filter_range_congr (b : List Byte) (x : Byte) (p : Nat → Bool) (f : Nat → Nat) :
    ((List.range b.length).filter p).map (fun i => f (byteAt (b ++ [x]) i))
      = ((List.range b.length).filter p).map (fun i => f (byteAt b i)) := by
  apply List.map_congr_left
  intro i hi
  have : i < b.length := by
    have := (List.mem_filter.mp hi).1
    exact List.mem_range.mp this
  rw [byteAt_append_left b x i this]

theorem accSum_append (b : List Byte) (x : Byte) :
    accSum (b ++ [x]) = accSum b +
      (if b.length % 2 = 0 then (x.val * 256) ^^^ 0xFF00 else x.val ^^^ 0x00FF) := by
  unfold accSum
  rw [List.length_append, List.length_singleton, List.range_succ, List.filter_append,
    List.filter_append, List.map_append, List.map_append, List.sum_append, List.sum_append,
    map_filter_range_congr b x _ (fun v => (v * 256) ^^^ 0xFF00),
    map_filter_range_congr b x _ (fun v => v ^^^ 0x00FF)]
  by_cases h : b.length % 2 = 0
  · have h1 : ¬ (b.length % 2 = 1) := by omega
    simp [List.filter_cons, h, h1, byteAt_append_length]
    omega
  · have h1 : b.length % 2 = 1 := by omega
    simp [List.filter_cons, h, h1, byteAt_append_length]
    omega

theorem term_hi_lt (x : Byte) : (x.val * 256) ^^^ 0xFF00 < 65536 := by
  have hx : x.val * 256 < 2 ^ 16 := by have := x.isLt; omega
  have := Nat.xor_lt_two_pow hx (by norm_num : 0xFF00 < 2 ^ 16)
  simpa using this

theorem term_lo_lt (x : Byte) : x.val ^^^ 0x00FF < 65536 := by
  have hx : x.val < 2 ^ 16 := by have := x.isLt; omega
  have := Nat.xor_lt_two_pow hx (by norm_num : 0x00FF < 2 ^ 16)
  simpa using this

theorem accSum_le (b : List Byte) : accSum b ≤ 65535 * b.length := by
  induction b using List.reverseRecOn with
  | nil => simp [accSum]
  | append_singleton b x ih =>
    rw [accSum_append, List.length_append, List.length_singleton]
    have h1 := term_hi_lt x
    have h2 := term_lo_lt x
    split <;> omega

theorem take_succ_of_lt (b : List Byte) (i : Nat) (h : i < b.length) :
    b.take (i + 1) = b.take i ++ [b[i]] := by
  rw [List.take_succ, List.getElem?_eq_getElem h]
  rfl

/-- Invariant of the accumulation loop on a whole byte sequence: with `i` bytes consumed,
`Sum` is the accumulator of the first `i` bytes, and the role flag tells the parity. -/
theorem checksum_loop_acc (b : List Byte) (hb : b.length ≤ 65535) :
    ∀ (n i : Nat), i + n ≤ b.length →
      checksum_loop b 0 n i (accSum (b.take i)) (if i % 2 = 0 then 1 else 0)
        = .ok (accSum (b.take (i + n)), if (i + n) % 2 = 0 then 1 else 0) := by
  intro n
  induction n with
  | zero => intro i _; simp [checksum_loop]
  | succ n ih =>
    intro i hi
    have hlt : i < b.length := by omega
    have hstep := accSum_append (b.take i) b[i]
    rw [← take_succ_of_lt b i hlt] at hstep
    have hlen : (b.take i).length = i := by simp; omega
    rw [hlen] at hstep
    have hbound := accSum_le (b.take (i + 1))
    have hlen1 : (b.take (i + 1)).length = i + 1 := by simp; omega
    rw [hlen1] at hbound
    have hsmall : accSum (b.take (i + 1)) < 4294967296 := by omega
    have ih' := ih (i + 1) (by omega)
    rw [show i + 1 + n = i + (n + 1) by omega] at ih'
    unfold checksum_loop
    simp only [tvb_get_guint8, Nat.zero_add, List.getElem?_eq_getElem hlt]
    by_cases hpar : i % 2 = 0
    · have hpar1 : ¬ ((i + 1) % 2 = 0) := by omega
      simp only [hpar, if_true] at hstep ⊢
      simp only [hpar1, if_false] at ih'
      simp only [Nat.shiftLeft_eq]
      norm_num
      rw [← hstep, Nat.mod_eq_of_lt hsmall]
      exact ih'
    · have hpar1 : (i + 1) % 2 = 0 := by omega
      simp only [hpar, if_false] at hstep ⊢
      simp only [hpar1, if_true] at ih'
      norm_num
      rw [← hstep, Nat.mod_eq_of_lt hsmall]
      exact ih'

theorem and_ffff (x : Nat) : x &&& 0xFFFF = x % 65536 := by
  rw [show (0xFFFF : Nat) = 2 ^ 16 - 1 by norm_num, Nat.and_pow_two_sub_one_eq_mod]

theorem shr16 (x : Nat) : x >>> 16 = x / 65536 := by
  rw [Nat.shiftRight_eq_div_pow]

theorem fold16_eq (x : Nat) : fold16 x = x / 65536 + x % 65536 := by
  unfold fold16
  rw [and_ffff, shr16]

/-- One folding line of `checksum_fiveco` on a value below `2^32` is the spec's fold. -/
theorem fold_line_eq (S : Nat) (hS : S < 4294967296) :
    (((S >>> 16) &&& 0xFFFF) + (S &&& 0xFFFF)) % 4294967296 = fold16 S := by
  rw [fold16_eq, and_ffff, and_ffff, shr16]
  have h1 : S / 65536 < 65536 := Nat.div_lt_of_lt_mul (by omega)
  have h2 : S % 65536 < 65536 := Nat.mod_lt _ (by norm_num)
  rw [Nat.mod_eq_of_lt h1, Nat.mod_eq_of_lt (by omega)]

theorem fold16_lt (S : Nat) (hS : S < 4294967296) : fold16 S < 131071 := by
  rw [fold16_eq]; omega

theorem fold16_fold16_lt (S : Nat) (hS : S < 4294967296) : fold16 (fold16 S) < 65536 := by
  have h := fold16_lt S hS
  rw [fold16_eq] at h ⊢
  rw [fold16_eq]
  omega

/-- C1. For every byte sequence `b` of length `n ≤ 65535`, `checksum_fiveco` over `b`
returns `fold(fold(S))`, where `S` is the sum over even indices of `(b[i] * 256) xor
0xFF00`, plus the sum over odd indices of `b[i] xor 0x00FF`, plus `0xFF` when `n` is odd,
and `fold(x) = (x >> 16) + (x & 0xFFFF)`. -/
theorem C1_checksum_fiveco_closed_form (b : List Byte) (hn : b.length ≤ 65535) :
    checksum_fiveco b 0 b.length = .ok (fold16 (fold16 (specSum b))) := by
  have hloop := checksum_loop_acc b hn b.length 0 (by omega)
  simp only [List.take_zero, Nat.zero_add, List.take_length] at hloop
  have h0 : accSum ([] : List Byte) = 0 := by simp [accSum]
  rw [h0] at hloop
  have hle := accSum_le b
  unfold checksum_fiveco
  simp only [if_true] at hloop
  rw [hloop]
  simp only
  rw [specSum_eq]
  by_cases hpar : b.length % 2 = 0
  · have hpar1 : ¬ (b.length % 2 = 1) := by omega
    have hS : accSum b < 4294967296 := by omega
    rw [if_pos hpar, if_neg hpar1, if_neg one_ne_zero, Nat.add_zero]
    rw [fold_line_eq _ hS, fold_line_eq _ (by have := fold16_lt _ hS; omega),
      Nat.mod_eq_of_lt (fold16_fold16_lt _ hS)]
  · have hpar1 : b.length % 2 = 1 := by omega
    have hS : accSum b + 255 < 4294967296 := by omega
    rw [if_neg hpar, if_pos hpar1, if_pos rfl]
    rw [Nat.mod_eq_of_lt hS, fold_line_eq _ hS,
      fold_line_eq _ (by have := fold16_lt _ hS; omega),
      Nat.mod_eq_of_lt (fold16_fold16_lt _ hS)]

/-- Witness of C1 on a seven-byte sequence (odd length, so the final `0xFF` term is
added); the value is `0xF8CE`. -/
theorem C1_checksum_fiveco_closed_form_witness :
    checksum_fiveco [0, 0x31, 0, 0, 0, 0, 7] 0 ([0, 0x31, 0, 0, 0, 0, 7] : List Byte).length
        = .ok (fold16 (fold16 (specSum [0, 0x31, 0, 0, 0, 0, 7])))
      ∧ fold16 (fold16 (specSum [0, 0x31, 0, 0, 0, 0, 7])) = 0xF8CE :=
  ⟨C1_checksum_fiveco_closed_form [0, 0x31, 0, 0, 0, 0, 7] (by decide), by decide⟩

/-! ## The frame reader: rejection (C4-C8) -/

theorem frame_rest_not_returned (fuel : Nat) (tvb : Tvb) (s : Loop) (st : State)
    (isRequest : Bool) (header_type header_id header_data_length : Nat)
    (pRequestVal : Option FCOSConvRequestVal) (v : Nat) (st' : State) (out : List Event) :
    frame_rest fuel tvb s st isRequest header_type header_id header_data_length pRequestVal
      ≠ .done (.returned v st' out) := by
  unfold frame_rest
  intro h
  split at h
  · simp at h
  · simp at h
  · split at h
    · simp at h
    · simp at h
    · simp only at h
      split at h <;> simp at h

/-- A `return` from inside the loop body is a `return 0`, and the frame it rejects has
changed neither the state nor the column text nor the tree. -/
theorem frame_step_returned (fuel : Nat) (tvb : Tvb) (pinfo : packet_info) (s : Loop)
    (v : Nat) (st' : State) (out : List Event)
    (h : frame_step fuel tvb pinfo s = .done (.returned v st' out)) :
    v = 0 ∧ st' = s.st ∧ out = s.out := by
  unfold frame_step at h
  simp only at h
  split at h
  · simp at h
  · simp at h
  · split at h
    · simp at h; obtain ⟨h1, h2, h3⟩ := h; exact ⟨h1.symm, h2.symm, h3.symm⟩
    · split at h
      · simp at h
      · simp at h
      · split at h
        · simp at h
        · simp at h
        · split at h
          · simp at h; obtain ⟨h1, h2, h3⟩ := h; exact ⟨h1.symm, h2.symm, h3.symm⟩
          · split at h
            · split at h
              · simp at h
              · simp at h
              · exact absurd h (frame_rest_not_returned _ _ _ _ _ _ _ _ _ _ _ _)
            · exact absurd h (frame_rest_not_returned _ _ _ _ _ _ _ _ _ _ _ _)

/-- C4. For every delivery buffer shorter than 8 bytes, `dissect_FiveCoLegacy` returns 0,
makes no call on the column text or the tree (no frame is decoded) and leaves the
synthetic counter, the id cache and the pending-request table unchanged. -/
theorem C4_short_delivery_rejected (fuel : Nat) (tvb : Tvb) (pinfo : packet_info)
    (st : State) (h : tvb.length < 8) :
    dissect_FiveCoLegacy fuel tvb pinfo st = .returned 0 st [] := by
  unfold dissect_FiveCoLegacy
  have h' : tvb_captured_length tvb < FIVECO_LEGACY_MIN_LENGTH := by
    simpa [tvb_captured_length, FIVECO_LEGACY_MIN_LENGTH, FIVECO_LEGACY_HEADER_LENGTH] using h
  rw [if_pos h']

/-- Witness of C4: a 7-byte delivery that starts like a valid frame, in a state with a
non-zero counter. -/
theorem C4_short_delivery_rejected_witness :
    dissect_FiveCoLegacy 5 [0, 0x31, 0, 0, 0, 0, 0xFF] ⟨1, false, 7⟩ ⟨3, [], [(9, 2)]⟩
      = .returned 0 ⟨3, [], [(9, 2)]⟩ [] :=
  C4_short_delivery_rejected 5 [0, 0x31, 0, 0, 0, 0, 0xFF] ⟨1, false, 7⟩ ⟨3, [], [(9, 2)]⟩
    (by decide)

theorem try_val_to_str_eq_none_iff (cmd : Nat) :
    try_val_to_str cmd packettypenames = none ↔ cmd ∉ knownCommandCodes := by
  simp only [try_val_to_str, Option.map_eq_none', List.find?_eq_none, packettypenames,
    knownCommandCodes, I2C_READ, I2C_WRITE, I2C_READ_ANSWER, I2C_WRITE_ANSWER, I2C_SCAN,
    I2C_SCAN_ANSWER, I2C_READ_WRITE_ACK, I2C_READ_WRITE_ACK_ANSWER, I2C_READ_WRITE_ACK_ERROR,
    READ_REGISTER, WRITE_REGISTER, READ_REGISTER_ANSWER, WRITE_REGISTER_ANSWER,
    WRITE_REGISTER_QUIET, EASY_IP_ADDRESS_CONFIG, EASY_IP_ADDRESS_CONFIG_ANSWER,
    FLASH_AREA_ERASE, FLASH_AREA_LOAD, FLASH_AREA_ANSWER]
  simp only [List.mem_cons, List.mem_singleton, List.not_mem_nil, or_false, forall_eq_or_imp,
    forall_eq, beq_iff_eq, not_or]
  constructor
  · intro h; omega
  · intro h; omega

theorem tvb_get_ntohs_ok_of_le (tvb : Tvb) (off : Nat) (h : off + 2 ≤ tvb.length) :
    ∃ v, tvb_get_ntohs tvb off = .ok v ∧ v < 65536 := by
  have h0 : off < tvb.length := by omega
  have h1 : off + 1 < tvb.length := by omega
  refine ⟨tvb[off].val * 256 + tvb[off + 1].val, ?_, ?_⟩
  · simp [tvb_get_ntohs, List.getElem?_eq_getElem h0, List.getElem?_eq_getElem h1]
  · have := tvb[off].isLt
    have := tvb[off + 1].isLt
    omega

theorem tvb_get_ntohs_ok_imp (tvb : Tvb) (off v : Nat) (h : tvb_get_ntohs tvb off = .ok v) :
    off + 2 ≤ tvb.length ∧ v < 65536 := by
  unfold tvb_get_ntohs at h
  split at h
  · rename_i a b ha hb
    have h1 : off + 1 < tvb.length := (List.getElem?_eq_some_iff.mp hb).1
    simp at h
    have := a.isLt
    have := b.isLt
    omega
  · simp at h


theorem frame_walk_succ (ifuel : Nat) (tvb : Tvb) (pinfo : packet_info) (n : Nat) (s : Loop) :
    frame_walk ifuel tvb pinfo (n + 1) s =
      if s.tcp_data_offset < tvb_captured_length tvb then
        match frame_step ifuel tvb pinfo s with
        | .next s' => frame_walk ifuel tvb pinfo n s'
        | .done o => o
      else .returned (tvb_captured_length tvb) s.st s.out := rfl

theorem frame_walk_of_steps (ifuel : Nat) (tvb : Tvb) (pinfo : packet_info) :
    ∀ (k : Nat) (s s' : Loop), frame_walk_steps ifuel tvb pinfo k s = some s' →
      ∀ m, frame_walk ifuel tvb pinfo (k + m) s = frame_walk ifuel tvb pinfo m s' := by
  intro k
  induction k with
  | zero =>
    intro s s' h m
    simp [frame_walk_steps] at h
    simp [h]
  | succ k ih =>
    intro s s' h m
    unfold frame_walk_steps at h
    split at h
    · rename_i hlt
      split at h
      · rename_i s1 hs1
        rw [show k + 1 + m = (k + m) + 1 by omega, frame_walk_succ, if_pos hlt, hs1]
        exact ih s1 s' h m
      · simp at h
    · simp at h

/-- A frame start with an unknown command code makes the loop body `return 0`. -/
theorem frame_step_unknown_command (fuel : Nat) (tvb : Tvb) (pinfo : packet_info) (s : Loop)
    (cmd : Nat) (hcmd : tvb_get_ntohs tvb s.tcp_data_offset = .ok cmd)
    (hunknown : cmd ∉ knownCommandCodes) :
    frame_step fuel tvb pinfo s = .done (.returned 0 s.st s.out) := by
  unfold frame_step
  simp only [Nat.add_zero, hcmd]
  rw [if_pos ((try_val_to_str_eq_none_iff cmd).mpr hunknown)]

/-- With at least 8 bytes remaining, a declared payload length that overruns them makes
the loop body `return 0`. -/
theorem frame_step_overrun (fuel : Nat) (tvb : Tvb) (pinfo : packet_info) (s : Loop)
    (N : Nat) (hrem : s.tcp_data_offset + 8 ≤ tvb.length)
    (hN : tvb_get_ntohs tvb (s.tcp_data_offset + 4) = .ok N)
    (hover : 6 + N + 2 > tvb.length - s.tcp_data_offset) :
    frame_step fuel tvb pinfo s = .done (.returned 0 s.st s.out) := by
  obtain ⟨t, ht, _⟩ := tvb_get_ntohs_ok_of_le tvb s.tcp_data_offset (by omega)
  obtain ⟨i, hi, _⟩ := tvb_get_ntohs_ok_of_le tvb (s.tcp_data_offset + 2) (by omega)
  have hN' := (tvb_get_ntohs_ok_imp tvb _ N hN).2
  unfold frame_step
  simp only [Nat.add_zero, ht, hi, hN]
  split
  · rfl
  · have hgt : N > u32_sub (u32_sub (tvb_captured_length tvb) s.tcp_data_offset) 8 := by
      unfold u32_sub tvb_captured_length
      omega
    rw [if_pos hgt]

theorem frame_rest_next (fuel : Nat) (tvb : Tvb) (s : Loop) (st : State)
    (isRequest : Bool) (header_type header_id header_data_length : Nat)
    (pRequestVal : Option FCOSConvRequestVal) (s' : Loop)
    (h : frame_rest fuel tvb s st isRequest header_type header_id header_data_length
      pRequestVal = .next s') :
    s.tcp_data_offset + header_data_length + 6 + 2 ≤ tvb.length := by
  unfold frame_rest at h
  split at h
  · simp at h
  · simp at h
  · split at h
    · simp at h
    · simp at h
    · rename_i rx hrx
      exact (tvb_get_ntohs_ok_imp tvb _ rx hrx).1

/-- A frame whose loop body runs to its end had its declared length inside the buffer. -/
theorem frame_step_next_fits (fuel : Nat) (tvb : Tvb) (pinfo : packet_info) (s s' : Loop)
    (N : Nat) (hN : tvb_get_ntohs tvb (s.tcp_data_offset + 4) = .ok N)
    (h : frame_step fuel tvb pinfo s = .next s') :
    s.tcp_data_offset + N + 6 + 2 ≤ tvb.length := by
  unfold frame_step at h
  simp only [hN] at h
  repeat' (first | (simp at h; done) | split at h)
  all_goals exact frame_rest_next _ _ _ _ _ _ _ _ _ _ h

theorem dissect_of_steps (fuel k : Nat) (tvb : Tvb) (pinfo : packet_info) (st : State)
    (s : Loop) (hreach : frame_walk_steps fuel tvb pinfo k (loop_start st) = some s)
    (hfuel : k < fuel) (hlen : 8 ≤ tvb.length) :
    dissect_FiveCoLegacy fuel tvb pinfo st = frame_walk fuel tvb pinfo (fuel - k) s := by
  unfold dissect_FiveCoLegacy
  have h' : ¬ tvb_captured_length tvb < FIVECO_LEGACY_MIN_LENGTH := by
    simp [tvb_captured_length, FIVECO_LEGACY_MIN_LENGTH, FIVECO_LEGACY_HEADER_LENGTH]; omega
  rw [if_neg h']
  have := frame_walk_of_steps fuel tvb pinfo k (loop_start st) s hreach (fuel - k)
  rw [show k + (fuel - k) = fuel by omega] at this
  exact this

theorem dissect_rejects_at (fuel k : Nat) (tvb : Tvb) (pinfo : packet_info) (st : State)
    (s : Loop) (hreach : frame_walk_steps fuel tvb pinfo k (loop_start st) = some s)
    (hfuel : k < fuel) (hrem : s.tcp_data_offset + 8 ≤ tvb.length)
    (hstep : frame_step fuel tvb pinfo s = .done (.returned 0 s.st s.out)) :
    dissect_FiveCoLegacy fuel tvb pinfo st = .returned 0 s.st s.out := by
  rw [dissect_of_steps fuel k tvb pinfo st s hreach hfuel (by omega)]
  obtain ⟨m, hm⟩ : ∃ m, fuel - k = m + 1 := ⟨fuel - k - 1, by omega⟩
  rw [hm, frame_walk_succ]
  have hlt : s.tcp_data_offset < tvb_captured_length tvb := by
    unfold tvb_captured_length; omega
  rw [if_pos hlt, hstep]

/-- C5. For every delivery, if the frame walk reaches a frame start with at least 8
bytes remaining whose 16-bit big-endian command code is not one of the 19 known command
codes, `dissect_FiveCoLegacy` returns 0. Here `s` is the loop state at that frame start,
reached after `k` completed frames, and the budget `fuel` lets the walk get there. -/
theorem C5_unknown_command_rejected (fuel k : Nat) (tvb : Tvb) (pinfo : packet_info)
    (st : State) (s : Loop) (cmd : Nat)
    (hreach : frame_walk_steps fuel tvb pinfo k (loop_start st) = some s)
    (hfuel : k < fuel)
    (hrem : s.tcp_data_offset + 8 ≤ tvb.length)
    (hcmd : tvb_get_ntohs tvb s.tcp_data_offset = .ok cmd)
    (hunknown : cmd ∉ knownCommandCodes) :
    dissect_FiveCoLegacy fuel tvb pinfo st = .returned 0 s.st s.out :=
  dissect_rejects_at fuel k tvb pinfo st s hreach hfuel hrem
    (frame_step_unknown_command fuel tvb pinfo s cmd hcmd hunknown)

/-- C6. For every delivery, if the frame walk reaches a frame start with at least 8
bytes remaining whose declared payload length `N` satisfies `6 + N + 2 > bytes
remaining`, `dissect_FiveCoLegacy` returns 0; conversely every frame whose loop body runs
to its end (the frame is decoded) satisfies `6 + N + 2 ≤ bytes remaining` at its start. -/
theorem C6_length_overrun_rejected (fuel k : Nat) (tvb : Tvb) (pinfo : packet_info)
    (st : State) (s : Loop) (N : Nat)
    (hreach : frame_walk_steps fuel tvb pinfo k (loop_start st) = some s)
    (hfuel : k < fuel)
    (hN : tvb_get_ntohs tvb (s.tcp_data_offset + 4) = .ok N) :
    (s.tcp_data_offset + 8 ≤ tvb.length → 6 + N + 2 > tvb.length - s.tcp_data_offset →
        dissect_FiveCoLegacy fuel tvb pinfo st = .returned 0 s.st s.out)
      ∧ (∀ s', frame_step fuel tvb pinfo s = .next s' →
        6 + N + 2 ≤ tvb.length - s.tcp_data_offset) := by
  constructor
  · intro hrem hover
    exact dissect_rejects_at fuel k tvb pinfo st s hreach hfuel hrem
      (frame_step_overrun fuel tvb pinfo s N hrem hN hover)
  · intro s' hs'
    have := frame_step_next_fits fuel tvb pinfo s s' N hN hs'
    omega


/-- Witness of C5: a valid minimal frame followed by 8 bytes whose command code is
`0x0000`; the walk reaches offset 8 after one frame and the call returns 0. -/
theorem C5_unknown_command_rejected_witness :
    dissect_FiveCoLegacy 5 [0, 0x31, 0, 7, 0, 0, 0xFF, 0xC7, 0, 0, 0, 0, 0, 0, 0, 0]
        ⟨1, false, 7⟩ ⟨0, [], []⟩
      = .returned 0 ⟨0, [], [(1, 0)]⟩
          [.col_protocol, .col_clear, .col_frame false 49 7 0,
           .add_item ⟨.proto_FiveCoLegacy, 0, 8⟩,
           .append_text ⟨.proto_FiveCoLegacy, 0, 8⟩ (.type_name 49),
           .add_item ⟨.hf_fiveco_header, 0, 6⟩, .add_item ⟨.hf_fiveco_fct, 0, 2⟩,
           .add_item ⟨.hf_fiveco_id, 2, 2⟩, .add_item ⟨.hf_fiveco_length, 4, 2⟩,
           .add_checksum 6 65479 65479] :=
  C5_unknown_command_rejected 5 1 [0, 0x31, 0, 7, 0, 0, 0xFF, 0xC7, 0, 0, 0, 0, 0, 0, 0, 0]
    ⟨1, false, 7⟩ ⟨0, [], []⟩
    ⟨8, false, ⟨0, [], [(1, 0)]⟩,
      [.col_protocol, .col_clear, .col_frame false 49 7 0,
       .add_item ⟨.proto_FiveCoLegacy, 0, 8⟩,
       .append_text ⟨.proto_FiveCoLegacy, 0, 8⟩ (.type_name 49),
       .add_item ⟨.hf_fiveco_header, 0, 6⟩, .add_item ⟨.hf_fiveco_fct, 0, 2⟩,
       .add_item ⟨.hf_fiveco_id, 2, 2⟩, .add_item ⟨.hf_fiveco_length, 4, 2⟩,
       .add_checksum 6 65479 65479]⟩
    0 (by decide) (by decide) (by decide) (by decide) (by decide)


/-- Witness of C6: a valid minimal frame followed by 8 bytes that declare a 5-byte
payload; the walk reaches offset 8 after one frame, `6 + 5 + 2 > 8`, the call returns 0. -/
theorem C6_length_overrun_rejected_witness :
    dissect_FiveCoLegacy 5 [0, 0x31, 0, 7, 0, 0, 0xFF, 0xC7, 0, 0x31, 0, 0, 0, 5, 0, 0]
        ⟨1, false, 7⟩ ⟨0, [], []⟩
      = .returned 0 ⟨0, [], [(1, 0)]⟩
          [.col_protocol, .col_clear, .col_frame false 49 7 0,
           .add_item ⟨.proto_FiveCoLegacy, 0, 8⟩,
           .append_text ⟨.proto_FiveCoLegacy, 0, 8⟩ (.type_name 49),
           .add_item ⟨.hf_fiveco_header, 0, 6⟩, .add_item ⟨.hf_fiveco_fct, 0, 2⟩,
           .add_item ⟨.hf_fiveco_id, 2, 2⟩, .add_item ⟨.hf_fiveco_length, 4, 2⟩,
           .add_checksum 6 65479 65479] :=
  (C6_length_overrun_rejected 5 1
    [0, 0x31, 0, 7, 0, 0, 0xFF, 0xC7, 0, 0x31, 0, 0, 0, 5, 0, 0]
    ⟨1, false, 7⟩ ⟨0, [], []⟩
    ⟨8, false, ⟨0, [], [(1, 0)]⟩,
      [.col_protocol, .col_clear, .col_frame false 49 7 0,
       .add_item ⟨.proto_FiveCoLegacy, 0, 8⟩,
       .append_text ⟨.proto_FiveCoLegacy, 0, 8⟩ (.type_name 49),
       .add_item ⟨.hf_fiveco_header, 0, 6⟩, .add_item ⟨.hf_fiveco_fct, 0, 2⟩,
       .add_item ⟨.hf_fiveco_id, 2, 2⟩, .add_item ⟨.hf_fiveco_length, 4, 2⟩,
       .add_checksum 6 65479 65479]⟩
    5 (by decide) (by decide) (by decide)).1 (by decide) (by decide)

/-! ### Rejection after valid frames (C7) -/

theorem frame_walk_returned_zero (ifuel : Nat) (tvb : Tvb) (pinfo : packet_info)
    (st' : State) (out : List Event) (hlen : tvb.length ≠ 0) :
    ∀ (n : Nat) (s : Loop), frame_walk ifuel tvb pinfo n s = .returned 0 st' out →
      ∃ k s2, frame_walk_steps ifuel tvb pinfo k s = some s2 ∧
        frame_step ifuel tvb pinfo s2 = .done (.returned 0 s2.st s2.out) ∧
        st' = s2.st ∧ out = s2.out := by
  intro n
  induction n with
  | zero =>
    intro s h
    unfold frame_walk at h
    split at h
    · simp at h
    · simp only [tvb_captured_length, Outcome.returned.injEq] at h
      exact absurd h.1 hlen
  | succ n ih =>
    intro s h
    rw [frame_walk_succ] at h
    split at h
    · rename_i hlt
      split at h
      · rename_i s1 hs1
        obtain ⟨k, s2, hk, hstep, h1, h2⟩ := ih s1 h
        refine ⟨k + 1, s2, ?_, hstep, h1, h2⟩
        unfold frame_walk_steps
        rw [if_pos hlt, hs1]
        exact hk
      · rename_i o ho
        subst h
        obtain ⟨_, h2, h3⟩ := frame_step_returned ifuel tvb pinfo s 0 st' out ho
        refine ⟨0, s, rfl, ?_, h2, h3⟩
        rw [ho, h2, h3]
    · simp only [tvb_captured_length, Outcome.returned.injEq] at h
      exact absurd h.1 hlen

/-- C7, as amended. Whenever `dissect_FiveCoLegacy` returns 0, either the delivery is
shorter than 8 bytes and nothing was done, or the `return 0` happens at the start of a
frame reached after `k` completed frames, and the state and the calls made are exactly
those the `k` frames before it left: the rejected frame itself changes nothing. When the
violation is in the first frame (`k = 0`) zero frames are decoded and the correlator
state is the one before the call; when it follows valid frames, those frames stay decoded
and their correlator updates stay. -/
theorem C7_rejection_keeps_completed_frames (fuel : Nat) (tvb : Tvb) (pinfo : packet_info)
    (st st' : State) (out : List Event)
    (h : dissect_FiveCoLegacy fuel tvb pinfo st = .returned 0 st' out) :
    (tvb.length < 8 ∧ st' = st ∧ out = []) ∨
    (∃ k s, frame_walk_steps fuel tvb pinfo k (loop_start st) = some s ∧
      frame_step fuel tvb pinfo s = .done (.returned 0 s.st s.out) ∧
      st' = s.st ∧ out = s.out ∧
      (k = 0 → st' = st ∧ frame_summaries out = [] ∧ frame_items out = [])) := by
  unfold dissect_FiveCoLegacy at h
  split at h
  · rename_i hshort
    left
    simp only [Outcome.returned.injEq, true_and] at h
    refine ⟨?_, h.1.symm, h.2.symm⟩
    simpa [tvb_captured_length, FIVECO_LEGACY_MIN_LENGTH, FIVECO_LEGACY_HEADER_LENGTH]
      using hshort
  · rename_i hlong
    right
    have hlen : tvb.length ≠ 0 := by
      simp [tvb_captured_length, FIVECO_LEGACY_MIN_LENGTH, FIVECO_LEGACY_HEADER_LENGTH]
        at hlong
      omega
    obtain ⟨k, s, hk, hstep, h1, h2⟩ :=
      frame_walk_returned_zero fuel tvb pinfo st' out hlen fuel _ h
    refine ⟨k, s, hk, hstep, h1, h2, ?_⟩
    intro hk0
    subst hk0
    simp [frame_walk_steps] at hk
    subst hk
    subst h1
    subst h2
    simp [loop_start, frame_summaries, frame_items]

/-- Counterexample to C7 as stated: an `I2C_SCAN` frame followed by 8 bytes with the
unknown command `0x0000`. The call returns 0, yet the first frame is in the summary and
in the tree, the counter went from 0 to 1, the packet has a cached id and the table
holds a pending-request record. -/
theorem C7_counterexample :
    (dissect_FiveCoLegacy 5 [0, 0x05, 0, 7, 0, 0, 0xFF, 0xC7, 0, 0, 0, 0, 0, 0, 0, 0]
        ⟨1, false, 7⟩ ⟨0, [], []⟩).value? = some 0
    ∧ (dissect_FiveCoLegacy 5 [0, 0x05, 0, 7, 0, 0, 0xFF, 0xC7, 0, 0, 0, 0, 0, 0, 0, 0]
        ⟨1, false, 7⟩ ⟨0, [], []⟩).state
      = ⟨1, [(⟨7, 1, I2C_SCAN_ANSWER⟩, ⟨0, 0, []⟩)], [(1, 1)]⟩
    ∧ frame_summaries (dissect_FiveCoLegacy 5
        [0, 0x05, 0, 7, 0, 0, 0xFF, 0xC7, 0, 0, 0, 0, 0, 0, 0, 0]
        ⟨1, false, 7⟩ ⟨0, [], []⟩).trace = [(I2C_SCAN, 7, 0)]
    ∧ frame_items (dissect_FiveCoLegacy 5
        [0, 0x05, 0, 7, 0, 0, 0xFF, 0xC7, 0, 0, 0, 0, 0, 0, 0, 0]
        ⟨1, false, 7⟩ ⟨0, [], []⟩).trace = [(0, 8)] := by
  decide

/-- Witness of C7 as amended, on the delivery of the counterexample: the `return 0`
happens after one completed frame. -/
theorem C7_rejection_keeps_completed_frames_witness :
    ((16 : Nat) < 8 ∧ (⟨1, [(⟨7, 1, 6⟩, ⟨0, 0, []⟩)], [(1, 1)]⟩ : State) = ⟨0, [], []⟩) ∨
    (∃ k s, frame_walk_steps 5 [0, 0x05, 0, 7, 0, 0, 0xFF, 0xC7, 0, 0, 0, 0, 0, 0, 0, 0]
        ⟨1, false, 7⟩ k (loop_start ⟨0, [], []⟩) = some s ∧
      s.st = ⟨1, [(⟨7, 1, 6⟩, ⟨0, 0, []⟩)], [(1, 1)]⟩ ∧ frame_items s.out = [(0, 8)]) := by
  have h := C7_rejection_keeps_completed_frames 5
    [0, 0x05, 0, 7, 0, 0, 0xFF, 0xC7, 0, 0, 0, 0, 0, 0, 0, 0] ⟨1, false, 7⟩ ⟨0, [], []⟩
    ⟨1, [(⟨7, 1, 6⟩, ⟨0, 0, []⟩)], [(1, 1)]⟩
    [.col_protocol, .col_clear, .col_frame false 5 7 0, .col_bad_checksum,
     .add_item ⟨.proto_FiveCoLegacy, 0, 8⟩,
     .append_text ⟨.proto_FiveCoLegacy, 0, 8⟩ (.type_name 5),
     .add_item ⟨.hf_fiveco_header, 0, 6⟩, .add_item ⟨.hf_fiveco_fct, 0, 2⟩,
     .add_item ⟨.hf_fiveco_id, 2, 2⟩, .add_item ⟨.hf_fiveco_length, 4, 2⟩,
     .add_checksum 6 65523 65479] (by decide)
  rcases h with ⟨h1, h2, _⟩ | ⟨k, s, hk, _, h1, h2, _⟩
  · exact Or.inl ⟨h1, h2⟩
  · refine Or.inr ⟨k, s, hk, h1.symm, ?_⟩
    rw [← h2]
    decide

/-! ### Fewer than 8 bytes after a valid frame (C8) -/

/-- C8, the code at the failing inputs. (1) A valid `I2C_SCAN` frame followed by 7 bytes
`00 21 00 00 00 00 00`: the length test `header_data_length > tcp_data_length -
tcp_data_offset - 8` is computed in unsigned arithmetic, `15 - 8 - 8` wraps, the test
passes, a pending-request record is inserted for the incomplete frame (the table had one
record after the first frame alone), and the read of the trailer raises the bounds
exception: the call does not return 0. (2) The same frame followed by one byte: the read
of the command code raises the bounds exception. -/
theorem C8_incomplete_frame_raises :
    (dissect_FiveCoLegacy 5 [0, 0x05, 0, 7, 0, 0, 0xFF, 0xC7, 0, 0x21, 0, 0, 0, 0, 0]
        ⟨1, false, 7⟩ ⟨0, [], []⟩).raised = true
    ∧ (dissect_FiveCoLegacy 5 [0, 0x05, 0, 7, 0, 0, 0xFF, 0xC7, 0, 0x21, 0, 0, 0, 0, 0]
        ⟨1, false, 7⟩ ⟨0, [], []⟩).state
      = ⟨1, [(⟨7, 1, I2C_SCAN_ANSWER⟩, ⟨0, 0, []⟩), (⟨7, 1, READ_REGISTER_ANSWER⟩, ⟨0, 0, []⟩)],
          [(1, 1)]⟩
    ∧ (dissect_FiveCoLegacy 5 [0, 0x05, 0, 7, 0, 0, 0xFF, 0xC7] ⟨1, false, 7⟩ ⟨0, [], []⟩).state
      = ⟨1, [(⟨7, 1, I2C_SCAN_ANSWER⟩, ⟨0, 0, []⟩)], [(1, 1)]⟩
    ∧ u32_sub (u32_sub 15 8) 8 = 4294967295
    ∧ (dissect_FiveCoLegacy 5 [0, 0x05, 0, 7, 0, 0, 0xFF, 0xC7, 0]
        ⟨1, false, 7⟩ ⟨0, [], []⟩).raised = true := by
  decide

/-! ### The checksum verdict (C2) -/

theorem checksum_loop_succ (tvb : Tvb) (start n i S hi : Nat) :
    checksum_loop tvb start (n + 1) i S hi =
      match tvb_get_guint8 tvb (start + i) with
      | .ok temp =>
        if hi ≠ 0 then
          checksum_loop tvb start n (i + 1) ((S + ((temp <<< 8) ^^^ 0xFF00)) % 4294967296) 0
        else
          checksum_loop tvb start n (i + 1) ((S + (temp ^^^ 0x00FF)) % 4294967296) 1
      | .exn => .exn
      | .fuel => .fuel := rfl

theorem checksum_loop_add (tvb : Tvb) (start : Nat) :
    ∀ (m n i S hi : Nat), checksum_loop tvb start (m + n) i S hi =
      match checksum_loop tvb start m i S hi with
      | .ok (S', hi') => checksum_loop tvb start n (i + m) S' hi'
      | .exn => .exn
      | .fuel => .fuel := by
  intro m
  induction m with
  | zero => intro n i S hi; simp [checksum_loop]
  | succ m ih =>
    intro n i S hi
    rw [show m + 1 + n = (m + n) + 1 by omega, checksum_loop_succ, checksum_loop_succ]
    split
    · split
      · rw [ih, show i + 1 + m = i + (m + 1) by omega]
      · rw [ih, show i + 1 + m = i + (m + 1) by omega]
    · rfl
    · rfl

/-- The accumulation loop depends only on the bytes it reads. -/
theorem checksum_loop_congr (t1 t2 : Tvb) (s1 s2 : Nat) :
    ∀ (n i S hi : Nat), (∀ j, j < n → t1[s1 + (i + j)]? = t2[s2 + (i + j)]?) →
      checksum_loop t1 s1 n i S hi = checksum_loop t2 s2 n i S hi := by
  intro n
  induction n with
  | zero => intro i S hi _; simp [checksum_loop]
  | succ n ih =>
    intro i S hi h
    have h0 := h 0 (by omega)
    rw [Nat.add_zero] at h0
    have hrest : ∀ j, j < n → t1[s1 + (i + 1 + j)]? = t2[s2 + (i + 1 + j)]? := by
      intro j hj
      have := h (j + 1) (by omega)
      rw [show i + 1 + j = i + (j + 1) by omega]
      exact this
    rw [checksum_loop_succ, checksum_loop_succ]
    have hg : tvb_get_guint8 t1 (s1 + i) = tvb_get_guint8 t2 (s2 + i) := by
      simp only [tvb_get_guint8, h0]
    rw [hg]
    cases tvb_get_guint8 t2 (s2 + i) with
    | ok temp =>
      simp only
      split
      · exact ih _ _ _ hrest
      · exact ih _ _ _ hrest
    | exn => rfl
    | fuel => rfl

/-- A run of `0xFF` bytes adds nothing to the accumulator. -/
theorem checksum_loop_ff (tvb : Tvb) (start : Nat) :
    ∀ (n i S hi : Nat), S < 4294967296 → hi ≤ 1 →
      (∀ j, j < n → tvb[start + (i + j)]? = some (0xFF : Byte)) →
      checksum_loop tvb start n i S hi = .ok (S, if n % 2 = 0 then hi else 1 - hi) := by
  intro n
  induction n with
  | zero => intro i S hi _ _ _; simp [checksum_loop]
  | succ n ih =>
    intro i S hi hS hhi hff
    have h0 := hff 0 (by omega)
    rw [Nat.add_zero] at h0
    have hrest : ∀ j, j < n → tvb[start + (i + 1 + j)]? = some (0xFF : Byte) := by
      intro j hj
      have := hff (j + 1) (by omega)
      rw [show i + 1 + j = i + (j + 1) by omega]
      exact this
    rw [checksum_loop_succ]
    have hg : tvb_get_guint8 tvb (start + i) = .ok 255 := by
      simp only [tvb_get_guint8, h0]; rfl
    rw [hg]
    simp only
    have e1 : (((255 : Nat) <<< 8) ^^^ 0xFF00) = 0 := by decide
    have e2 : ((255 : Nat) ^^^ 0x00FF) = 0 := by decide
    have e3 : (S + 0) % 4294967296 = S := by rw [Nat.add_zero, Nat.mod_eq_of_lt hS]
    rw [e1, e2, e3]
    split
    · rw [ih (i + 1) S 0 hS (by omega) hrest]
      congr 2
      split <;> split <;> omega
    · rw [ih (i + 1) S 1 hS (by omega) hrest]
      congr 2
      split <;> split <;> omega

theorem delivery_ff_length (n : Nat) : (delivery_ff n).length = n + 8 := by
  simp [delivery_ff]

theorem delivery_ff_payload (n j : Nat) (hj : j < n) :
    (delivery_ff n)[6 + j]? = some (0xFF : Byte) := by
  unfold delivery_ff
  rw [List.getElem?_append_right (by simp)]
  simp only [List.length_cons, List.length_nil, Nat.zero_add, Nat.reduceAdd,
    Nat.add_sub_cancel_left]
  rw [List.getElem?_append_left (by simpa using hj)]
  simp [List.getElem?_replicate, hj]

theorem delivery_ff_trailer (n : Nat) :
    tvb_get_ntohs (delivery_ff n) (n + 6) = .ok 0xFFD3 := by
  have h0 : (delivery_ff n)[n + 6]? = some (0xFF : Byte) := by
    unfold delivery_ff
    rw [List.getElem?_append_right (by simp)]
    rw [List.getElem?_append_right (by simp)]
    simp
  have h1 : (delivery_ff n)[n + 6 + 1]? = some (0xD3 : Byte) := by
    unfold delivery_ff
    rw [List.getElem?_append_right (by simp)]
    rw [List.getElem?_append_right (by simp)]
    simp only [List.length_cons, List.length_nil, List.length_replicate, Nat.zero_add,
      Nat.reduceAdd]
    rw [show n + 6 + 1 - 6 - n = 1 by omega]
    rfl
  unfold tvb_get_ntohs
  rw [h0, h1]
  rfl

/-- The protocol checksum over the `6 + n` header and payload bytes of `delivery_ff n` is
`0xFFD3`, the value of its trailer. -/
theorem delivery_ff_checksum (n : Nat) (hn : n % 2 = 0) :
    checksum_fiveco (delivery_ff n) 0 (6 + n) = .ok 0xFFD3 := by
  unfold checksum_fiveco
  rw [checksum_loop_add]
  have h6 : checksum_loop (delivery_ff n) 0 6 0 0 1 = .ok (0x1FFD2, 1) := by
    rw [checksum_loop_congr (delivery_ff n) [0x00, 0x31, 0x00, 0x00, 0xFF, 0xFA] 0 0 6 0 0 1
      (by
        intro j hj
        unfold delivery_ff
        rw [List.getElem?_append_left (by simpa using hj)])]
    decide
  rw [h6]
  simp only
  rw [checksum_loop_ff (delivery_ff n) 0 n (0 + 6) 0x1FFD2 1 (by norm_num) (by norm_num)
    (by
      intro j hj
      rw [show 0 + (0 + 6 + j) = 6 + j by omega]
      exact delivery_ff_payload n j hj)]
  rw [if_pos hn]
  decide


theorem W_bind_eq {α β : Type} (x : W α) (f : α → W β) : (x >>= f) = W.bind x f := rfl

theorem W_pure_eq {α : Type} (a : α) : (pure a : W α) = ⟨[], .ok a⟩ := rfl

theorem delivery_ff_header (n : Nat) :
    tvb_get_ntohs (delivery_ff n) 0 = .ok 0x31 ∧ tvb_get_ntohs (delivery_ff n) 2 = .ok 0 ∧
      tvb_get_ntohs (delivery_ff n) 4 = .ok 65530 := by
  refine ⟨?_, ?_, ?_⟩ <;>
  · unfold tvb_get_ntohs delivery_ff
    rw [List.getElem?_append_left (by simp), List.getElem?_append_left (by simp)]
    rfl

theorem delivery_ff_tree (n : Nat) (hn : n = 65530) :
    frame_tree 5 (delivery_ff n) 0 0x31 65530 none 0 =
      ⟨[.add_item ⟨.proto_FiveCoLegacy, 0, 65538⟩,
        .append_text ⟨.proto_FiveCoLegacy, 0, 65538⟩ (.type_name 0x31),
        .add_item ⟨.hf_fiveco_header, 0, 6⟩, .add_item ⟨.hf_fiveco_fct, 0, 2⟩,
        .add_item ⟨.hf_fiveco_id, 2, 2⟩, .add_item ⟨.hf_fiveco_length, 4, 2⟩,
        .add_item ⟨.hf_fiveco_data, 6, 65530⟩,
        .append_text ⟨.hf_fiveco_data, 6, 65530⟩ .no_data_expected,
        .add_checksum 65536 0 0xFFD3], .ok ()⟩ := by
  have hlen := delivery_ff_length n
  have htr := delivery_ff_trailer n
  have e : n + 6 = 65536 := by omega
  rw [e] at htr
  have e8 : n + 8 = 65538 := by omega
  rw [e8] at hlen
  simp [frame_tree, payload_tree, W_bind_eq, W_pure_eq, W.bind, proto_tree_add_item,
    proto_item_append_text,
    proto_tree_add_checksum, hlen, htr, decode_payload, I2C_READ, I2C_WRITE, I2C_READ_ANSWER,
    I2C_WRITE_ANSWER, I2C_SCAN,
    I2C_SCAN_ANSWER, I2C_READ_WRITE_ACK, I2C_READ_WRITE_ACK_ANSWER, I2C_READ_WRITE_ACK_ERROR,
    READ_REGISTER, WRITE_REGISTER, READ_REGISTER_ANSWER, WRITE_REGISTER_ANSWER,
    WRITE_REGISTER_QUIET, EASY_IP_ADDRESS_CONFIG, EASY_IP_ADDRESS_CONFIG_ANSWER,
    FLASH_AREA_ERASE, FLASH_AREA_LOAD, FLASH_AREA_ANSWER]


theorem delivery_ff_step (n : Nat) (hn : n = 65530) :
    frame_step 5 (delivery_ff n) ⟨1, false, 7⟩ (loop_start ⟨0, [], []⟩) =
      .next ⟨2, false, ⟨0, [], [(1, 0)]⟩,
        [.col_protocol, .col_clear, .col_frame false 0x31 0 65530, .col_bad_checksum,
         .add_item ⟨.proto_FiveCoLegacy, 0, 65538⟩,
         .append_text ⟨.proto_FiveCoLegacy, 0, 65538⟩ (.type_name 0x31),
         .add_item ⟨.hf_fiveco_header, 0, 6⟩, .add_item ⟨.hf_fiveco_fct, 0, 2⟩,
         .add_item ⟨.hf_fiveco_id, 2, 2⟩, .add_item ⟨.hf_fiveco_length, 4, 2⟩,
         .add_item ⟨.hf_fiveco_data, 6, 65530⟩,
         .append_text ⟨.hf_fiveco_data, 6, 65530⟩ .no_data_expected,
         .add_checksum 65536 0 0xFFD3]⟩ := by
  obtain ⟨h0, h2, h4⟩ := delivery_ff_header n
  have hlen : tvb_captured_length (delivery_ff n) = 65538 := by
    rw [tvb_captured_length, delivery_ff_length]; omega
  have htr : tvb_get_ntohs (delivery_ff n) (0 + 65530 + 6) = .ok 0xFFD3 := by
    have := delivery_ff_trailer n
    rw [show n + 6 = 0 + 65530 + 6 by omega] at this
    exact this
  have hty : ¬ (try_val_to_str 0x31 packettypenames = none) := by decide
  have hck : checksum_fiveco (delivery_ff n) 0 ((65530 + 6) % 65536) = .ok 0 := rfl
  have hgt : ¬ (65530 > u32_sub (u32_sub 65538 0) 8) := by decide
  have hid : assign_internal_id ⟨1, false, 7⟩ ⟨0, [], []⟩ false 0x31
      = (⟨0, [], [(1, 0)]⟩, false, 0) := by decide
  unfold frame_step
  simp only [loop_start, Nat.zero_add, h0, h2, h4, hlen, if_neg hty, if_neg hgt, hid]
  have hl : g_hash_table_lookup ([] : RequestsHash) ⟨7, 0, 0x31⟩ = none := rfl
  simp only [hl, Bool.and_false, Bool.false_eq_true, if_false]
  unfold frame_rest
  simp only [hck, htr, delivery_ff_tree n hn]
  rfl

theorem delivery_ff_dissect (n : Nat) (hn : n = 65530) :
    dissect_FiveCoLegacy 5 (delivery_ff n) ⟨1, false, 7⟩ ⟨0, [], []⟩ =
      .returned 0 ⟨0, [], [(1, 0)]⟩
        [.col_protocol, .col_clear, .col_frame false 0x31 0 65530, .col_bad_checksum,
         .add_item ⟨.proto_FiveCoLegacy, 0, 65538⟩,
         .append_text ⟨.proto_FiveCoLegacy, 0, 65538⟩ (.type_name 0x31),
         .add_item ⟨.hf_fiveco_header, 0, 6⟩, .add_item ⟨.hf_fiveco_fct, 0, 2⟩,
         .add_item ⟨.hf_fiveco_id, 2, 2⟩, .add_item ⟨.hf_fiveco_length, 4, 2⟩,
         .add_item ⟨.hf_fiveco_data, 6, 65530⟩,
         .append_text ⟨.hf_fiveco_data, 6, 65530⟩ .no_data_expected,
         .add_checksum 65536 0 0xFFD3] := by
  have hlen : tvb_captured_length (delivery_ff n) = 65538 := by
    rw [tvb_captured_length, delivery_ff_length]; omega
  obtain ⟨_, h2, _⟩ := delivery_ff_header n
  have hstep := delivery_ff_step n hn
  unfold dissect_FiveCoLegacy
  have hlong : ¬ tvb_captured_length (delivery_ff n) < FIVECO_LEGACY_MIN_LENGTH := by
    rw [hlen]; decide
  rw [if_neg hlong, frame_walk_succ]
  have hlt : (0 : Nat) < tvb_captured_length (delivery_ff n) := by
    rw [hlen]; decide
  have hstep' : frame_step 5 (delivery_ff n) ⟨1, false, 7⟩
      { tcp_data_offset := 0, isRequest := false, st := ⟨0, [], []⟩,
        out := [.col_protocol, .col_clear] } = _ := hstep
  rw [if_pos hlt, hstep']
  simp only
  rw [frame_walk_succ]
  have hlt2 : (2 : Nat) < tvb_captured_length (delivery_ff n) := by
    rw [hlen]; decide
  rw [if_pos hlt2]
  rw [frame_step_unknown_command 5 (delivery_ff n) ⟨1, false, 7⟩
    ⟨2, false, ⟨0, [], [(1, 0)]⟩,
        [.col_protocol, .col_clear, .col_frame false 0x31 0 65530, .col_bad_checksum,
         .add_item ⟨.proto_FiveCoLegacy, 0, 65538⟩,
         .append_text ⟨.proto_FiveCoLegacy, 0, 65538⟩ (.type_name 0x31),
         .add_item ⟨.hf_fiveco_header, 0, 6⟩, .add_item ⟨.hf_fiveco_fct, 0, 2⟩,
         .add_item ⟨.hf_fiveco_id, 2, 2⟩, .add_item ⟨.hf_fiveco_length, 4, 2⟩,
         .add_item ⟨.hf_fiveco_data, 6, 65530⟩,
         .append_text ⟨.hf_fiveco_data, 6, 65530⟩ .no_data_expected,
         .add_checksum 65536 0 0xFFD3]⟩ 0 h2 (by decide)]

/-- C2, the code at the failing input: a delivery of 65538 bytes holding one frame with
payload length `N = 65530` whose trailer `0xFFD3` equals the protocol checksum of its
`6 + N = 65536` header and payload bytes. The size argument of `checksum_fiveco` is a
`guint16`, `(65530 + 6) mod 65536 = 0`, so the checksum is computed over no byte at all
(value 0) and the frame's summary carries the bad-checksum flag although trailer and
checksum agree. -/
theorem C2_flag_with_matching_trailer :
    checksum_fiveco (delivery_ff 65530) 0 (6 + 65530) = .ok 0xFFD3
    ∧ tvb_get_ntohs (delivery_ff 65530) (65530 + 6) = .ok 0xFFD3
    ∧ frame_summaries
        (dissect_FiveCoLegacy 5 (delivery_ff 65530) ⟨1, false, 7⟩ ⟨0, [], []⟩).trace
        = [(FLASH_AREA_ERASE, 0, 65530)]
    ∧ Event.col_bad_checksum ∈
        (dissect_FiveCoLegacy 5 (delivery_ff 65530) ⟨1, false, 7⟩ ⟨0, [], []⟩).trace := by
  refine ⟨delivery_ff_checksum 65530 (by norm_num), delivery_ff_trailer 65530, ?_, ?_⟩
  · rw [delivery_ff_dissect 65530 rfl]
    rfl
  · rw [delivery_ff_dissect 65530 rfl]
    simp [Outcome.trace]

/-! ## Deliveries made of whole frames (C9, C10, C3) -/

/-- The checksum of a whole byte sequence of at most 65535 bytes is the spec's double
fold (the statement of C1, for use in other proofs). -/
theorem checksum_fiveco_whole (b : List Byte) (hn : b.length ≤ 65535) :
    checksum_fiveco b 0 b.length = .ok (fold16 (fold16 (specSum b))) := by
  have hloop := checksum_loop_acc b hn b.length 0 (by omega)
  simp only [List.take_zero, Nat.zero_add, List.take_length] at hloop
  have h0 : accSum ([] : List Byte) = 0 := by simp [accSum]
  rw [h0] at hloop
  have hle := accSum_le b
  unfold checksum_fiveco
  simp only [if_true] at hloop
  rw [hloop]
  simp only
  rw [specSum_eq]
  by_cases hpar : b.length % 2 = 0
  · have hpar1 : ¬ (b.length % 2 = 1) := by omega
    have hS : accSum b < 4294967296 := by omega
    rw [if_pos hpar, if_neg hpar1, if_neg one_ne_zero, Nat.add_zero]
    rw [fold_line_eq _ hS, fold_line_eq _ (by have := fold16_lt _ hS; omega),
      Nat.mod_eq_of_lt (fold16_fold16_lt _ hS)]
  · have hpar1 : b.length % 2 = 1 := by omega
    have hS : accSum b + 255 < 4294967296 := by omega
    rw [if_neg hpar, if_pos hpar1, if_pos rfl]
    rw [Nat.mod_eq_of_lt hS, fold_line_eq _ hS,
      fold_line_eq _ (by have := fold16_lt _ hS; omega),
      Nat.mod_eq_of_lt (fold16_fold16_lt _ hS)]

theorem getElem?_mid (pre mid rest : List Byte) (j : Nat) (hj : j < mid.length) :
    (pre ++ (mid ++ rest))[pre.length + j]? = mid[j]? := by
  rw [List.getElem?_append_right (by omega), Nat.add_sub_cancel_left,
    List.getElem?_append_left hj]

theorem be16_length (v : Nat) : (be16 v).length = 2 := rfl

theorem tvb_get_ntohs_be16 (pre rest : List Byte) (v : Nat) (hv : v < 65536) :
    tvb_get_ntohs (pre ++ (be16 v ++ rest)) pre.length = .ok v := by
  have h0 := getElem?_mid pre (be16 v) rest 0 (by simp [be16])
  have h1 := getElem?_mid pre (be16 v) rest 1 (by simp [be16])
  rw [Nat.add_zero] at h0
  unfold tvb_get_ntohs
  rw [h0, h1]
  simp only [be16, List.getElem?_cons_zero, List.getElem?_cons_succ]
  simp only [Fin.ofNat, Res.ok.injEq]
  omega

/-- The checksum of a byte range inside a buffer is the checksum of the range alone. -/
theorem checksum_fiveco_mid (pre mid rest : List Byte) (hn : mid.length ≤ 65535) :
    checksum_fiveco (pre ++ (mid ++ rest)) pre.length mid.length
      = .ok (fold16 (fold16 (specSum mid))) := by
  rw [← checksum_fiveco_whole mid hn]
  unfold checksum_fiveco
  rw [checksum_loop_congr (pre ++ (mid ++ rest)) mid pre.length 0 mid.length 0 0 1
    (by
      intro j hj
      rw [Nat.zero_add, Nat.zero_add]
      exact getElem?_mid pre mid rest j hj)]

theorem tvb_memcpy_mid (pre mid rest : List Byte) :
    tvb_memcpy (pre ++ (mid ++ rest)) pre.length mid.length = .ok mid := by
  unfold tvb_memcpy
  rw [if_pos (by simp)]
  simp


theorem frame_rest_eq (ifuel : Nat) (tvb : Tvb) (s : Loop) (st : State) (isRequest : Bool)
    (cmd seq N cal rx : Nat) (rv : Option FCOSConvRequestVal)
    (hoff : s.tcp_data_offset + N + 8 ≤ tvb.length) (hlen : tvb.length ≤ 65535)
    (hcal : checksum_fiveco tvb s.tcp_data_offset (N + 6) = .ok cal)
    (hrx : tvb_get_ntohs tvb (s.tcp_data_offset + N + 6) = .ok rx) :
    frame_rest ifuel tvb s st isRequest cmd seq N rv =
      match (frame_tree ifuel tvb s.tcp_data_offset cmd N rv cal).res with
      | .exn => .done (.exception st (s.out ++ frame_summary s.tcp_data_offset cmd seq N cal rx
          ++ (frame_tree ifuel tvb s.tcp_data_offset cmd N rv cal).out))
      | .fuel => .done (.timeout st (s.out ++ frame_summary s.tcp_data_offset cmd seq N cal rx
          ++ (frame_tree ifuel tvb s.tcp_data_offset cmd N rv cal).out))
      | .ok _ =>
        .next { tcp_data_offset := s.tcp_data_offset + N + 8, isRequest := isRequest,
                st := st, out := s.out ++ frame_summary s.tcp_data_offset cmd seq N cal rx
                  ++ (frame_tree ifuel tvb s.tcp_data_offset cmd N rv cal).out } := by
  unfold frame_rest
  have e1 : (N + 6) % 65536 = N + 6 := Nat.mod_eq_of_lt (by omega)
  have e2 : ((s.tcp_data_offset + 6) % 65536 + (N + 2)) % 65536 = s.tcp_data_offset + N + 8 := by
    omega
  rw [e1, hcal, hrx, e2]

theorem frame_step_eq_fields (ifuel : Nat) (tvb : Tvb) (pinfo : packet_info) (s : Loop)
    (cmd seq : Nat) (payload : List Byte) (cal rx : Nat)
    (hoff : s.tcp_data_offset + payload.length + 8 ≤ tvb.length) (hlen : tvb.length ≤ 65535)
    (hcmd : tvb_get_ntohs tvb s.tcp_data_offset = .ok cmd) (hknown : cmd ∈ knownCommandCodes)
    (hseq : tvb_get_ntohs tvb (s.tcp_data_offset + 2) = .ok seq)
    (hN : tvb_get_ntohs tvb (s.tcp_data_offset + 4) = .ok payload.length)
    (hpay : tvb_memcpy tvb (s.tcp_data_offset + 6) payload.length = .ok payload)
    (hcal : checksum_fiveco tvb s.tcp_data_offset (payload.length + 6) = .ok cal)
    (hrx : tvb_get_ntohs tvb (s.tcp_data_offset + payload.length + 6) = .ok rx) :
    frame_step ifuel tvb pinfo s
      = frame_step_fields ifuel tvb pinfo s cmd seq payload cal rx := by
  have hty : ¬ (try_val_to_str cmd packettypenames = none) := by
    rw [try_val_to_str_eq_none_iff]; exact not_not.mpr hknown
  have hgt : ¬ (payload.length >
      u32_sub (u32_sub (tvb_captured_length tvb) s.tcp_data_offset) 8) := by
    unfold u32_sub tvb_captured_length
    omega
  unfold frame_step frame_step_fields correlate
  simp only [Nat.add_zero, hcmd, hseq, hN, if_neg hty, if_neg hgt, hpay]
  split
  · simp only
    rw [frame_rest_eq ifuel tvb s _ _ cmd seq payload.length cal rx _ hoff hlen hcal hrx]
  · simp only
    rw [frame_rest_eq ifuel tvb s _ _ cmd seq payload.length cal rx _ hoff hlen hcal hrx]


theorem known_lt (cmd : Nat) (h : cmd ∈ knownCommandCodes) : cmd < 65536 := by
  simp only [knownCommandCodes, List.mem_cons, List.mem_singleton, List.not_mem_nil,
    or_false] at h
  omega

theorem frame_body_length (f : Frame) : (frame_body f).length = f.payload.length + 6 := by
  simp [frame_body, be16]

theorem encode_frame_length (f : Frame) : (encode_frame f).length = f.payload.length + 8 := by
  simp [encode_frame, frame_body_length, be16]

/-- On a buffer that holds the octets of a well-formed frame at the current offset, the
loop body is the field-based description of the frame. -/
theorem frame_step_encoded (ifuel : Nat) (pinfo : packet_info) (s : Loop) (f : Frame)
    (pre rest : List Byte) (hs : s.tcp_data_offset = pre.length) (hf : f.wf)
    (hlen : (pre ++ (encode_frame f ++ rest)).length ≤ 65535) :
    frame_step ifuel (pre ++ (encode_frame f ++ rest)) pinfo s
      = frame_step_fields ifuel (pre ++ (encode_frame f ++ rest)) pinfo s f.cmd f.seq
          f.payload (frame_checksum f) f.trailer := by
  obtain ⟨hk, hseq, hN, htr⟩ := hf
  have hflen := encode_frame_length f
  have hblen := frame_body_length f
  have htot : (pre ++ (encode_frame f ++ rest)).length
      = pre.length + (f.payload.length + 8) + rest.length := by
    simp [hflen]; omega
  apply frame_step_eq_fields
  · rw [hs, htot]; omega
  · exact hlen
  · rw [hs]
    have : pre ++ (encode_frame f ++ rest)
        = pre ++ (be16 f.cmd ++ ((be16 f.seq ++ (be16 f.payload.length ++ f.payload))
            ++ be16 f.trailer ++ rest)) := by
      simp [encode_frame, frame_body]
    rw [this]
    exact tvb_get_ntohs_be16 _ _ _ (known_lt _ hk)
  · exact hk
  · rw [hs]
    have : pre ++ (encode_frame f ++ rest)
        = (pre ++ be16 f.cmd) ++ (be16 f.seq ++ ((be16 f.payload.length ++ f.payload)
            ++ be16 f.trailer ++ rest)) := by
      simp [encode_frame, frame_body]
    rw [this]
    have hl : (pre ++ be16 f.cmd).length = pre.length + 2 := by simp [be16]
    rw [← hl]
    exact tvb_get_ntohs_be16 _ _ _ hseq
  · rw [hs]
    have : pre ++ (encode_frame f ++ rest)
        = (pre ++ be16 f.cmd ++ be16 f.seq) ++ (be16 f.payload.length ++ (f.payload
            ++ be16 f.trailer ++ rest)) := by
      simp [encode_frame, frame_body]
    rw [this]
    have hl : (pre ++ be16 f.cmd ++ be16 f.seq).length = pre.length + 4 := by simp [be16]
    rw [← hl]
    exact tvb_get_ntohs_be16 _ _ _ hN
  · rw [hs]
    have : pre ++ (encode_frame f ++ rest)
        = (pre ++ be16 f.cmd ++ be16 f.seq ++ be16 f.payload.length) ++ (f.payload
            ++ (be16 f.trailer ++ rest)) := by
      simp [encode_frame, frame_body]
    rw [this]
    have hl : (pre ++ be16 f.cmd ++ be16 f.seq ++ be16 f.payload.length).length
        = pre.length + 6 := by simp [be16]
    rw [← hl]
    exact tvb_memcpy_mid _ _ _
  · rw [hs]
    have : pre ++ (encode_frame f ++ rest)
        = pre ++ (frame_body f ++ (be16 f.trailer ++ rest)) := by
      simp [encode_frame]
    rw [this, ← hblen]
    exact checksum_fiveco_mid _ _ _ (by rw [hblen]; rw [htot] at hlen; omega)
  · rw [hs]
    have : pre ++ (encode_frame f ++ rest)
        = (pre ++ frame_body f) ++ (be16 f.trailer ++ rest) := by
      simp [encode_frame]
    rw [this]
    have hl : (pre ++ frame_body f).length = pre.length + f.payload.length + 6 := by
      simp [hblen]; omega
    rw [← hl]
    exact tvb_get_ntohs_be16 _ _ _ htr

theorem frame_step_fields_next (ifuel : Nat) (tvb : Tvb) (pinfo : packet_info) (s s' : Loop)
    (cmd seq : Nat) (payload : List Byte) (cal rx : Nat)
    (h : frame_step_fields ifuel tvb pinfo s cmd seq payload cal rx = .next s') :
    s'.tcp_data_offset = s.tcp_data_offset + payload.length + 8 := by
  unfold frame_step_fields at h
  simp only at h
  split at h
  · simp at h
  · simp at h
  · simp only [Step.next.injEq] at h
    rw [← h]

/-- The frame loop on a delivery made of well-formed frames is the frame-by-frame walk. -/
theorem frame_walk_frames (ifuel : Nat) (pinfo : packet_info) :
    ∀ (fs : List Frame) (pre : List Byte) (s : Loop) (fuel : Nat),
      s.tcp_data_offset = pre.length → (pre ++ encode_frames fs).length ≤ 65535 →
      (∀ f ∈ fs, f.wf) → fs.length ≤ fuel →
      frame_walk ifuel (pre ++ encode_frames fs) pinfo fuel s
        = walk_frames ifuel (pre ++ encode_frames fs) pinfo fs s := by
  intro fs
  induction fs with
  | nil =>
    intro pre s fuel hs _ _ _
    have hnot : ¬ (s.tcp_data_offset < tvb_captured_length (pre ++ encode_frames [])) := by
      simp [tvb_captured_length, encode_frames, hs]
    cases fuel with
    | zero => unfold frame_walk walk_frames; rw [if_neg hnot]
    | succ n => rw [frame_walk_succ]; unfold walk_frames; rw [if_neg hnot]
  | cons f fs ih =>
    intro pre s fuel hs hlen hwf hfuel
    obtain ⟨n, rfl⟩ : ∃ n, fuel = n + 1 := ⟨fuel - 1, by simp at hfuel; omega⟩
    have hflen := encode_frame_length f
    have hlt : s.tcp_data_offset < tvb_captured_length (pre ++ encode_frames (f :: fs)) := by
      simp [tvb_captured_length, encode_frames, hs, hflen]
    rw [frame_walk_succ, if_pos hlt]
    unfold walk_frames
    have hstep := frame_step_encoded ifuel pinfo s f pre (encode_frames fs) hs
      (hwf f (List.mem_cons_self _ _)) hlen
    have henc : encode_frames (f :: fs) = encode_frame f ++ encode_frames fs := rfl
    rw [henc, hstep]
    cases hres : frame_step_fields ifuel (pre ++ (encode_frame f ++ encode_frames fs)) pinfo s
        f.cmd f.seq f.payload (frame_checksum f) f.trailer with
    | done o => rfl
    | next s' =>
      simp only
      have hs' := frame_step_fields_next _ _ _ _ _ _ _ _ _ _ hres
      have hassoc : pre ++ (encode_frame f ++ encode_frames fs)
          = (pre ++ encode_frame f) ++ encode_frames fs := by simp
      rw [hassoc]
      apply ih
      · rw [hs', hs]; simp [hflen]; omega
      · rw [← hassoc]; exact hlen
      · intro g hg; exact hwf g (List.mem_cons_of_mem _ hg)
      · simp at hfuel; omega

/-! ### The payload decoders only add payload items and texts -/

theorem payloadOnly_bind {α β : Type} (x : W α) (f : α → W β) (hx : PayloadOnly x)
    (hf : ∀ a, PayloadOnly (f a)) : PayloadOnly (x >>= f) := by
  constructor
  intro e he
  rw [W_bind_eq] at he
  unfold W.bind at he
  split at he
  · rename_i a _
    simp only [List.mem_append] at he
    rcases he with he | he
    · exact hx.all e he
    · exact (hf a).all e he
  · exact hx.all e he
  · exact hx.all e he

theorem payloadOnly_pure {α : Type} (a : α) : PayloadOnly (pure a : W α) := by
  constructor
  intro e he
  simp [W_pure_eq] at he

theorem payloadOnly_lift {α : Type} (r : Res α) : PayloadOnly (W.lift r) := by
  constructor
  intro e he
  simp [W.lift] at he

theorem payloadOnly_timeout {α : Type} : PayloadOnly (W.timeout : W α) := by
  constructor
  intro e he
  simp [W.timeout] at he

theorem payloadOnly_add_item (hf : Hf) (tvb : Tvb) (start length : Nat)
    (h : hf ≠ .proto_FiveCoLegacy) : PayloadOnly (proto_tree_add_item hf tvb start length) := by
  constructor
  intro e he
  unfold proto_tree_add_item at he
  by_cases hc : (if hf.no_value then start ≤ tvb.length else start + length ≤ tvb.length)
  · rw [if_pos hc] at he
    simp only [List.mem_singleton] at he
    subst he
    simp [is_payload_event, h]
  · rw [if_neg hc] at he
    simp at he

theorem payloadOnly_append_text (item : Item) (t : Txt) :
    PayloadOnly (proto_item_append_text item t) := by
  constructor
  intro e he
  simp only [proto_item_append_text, List.mem_singleton] at he
  subst he
  rfl

theorem payloadOnly_hex_loop (tvb : Tvb) (item : Item) (base : Nat) :
    ∀ (n i : Nat), PayloadOnly (hex_loop tvb item base n i) := by
  intro n
  induction n with
  | zero => intro i; exact payloadOnly_pure _
  | succ n ih =>
    intro i
    unfold hex_loop
    repeat (first
      | with_reducible exact ih _
      | with_reducible apply payloadOnly_bind
      | with_reducible apply payloadOnly_lift
      | with_reducible apply payloadOnly_append_text
      | split
      | dsimp only
      | intro _)

theorem payloadOnly_i2c_read_loop (tvb : Tvb) (tcp_data_offset header_data_length : Nat) :
    ∀ (fuel i : Nat),
      PayloadOnly (i2c_read_loop tvb tcp_data_offset header_data_length fuel i) := by
  intro fuel
  induction fuel with
  | zero =>
    intro i
    unfold i2c_read_loop
    split
    · exact payloadOnly_timeout
    · exact payloadOnly_pure _
  | succ fuel ih =>
    intro i
    unfold i2c_read_loop
    split
    · repeat (first
        | with_reducible exact ih _
        | with_reducible apply payloadOnly_bind
        | with_reducible apply payloadOnly_lift
        | with_reducible apply payloadOnly_append_text
        | with_reducible apply payloadOnly_hex_loop
        | (with_reducible apply payloadOnly_add_item; decide)
        | split
        | dsimp only
        | intro _)
    · exact payloadOnly_pure _

theorem payloadOnly_i2c_write_loop (tvb : Tvb) (tcp_data_offset header_data_length : Nat) :
    ∀ (fuel i : Nat),
      PayloadOnly (i2c_write_loop tvb tcp_data_offset header_data_length fuel i) := by
  intro fuel
  induction fuel with
  | zero =>
    intro i
    unfold i2c_write_loop
    split
    · exact payloadOnly_timeout
    · exact payloadOnly_pure _
  | succ fuel ih =>
    intro i
    unfold i2c_write_loop
    split
    · repeat (first
        | with_reducible exact ih _
        | with_reducible apply payloadOnly_bind
        | with_reducible apply payloadOnly_lift
        | with_reducible apply payloadOnly_append_text
        | with_reducible apply payloadOnly_hex_loop
        | (with_reducible apply payloadOnly_add_item; decide)
        | split
        | dsimp only
        | intro _)
    · exact payloadOnly_pure _

theorem payloadOnly_read_register_loop (tvb : Tvb) (tcp_data_offset : Nat) :
    ∀ (n i : Nat), PayloadOnly (read_register_loop tvb tcp_data_offset n i) := by
  intro n
  induction n with
  | zero => intro i; exact payloadOnly_pure _
  | succ n ih =>
    intro i
    unfold read_register_loop
    repeat (first
      | with_reducible exact ih _
      | with_reducible apply payloadOnly_bind
      | with_reducible apply payloadOnly_lift
      | with_reducible apply payloadOnly_append_text
      | with_reducible apply payloadOnly_pure
      | (with_reducible apply payloadOnly_add_item; decide)
      | split
      | dsimp only
      | intro _)

theorem payloadOnly_render_register (tvb : Tvb) (ucRegAdd : Nat) (r : FCOSRegisterDef)
    (i : Nat) : PayloadOnly (render_register tvb ucRegAdd r i) := by
  unfold render_register
  repeat (first
    | with_reducible apply payloadOnly_bind
    | with_reducible apply payloadOnly_lift
    | with_reducible apply payloadOnly_append_text
    | with_reducible apply payloadOnly_pure
    | with_reducible apply payloadOnly_hex_loop
    | (with_reducible apply payloadOnly_add_item; simp)
    | split
    | dsimp only
    | intro _)

theorem payloadOnly_write_register_loop (tvb : Tvb)
    (tcp_data_offset header_data_length : Nat) :
    ∀ (fuel i : Nat),
      PayloadOnly (write_register_loop tvb tcp_data_offset header_data_length fuel i) := by
  intro fuel
  induction fuel with
  | zero =>
    intro i
    unfold write_register_loop
    split
    · exact payloadOnly_timeout
    · exact payloadOnly_pure _
  | succ fuel ih =>
    intro i
    unfold write_register_loop
    split
    · repeat (first
        | with_reducible exact ih _
        | with_reducible apply payloadOnly_bind
        | with_reducible apply payloadOnly_lift
        | with_reducible apply payloadOnly_append_text
        | with_reducible apply payloadOnly_render_register
        | (with_reducible apply payloadOnly_add_item; decide)
        | split
        | dsimp only
        | intro _)
    · exact payloadOnly_pure _

set_option maxRecDepth 8000 in
theorem payloadOnly_i2c_answer_loop (tvb : Tvb)
    (tcp_data_offset header_data_length header_type : Nat) (v : FCOSConvRequestVal) :
    ∀ (fuel i y : Nat),
      PayloadOnly (i2c_answer_loop tvb tcp_data_offset header_data_length header_type v
        fuel i y) := by
  intro fuel
  induction fuel with
  | zero =>
    intro i y
    unfold i2c_answer_loop
    split
    · exact payloadOnly_timeout
    · exact payloadOnly_pure _
  | succ fuel ih =>
    intro i y
    unfold i2c_answer_loop
    split
    · repeat (first
        | with_reducible exact ih _ _
        | with_reducible apply payloadOnly_bind
        | with_reducible apply payloadOnly_lift
        | with_reducible apply payloadOnly_append_text
        | with_reducible apply payloadOnly_hex_loop
        | (with_reducible apply payloadOnly_add_item; decide)
        | split
        | dsimp only
        | intro _)
    · exact payloadOnly_pure _

theorem payloadOnly_read_register_answer_loop (tvb : Tvb)
    (tcp_data_offset header_data_length : Nat) (v : FCOSConvRequestVal) :
    ∀ (fuel i y : Nat),
      PayloadOnly (read_register_answer_loop tvb tcp_data_offset header_data_length v
        fuel i y) := by
  intro fuel
  induction fuel with
  | zero =>
    intro i y
    unfold read_register_answer_loop
    split
    · exact payloadOnly_timeout
    · exact payloadOnly_pure _
  | succ fuel ih =>
    intro i y
    unfold read_register_answer_loop
    split
    · repeat (first
        | with_reducible exact ih _ _
        | with_reducible apply payloadOnly_bind
        | with_reducible apply payloadOnly_lift
        | with_reducible apply payloadOnly_append_text
        | with_reducible apply payloadOnly_render_register
        | (with_reducible apply payloadOnly_add_item; decide)
        | split
        | dsimp only
        | intro _)
    · exact payloadOnly_pure _

theorem payloadOnly_decode_payload (fuel : Nat) (tvb : Tvb)
    (tcp_data_offset header_data_length header_type : Nat)
    (pRequestVal : Option FCOSConvRequestVal) (item : Item) :
    PayloadOnly (decode_payload fuel tvb tcp_data_offset header_data_length header_type
      pRequestVal item) := by
  unfold decode_payload
  by_cases h0 : header_type = I2C_READ ∨ header_type = I2C_READ_WRITE_ACK
  · rw [if_pos h0]
    exact payloadOnly_i2c_read_loop _ _ _ _ _
  rw [if_neg h0]
  by_cases h1 : header_type = I2C_WRITE
  · rw [if_pos h1]
    exact payloadOnly_i2c_write_loop _ _ _ _ _
  rw [if_neg h1]
  by_cases h2 : header_type = I2C_SCAN
  · rw [if_pos h2]
    repeat (first
      | with_reducible apply payloadOnly_bind
      | with_reducible apply payloadOnly_lift
      | with_reducible apply payloadOnly_append_text
      | with_reducible apply payloadOnly_pure
      | with_reducible apply payloadOnly_hex_loop
      | with_reducible apply payloadOnly_i2c_answer_loop
      | with_reducible apply payloadOnly_read_register_answer_loop
      | (with_reducible apply payloadOnly_add_item; decide)
      | split
      | dsimp only
      | intro _)
  rw [if_neg h2]
  by_cases h3 : header_type = I2C_SCAN_ANSWER
  · rw [if_pos h3]
    repeat (first
      | with_reducible apply payloadOnly_bind
      | with_reducible apply payloadOnly_lift
      | with_reducible apply payloadOnly_append_text
      | with_reducible apply payloadOnly_pure
      | with_reducible apply payloadOnly_hex_loop
      | with_reducible apply payloadOnly_i2c_answer_loop
      | with_reducible apply payloadOnly_read_register_answer_loop
      | (with_reducible apply payloadOnly_add_item; decide)
      | split
      | dsimp only
      | intro _)
  rw [if_neg h3]
  by_cases h4 : header_type = I2C_READ_WRITE_ACK_ERROR
  · rw [if_pos h4]
    repeat (first
      | with_reducible apply payloadOnly_bind
      | with_reducible apply payloadOnly_lift
      | with_reducible apply payloadOnly_append_text
      | with_reducible apply payloadOnly_pure
      | with_reducible apply payloadOnly_hex_loop
      | with_reducible apply payloadOnly_i2c_answer_loop
      | with_reducible apply payloadOnly_read_register_answer_loop
      | (with_reducible apply payloadOnly_add_item; decide)
      | split
      | dsimp only
      | intro _)
  rw [if_neg h4]
  by_cases h5 : header_type = READ_REGISTER
  · rw [if_pos h5]
    exact payloadOnly_read_register_loop _ _ _ _
  rw [if_neg h5]
  by_cases h6 : header_type = WRITE_REGISTER ∨ header_type = WRITE_REGISTER_QUIET
  · rw [if_pos h6]
    exact payloadOnly_write_register_loop _ _ _ _ _
  rw [if_neg h6]
  by_cases h7 : header_type = EASY_IP_ADDRESS_CONFIG
  · rw [if_pos h7]
    repeat (first
      | with_reducible apply payloadOnly_bind
      | with_reducible apply payloadOnly_lift
      | with_reducible apply payloadOnly_append_text
      | with_reducible apply payloadOnly_pure
      | with_reducible apply payloadOnly_hex_loop
      | with_reducible apply payloadOnly_i2c_answer_loop
      | with_reducible apply payloadOnly_read_register_answer_loop
      | (with_reducible apply payloadOnly_add_item; decide)
      | split
      | dsimp only
      | intro _)
  rw [if_neg h7]
  by_cases h8 : header_type = I2C_READ_ANSWER ∨ header_type = I2C_WRITE_ANSWER ∨
      header_type = I2C_READ_WRITE_ACK_ANSWER
  · rw [if_pos h8]
    repeat (first
      | with_reducible apply payloadOnly_bind
      | with_reducible apply payloadOnly_lift
      | with_reducible apply payloadOnly_append_text
      | with_reducible apply payloadOnly_pure
      | with_reducible apply payloadOnly_hex_loop
      | with_reducible apply payloadOnly_i2c_answer_loop
      | with_reducible apply payloadOnly_read_register_answer_loop
      | split
      | dsimp only
      | intro _)
  rw [if_neg h8]
  by_cases h9 : header_type = READ_REGISTER_ANSWER
  · rw [if_pos h9]
    repeat (first
      | with_reducible apply payloadOnly_bind
      | with_reducible apply payloadOnly_lift
      | with_reducible apply payloadOnly_append_text
      | with_reducible apply payloadOnly_pure
      | with_reducible apply payloadOnly_hex_loop
      | with_reducible apply payloadOnly_i2c_answer_loop
      | with_reducible apply payloadOnly_read_register_answer_loop
      | split
      | dsimp only
      | intro _)
  rw [if_neg h9]
  by_cases h10 : header_type = FLASH_AREA_LOAD
  · rw [if_pos h10]
    repeat (first
      | with_reducible apply payloadOnly_bind
      | with_reducible apply payloadOnly_lift
      | with_reducible apply payloadOnly_append_text
      | with_reducible apply payloadOnly_pure
      | with_reducible apply payloadOnly_hex_loop
      | with_reducible apply payloadOnly_i2c_answer_loop
      | with_reducible apply payloadOnly_read_register_answer_loop
      | split
      | dsimp only
      | intro _)
  rw [if_neg h10]
  by_cases h11 : header_type = FLASH_AREA_ANSWER
  · rw [if_pos h11]
    repeat (first
      | with_reducible apply payloadOnly_bind
      | with_reducible apply payloadOnly_lift
      | with_reducible apply payloadOnly_append_text
      | with_reducible apply payloadOnly_pure
      | with_reducible apply payloadOnly_hex_loop
      | with_reducible apply payloadOnly_i2c_answer_loop
      | with_reducible apply payloadOnly_read_register_answer_loop
      | split
      | dsimp only
      | intro _)
  rw [if_neg h11]
  by_cases h12 : header_type = WRITE_REGISTER_ANSWER ∨ header_type = FLASH_AREA_ERASE ∨
      header_type = EASY_IP_ADDRESS_CONFIG_ANSWER
  · rw [if_pos h12]
    repeat (first
      | with_reducible apply payloadOnly_bind
      | with_reducible apply payloadOnly_lift
      | with_reducible apply payloadOnly_append_text
      | with_reducible apply payloadOnly_pure
      | with_reducible apply payloadOnly_hex_loop
      | with_reducible apply payloadOnly_i2c_answer_loop
      | with_reducible apply payloadOnly_read_register_answer_loop
      | split
      | dsimp only
      | intro _)
  rw [if_neg h12]
  exact payloadOnly_append_text _ _

theorem payloadOnly_payload_tree (fuel : Nat) (tvb : Tvb)
    (tcp_data_offset header_data_length header_type : Nat)
    (pRequestVal : Option FCOSConvRequestVal) :
    PayloadOnly (payload_tree fuel tvb tcp_data_offset header_data_length header_type
      pRequestVal) := by
  unfold payload_tree
  split
  · apply payloadOnly_bind
    · exact payloadOnly_add_item _ _ _ _ (by decide)
    · intro _; exact payloadOnly_decode_payload _ _ _ _ _ _ _
  · exact payloadOnly_pure _

/-- The tree of a frame that lies inside a buffer of at most 65535 bytes: the protocol
item and the header items, then the payload block, then the checksum item. -/
theorem frame_tree_eq (ifuel : Nat) (tvb : Tvb) (off cmd N : Nat)
    (rv : Option FCOSConvRequestVal) (cal rx : Nat)
    (hfit : off + N + 8 ≤ tvb.length) (hlen : tvb.length ≤ 65535)
    (hrx : tvb_get_ntohs tvb (off + N + 6) = .ok rx) :
    frame_tree ifuel tvb off cmd N rv cal =
      ⟨[.add_item ⟨.proto_FiveCoLegacy, off, N + 8⟩,
        .append_text ⟨.proto_FiveCoLegacy, off, N + 8⟩ (.type_name cmd),
        .add_item ⟨.hf_fiveco_header, off, 6⟩, .add_item ⟨.hf_fiveco_fct, off, 2⟩,
        .add_item ⟨.hf_fiveco_id, off + 2, 2⟩, .add_item ⟨.hf_fiveco_length, off + 4, 2⟩]
        ++ (payload_tree ifuel tvb (off + 6) N cmd rv).out
        ++ (match (payload_tree ifuel tvb (off + 6) N cmd rv).res with
            | .ok _ => [.add_checksum (off + 6 + N) cal rx]
            | _ => []),
       (payload_tree ifuel tvb (off + 6) N cmd rv).res⟩ := by
  have e6 : (off + 6) % 65536 = off + 6 := Nat.mod_eq_of_lt (by omega)
  have hrx' : tvb_get_ntohs tvb (off + 6 + N) = .ok rx := by
    rw [show off + 6 + N = off + N + 6 by omega]; exact hrx
  have c1 : off + (N + 8) ≤ tvb.length := by omega
  have c2 : off + 6 ≤ tvb.length := by omega
  have c3 : off + 2 ≤ tvb.length := by omega
  have c4 : off + 2 + 2 ≤ tvb.length := by omega
  have c5 : off + 4 + 2 ≤ tvb.length := by omega
  have a1 : ∀ hf, proto_tree_add_item hf tvb off (N + 8)
      = ⟨[.add_item ⟨hf, off, N + 8⟩], .ok ⟨hf, off, N + 8⟩⟩ := fun hf => by
    unfold proto_tree_add_item
    rw [if_pos]
    split <;> omega
  have a2 : ∀ hf, proto_tree_add_item hf tvb off 6
      = ⟨[.add_item ⟨hf, off, 6⟩], .ok ⟨hf, off, 6⟩⟩ := fun hf => by
    unfold proto_tree_add_item
    rw [if_pos]
    split <;> omega
  have a3 : ∀ hf, proto_tree_add_item hf tvb off 2
      = ⟨[.add_item ⟨hf, off, 2⟩], .ok ⟨hf, off, 2⟩⟩ := fun hf => by
    unfold proto_tree_add_item
    rw [if_pos]
    split <;> omega
  have a4 : ∀ hf, proto_tree_add_item hf tvb (off + 2) 2
      = ⟨[.add_item ⟨hf, off + 2, 2⟩], .ok ⟨hf, off + 2, 2⟩⟩ := fun hf => by
    unfold proto_tree_add_item
    rw [if_pos]
    split <;> omega
  have a5 : ∀ hf, proto_tree_add_item hf tvb (off + 4) 2
      = ⟨[.add_item ⟨hf, off + 4, 2⟩], .ok ⟨hf, off + 4, 2⟩⟩ := fun hf => by
    unfold proto_tree_add_item
    rw [if_pos]
    split <;> omega
  unfold frame_tree
  simp only [W_bind_eq, W.bind, a1, a2, a3, a4, a5, proto_item_append_text,
    proto_tree_add_checksum, Nat.add_zero, e6, hrx']
  cases hp : (payload_tree ifuel tvb (off + 6) N cmd rv).res with
  | ok a => simp
  | exn => simp
  | fuel => simp


theorem encoded_trailer (pre rest : List Byte) (f : Frame) (htr : f.trailer < 65536) :
    tvb_get_ntohs (pre ++ (encode_frame f ++ rest)) (pre.length + f.payload.length + 6)
      = .ok f.trailer := by
  have : pre ++ (encode_frame f ++ rest)
      = (pre ++ frame_body f) ++ (be16 f.trailer ++ rest) := by
    simp [encode_frame]
  rw [this]
  have hl : (pre ++ frame_body f).length = pre.length + f.payload.length + 6 := by
    simp [frame_body_length]; omega
  rw [← hl]
  exact tvb_get_ntohs_be16 _ _ _ htr

theorem frame_summaries_append (a b : List Event) :
    frame_summaries (a ++ b) = frame_summaries a ++ frame_summaries b := by
  simp [frame_summaries, List.filterMap_append]

theorem frame_items_append (a b : List Event) :
    frame_items (a ++ b) = frame_items a ++ frame_items b := by
  simp [frame_items, List.filterMap_append]

theorem frame_summaries_payloadOnly : ∀ (l : List Event),
    (∀ e ∈ l, is_payload_event e = true) → frame_summaries l = [] := by
  intro l
  induction l with
  | nil => intro _; rfl
  | cons e l ih =>
    intro h
    have he := h e (List.mem_cons_self _ _)
    have hl := ih (fun x hx => h x (List.mem_cons_of_mem _ hx))
    cases e <;> simp_all [frame_summaries, is_payload_event]

theorem frame_items_payloadOnly : ∀ (l : List Event),
    (∀ e ∈ l, is_payload_event e = true) → frame_items l = [] := by
  intro l
  induction l with
  | nil => intro _; rfl
  | cons e l ih =>
    intro h
    have he := h e (List.mem_cons_self _ _)
    have hl := ih (fun x hx => h x (List.mem_cons_of_mem _ hx))
    cases e <;> simp_all [frame_items, is_payload_event]

theorem frame_summaries_summary (off cmd seq N cal rx : Nat) :
    frame_summaries (frame_summary off cmd seq N cal rx) = [(cmd, seq, N)] := by
  unfold frame_summary
  split <;> simp [frame_summaries]

theorem frame_items_summary (off cmd seq N cal rx : Nat) :
    frame_items (frame_summary off cmd seq N cal rx) = [] := by
  unfold frame_summary
  split <;> simp [frame_items]

/-- What a frame that lies inside the buffer adds to the decoded frames: one summary and
one protocol item. -/
theorem frame_tree_projections (ifuel : Nat) (tvb : Tvb) (off cmd N : Nat)
    (rv : Option FCOSConvRequestVal) (cal rx : Nat)
    (hfit : off + N + 8 ≤ tvb.length) (hlen : tvb.length ≤ 65535)
    (hrx : tvb_get_ntohs tvb (off + N + 6) = .ok rx) :
    (frame_tree ifuel tvb off cmd N rv cal).res = (payload_tree ifuel tvb (off + 6) N cmd rv).res
    ∧ frame_summaries (frame_tree ifuel tvb off cmd N rv cal).out = []
    ∧ frame_items (frame_tree ifuel tvb off cmd N rv cal).out = [(off, N + 8)] := by
  rw [frame_tree_eq ifuel tvb off cmd N rv cal rx hfit hlen hrx]
  have hp := payloadOnly_payload_tree ifuel tvb (off + 6) N cmd rv
  refine ⟨rfl, ?_, ?_⟩
  · simp only [frame_summaries_append, frame_summaries_payloadOnly _ hp.all]
    split <;> simp [frame_summaries]
  · simp only [frame_items_append, frame_items_payloadOnly _ hp.all]
    split <;> simp [frame_items]

/-- The frame-by-frame walk over well-formed frames whose payload blocks complete decodes
every frame and returns the length of the buffer. -/
theorem walk_frames_complete (ifuel : Nat) (tvb : Tvb) (pinfo : packet_info)
    (hlen : tvb.length ≤ 65535) :
    ∀ (fs : List Frame) (pre : List Byte) (s : Loop),
      tvb = pre ++ encode_frames fs → s.tcp_data_offset = pre.length →
      (∀ f ∈ fs, f.wf) → payloads_complete ifuel tvb pinfo fs s = true →
      ∃ st' out', walk_frames ifuel tvb pinfo fs s = .returned tvb.length st' out' ∧
        frame_summaries out'
          = frame_summaries s.out ++ fs.map (fun f => (f.cmd, f.seq, f.payload.length)) ∧
        frame_items out' = frame_items s.out ++ frame_ranges s.tcp_data_offset fs := by
  intro fs
  induction fs with
  | nil =>
    intro pre s _ _ _ _
    exact ⟨s.st, s.out, rfl, by simp, by simp [frame_ranges]⟩
  | cons f fs ih =>
    intro pre s htvb hs hwf hpc
    unfold payloads_complete frame_step_fields at hpc
    simp only [Bool.and_eq_true, decide_eq_true_eq] at hpc
    obtain ⟨hpf, hpc'⟩ := hpc
    have hf := hwf f (List.mem_cons_self _ _)
    have hflen := encode_frame_length f
    have htvb' : tvb = pre ++ (encode_frame f ++ encode_frames fs) := htvb
    have hfit : s.tcp_data_offset + f.payload.length + 8 ≤ tvb.length := by
      rw [htvb', hs]; simp [hflen]; omega
    have hrx : tvb_get_ntohs tvb (s.tcp_data_offset + f.payload.length + 6) = .ok f.trailer := by
      rw [htvb', hs]; exact encoded_trailer pre _ f hf.2.2.2
    unfold walk_frames frame_step_fields
    simp only
    obtain ⟨hres, hsum, hitems⟩ := frame_tree_projections ifuel tvb s.tcp_data_offset f.cmd
      f.payload.length (correlate pinfo s.st s.isRequest f.cmd f.payload).2.2
      (frame_checksum f) f.trailer hfit hlen hrx
    rw [hpf] at hres
    rw [hres] at hpc'
    simp only at hpc'
    rw [hres]
    simp only
    obtain ⟨st', out', hw, hs1, hs2⟩ := ih (pre ++ encode_frame f)
      { tcp_data_offset := s.tcp_data_offset + f.payload.length + 8,
        isRequest := (correlate pinfo s.st s.isRequest f.cmd f.payload).2.1,
        st := (correlate pinfo s.st s.isRequest f.cmd f.payload).1,
        out := s.out ++ frame_summary s.tcp_data_offset f.cmd f.seq f.payload.length
            (frame_checksum f) f.trailer
          ++ (frame_tree ifuel tvb s.tcp_data_offset f.cmd f.payload.length
            (correlate pinfo s.st s.isRequest f.cmd f.payload).2.2 (frame_checksum f)).out }
      (by rw [htvb']; simp)
      (by simp [hs, hflen]; omega)
      (fun g hg => hwf g (List.mem_cons_of_mem _ hg))
      hpc'
    refine ⟨st', out', hw, ?_, ?_⟩
    · rw [hs1]
      simp only [frame_summaries_append, frame_summaries_summary, hsum, List.map_cons,
        List.append_nil, List.append_assoc, List.singleton_append]
    · rw [hs2]
      simp only [frame_items_append, frame_items_summary, hitems, frame_ranges,
        List.append_nil, List.nil_append, List.append_assoc, List.singleton_append]

/-- On a delivery made of at least one well-formed frame, the dissector is the
frame-by-frame walk from the start state. -/
theorem dissect_frames (fuel : Nat) (pinfo : packet_info) (st : State) (fs : List Frame)
    (hne : fs ≠ []) (hlen : (encode_frames fs).length ≤ 65535) (hwf : ∀ f ∈ fs, f.wf)
    (hfuel : fs.length ≤ fuel) :
    dissect_FiveCoLegacy fuel (encode_frames fs) pinfo st
      = walk_frames fuel (encode_frames fs) pinfo fs (loop_start st) := by
  unfold dissect_FiveCoLegacy
  have hlong : ¬ tvb_captured_length (encode_frames fs) < FIVECO_LEGACY_MIN_LENGTH := by
    cases fs with
    | nil => exact absurd rfl hne
    | cons f fs =>
      simp [tvb_captured_length, encode_frames, encode_frame_length, FIVECO_LEGACY_MIN_LENGTH,
        FIVECO_LEGACY_HEADER_LENGTH]
      omega
  rw [if_neg hlong]
  have h := frame_walk_frames fuel pinfo fs [] (loop_start st) fuel rfl
    (by simpa using hlen) hwf hfuel
  simpa [loop_start] using h

theorem payload_tree_empty (ifuel : Nat) (tvb : Tvb) (off cmd : Nat)
    (rv : Option FCOSConvRequestVal) : payload_tree ifuel tvb off 0 cmd rv = pure () := by
  unfold payload_tree
  rw [if_neg (by decide)]

theorem payloads_complete_minimal (ifuel : Nat) (tvb : Tvb) (pinfo : packet_info) :
    ∀ (fs : List Frame) (s : Loop), (∀ f ∈ fs, f.payload = []) →
      payloads_complete ifuel tvb pinfo fs s = true := by
  intro fs
  induction fs with
  | nil => intro s _; rfl
  | cons f fs ih =>
    intro s h
    have hf := h f (List.mem_cons_self _ _)
    unfold payloads_complete
    rw [hf]
    simp only [List.length_nil, payload_tree_empty, W_pure_eq, decide_True, Bool.true_and]
    split
    · exact ih _ (fun g hg => h g (List.mem_cons_of_mem _ hg))
    · rfl

theorem encode_frames_minimal_length : ∀ (fs : List Frame), (∀ f ∈ fs, f.payload = []) →
    (encode_frames fs).length = 8 * fs.length := by
  intro fs
  induction fs with
  | nil => intro _; rfl
  | cons f fs ih =>
    intro h
    have hf := h f (List.mem_cons_self _ _)
    have := ih (fun g hg => h g (List.mem_cons_of_mem _ hg))
    simp [encode_frames, encode_frame_length, hf, this]
    omega

theorem frame_ranges_minimal : ∀ (fs : List Frame) (off : Nat), (∀ f ∈ fs, f.payload = []) →
    frame_ranges off fs = (List.range fs.length).map (fun j => (off + 8 * j, 8)) := by
  intro fs
  induction fs with
  | nil => intro off _; rfl
  | cons f fs ih =>
    intro off h
    have hf := h f (List.mem_cons_self _ _)
    have := ih (off + 8) (fun g hg => h g (List.mem_cons_of_mem _ hg))
    simp only [frame_ranges, hf, List.length_nil, Nat.add_zero, Nat.zero_add, this,
      List.length_cons, List.range_succ_eq_map, List.map_cons, List.map_map, Nat.mul_zero]
    congr 1
    apply List.map_congr_left
    intro j _
    simp only [Function.comp, Prod.mk.injEq, and_true]
    omega

theorem map_summary_minimal : ∀ (fs : List Frame), (∀ f ∈ fs, f.payload = []) →
    fs.map (fun f => (f.cmd, f.seq, f.payload.length)) = fs.map (fun f => (f.cmd, f.seq, 0)) := by
  intro fs h
  apply List.map_congr_left
  intro f hf
  rw [h f hf]
  rfl

/-- C9. For every `k ≥ 1` with `8k ≤ 65535` and every choice of `k` known command codes
(and of sequence ids and trailers), a delivery that is the concatenation of `k` minimal
frames (8 bytes each, payload length 0) yields exactly `k` decoded frames, in order, and
`dissect_FiveCoLegacy` returns `8k`. -/
theorem C9_minimal_frames_all_decoded (fuel : Nat) (pinfo : packet_info) (st : State)
    (fs : List Frame) (hk : 1 ≤ fs.length) (h8k : 8 * fs.length ≤ 65535)
    (hmin : ∀ f ∈ fs, f.cmd ∈ knownCommandCodes ∧ f.payload = [] ∧ f.seq < 65536 ∧
      f.trailer < 65536)
    (hfuel : fs.length ≤ fuel) :
    (encode_frames fs).length = 8 * fs.length
    ∧ (dissect_FiveCoLegacy fuel (encode_frames fs) pinfo st).value? = some (8 * fs.length)
    ∧ frame_summaries (dissect_FiveCoLegacy fuel (encode_frames fs) pinfo st).trace
        = fs.map (fun f => (f.cmd, f.seq, 0))
    ∧ frame_items (dissect_FiveCoLegacy fuel (encode_frames fs) pinfo st).trace
        = (List.range fs.length).map (fun j => (8 * j, 8)) := by
  have hempty : ∀ f ∈ fs, f.payload = [] := fun f hf => (hmin f hf).2.1
  have hwf : ∀ f ∈ fs, f.wf := by
    intro f hf
    obtain ⟨h1, h2, h3, h4⟩ := hmin f hf
    exact ⟨h1, h3, by rw [h2]; decide, h4⟩
  have hlen8 := encode_frames_minimal_length fs hempty
  have hlen : (encode_frames fs).length ≤ 65535 := by omega
  have hne : fs ≠ [] := by
    intro h; rw [h] at hk; simp at hk
  rw [dissect_frames fuel pinfo st fs hne hlen hwf hfuel]
  obtain ⟨st', out', hw, hs1, hs2⟩ := walk_frames_complete fuel (encode_frames fs) pinfo hlen fs []
    (loop_start st) rfl rfl hwf (payloads_complete_minimal fuel _ pinfo fs _ hempty)
  rw [hw]
  refine ⟨hlen8, ?_, ?_, ?_⟩
  · simp [Outcome.value?, hlen8]
  · simp only [Outcome.trace, hs1]
    rw [map_summary_minimal fs hempty]
    rfl
  · simp only [Outcome.trace, hs2]
    rw [frame_ranges_minimal fs _ hempty]
    simp [loop_start, frame_items]

/-- Witness of C9 with `k = 2`: one 16-byte buffer, two minimal frames (a
`FLASH_AREA_ERASE` with a good trailer and a `WRITE_REGISTER_ANSWER` with a bad one), two
decoded frames, 16 bytes consumed. -/
theorem C9_minimal_frames_all_decoded_witness :
    encode_frames [⟨0x31, 7, [], 0xFFC7⟩, ⟨0x24, 1, [], 0⟩]
      = [0, 0x31, 0, 7, 0, 0, 0xFF, 0xC7, 0, 0x24, 0, 1, 0, 0, 0, 0]
    ∧ (dissect_FiveCoLegacy 2 (encode_frames [⟨0x31, 7, [], 0xFFC7⟩, ⟨0x24, 1, [], 0⟩])
        ⟨1, false, 7⟩ ⟨0, [], []⟩).value? = some 16
    ∧ frame_summaries (dissect_FiveCoLegacy 2
        (encode_frames [⟨0x31, 7, [], 0xFFC7⟩, ⟨0x24, 1, [], 0⟩])
        ⟨1, false, 7⟩ ⟨0, [], []⟩).trace = [(0x31, 7, 0), (0x24, 1, 0)]
    ∧ frame_items (dissect_FiveCoLegacy 2
        (encode_frames [⟨0x31, 7, [], 0xFFC7⟩, ⟨0x24, 1, [], 0⟩])
        ⟨1, false, 7⟩ ⟨0, [], []⟩).trace = [(0, 8), (8, 8)] := by
  have h := C9_minimal_frames_all_decoded 2 ⟨1, false, 7⟩ ⟨0, [], []⟩
    [⟨0x31, 7, [], 0xFFC7⟩, ⟨0x24, 1, [], 0⟩] (by decide) (by decide) (by decide) (by decide)
  exact ⟨by decide, h.2.1, h.2.2.1, h.2.2.2⟩

theorem erase_append (a b : List Event) :
    erase_checksum_notes (a ++ b) = erase_checksum_notes a ++ erase_checksum_notes b := by
  simp [erase_checksum_notes, List.filterMap_append]

theorem erase_frame_summary (off cmd seq N cal rx : Nat) :
    erase_checksum_notes (frame_summary off cmd seq N cal rx)
      = [.col_frame (off != 0) cmd seq N] := by
  unfold frame_summary
  split <;> simp [erase_checksum_notes]

/-- The tree of a frame inside the buffer, without its checksum verdict, is fixed by the
payload block. -/
theorem frame_tree_erase (ifuel : Nat) (tvb : Tvb) (off cmd N : Nat)
    (rv : Option FCOSConvRequestVal) (cal rx : Nat)
    (hfit : off + N + 8 ≤ tvb.length) (hlen : tvb.length ≤ 65535)
    (hrx : tvb_get_ntohs tvb (off + N + 6) = .ok rx) :
    erase_checksum_notes (frame_tree ifuel tvb off cmd N rv cal).out =
      [.add_item ⟨.proto_FiveCoLegacy, off, N + 8⟩,
        .append_text ⟨.proto_FiveCoLegacy, off, N + 8⟩ (.type_name cmd),
        .add_item ⟨.hf_fiveco_header, off, 6⟩, .add_item ⟨.hf_fiveco_fct, off, 2⟩,
        .add_item ⟨.hf_fiveco_id, off + 2, 2⟩, .add_item ⟨.hf_fiveco_length, off + 4, 2⟩]
        ++ erase_checksum_notes (payload_tree ifuel tvb (off + 6) N cmd rv).out
        ++ (match (payload_tree ifuel tvb (off + 6) N cmd rv).res with
            | .ok _ => [.add_checksum (off + 6 + N) cal 0]
            | _ => [])
    ∧ (frame_tree ifuel tvb off cmd N rv cal).res
        = (payload_tree ifuel tvb (off + 6) N cmd rv).res := by
  rw [frame_tree_eq ifuel tvb off cmd N rv cal rx hfit hlen hrx]
  refine ⟨?_, rfl⟩
  simp only [erase_append]
  cases (payload_tree ifuel tvb (off + 6) N cmd rv).res <;> simp [erase_checksum_notes]

theorem frame_body_congr (f g : Frame) (h : same_but_trailer f g) :
    frame_body f = frame_body g := by
  obtain ⟨h1, h2, h3⟩ := h
  unfold frame_body
  rw [h1, h2, h3]

theorem encode_frames_length_congr : ∀ (fs gs : List Frame),
    List.Forall₂ same_but_trailer fs gs →
    (encode_frames fs).length = (encode_frames gs).length := by
  intro fs gs h
  induction h with
  | nil => rfl
  | cons hfg _ ih =>
    simp only [encode_frames, List.length_append, encode_frame_length, ih, hfg.2.2]

/-- Lockstep of the frame-by-frame walks over two deliveries that differ only in their
trailers. -/
theorem walk_frames_lockstep (ifuel : Nat) (tvb1 tvb2 : Tvb) (pinfo : packet_info)
    (hlen1 : tvb1.length ≤ 65535) (hlen12 : tvb1.length = tvb2.length) :
    ∀ (fs gs : List Frame), List.Forall₂ same_but_trailer fs gs →
    ∀ (pre1 pre2 : List Byte) (s1 s2 : Loop),
      tvb1 = pre1 ++ encode_frames fs → tvb2 = pre2 ++ encode_frames gs →
      s1.tcp_data_offset = pre1.length → s2.tcp_data_offset = pre2.length →
      s1.tcp_data_offset = s2.tcp_data_offset → s1.isRequest = s2.isRequest → s1.st = s2.st →
      erase_checksum_notes s1.out = erase_checksum_notes s2.out →
      (∀ f ∈ fs, f.wf) → (∀ g ∈ gs, g.wf) →
      payloads_agree ifuel tvb1 tvb2 pinfo fs s1 = true →
      (walk_frames ifuel tvb1 pinfo fs s1).erase = (walk_frames ifuel tvb2 pinfo gs s2).erase := by
  intro fs gs h
  induction h with
  | nil =>
    intro pre1 pre2 s1 s2 _ _ _ _ _ _ hst hout _ _ _
    simp only [walk_frames, Outcome.erase, tvb_captured_length, hlen12, hst, hout]
  | @cons f g fs gs hfg hrest ih =>
    intro pre1 pre2 s1 s2 ht1 ht2 hs1 hs2 hoff hreq hst hout hwf1 hwf2 hpa
    have hf := hwf1 f (List.mem_cons_self _ _)
    have hg := hwf2 g (List.mem_cons_self _ _)
    obtain ⟨hcmd, hseq, hpay⟩ := hfg
    have hbody := frame_body_congr f g ⟨hcmd, hseq, hpay⟩
    have hck : frame_checksum f = frame_checksum g := by
      unfold frame_checksum; rw [hbody]
    have ht1' : tvb1 = pre1 ++ (encode_frame f ++ encode_frames fs) := ht1
    have ht2' : tvb2 = pre2 ++ (encode_frame g ++ encode_frames gs) := ht2
    have hfit1 : s1.tcp_data_offset + f.payload.length + 8 ≤ tvb1.length := by
      rw [ht1', hs1]; simp [encode_frame_length]; omega
    have hfit2 : s2.tcp_data_offset + g.payload.length + 8 ≤ tvb2.length := by
      rw [ht2', hs2]; simp [encode_frame_length]; omega
    have hrx1 : tvb_get_ntohs tvb1 (s1.tcp_data_offset + f.payload.length + 6)
        = .ok f.trailer := by
      rw [ht1', hs1]; exact encoded_trailer pre1 _ f hf.2.2.2
    have hrx2 : tvb_get_ntohs tvb2 (s2.tcp_data_offset + g.payload.length + 6)
        = .ok g.trailer := by
      rw [ht2', hs2]; exact encoded_trailer pre2 _ g hg.2.2.2
    unfold payloads_agree frame_step_fields at hpa
    simp only [Bool.and_eq_true, decide_eq_true_eq] at hpa
    obtain ⟨hpeq, hpa'⟩ := hpa
    obtain ⟨he1, hr1⟩ := frame_tree_erase ifuel tvb1 s1.tcp_data_offset f.cmd f.payload.length
      (correlate pinfo s1.st s1.isRequest f.cmd f.payload).2.2 (frame_checksum f) f.trailer
      hfit1 hlen1 hrx1
    obtain ⟨he2, hr2⟩ := frame_tree_erase ifuel tvb2 s2.tcp_data_offset g.cmd g.payload.length
      (correlate pinfo s2.st s2.isRequest g.cmd g.payload).2.2 (frame_checksum g) g.trailer
      hfit2 (by omega) hrx2
    rw [← hoff, ← hreq, ← hst, ← hcmd, ← hpay, ← hck, ← hpeq] at he2 hr2
    have hres : (frame_tree ifuel tvb1 s1.tcp_data_offset f.cmd f.payload.length
          (correlate pinfo s1.st s1.isRequest f.cmd f.payload).2.2 (frame_checksum f)).res
        = (frame_tree ifuel tvb2 s1.tcp_data_offset f.cmd f.payload.length
          (correlate pinfo s1.st s1.isRequest f.cmd f.payload).2.2 (frame_checksum f)).res := by
      rw [hr1, hr2]
    have hout' : erase_checksum_notes (s1.out ++ frame_summary s1.tcp_data_offset f.cmd f.seq
          f.payload.length (frame_checksum f) f.trailer
          ++ (frame_tree ifuel tvb1 s1.tcp_data_offset f.cmd f.payload.length
            (correlate pinfo s1.st s1.isRequest f.cmd f.payload).2.2 (frame_checksum f)).out)
        = erase_checksum_notes (s2.out ++ frame_summary s1.tcp_data_offset f.cmd f.seq
          f.payload.length (frame_checksum f) g.trailer
          ++ (frame_tree ifuel tvb2 s1.tcp_data_offset f.cmd f.payload.length
            (correlate pinfo s1.st s1.isRequest f.cmd f.payload).2.2 (frame_checksum f)).out) := by
      simp only [erase_append, erase_frame_summary, he1, he2, hout]
    unfold walk_frames frame_step_fields
    simp only
    rw [← hoff, ← hreq, ← hst, ← hcmd, ← hseq, ← hpay, ← hck, ← hres]
    cases hw : (frame_tree ifuel tvb1 s1.tcp_data_offset f.cmd f.payload.length
        (correlate pinfo s1.st s1.isRequest f.cmd f.payload).2.2 (frame_checksum f)).res with
    | exn => simp only [Outcome.erase, hout']
    | fuel => simp only [Outcome.erase, hout']
    | ok u =>
      simp only
      rw [hw] at hpa'
      simp only at hpa'
      apply ih (pre1 ++ encode_frame f) (pre2 ++ encode_frame g)
      · rw [ht1']; simp
      · rw [ht2']; simp
      · simp [hs1, encode_frame_length]; omega
      · simp [← hoff, hs2, encode_frame_length, hpay]; omega
      · rfl
      · rfl
      · rfl
      · exact hout'
      · exact fun x hx => hwf1 x (List.mem_cons_of_mem _ hx)
      · exact fun x hx => hwf2 x (List.mem_cons_of_mem _ hx)
      · exact hpa'

/-- Two deliveries made of frames that differ at most in their trailers hold the same
octet at every offset that is not the offset of a trailer octet. -/
theorem encode_frames_off_trailers (fs gs : List Frame)
    (h : List.Forall₂ same_but_trailer fs gs) :
    ∀ off k, off + k ∉ trailer_offsets off fs →
      (encode_frames fs)[k]? = (encode_frames gs)[k]? := by
  induction h with
  | nil => intro off k _; rfl
  | @cons f g fs gs hfg _ ih =>
    intro off k hk
    have hb := frame_body_congr f g hfg
    have hN : g.payload.length = f.payload.length := by rw [hfg.2.2]
    have hlb := frame_body_length f
    simp only [trailer_offsets, List.mem_cons, not_or] at hk
    obtain ⟨hk1, hk2, hk3⟩ := hk
    simp only [encode_frames, encode_frame, List.append_assoc]
    rw [← hb]
    by_cases h1 : k < f.payload.length + 6
    · rw [List.getElem?_append_left (by omega), List.getElem?_append_left (by omega)]
    · have e1 : ∀ (t : Nat) (R : List Byte),
          (frame_body f ++ (be16 t ++ R))[k]? = R[k - (f.payload.length + 8)]? := by
        intro t R
        rw [List.getElem?_append_right (by omega), List.getElem?_append_right
          (by rw [be16_length]; omega), be16_length, hlb,
          show k - (f.payload.length + 6) - 2 = k - (f.payload.length + 8) by omega]
      rw [e1, e1]
      apply ih (off + 8 + f.payload.length)
      rw [show off + 8 + f.payload.length + (k - (f.payload.length + 8)) = off + k by omega]
      exact hk3

theorem take_drop_congr (a b : List Byte) (s l : Nat)
    (h : ∀ k, s ≤ k → k < s + l → a[k]? = b[k]?) :
    (a.drop s).take l = (b.drop s).take l := by
  apply List.ext_getElem?
  intro i
  rw [List.getElem?_take, List.getElem?_take]
  by_cases hi : i < l
  · rw [if_pos hi, if_pos hi, List.getElem?_drop, List.getElem?_drop]
    exact h (s + i) (by omega) (by omega)
  · rw [if_neg hi, if_neg hi]

theorem Outcome.erase_trace (o : Outcome) : o.erase.trace = erase_checksum_notes o.trace := by
  cases o <;> rfl

theorem mem_erase_checksum_notes (out : List Event) (e : Event)
    (h : e ∈ erase_checksum_notes out) :
    e ∈ out ∨ ∃ a b c, e = .add_checksum a b c := by
  unfold erase_checksum_notes at h
  rw [List.mem_filterMap] at h
  obtain ⟨x, hx, hxe⟩ := h
  cases x with
  | col_bad_checksum => simp at hxe
  | add_checksum a b c =>
    simp only [Option.some.injEq] at hxe
    exact Or.inr ⟨_, _, _, hxe.symm⟩
  | col_protocol => simp only [Option.some.injEq] at hxe; subst hxe; exact Or.inl hx
  | col_clear => simp only [Option.some.injEq] at hxe; subst hxe; exact Or.inl hx
  | col_frame _ _ _ _ => simp only [Option.some.injEq] at hxe; subst hxe; exact Or.inl hx
  | add_item _ => simp only [Option.some.injEq] at hxe; subst hxe; exact Or.inl hx
  | append_text _ _ => simp only [Option.some.injEq] at hxe; subst hxe; exact Or.inl hx

/-- When no value item lies over a trailer octet, every call takes the same value from
the two deliveries. -/
theorem values_agree_off_trailers (fs gs : List Frame)
    (h : List.Forall₂ same_but_trailer fs gs) (out : List Event)
    (hv : values_off_trailers fs out = true) :
    ∀ e ∈ erase_checksum_notes out,
      Event.value (encode_frames fs) e = Event.value (encode_frames gs) e := by
  intro e he
  rcases mem_erase_checksum_notes out e he with hm | ⟨a, b, c, rfl⟩
  · cases e with
    | add_item item =>
      unfold values_off_trailers at hv
      rw [List.all_eq_true] at hv
      have := hv _ hm
      simp only [Bool.or_eq_true, List.all_eq_true, Bool.not_eq_true', List.mem_range'_1,
        and_imp] at this
      simp only [Event.value]
      rcases this with hnv | hr
      · rw [if_pos hnv, if_pos hnv]
      · by_cases hnv : item.hf.no_value = true
        · rw [if_pos hnv, if_pos hnv]
        · rw [if_neg hnv, if_neg hnv]
          apply take_drop_congr
          intro k hk1 hk2
          apply encode_frames_off_trailers fs gs h 0 k
          rw [Nat.zero_add]
          intro hmem
          have := hr k hk1 hk2
          have hc : (trailer_offsets 0 fs).contains k = true := by
            simp only [List.contains_eq_any_beq, List.any_eq_true, beq_iff_eq]
            exact ⟨k, hmem, rfl⟩
          rw [hc] at this
          exact Bool.noConfusion this
    | _ => rfl
  · rfl

theorem tvb_memcpy_length (tvb : Tvb) (off n : Nat) (p : List Byte)
    (h : tvb_memcpy tvb off n = .ok p) : p.length = n := by
  unfold tvb_memcpy at h
  split at h
  · simp only [Res.ok.injEq] at h
    subst h
    simp only [List.length_take, List.length_drop]
    omega
  · simp at h

/-- The part of the loop body after the correlator hands the state through. -/
theorem frame_rest_state (fuel : Nat) (tvb : Tvb) (s : Loop) (st : State) (isRequest : Bool)
    (header_type header_id header_data_length : Nat)
    (pRequestVal : Option FCOSConvRequestVal) :
    (frame_rest fuel tvb s st isRequest header_type header_id header_data_length
      pRequestVal).state = st ∧
    ∀ s', frame_rest fuel tvb s st isRequest header_type header_id header_data_length
      pRequestVal = .next s' → s'.isRequest = isRequest := by
  unfold frame_rest
  split
  · exact ⟨rfl, by intro s' h; simp at h⟩
  · exact ⟨rfl, by intro s' h; simp at h⟩
  · split
    · exact ⟨rfl, by intro s' h; simp at h⟩
    · exact ⟨rfl, by intro s' h; simp at h⟩
    · simp only
      split
      · exact ⟨rfl, by intro s' h; simp at h⟩
      · exact ⟨rfl, by intro s' h; simp at h⟩
      · refine ⟨rfl, ?_⟩
        intro s' h
        simp only [Step.next.injEq] at h
        rw [← h]

/-- A frame that does not get to line 300 ends the call and changes nothing. -/
theorem frame_step_of_header_none (fuel : Nat) (tvb : Tvb) (pinfo : packet_info) (s : Loop)
    (h : frame_header tvb s.tcp_data_offset = none) :
    ∃ o, frame_step fuel tvb pinfo s = .done o ∧ o.state = s.st ∧ o.trace = s.out := by
  unfold frame_header at h
  unfold frame_step
  simp only
  split at h
  · rename_i header_type h1
    rw [h1]
    simp only
    split at h
    · rename_i hty
      rw [if_pos hty]
      exact ⟨_, rfl, rfl, rfl⟩
    · rename_i hty
      rw [if_neg hty]
      split at h
      · rename_i header_id h2
        rw [h2]
        simp only
        split at h
        · rename_i header_data_length h3
          rw [h3]
          simp only
          split at h
          · rename_i hgt
            rw [if_pos hgt]
            exact ⟨_, rfl, rfl, rfl⟩
          · simp at h
        · rename_i h3
          cases h4 : tvb_get_ntohs tvb (s.tcp_data_offset + 4) with
          | ok v => exact absurd h4 (h3 v)
          | exn => exact ⟨_, rfl, rfl, rfl⟩
          | fuel => exact ⟨_, rfl, rfl, rfl⟩
      · rename_i h2
        cases h4 : tvb_get_ntohs tvb (s.tcp_data_offset + 2) with
        | ok v => exact absurd h4 (h2 v)
        | exn => exact ⟨_, rfl, rfl, rfl⟩
        | fuel => exact ⟨_, rfl, rfl, rfl⟩
  · rename_i h1
    cases h4 : tvb_get_ntohs tvb (s.tcp_data_offset + 0) with
    | ok v => exact absurd h4 (h1 v)
    | exn => exact ⟨_, rfl, rfl, rfl⟩
    | fuel => exact ⟨_, rfl, rfl, rfl⟩

theorem frame_header_some (tvb : Tvb) (off h id n : Nat)
    (hh : frame_header tvb off = some (h, id, n)) :
    tvb_get_ntohs tvb (off + 0) = .ok h ∧ ¬ (try_val_to_str h packettypenames = none) ∧
    tvb_get_ntohs tvb (off + 2) = .ok id ∧ tvb_get_ntohs tvb (off + 4) = .ok n ∧
    ¬ (n > u32_sub (u32_sub (tvb_captured_length tvb) off) 8) := by
  unfold frame_header at hh
  split at hh
  · rename_i header_type h1
    split at hh
    · simp at hh
    · rename_i hty
      split at hh
      · rename_i header_id h2
        split at hh
        · rename_i header_data_length h3
          split at hh
          · simp at hh
          · rename_i hgt
            simp only [Option.some.injEq, Prod.mk.injEq] at hh
            obtain ⟨e1, e2, e3⟩ := hh
            subst e1 e2 e3
            exact ⟨h1, hty, h2, h3, hgt⟩
        · simp at hh
      · simp at hh
  · simp at hh

/-- A frame that gets to line 300 and whose parameters can be copied: the loop body is
the correlator block followed by the rest of the body. -/
theorem frame_step_of_header (fuel : Nat) (tvb : Tvb) (pinfo : packet_info) (s : Loop)
    (h id n : Nat) (payload : List Byte)
    (hh : frame_header tvb s.tcp_data_offset = some (h, id, n))
    (hp : tvb_memcpy tvb (s.tcp_data_offset + 6) n = .ok payload) :
    frame_step fuel tvb pinfo s
      = frame_rest fuel tvb s (correlate pinfo s.st s.isRequest h payload).1
          (correlate pinfo s.st s.isRequest h payload).2.1 h id n
          (correlate pinfo s.st s.isRequest h payload).2.2 := by
  obtain ⟨h1, hty, h2, h3, hgt⟩ := frame_header_some tvb _ h id n hh
  have hlen := tvb_memcpy_length _ _ _ _ hp
  unfold frame_step correlate
  simp only [h1, h2, h3, if_neg hty, if_neg hgt, hp, hlen]
  split <;> rfl

/-- A frame that gets to line 300 and whose parameters cannot be copied: the state is the
one the id assignment left, and the loop body goes on only when no record is to be made. -/
theorem frame_step_of_header_short (fuel : Nat) (tvb : Tvb) (pinfo : packet_info) (s : Loop)
    (h id n : Nat) (hh : frame_header tvb s.tcp_data_offset = some (h, id, n))
    (hp : ∀ payload, tvb_memcpy tvb (s.tcp_data_offset + 6) n ≠ .ok payload) :
    (frame_step fuel tvb pinfo s).state = (assign_internal_id pinfo s.st s.isRequest h).1 ∧
    ∀ s', frame_step fuel tvb pinfo s = .next s' →
      s'.isRequest = (assign_internal_id pinfo s.st s.isRequest h).2.1 := by
  obtain ⟨h1, hty, h2, h3, hgt⟩ := frame_header_some tvb _ h id n hh
  unfold frame_step
  simp only [h1, h2, h3, if_neg hty, if_neg hgt]
  split
  · cases hm : tvb_memcpy tvb (s.tcp_data_offset + 6) n with
    | ok p => exact absurd hm (hp p)
    | exn => exact ⟨rfl, by intro s' h; simp at h⟩
    | fuel => exact ⟨rfl, by intro s' h; simp at h⟩
  · exact frame_rest_state _ _ _ _ _ _ _ _ _

/-! ### The id cache and the id assignment -/

theorem p_get_add_self (d : List (Nat × Nat)) (num g : Nat) :
    p_get_proto_data (p_add_proto_data d num g) num = some g := by
  simp [p_get_proto_data, p_add_proto_data, List.find?]

theorem p_get_add_ne (d : List (Nat × Nat)) (num g m : Nat) (h : num ≠ m) :
    p_get_proto_data (p_add_proto_data d num g) m = p_get_proto_data d m := by
  have hb : (num == m) = false := by simpa using h
  simp [p_get_proto_data, p_add_proto_data, List.find?, hb]

/-- A packet that has a cached id keeps it: the id assignment changes nothing. -/
theorem assign_cached (pinfo : packet_info) (st : State) (isRequest : Bool)
    (header_type id : Nat) (h : p_get_proto_data st.proto_data pinfo.num = some id) :
    assign_internal_id pinfo st isRequest header_type = (st, isRequest, id) := by
  unfold assign_internal_id
  rw [h]

/-- After the id assignment the packet's cached id is the id assigned. -/
theorem assign_caches (pinfo : packet_info) (st : State) (isRequest : Bool)
    (header_type : Nat) :
    p_get_proto_data (assign_internal_id pinfo st isRequest header_type).1.proto_data pinfo.num
      = some (assign_internal_id pinfo st isRequest header_type).2.2 := by
  unfold assign_internal_id
  cases h : p_get_proto_data st.proto_data pinfo.num with
  | some id => simp only [h]
  | none => simp only [p_get_add_self]

/-- The id assignment never changes an id the cache already holds, of any packet. -/
theorem assign_cache_mono (pinfo : packet_info) (st : State) (isRequest : Bool)
    (header_type m id : Nat) (h : p_get_proto_data st.proto_data m = some id) :
    p_get_proto_data (assign_internal_id pinfo st isRequest header_type).1.proto_data m
      = some id := by
  unfold assign_internal_id
  cases hc : p_get_proto_data st.proto_data pinfo.num with
  | some id' => simpa only [hc] using h
  | none =>
    simp only
    have hne : pinfo.num ≠ m := by
      intro e
      rw [e, h] at hc
      simp at hc
    rw [p_get_add_ne _ _ _ _ hne]
    exact h

/-- The id assignment only touches the counter and the cache. -/
theorem assign_hash (pinfo : packet_info) (st : State) (isRequest : Bool)
    (header_type : Nat) :
    (assign_internal_id pinfo st isRequest header_type).1.FiveCo_requests_hash
      = st.FiveCo_requests_hash := by
  unfold assign_internal_id
  split <;> rfl

/-- The id a frame is given is the counter's value after the assignment, unless the
packet had a cached id. -/
theorem assign_id_counter (pinfo : packet_info) (st : State) (isRequest : Bool)
    (header_type : Nat) (h : p_get_proto_data st.proto_data pinfo.num = none) :
    (assign_internal_id pinfo st isRequest header_type).2.2
      = (assign_internal_id pinfo st isRequest header_type).1.g_unInternalID := by
  unfold assign_internal_id
  rw [h]

/-- The flag `isRequest` is raised only by the id assignment of a packet without a cached
id. -/
theorem assign_flag (pinfo : packet_info) (st : State) (isRequest : Bool)
    (header_type : Nat) (h : (assign_internal_id pinfo st isRequest header_type).2.1 = true) :
    isRequest = true ∨ p_get_proto_data st.proto_data pinfo.num = none := by
  unfold assign_internal_id at h
  cases hc : p_get_proto_data st.proto_data pinfo.num with
  | some id => rw [hc] at h; exact Or.inl h
  | none => exact Or.inr rfl

theorem correlate_proto_data (pinfo : packet_info) (st : State) (isRequest : Bool)
    (header_type : Nat) (payload : List Byte) :
    (correlate pinfo st isRequest header_type payload).1.proto_data
      = (assign_internal_id pinfo st isRequest header_type).1.proto_data := by
  unfold correlate
  simp only
  split <;> rfl

theorem correlate_counter (pinfo : packet_info) (st : State) (isRequest : Bool)
    (header_type : Nat) (payload : List Byte) :
    (correlate pinfo st isRequest header_type payload).1.g_unInternalID
      = (assign_internal_id pinfo st isRequest header_type).1.g_unInternalID := by
  unfold correlate
  simp only
  split <;> rfl

theorem correlate_flag (pinfo : packet_info) (st : State) (isRequest : Bool)
    (header_type : Nat) (payload : List Byte) :
    (correlate pinfo st isRequest header_type payload).2.1
      = (assign_internal_id pinfo st isRequest header_type).2.1 := by
  unfold correlate
  simp only
  split <;> rfl

/-- For a packet that has a cached id and a walk whose flag `isRequest` is down, the
correlator block changes nothing. -/
theorem correlate_cached (pinfo : packet_info) (st : State) (header_type id : Nat)
    (payload : List Byte) (h : p_get_proto_data st.proto_data pinfo.num = some id) :
    (correlate pinfo st false header_type payload).1 = st ∧
    (correlate pinfo st false header_type payload).2.1 = false := by
  unfold correlate
  rw [assign_cached pinfo st false header_type id h]
  simp

/-! ### Invariants of the correlator state along the walk -/

/-- Whatever holds of the state and the flag `isRequest` before a frame, and is kept by
the id assignment and by the correlator block, holds after the frame. -/
theorem frame_step_state_ind (fuel : Nat) (tvb : Tvb) (pinfo : packet_info) (s : Loop)
    (P : State → Bool → Prop) (h0 : P s.st s.isRequest)
    (hc : ∀ h payload, P (correlate pinfo s.st s.isRequest h payload).1
      (correlate pinfo s.st s.isRequest h payload).2.1)
    (ha : ∀ h, P (assign_internal_id pinfo s.st s.isRequest h).1
      (assign_internal_id pinfo s.st s.isRequest h).2.1) :
    ∃ b, P (frame_step fuel tvb pinfo s).state b ∧
      ∀ s', frame_step fuel tvb pinfo s = .next s' → s'.isRequest = b := by
  cases hh : frame_header tvb s.tcp_data_offset with
  | none =>
    obtain ⟨o, ho, hst, _⟩ := frame_step_of_header_none fuel tvb pinfo s hh
    refine ⟨s.isRequest, ?_, ?_⟩
    · rw [ho]
      simp only [Step.state, hst]
      exact h0
    · intro s' hs'
      rw [ho] at hs'
      simp at hs'
  | some hdr =>
    obtain ⟨h, id, n⟩ := hdr
    cases hp : tvb_memcpy tvb (s.tcp_data_offset + 6) n with
    | ok payload =>
      rw [frame_step_of_header fuel tvb pinfo s h id n payload hh hp]
      obtain ⟨h1, h2⟩ := frame_rest_state fuel tvb s
        (correlate pinfo s.st s.isRequest h payload).1
        (correlate pinfo s.st s.isRequest h payload).2.1 h id n
        (correlate pinfo s.st s.isRequest h payload).2.2
      exact ⟨_, by rw [h1]; exact hc h payload, h2⟩
    | exn =>
      obtain ⟨h1, h2⟩ := frame_step_of_header_short fuel tvb pinfo s h id n hh
        (by intro p hp'; rw [hp] at hp'; simp at hp')
      exact ⟨_, by rw [h1]; exact ha h, h2⟩
    | fuel =>
      obtain ⟨h1, h2⟩ := frame_step_of_header_short fuel tvb pinfo s h id n hh
        (by intro p hp'; rw [hp] at hp'; simp at hp')
      exact ⟨_, by rw [h1]; exact ha h, h2⟩

/-- The same along the whole walk. -/
theorem frame_walk_state_ind (ifuel : Nat) (tvb : Tvb) (pinfo : packet_info)
    (P : State → Bool → Prop)
    (hc : ∀ st r h payload, P st r →
      P (correlate pinfo st r h payload).1 (correlate pinfo st r h payload).2.1)
    (ha : ∀ st r h, P st r →
      P (assign_internal_id pinfo st r h).1 (assign_internal_id pinfo st r h).2.1) :
    ∀ (n : Nat) (s : Loop), P s.st s.isRequest →
      ∃ b, P (frame_walk ifuel tvb pinfo n s).state b := by
  intro n
  induction n with
  | zero =>
    intro s hs
    unfold frame_walk
    split <;> exact ⟨s.isRequest, hs⟩
  | succ n ih =>
    intro s hs
    rw [frame_walk_succ]
    split
    · obtain ⟨b, hb, hnext⟩ := frame_step_state_ind ifuel tvb pinfo s P hs
        (fun h payload => hc _ _ h payload hs) (fun h => ha _ _ h hs)
      cases hstep : frame_step ifuel tvb pinfo s with
      | next s' =>
        simp only
        rw [hstep] at hb
        apply ih
        rw [hnext s' hstep]
        exact hb
      | done o =>
        rw [hstep] at hb
        exact ⟨b, hb⟩
    · exact ⟨s.isRequest, hs⟩

/-- The same for a call of the dissector. -/
theorem dissect_state_ind (fuel : Nat) (tvb : Tvb) (pinfo : packet_info) (st : State)
    (P : State → Bool → Prop)
    (hc : ∀ st r h payload, P st r →
      P (correlate pinfo st r h payload).1 (correlate pinfo st r h payload).2.1)
    (ha : ∀ st r h, P st r →
      P (assign_internal_id pinfo st r h).1 (assign_internal_id pinfo st r h).2.1)
    (h0 : P st false) :
    ∃ b, P (dissect_FiveCoLegacy fuel tvb pinfo st).state b := by
  unfold dissect_FiveCoLegacy
  split
  · exact ⟨false, h0⟩
  · exact frame_walk_state_ind fuel tvb pinfo P hc ha fuel _ h0

/-- No call of the dissector changes an id the cache holds, of any packet. -/
theorem dissect_cache_mono (fuel : Nat) (tvb : Tvb) (pinfo : packet_info) (st : State)
    (m id : Nat) (h : p_get_proto_data st.proto_data m = some id) :
    p_get_proto_data (dissect_FiveCoLegacy fuel tvb pinfo st).state.proto_data m = some id := by
  obtain ⟨_, hb⟩ := dissect_state_ind fuel tvb pinfo st
    (fun st _ => p_get_proto_data st.proto_data m = some id)
    (fun st r h payload hst => by
      show p_get_proto_data (correlate pinfo st r h payload).1.proto_data m = some id
      rw [correlate_proto_data]
      exact assign_cache_mono pinfo st r h m id hst)
    (fun st r h hst => assign_cache_mono pinfo st r h m id hst) h
  exact hb

theorem run_deliveries_cache_mono (fuel : Nat) (m id : Nat) :
    ∀ (ds : List (Tvb × packet_info)) (st : State),
      p_get_proto_data st.proto_data m = some id →
      p_get_proto_data (run_deliveries fuel ds st).proto_data m = some id := by
  intro ds
  induction ds with
  | nil => intro st h; exact h
  | cons d ds ih =>
    intro st h
    unfold run_deliveries
    exact ih _ (dissect_cache_mono fuel d.1 d.2 st m id h)

/-- A call on a packet that has a cached id leaves the whole state as it was. -/
theorem dissect_cached_state (fuel : Nat) (tvb : Tvb) (pinfo : packet_info) (st : State)
    (id : Nat) (h : p_get_proto_data st.proto_data pinfo.num = some id) :
    (dissect_FiveCoLegacy fuel tvb pinfo st).state = st := by
  obtain ⟨_, hb⟩ := dissect_state_ind fuel tvb pinfo st
    (fun st' r => st' = st ∧ r = false)
    (fun st' r hd payload hst => by
      obtain ⟨e1, e2⟩ := hst
      subst e1 e2
      exact correlate_cached pinfo _ hd id payload h)
    (fun st' r hd hst => by
      obtain ⟨e1, e2⟩ := hst
      subst e1 e2
      rw [assign_cached pinfo _ false hd id h]
      exact ⟨rfl, rfl⟩)
    ⟨rfl, rfl⟩
  exact hb.1

/-! ### The ids given to the frames of a delivery -/

theorem frame_step_cache_mono (fuel : Nat) (tvb : Tvb) (pinfo : packet_info) (s : Loop)
    (m id : Nat) (h : p_get_proto_data s.st.proto_data m = some id) :
    p_get_proto_data (frame_step fuel tvb pinfo s).state.proto_data m = some id := by
  obtain ⟨_, hb, _⟩ := frame_step_state_ind fuel tvb pinfo s
    (fun st _ => p_get_proto_data st.proto_data m = some id) h
    (fun hd payload => by
      show p_get_proto_data (correlate pinfo s.st s.isRequest hd payload).1.proto_data m
        = some id
      rw [correlate_proto_data]
      exact assign_cache_mono pinfo s.st s.isRequest hd m id h)
    (fun hd => assign_cache_mono pinfo s.st s.isRequest hd m id h)
  exact hb

theorem frame_walk_cache_mono (ifuel : Nat) (tvb : Tvb) (pinfo : packet_info) (m id : Nat)
    (n : Nat) (s : Loop) (h : p_get_proto_data s.st.proto_data m = some id) :
    p_get_proto_data (frame_walk ifuel tvb pinfo n s).state.proto_data m = some id := by
  obtain ⟨_, hb⟩ := frame_walk_state_ind ifuel tvb pinfo
    (fun st _ => p_get_proto_data st.proto_data m = some id)
    (fun st r hd payload hst => by
      show p_get_proto_data (correlate pinfo st r hd payload).1.proto_data m = some id
      rw [correlate_proto_data]
      exact assign_cache_mono pinfo st r hd m id hst)
    (fun st r hd hst => assign_cache_mono pinfo st r hd m id hst) n s h
  exact hb

/-- A frame that gets to line 300 leaves its id in the packet's cache. -/
theorem frame_step_caches (fuel : Nat) (tvb : Tvb) (pinfo : packet_info) (s : Loop)
    (h id n : Nat) (hh : frame_header tvb s.tcp_data_offset = some (h, id, n)) :
    p_get_proto_data (frame_step fuel tvb pinfo s).state.proto_data pinfo.num
      = some (assign_internal_id pinfo s.st s.isRequest h).2.2 := by
  cases hp : tvb_memcpy tvb (s.tcp_data_offset + 6) n with
  | ok payload =>
    rw [frame_step_of_header fuel tvb pinfo s h id n payload hh hp,
      (frame_rest_state _ _ _ _ _ _ _ _ _).1, correlate_proto_data]
    exact assign_caches pinfo s.st s.isRequest h
  | exn =>
    rw [(frame_step_of_header_short fuel tvb pinfo s h id n hh
      (by intro p hp'; rw [hp] at hp'; simp at hp')).1]
    exact assign_caches pinfo s.st s.isRequest h
  | fuel =>
    rw [(frame_step_of_header_short fuel tvb pinfo s h id n hh
      (by intro p hp'; rw [hp] at hp'; simp at hp')).1]
    exact assign_caches pinfo s.st s.isRequest h

theorem assigned_ids_succ (ifuel : Nat) (tvb : Tvb) (pinfo : packet_info) (n : Nat) (s : Loop) :
    assigned_ids ifuel tvb pinfo (n + 1) s =
      if s.tcp_data_offset < tvb_captured_length tvb then
        (match frame_header tvb s.tcp_data_offset with
          | some h => [(assign_internal_id pinfo s.st s.isRequest h.1).2.2]
          | none => []) ++
        (match frame_step ifuel tvb pinfo s with
          | .next s' => assigned_ids ifuel tvb pinfo n s'
          | .done _ => [])
      else [] := rfl

/-- In a walk on a packet that has a cached id, every frame is given that id. -/
theorem assigned_ids_cached (ifuel : Nat) (tvb : Tvb) (pinfo : packet_info) (c : Nat) :
    ∀ (n : Nat) (s : Loop), p_get_proto_data s.st.proto_data pinfo.num = some c →
      ∀ x ∈ assigned_ids ifuel tvb pinfo n s, x = c := by
  intro n
  induction n with
  | zero => intro s _ x hx; simp [assigned_ids] at hx
  | succ n ih =>
    intro s hs x hx
    rw [assigned_ids_succ] at hx
    split at hx
    · rw [List.mem_append] at hx
      rcases hx with hx | hx
      · split at hx
        · simp only [List.mem_singleton] at hx
          rw [hx, assign_cached pinfo s.st s.isRequest _ c hs]
        · simp at hx
      · have hmono := frame_step_cache_mono ifuel tvb pinfo s pinfo.num c hs
        split at hx
        · rename_i s' hstep
          rw [hstep] at hmono
          exact ih s' hmono x hx
        · simp at hx
    · simp at hx

/-- Every id given to a frame of a walk is the id the packet's cache holds when the walk
has ended. -/
theorem assigned_ids_final (ifuel : Nat) (tvb : Tvb) (pinfo : packet_info) :
    ∀ (n : Nat) (s : Loop), ∀ x ∈ assigned_ids ifuel tvb pinfo n s,
      p_get_proto_data (frame_walk ifuel tvb pinfo n s).state.proto_data pinfo.num
        = some x := by
  intro n
  induction n with
  | zero => intro s x hx; simp [assigned_ids] at hx
  | succ n ih =>
    intro s x hx
    rw [assigned_ids_succ] at hx
    split at hx
    · rename_i hlt
      rw [frame_walk_succ, if_pos hlt]
      rw [List.mem_append] at hx
      rcases hx with hx | hx
      · split at hx
        · rename_i hdr hh
          obtain ⟨h, id, m⟩ := hdr
          simp only [List.mem_singleton] at hx
          have hc := frame_step_caches ifuel tvb pinfo s h id m hh
          rw [← hx] at hc
          cases hstep : frame_step ifuel tvb pinfo s with
          | next s' =>
            rw [hstep] at hc
            exact frame_walk_cache_mono ifuel tvb pinfo pinfo.num x n s' hc
          | done o =>
            rw [hstep] at hc
            exact hc
        · simp at hx
      · split at hx
        · rename_i s' hstep
          exact ih s' x hx
        · simp at hx
    · simp at hx

/-- Whether a call gives any id is decided by the buffer alone. -/
theorem dissect_ids_eq_nil_iff (fuel : Nat) (tvb : Tvb) (pinfo : packet_info) (st : State) :
    dissect_ids fuel tvb pinfo st = [] ↔
      (tvb.length < 8 ∨ fuel = 0 ∨ frame_header tvb 0 = none) := by
  unfold dissect_ids
  simp only [tvb_captured_length, FIVECO_LEGACY_MIN_LENGTH, FIVECO_LEGACY_HEADER_LENGTH]
  constructor
  · intro h
    by_cases hlen : tvb.length < 8
    · exact Or.inl hlen
    · rw [if_neg hlen] at h
      cases fuel with
      | zero => exact Or.inr (Or.inl rfl)
      | succ n =>
        right; right
        rw [assigned_ids_succ] at h
        have hlt : (loop_start st).tcp_data_offset < tvb_captured_length tvb := by
          simp only [loop_start, tvb_captured_length]; omega
        rw [if_pos hlt] at h
        cases hh : frame_header tvb 0 with
        | none => rfl
        | some hdr =>
          have : frame_header tvb (loop_start st).tcp_data_offset = some hdr := hh
          rw [this] at h
          simp at h
  · intro h
    by_cases hlen : tvb.length < 8
    · rw [if_pos hlen]
    · rw [if_neg hlen]
      rcases h with h | h | h
      · exact absurd h hlen
      · subst h; rfl
      · cases fuel with
        | zero => rfl
        | succ n =>
          rw [assigned_ids_succ]
          split
          · have hh : frame_header tvb (loop_start st).tcp_data_offset = none := h
            obtain ⟨o, ho, _, _⟩ := frame_step_of_header_none (n + 1) tvb pinfo
              (loop_start st) hh
            rw [hh, ho]
            rfl
          · rfl

/-- A call that gives no id leaves the state as it was. -/
theorem dissect_no_id_state (fuel : Nat) (tvb : Tvb) (pinfo : packet_info) (st : State)
    (h : tvb.length < 8 ∨ fuel = 0 ∨ frame_header tvb 0 = none) :
    (dissect_FiveCoLegacy fuel tvb pinfo st).state = st := by
  unfold dissect_FiveCoLegacy
  simp only [tvb_captured_length, FIVECO_LEGACY_MIN_LENGTH, FIVECO_LEGACY_HEADER_LENGTH]
  by_cases hlen : tvb.length < 8
  · rw [if_pos hlen]; rfl
  · rw [if_neg hlen]
    rcases h with h | h | h
    · exact absurd h hlen
    · subst h
      unfold frame_walk
      split <;> rfl
    · cases fuel with
      | zero => unfold frame_walk; split <;> rfl
      | succ n =>
        rw [frame_walk_succ]
        split
        · have hh : frame_header tvb
              ({ tcp_data_offset := 0, isRequest := false, st := st,
                 out := [.col_protocol, .col_clear] } : Loop).tcp_data_offset = none := h
          obtain ⟨o, ho, hst, _⟩ := frame_step_of_header_none (n + 1) tvb pinfo _ hh
          rw [ho]
          exact hst
        · rfl

theorem dissect_ids_final (fuel : Nat) (tvb : Tvb) (pinfo : packet_info) (st : State) :
    ∀ x ∈ dissect_ids fuel tvb pinfo st,
      p_get_proto_data (dissect_FiveCoLegacy fuel tvb pinfo st).state.proto_data pinfo.num
        = some x := by
  intro x hx
  unfold dissect_ids at hx
  unfold dissect_FiveCoLegacy
  split at hx
  · simp at hx
  · rename_i hlen
    rw [if_neg hlen]
    exact assigned_ids_final fuel tvb pinfo fuel (loop_start st) x hx

theorem dissect_ids_cached (fuel : Nat) (tvb : Tvb) (pinfo : packet_info) (st : State)
    (c : Nat) (h : p_get_proto_data st.proto_data pinfo.num = some c) :
    ∀ x ∈ dissect_ids fuel tvb pinfo st, x = c := by
  intro x hx
  unfold dissect_ids at hx
  split at hx
  · simp at hx
  · exact assigned_ids_cached fuel tvb pinfo c fuel (loop_start st) h x hx

/-! ### Idempotence of the id assignment (C11) -/

/-- C11. For every delivery `tvb` of a packet `pinfo`, dissected first in any state `st`,
then, after any sequence `ds` of further deliveries, a second time (same buffer, same
packet number and flow, whatever the flag `visited`): the second call leaves the whole
correlator state as it found it (the counter is not incremented, no pending-request
record is added or replaced, the id cache is unchanged), every frame of the second call
is given the synthetic id the frames of the first call were given, and the second call
gives ids exactly when the first did. -/
theorem C11_second_pass_idempotent (fuel : Nat) (tvb : Tvb) (pinfo : packet_info)
    (st : State) (ds : List (Tvb × packet_info)) (visited : Bool) :
    (dissect_FiveCoLegacy fuel tvb { pinfo with visited := visited }
        (run_deliveries fuel ds (dissect_FiveCoLegacy fuel tvb pinfo st).state)).state
      = run_deliveries fuel ds (dissect_FiveCoLegacy fuel tvb pinfo st).state ∧
    (∀ x ∈ dissect_ids fuel tvb { pinfo with visited := visited }
        (run_deliveries fuel ds (dissect_FiveCoLegacy fuel tvb pinfo st).state),
      ∀ y ∈ dissect_ids fuel tvb pinfo st, x = y) ∧
    (dissect_ids fuel tvb { pinfo with visited := visited }
        (run_deliveries fuel ds (dissect_FiveCoLegacy fuel tvb pinfo st).state) = [] ↔
      dissect_ids fuel tvb pinfo st = []) := by
  have hcache : ∀ y ∈ dissect_ids fuel tvb pinfo st,
      p_get_proto_data
        (run_deliveries fuel ds (dissect_FiveCoLegacy fuel tvb pinfo st).state).proto_data
        ({ pinfo with visited := visited } : packet_info).num = some y := by
    intro y hy
    exact run_deliveries_cache_mono fuel pinfo.num y ds _
      (dissect_ids_final fuel tvb pinfo st y hy)
  refine ⟨?_, ?_, ?_⟩
  · cases hids : dissect_ids fuel tvb pinfo st with
    | nil =>
      exact dissect_no_id_state fuel tvb _ _
        ((dissect_ids_eq_nil_iff fuel tvb pinfo st).mp hids)
    | cons y ys =>
      exact dissect_cached_state fuel tvb _ _ y
        (hcache y (by rw [hids]; exact List.mem_cons_self _ _))
  · intro x hx y hy
    exact dissect_ids_cached fuel tvb _ _ y (hcache y hy) x hx
  · rw [dissect_ids_eq_nil_iff, dissect_ids_eq_nil_iff]

/-- Witness of C11: a `READ_REGISTER` request (packet 1), then its answer (packet 2),
then the request dissected again with `visited` set. Both passes give the request the
id 1 and the second pass leaves the state as it found it. -/
theorem C11_second_pass_idempotent_witness :
    dissect_ids 5 [0, 0x21, 0, 1, 0, 1, 0x14, 0xEB, 0xDC] ⟨1, false, 7⟩ ⟨0, [], []⟩ = [1] ∧
    dissect_ids 5 [0, 0x21, 0, 1, 0, 1, 0x14, 0xEB, 0xDC] ⟨1, true, 7⟩
      (run_deliveries 5 [([0, 0x23, 0, 1, 0, 2, 0x14, 5, 0xEB, 0xD4], ⟨2, false, 7⟩)]
        (dissect_FiveCoLegacy 5 [0, 0x21, 0, 1, 0, 1, 0x14, 0xEB, 0xDC] ⟨1, false, 7⟩
          ⟨0, [], []⟩).state) = [1] ∧
    (dissect_FiveCoLegacy 5 [0, 0x21, 0, 1, 0, 1, 0x14, 0xEB, 0xDC] ⟨1, true, 7⟩
      (run_deliveries 5 [([0, 0x23, 0, 1, 0, 2, 0x14, 5, 0xEB, 0xD4], ⟨2, false, 7⟩)]
        (dissect_FiveCoLegacy 5 [0, 0x21, 0, 1, 0, 1, 0x14, 0xEB, 0xDC] ⟨1, false, 7⟩
          ⟨0, [], []⟩).state)).state
      = ⟨1, [(⟨7, 1, READ_REGISTER_ANSWER⟩, ⟨1, 0, [0x14]⟩)], [(2, 1), (1, 1)]⟩ := by
  refine ⟨by decide, by decide, ?_⟩
  rw [(C11_second_pass_idempotent 5 [0, 0x21, 0, 1, 0, 1, 0x14, 0xEB, 0xDC] ⟨1, false, 7⟩
    ⟨0, [], []⟩ [([0, 0x23, 0, 1, 0, 2, 0x14, 5, 0xEB, 0xD4], ⟨2, false, 7⟩)] true).1]
  decide

/-! ### The counter and the request frames of a delivery (C12) -/

/-- Once the packet has a cached id equal to the counter, the rest of the walk changes
neither. -/
theorem frame_walk_counter_cached (ifuel : Nat) (tvb : Tvb) (pinfo : packet_info) (G : Nat)
    (n : Nat) (s : Loop) (hg : s.st.g_unInternalID = G)
    (hc : p_get_proto_data s.st.proto_data pinfo.num = some G) :
    (frame_walk ifuel tvb pinfo n s).state.g_unInternalID = G ∧
    p_get_proto_data (frame_walk ifuel tvb pinfo n s).state.proto_data pinfo.num = some G := by
  have hassign : ∀ (st : State) (r : Bool) (h : Nat),
      (st.g_unInternalID = G ∧ p_get_proto_data st.proto_data pinfo.num = some G) →
      ((assign_internal_id pinfo st r h).1.g_unInternalID = G ∧
        p_get_proto_data (assign_internal_id pinfo st r h).1.proto_data pinfo.num = some G) := by
    intro st r h hst
    rw [assign_cached pinfo st r h G hst.2]
    exact hst
  obtain ⟨_, hb⟩ := frame_walk_state_ind ifuel tvb pinfo
    (fun st _ => st.g_unInternalID = G ∧ p_get_proto_data st.proto_data pinfo.num = some G)
    (fun st r h payload hst => by
      show (correlate pinfo st r h payload).1.g_unInternalID = G ∧
        p_get_proto_data (correlate pinfo st r h payload).1.proto_data pinfo.num = some G
      rw [correlate_counter, correlate_proto_data]
      exact hassign st r h hst)
    (fun st r h hst => hassign st r h hst) n s ⟨hg, hc⟩
  exact hb

/-- The counter's value after the id assignment of a packet without a cached id. -/
theorem assign_counter_new (pinfo : packet_info) (st : State) (r : Bool) (h : Nat)
    (hnew : p_get_proto_data st.proto_data pinfo.num = none) :
    (assign_internal_id pinfo st r h).1.g_unInternalID
      = if is_request_command h then (st.g_unInternalID + 1) % 18446744073709551616
        else st.g_unInternalID := by
  unfold assign_internal_id
  rw [hnew]

/-- The counter after the first frame of a walk that gets to line 300, in a packet
without a cached id. -/
theorem frame_step_counter_new (fuel : Nat) (tvb : Tvb) (pinfo : packet_info) (s : Loop)
    (h id n : Nat) (hh : frame_header tvb s.tcp_data_offset = some (h, id, n))
    (hnew : p_get_proto_data s.st.proto_data pinfo.num = none) :
    (frame_step fuel tvb pinfo s).state.g_unInternalID
      = if is_request_command h then (s.st.g_unInternalID + 1) % 18446744073709551616
        else s.st.g_unInternalID := by
  rw [← assign_counter_new pinfo s.st s.isRequest h hnew]
  cases hp : tvb_memcpy tvb (s.tcp_data_offset + 6) n with
  | ok payload =>
    rw [frame_step_of_header fuel tvb pinfo s h id n payload hh hp,
      (frame_rest_state _ _ _ _ _ _ _ _ _).1, correlate_counter]
  | exn =>
    rw [(frame_step_of_header_short fuel tvb pinfo s h id n hh
      (by intro p hp'; rw [hp] at hp'; simp at hp')).1]
  | fuel =>
    rw [(frame_step_of_header_short fuel tvb pinfo s h id n hh
      (by intro p hp'; rw [hp] at hp'; simp at hp')).1]

/-- Counterexample to C12 as stated: a first-seen delivery of two request frames,
`READ_REGISTER` then `WRITE_REGISTER` (k = 2). The call returns 18 and both frames are
decoded, but the counter goes from 0 to 1, not to 2, and both frames are given the id 1.
A first-seen delivery of a `FLASH_AREA_ERASE` frame followed by a `READ_REGISTER`
request (k = 1) leaves the counter at 0. -/
theorem C12_counterexample :
    (dissect_FiveCoLegacy 5
        [0, 0x21, 0, 1, 0, 1, 0, 0xFF, 0xDC, 0, 0x22, 0, 2, 0, 1, 2, 0xFD, 0xDA]
        ⟨1, false, 7⟩ ⟨0, [], []⟩).value? = some 18
    ∧ frame_summaries (dissect_FiveCoLegacy 5
        [0, 0x21, 0, 1, 0, 1, 0, 0xFF, 0xDC, 0, 0x22, 0, 2, 0, 1, 2, 0xFD, 0xDA]
        ⟨1, false, 7⟩ ⟨0, [], []⟩).trace = [(READ_REGISTER, 1, 1), (WRITE_REGISTER, 2, 1)]
    ∧ (dissect_FiveCoLegacy 5
        [0, 0x21, 0, 1, 0, 1, 0, 0xFF, 0xDC, 0, 0x22, 0, 2, 0, 1, 2, 0xFD, 0xDA]
        ⟨1, false, 7⟩ ⟨0, [], []⟩).state.g_unInternalID = 1
    ∧ dissect_ids 5
        [0, 0x21, 0, 1, 0, 1, 0, 0xFF, 0xDC, 0, 0x22, 0, 2, 0, 1, 2, 0xFD, 0xDA]
        ⟨1, false, 7⟩ ⟨0, [], []⟩ = [1, 1]
    ∧ (dissect_FiveCoLegacy 5
        [0, 0x31, 0, 1, 0, 0, 0xFF, 0xCD, 0, 0x21, 0, 2, 0, 1, 1, 0xFE, 0xDB]
        ⟨1, false, 7⟩ ⟨0, [], []⟩).value? = some 17
    ∧ (dissect_FiveCoLegacy 5
        [0, 0x31, 0, 1, 0, 0, 0xFF, 0xCD, 0, 0x21, 0, 2, 0, 1, 1, 0xFE, 0xDB]
        ⟨1, false, 7⟩ ⟨0, [], []⟩).state.g_unInternalID = 0
    ∧ dissect_ids 5
        [0, 0x31, 0, 1, 0, 0, 0xFF, 0xCD, 0, 0x21, 0, 2, 0, 1, 1, 0xFE, 0xDB]
        ⟨1, false, 7⟩ ⟨0, [], []⟩ = [0, 0] := by
  decide

/-- C12, as amended. The id is got or set per packet number (lines 301-317), so for every
delivery of at least 8 bytes seen for the first time (its packet has no cached id) the
counter is incremented at most once: after dissection it equals the counter before plus
one when the first frame gets to the id assignment and has a request-class command, and
the counter before otherwise, whatever the number and the positions of the request frames
that follow; every frame of the delivery is given the same synthetic id, the counter's
value after the call. -/
theorem C12_counter_once_per_first_seen_delivery (fuel : Nat) (tvb : Tvb)
    (pinfo : packet_info) (st : State)
    (hnew : p_get_proto_data st.proto_data pinfo.num = none) (hlen : 8 ≤ tvb.length)
    (hfuel : 0 < fuel) :
    (dissect_FiveCoLegacy fuel tvb pinfo st).state.g_unInternalID
      = (match frame_header tvb 0 with
          | some hdr =>
            if is_request_command hdr.1 then (st.g_unInternalID + 1) % 18446744073709551616
            else st.g_unInternalID
          | none => st.g_unInternalID) ∧
    ∀ x ∈ dissect_ids fuel tvb pinfo st,
      x = (dissect_FiveCoLegacy fuel tvb pinfo st).state.g_unInternalID := by
  obtain ⟨m, rfl⟩ : ∃ m, fuel = m + 1 := ⟨fuel - 1, by omega⟩
  have hlong : ¬ tvb_captured_length tvb < FIVECO_LEGACY_MIN_LENGTH := by
    simp only [tvb_captured_length, FIVECO_LEGACY_MIN_LENGTH, FIVECO_LEGACY_HEADER_LENGTH]
    omega
  have hlt : (loop_start st).tcp_data_offset < tvb_captured_length tvb := by
    simp only [loop_start, tvb_captured_length]
    omega
  have hd : dissect_FiveCoLegacy (m + 1) tvb pinfo st
      = match frame_step (m + 1) tvb pinfo (loop_start st) with
        | .next s' => frame_walk (m + 1) tvb pinfo m s'
        | .done o => o := by
    unfold dissect_FiveCoLegacy
    rw [if_neg hlong]
    show frame_walk (m + 1) tvb pinfo (m + 1) (loop_start st) = _
    rw [frame_walk_succ, if_pos hlt]
  have hi : dissect_ids (m + 1) tvb pinfo st
      = (match frame_header tvb (loop_start st).tcp_data_offset with
          | some h => [(assign_internal_id pinfo (loop_start st).st
              (loop_start st).isRequest h.1).2.2]
          | none => []) ++
        (match frame_step (m + 1) tvb pinfo (loop_start st) with
          | .next s' => assigned_ids (m + 1) tvb pinfo m s'
          | .done _ => []) := by
    unfold dissect_ids
    rw [if_neg hlong, assigned_ids_succ, if_pos hlt]
  have hh0 : frame_header tvb (loop_start st).tcp_data_offset = frame_header tvb 0 := rfl
  rw [hd, hi, hh0]
  cases hh : frame_header tvb 0 with
  | none =>
    obtain ⟨o, ho, hst, _⟩ := frame_step_of_header_none (m + 1) tvb pinfo (loop_start st) hh
    rw [ho]
    simp only [List.append_nil, List.not_mem_nil, false_implies, implies_true, and_true]
    rw [hst]
    rfl
  | some hdr =>
    obtain ⟨h, id, n⟩ := hdr
    have hcnt := frame_step_counter_new (m + 1) tvb pinfo (loop_start st) h id n hh hnew
    have hcache := frame_step_caches (m + 1) tvb pinfo (loop_start st) h id n hh
    have hid : (assign_internal_id pinfo (loop_start st).st (loop_start st).isRequest h).2.2
        = if is_request_command h then (st.g_unInternalID + 1) % 18446744073709551616
          else st.g_unInternalID :=
      (assign_id_counter pinfo (loop_start st).st (loop_start st).isRequest h hnew).trans
        (assign_counter_new pinfo st (loop_start st).isRequest h hnew)
    rw [hid] at hcache
    simp only [List.mem_append, List.mem_singleton]
    cases hstep : frame_step (m + 1) tvb pinfo (loop_start st) with
    | next s' =>
      rw [hstep] at hcnt hcache
      obtain ⟨hfin, _⟩ := frame_walk_counter_cached (m + 1) tvb pinfo _ m s' hcnt hcache
      refine ⟨hfin, ?_⟩
      intro x hx
      rw [hfin]
      rcases hx with hx | hx
      · rw [hx, hid]
        rfl
      · exact assigned_ids_cached (m + 1) tvb pinfo _ m s' hcache x hx
    | done o =>
      rw [hstep] at hcnt
      refine ⟨hcnt, ?_⟩
      intro x hx
      rcases hx with hx | hx
      · rw [hx, hid]
        exact hcnt.symm
      · simp at hx

/-- Witness of C12 as amended, on the first delivery of the counterexample: the first
frame is a `READ_REGISTER` request, the counter goes from 0 to 1 and both frames are
given the id 1. -/
theorem C12_counter_once_per_first_seen_delivery_witness :
    (dissect_FiveCoLegacy 5
        [0, 0x21, 0, 1, 0, 1, 0, 0xFF, 0xDC, 0, 0x22, 0, 2, 0, 1, 2, 0xFD, 0xDA]
        ⟨1, false, 7⟩ ⟨0, [], []⟩).state.g_unInternalID = 1
    ∧ ∀ x ∈ dissect_ids 5
        [0, 0x21, 0, 1, 0, 1, 0, 0xFF, 0xDC, 0, 0x22, 0, 2, 0, 1, 2, 0xFD, 0xDA]
        ⟨1, false, 7⟩ ⟨0, [], []⟩, x = 1 := by
  have h := C12_counter_once_per_first_seen_delivery 5
    [0, 0x21, 0, 1, 0, 1, 0, 0xFF, 0xDC, 0, 0x22, 0, 2, 0, 1, 2, 0xFD, 0xDA]
    ⟨1, false, 7⟩ ⟨0, [], []⟩ (by decide) (by decide) (by decide)
  have h1 : (dissect_FiveCoLegacy 5
        [0, 0x21, 0, 1, 0, 1, 0, 0xFF, 0xDC, 0, 0x22, 0, 2, 0, 1, 2, 0xFD, 0xDA]
        ⟨1, false, 7⟩ ⟨0, [], []⟩).state.g_unInternalID = 1 := by
    rw [h.1]
    decide
  refine ⟨h1, ?_⟩
  intro x hx
  rw [h.2 x hx, h1]

/-! ### Which frames make a pending-request record (C13-C15) -/

/-- C13, the code at the failing input. The flag `isRequest` is set to `FALSE` once,
before the frame loop (line 255), raised at line 309 and never lowered, so every frame
that follows a request frame of a first-seen delivery passes the test `isRequest` of line
323. Delivery: a `READ_REGISTER` request followed by a `WRITE_REGISTER_QUIET` frame, a
command that is not in the request set. After the first frame the table holds one record
and the flag is up; after the second it holds a second record, keyed by the command
`WRITE_REGISTER_QUIET` itself and holding that frame's parameters. The same
`WRITE_REGISTER_QUIET` frame alone in a delivery makes no record. -/
theorem C13_record_for_non_request_frame :
    is_request_command WRITE_REGISTER_QUIET = false
    ∧ (frame_walk_steps 5
        [0, 0x21, 0, 1, 0, 1, 0, 0xFF, 0xDC, 0, 0x25, 0, 2, 0, 1, 2, 0xFD, 0xD7]
        ⟨1, false, 7⟩ 1 (loop_start ⟨0, [], []⟩)).map (fun s => (s.st, s.isRequest))
      = some (⟨1, [(⟨7, 1, READ_REGISTER_ANSWER⟩, ⟨1, 0, [0]⟩)], [(1, 1)]⟩, true)
    ∧ (dissect_FiveCoLegacy 5
        [0, 0x21, 0, 1, 0, 1, 0, 0xFF, 0xDC, 0, 0x25, 0, 2, 0, 1, 2, 0xFD, 0xD7]
        ⟨1, false, 7⟩ ⟨0, [], []⟩).value? = some 18
    ∧ (dissect_FiveCoLegacy 5
        [0, 0x21, 0, 1, 0, 1, 0, 0xFF, 0xDC, 0, 0x25, 0, 2, 0, 1, 2, 0xFD, 0xD7]
        ⟨1, false, 7⟩ ⟨0, [], []⟩).state
      = ⟨1, [(⟨7, 1, READ_REGISTER_ANSWER⟩, ⟨1, 0, [0]⟩),
             (⟨7, 1, WRITE_REGISTER_QUIET⟩, ⟨1, 0, [2]⟩)], [(1, 1)]⟩
    ∧ (dissect_FiveCoLegacy 5 [0, 0x25, 0, 2, 0, 1, 2, 0xFD, 0xD7]
        ⟨1, false, 7⟩ ⟨0, [], []⟩).state = ⟨0, [], [(1, 0)]⟩ := by
  decide

/-- Counterexample to C14 as stated: `WRITE_REGISTER` is one of the six commands of the
request test of lines 306-307, and the `switch` of lines 329-346, which has a case for the
five other commands and no default, leaves the command of the new key as it was copied
from `requestKey`. So a first-seen `WRITE_REGISTER` frame makes a record, keyed by
(flow 7, `WRITE_REGISTER`, id 1) and holding its parameter octet; a first-seen
`READ_REGISTER` frame makes one keyed by (flow 7, `READ_REGISTER_ANSWER`, id 1). -/
theorem C14_counterexample :
    expected_answer_command I2C_READ = I2C_READ_ANSWER
    ∧ expected_answer_command I2C_WRITE = I2C_WRITE_ANSWER
    ∧ expected_answer_command I2C_SCAN = I2C_SCAN_ANSWER
    ∧ expected_answer_command I2C_READ_WRITE_ACK = I2C_READ_WRITE_ACK_ANSWER
    ∧ expected_answer_command READ_REGISTER = READ_REGISTER_ANSWER
    ∧ is_request_command WRITE_REGISTER = true
    ∧ expected_answer_command WRITE_REGISTER = WRITE_REGISTER
    ∧ (dissect_FiveCoLegacy 5 [0, 0x22, 0, 2, 0, 1, 2, 0xFD, 0xDA]
        ⟨1, false, 7⟩ ⟨0, [], []⟩).value? = some 9
    ∧ (dissect_FiveCoLegacy 5 [0, 0x22, 0, 2, 0, 1, 2, 0xFD, 0xDA]
        ⟨1, false, 7⟩ ⟨0, [], []⟩).state
      = ⟨1, [(⟨7, 1, WRITE_REGISTER⟩, ⟨1, 0, [2]⟩)], [(1, 1)]⟩
    ∧ (dissect_FiveCoLegacy 5 [0, 0x21, 0, 1, 0, 1, 0x14, 0xEB, 0xDC]
        ⟨1, false, 7⟩ ⟨0, [], []⟩).state
      = ⟨1, [(⟨7, 1, READ_REGISTER_ANSWER⟩, ⟨1, 0, [0x14]⟩)], [(1, 1)]⟩ := by
  decide

/-- C15, the code at the failing input. The lookup of line 322 that decides whether a
record "exists" uses the frame's own command (`requestKey.usExpCmd = header_type`), while
the record is stored under the expected answer command: for a request the lookup misses
the record and `g_hash_table_insert` replaces its value. Delivery: two `READ_REGISTER`
requests, for register 0 then for register 1. After the first frame the record under
(flow 7, `READ_REGISTER_ANSWER`, id 1) holds the parameters `[0]`; the lookup made for the
second frame, under `READ_REGISTER`, finds nothing although that record exists; after the
second frame the record holds `[1]`: the first request's record has been replaced. -/
theorem C15_record_replaced_by_later_request :
    (frame_walk_steps 5
        [0, 0x21, 0, 1, 0, 1, 0, 0xFF, 0xDC, 0, 0x21, 0, 2, 0, 1, 1, 0xFE, 0xDB]
        ⟨1, false, 7⟩ 1 (loop_start ⟨0, [], []⟩)).map (fun s => s.st)
      = some ⟨1, [(⟨7, 1, READ_REGISTER_ANSWER⟩, ⟨1, 0, [0]⟩)], [(1, 1)]⟩
    ∧ g_hash_table_lookup [(⟨7, 1, READ_REGISTER_ANSWER⟩, ⟨1, 0, [0]⟩)]
        ⟨7, 1, expected_answer_command READ_REGISTER⟩ = some ⟨1, 0, [0]⟩
    ∧ g_hash_table_lookup [(⟨7, 1, READ_REGISTER_ANSWER⟩, ⟨1, 0, [0]⟩)]
        ⟨7, 1, READ_REGISTER⟩ = none
    ∧ (dissect_FiveCoLegacy 5
        [0, 0x21, 0, 1, 0, 1, 0, 0xFF, 0xDC, 0, 0x21, 0, 2, 0, 1, 1, 0xFE, 0xDB]
        ⟨1, false, 7⟩ ⟨0, [], []⟩).value? = some 18
    ∧ (dissect_FiveCoLegacy 5
        [0, 0x21, 0, 1, 0, 1, 0, 0xFF, 0xDC, 0, 0x21, 0, 2, 0, 1, 1, 0xFE, 0xDB]
        ⟨1, false, 7⟩ ⟨0, [], []⟩).state
      = ⟨1, [(⟨7, 1, READ_REGISTER_ANSWER⟩, ⟨1, 0, [1]⟩)], [(1, 1)]⟩ := by
  decide

/-! ### The replied flag (C16, C17) -/

theorem g_hash_table_insert_all (Q : FCOSConvRequestVal → Prop) (t : RequestsHash)
    (key : FCOSConvRequestKey) (value : FCOSConvRequestVal)
    (ht : ∀ e ∈ t, Q e.2) (hv : Q value) :
    ∀ e ∈ g_hash_table_insert t key value, Q e.2 := by
  intro e he
  unfold g_hash_table_insert at he
  split at he
  · rw [List.mem_map] at he
    obtain ⟨e0, he0, rfl⟩ := he
    split
    · exact hv
    · exact ht e0 he0
  · rw [List.mem_append] at he
    rcases he with he | he
    · exact ht e he
    · simp only [List.mem_singleton] at he
      rw [he]
      exact hv

/-- No statement of the dissector raises the field `isReplied` of a record: in a table
whose records all have it at 0 (as every record is made, line 350), it stays at 0 after
any call. -/
theorem replied_flag_never_set (fuel : Nat) (tvb : Tvb) (pinfo : packet_info) (st : State)
    (h : ∀ e ∈ st.FiveCo_requests_hash, e.2.isReplied = 0) :
    ∀ e ∈ (dissect_FiveCoLegacy fuel tvb pinfo st).state.FiveCo_requests_hash,
      e.2.isReplied = 0 := by
  obtain ⟨_, hb⟩ := dissect_state_ind fuel tvb pinfo st
    (fun st' _ => ∀ e ∈ st'.FiveCo_requests_hash, e.2.isReplied = 0)
    (fun st' r hd payload hst => by
      show ∀ e ∈ (correlate pinfo st' r hd payload).1.FiveCo_requests_hash, e.2.isReplied = 0
      unfold correlate
      simp only
      split
      · exact g_hash_table_insert_all (fun v => v.isReplied = 0) _ _ _
          (by rw [assign_hash]; exact hst) rfl
      · rw [assign_hash]; exact hst)
    (fun st' r hd hst => by
      show ∀ e ∈ (assign_internal_id pinfo st' r hd).1.FiveCo_requests_hash, e.2.isReplied = 0
      rw [assign_hash]; exact hst)
    h
  exact hb

/-- C16, the code at the failing input. A `READ_REGISTER` request for register `0x14`
(packet 1, flow 7) leaves an unreplied record; its answer (packet 2, same flow) looks up
(flow 7, `READ_REGISTER_ANSWER`, id 1), finds that record and is decoded with it (the
register item at offset 7), and the call returns 10. After the answer the record is as
it was, its field `isReplied` still 0: the function has no statement that sets it. The
same holds whatever delivery follows the request. -/
theorem C16_replied_flag_stays_clear :
    (dissect_FiveCoLegacy 5 [0, 0x21, 0, 1, 0, 1, 0x14, 0xEB, 0xDC]
        ⟨1, false, 7⟩ ⟨0, [], []⟩).state
      = ⟨1, [(⟨7, 1, READ_REGISTER_ANSWER⟩, ⟨1, 0, [0x14]⟩)], [(1, 1)]⟩
    ∧ g_hash_table_lookup [(⟨7, 1, READ_REGISTER_ANSWER⟩, ⟨1, 0, [0x14]⟩)]
        ⟨7, 1, READ_REGISTER_ANSWER⟩ = some ⟨1, 0, [0x14]⟩
    ∧ (dissect_FiveCoLegacy 5 [0, 0x23, 0, 1, 0, 2, 0x14, 5, 0xEB, 0xD4] ⟨2, false, 7⟩
        ⟨1, [(⟨7, 1, READ_REGISTER_ANSWER⟩, ⟨1, 0, [0x14]⟩)], [(1, 1)]⟩).value? = some 10
    ∧ Event.add_item ⟨.nsWsHeaderID 0x14, 7, 1⟩ ∈
        (dissect_FiveCoLegacy 5 [0, 0x23, 0, 1, 0, 2, 0x14, 5, 0xEB, 0xD4] ⟨2, false, 7⟩
          ⟨1, [(⟨7, 1, READ_REGISTER_ANSWER⟩, ⟨1, 0, [0x14]⟩)], [(1, 1)]⟩).trace
    ∧ (dissect_FiveCoLegacy 5 [0, 0x23, 0, 1, 0, 2, 0x14, 5, 0xEB, 0xD4] ⟨2, false, 7⟩
        ⟨1, [(⟨7, 1, READ_REGISTER_ANSWER⟩, ⟨1, 0, [0x14]⟩)], [(1, 1)]⟩).state
      = ⟨1, [(⟨7, 1, READ_REGISTER_ANSWER⟩, ⟨1, 0, [0x14]⟩)], [(2, 1), (1, 1)]⟩
    ∧ (∀ (fuel : Nat) (tvb : Tvb) (pinfo : packet_info),
        ∀ e ∈ (dissect_FiveCoLegacy fuel tvb pinfo
          ⟨1, [(⟨7, 1, READ_REGISTER_ANSWER⟩, ⟨1, 0, [0x14]⟩)], [(1, 1)]⟩).state.FiveCo_requests_hash,
          e.2.isReplied = 0) := by
  refine ⟨by decide, by decide, by decide, by decide, by decide, ?_⟩
  intro fuel tvb pinfo
  exact replied_flag_never_set fuel tvb pinfo _ (by decide)

/-- C17, the code at the failing input. A `READ_REGISTER` request for register `0x14`
(packet 1), then two distinct answers on the same flow (packets 2 and 3, values 5 and 6).
Both answers are given the id 1 and match the record of the request. The second answer is
decoded against the request exactly as the first was (the register item at offset 7) and
its data item gets no text at all: the warning of lines 620-621 is guarded by `isReplied
!= 0`, which no statement makes true. -/
theorem C17_second_answer_decoded_again :
    dissect_ids 5 [0, 0x23, 0, 1, 0, 2, 0x14, 5, 0xEB, 0xD4] ⟨2, false, 7⟩
        (run_deliveries 5 [([0, 0x21, 0, 1, 0, 1, 0x14, 0xEB, 0xDC], ⟨1, false, 7⟩)]
          ⟨0, [], []⟩) = [1]
    ∧ dissect_ids 5 [0, 0x23, 0, 2, 0, 2, 0x14, 6, 0xEB, 0xD2] ⟨3, false, 7⟩
        (run_deliveries 5 [([0, 0x21, 0, 1, 0, 1, 0x14, 0xEB, 0xDC], ⟨1, false, 7⟩),
            ([0, 0x23, 0, 1, 0, 2, 0x14, 5, 0xEB, 0xD4], ⟨2, false, 7⟩)] ⟨0, [], []⟩) = [1]
    ∧ (dissect_FiveCoLegacy 5 [0, 0x23, 0, 1, 0, 2, 0x14, 5, 0xEB, 0xD4] ⟨2, false, 7⟩
        (run_deliveries 5 [([0, 0x21, 0, 1, 0, 1, 0x14, 0xEB, 0xDC], ⟨1, false, 7⟩)]
          ⟨0, [], []⟩)).trace
      = [.col_protocol, .col_clear, .col_frame false READ_REGISTER_ANSWER 1 2,
         .add_item ⟨.proto_FiveCoLegacy, 0, 10⟩,
         .append_text ⟨.proto_FiveCoLegacy, 0, 10⟩ (.type_name READ_REGISTER_ANSWER),
         .add_item ⟨.hf_fiveco_header, 0, 6⟩, .add_item ⟨.hf_fiveco_fct, 0, 2⟩,
         .add_item ⟨.hf_fiveco_id, 2, 2⟩, .add_item ⟨.hf_fiveco_length, 4, 2⟩,
         .add_item ⟨.hf_fiveco_data, 6, 2⟩, .add_item ⟨.nsWsHeaderID 0x14, 7, 1⟩,
         .add_checksum 8 0xEBD4 0xEBD4]
    ∧ (dissect_FiveCoLegacy 5 [0, 0x23, 0, 2, 0, 2, 0x14, 6, 0xEB, 0xD2] ⟨3, false, 7⟩
        (run_deliveries 5 [([0, 0x21, 0, 1, 0, 1, 0x14, 0xEB, 0xDC], ⟨1, false, 7⟩),
            ([0, 0x23, 0, 1, 0, 2, 0x14, 5, 0xEB, 0xD4], ⟨2, false, 7⟩)] ⟨0, [], []⟩)).trace
      = [.col_protocol, .col_clear, .col_frame false READ_REGISTER_ANSWER 2 2,
         .add_item ⟨.proto_FiveCoLegacy, 0, 10⟩,
         .append_text ⟨.proto_FiveCoLegacy, 0, 10⟩ (.type_name READ_REGISTER_ANSWER),
         .add_item ⟨.hf_fiveco_header, 0, 6⟩, .add_item ⟨.hf_fiveco_fct, 0, 2⟩,
         .add_item ⟨.hf_fiveco_id, 2, 2⟩, .add_item ⟨.hf_fiveco_length, 4, 2⟩,
         .add_item ⟨.hf_fiveco_data, 6, 2⟩, .add_item ⟨.nsWsHeaderID 0x14, 7, 1⟩,
         .add_checksum 8 0xEBD2 0xEBD2]
    ∧ Event.append_text ⟨.hf_fiveco_data, 6, 2⟩ .answer_already_found ∉
        (dissect_FiveCoLegacy 5 [0, 0x23, 0, 2, 0, 2, 0x14, 6, 0xEB, 0xD2] ⟨3, false, 7⟩
          (run_deliveries 5 [([0, 0x21, 0, 1, 0, 1, 0x14, 0xEB, 0xDC], ⟨1, false, 7⟩),
            ([0, 0x23, 0, 1, 0, 2, 0x14, 5, 0xEB, 0xD4], ⟨2, false, 7⟩)]
            ⟨0, [], []⟩)).trace := by
  decide

/-! ### An answer without a request record (C18) -/

/-- C18, the code at the failing input. With no request record (`pRequestVal == NULL`)
the three I2C answer cases append " (Interpretation depends on product type)" to the data
item (lines 611-613), but `case READ_REGISTER_ANSWER:` has no `else` branch (lines
616-688): it makes no call at all, for every buffer and payload length. A
`READ_REGISTER_ANSWER` frame with the two parameter octets `14 05`, dissected in the
empty state, is decoded with the data item alone, no annotation; an `I2C_READ_ANSWER`
frame in the same situation gets the annotation. -/
theorem C18_register_answer_without_record :
    (∀ (fuel : Nat) (tvb : Tvb) (tcp_data_offset header_data_length : Nat) (item : Item),
      decode_payload fuel tvb tcp_data_offset header_data_length READ_REGISTER_ANSWER none item
        = pure ())
    ∧ (∀ (fuel : Nat) (tvb : Tvb) (tcp_data_offset header_data_length : Nat) (item : Item),
      decode_payload fuel tvb tcp_data_offset header_data_length I2C_READ_ANSWER none item
        = proto_item_append_text item .depends_on_product
      ∧ decode_payload fuel tvb tcp_data_offset header_data_length I2C_WRITE_ANSWER none item
        = proto_item_append_text item .depends_on_product
      ∧ decode_payload fuel tvb tcp_data_offset header_data_length I2C_READ_WRITE_ACK_ANSWER
          none item = proto_item_append_text item .depends_on_product)
    ∧ dissect_FiveCoLegacy 5 [0, 0x23, 0, 1, 0, 2, 0x14, 5, 0xEB, 0xD4] ⟨2, false, 7⟩
        ⟨0, [], []⟩
      = .returned 10 ⟨0, [], [(2, 0)]⟩
        [.col_protocol, .col_clear, .col_frame false READ_REGISTER_ANSWER 1 2,
         .add_item ⟨.proto_FiveCoLegacy, 0, 10⟩,
         .append_text ⟨.proto_FiveCoLegacy, 0, 10⟩ (.type_name READ_REGISTER_ANSWER),
         .add_item ⟨.hf_fiveco_header, 0, 6⟩, .add_item ⟨.hf_fiveco_fct, 0, 2⟩,
         .add_item ⟨.hf_fiveco_id, 2, 2⟩, .add_item ⟨.hf_fiveco_length, 4, 2⟩,
         .add_item ⟨.hf_fiveco_data, 6, 2⟩,
         .add_checksum 8 0xEBD4 0xEBD4]
    ∧ dissect_FiveCoLegacy 5 [0, 3, 0, 1, 0, 1, 0xAB, 0x54, 0xFA] ⟨2, false, 7⟩ ⟨0, [], []⟩
      = .returned 9 ⟨0, [], [(2, 0)]⟩
        [.col_protocol, .col_clear, .col_frame false I2C_READ_ANSWER 1 1,
         .add_item ⟨.proto_FiveCoLegacy, 0, 9⟩,
         .append_text ⟨.proto_FiveCoLegacy, 0, 9⟩ (.type_name I2C_READ_ANSWER),
         .add_item ⟨.hf_fiveco_header, 0, 6⟩, .add_item ⟨.hf_fiveco_fct, 0, 2⟩,
         .add_item ⟨.hf_fiveco_id, 2, 2⟩, .add_item ⟨.hf_fiveco_length, 4, 2⟩,
         .add_item ⟨.hf_fiveco_data, 6, 1⟩,
         .append_text ⟨.hf_fiveco_data, 6, 1⟩ .depends_on_product,
         .add_checksum 7 0x54FA 0x54FA] := by
  refine ⟨?_, ?_, by decide, by decide⟩
  · intro fuel tvb tcp_data_offset header_data_length item
    rfl
  · intro fuel tvb tcp_data_offset header_data_length item
    exact ⟨rfl, rfl, rfl⟩

/-! ### Session reset (C19) -/

/-- Counterexample to C19 as stated: a state whose counter is 5. After
`fiveco_protocol_init` the table is empty, but the counter is still 5, not 0. -/
theorem C19_counterexample :
    (fiveco_protocol_init
        ⟨5, [(⟨7, 5, READ_REGISTER_ANSWER⟩, ⟨1, 0, [0x14]⟩)], [(1, 5)]⟩).g_unInternalID = 5
    ∧ (fiveco_protocol_init
        ⟨5, [(⟨7, 5, READ_REGISTER_ANSWER⟩, ⟨1, 0, [0x14]⟩)], [(1, 5)]⟩).g_unInternalID ≠ 0
    ∧ (fiveco_protocol_init
        ⟨5, [(⟨7, 5, READ_REGISTER_ANSWER⟩, ⟨1, 0, [0x14]⟩)],
          [(1, 5)]⟩).FiveCo_requests_hash = [] := by
  decide

/-- C19, as amended. For every correlator state, after `fiveco_protocol_init` the
pending-request table is empty and the synthetic counter has the value it had before the
routine ran: the routine destroys and recreates the table and touches nothing else. The
counter is 0 only as long as no request has been counted since the program started. -/
theorem C19_init_clears_table_keeps_counter (st : State) :
    (fiveco_protocol_init st).FiveCo_requests_hash = [] ∧
    (fiveco_protocol_init st).g_unInternalID = st.g_unInternalID ∧
    ((fiveco_protocol_init st).g_unInternalID = 0 ↔ st.g_unInternalID = 0) :=
  ⟨rfl, rfl, Iff.rfl⟩

/-! ### Flow isolation (C20) -/

theorem same_flow_view_refl (c : Nat) (st : State) : same_flow_view c st st :=
  ⟨rfl, rfl, rfl⟩

/-- A lookup under a key of flow `c` only sees the records of flow `c`. -/
theorem lookup_flow_records (c : Nat) (t : RequestsHash) (key : FCOSConvRequestKey)
    (hk : key.conversation = c) :
    g_hash_table_lookup (flow_records c t) key = g_hash_table_lookup t key := by
  unfold g_hash_table_lookup flow_records
  rw [List.find?_filter]
  congr 2
  funext e
  unfold fiveco_hash_equal
  by_cases h : e.1.conversation = c
  · have h1 : (e.1.conversation == c) = true := by simpa using h
    have h2 : (e.1.conversation == key.conversation) = true := by rw [hk]; exact h1
    rw [h1, h2, Bool.eq_iff_iff]
    simp
  · have h1 : (e.1.conversation == c) = false := by simpa using h
    have h2 : (e.1.conversation == key.conversation) = false := by rw [hk]; exact h1
    rw [h1, h2]
    simp

/-- An insertion under a key of flow `c` acts on the records of flow `c` alone. -/
theorem insert_flow_records (c : Nat) (t : RequestsHash) (key : FCOSConvRequestKey)
    (v : FCOSConvRequestVal) (hk : key.conversation = c) :
    flow_records c (g_hash_table_insert t key v)
      = g_hash_table_insert (flow_records c t) key v := by
  have heq : ∀ e : FCOSConvRequestKey × FCOSConvRequestVal,
      fiveco_hash_equal e.1 key = true → e.1.conversation = c := by
    intro e he
    unfold fiveco_hash_equal at he
    simp only [Bool.and_eq_true, beq_iff_eq] at he
    rw [he.1.1, hk]
  have hany : (flow_records c t).any (fun e => fiveco_hash_equal e.1 key)
      = t.any (fun e => fiveco_hash_equal e.1 key) := by
    unfold flow_records
    rw [List.any_filter]
    congr 1
    funext e
    by_cases h : fiveco_hash_equal e.1 key = true
    · simp [h, heq e h]
    · simp [h]
  unfold g_hash_table_insert
  rw [hany]
  split
  · unfold flow_records
    rw [List.filter_map]
    congr 1
    apply List.filter_congr
    intro e _
    simp only [Function.comp]
    split <;> rfl
  · unfold flow_records
    rw [List.filter_append]
    congr 1
    simp [hk]

theorem assign_agree (c : Nat) (pinfo : packet_info) (st st' : State) (r : Bool) (h : Nat)
    (hv : same_flow_view c st st') :
    (assign_internal_id pinfo st r h).2 = (assign_internal_id pinfo st' r h).2 ∧
    same_flow_view c (assign_internal_id pinfo st r h).1 (assign_internal_id pinfo st' r h).1 := by
  obtain ⟨hg, hp, hf⟩ := hv
  unfold assign_internal_id
  rw [← hp, ← hg]
  split
  · exact ⟨rfl, hg, hp, hf⟩
  · refine ⟨rfl, rfl, ?_, hf⟩
    simp only [hp]

/-- The correlator block of a packet of flow `c` gives the same flag and the same request
context in two states that differ at most in the records of other flows, and leaves two
such states. -/
theorem correlate_agree (pinfo : packet_info) (st st' : State) (r : Bool) (h : Nat)
    (payload : List Byte) (hv : same_flow_view pinfo.conv_index st st') :
    (correlate pinfo st r h payload).2 = (correlate pinfo st' r h payload).2 ∧
    same_flow_view pinfo.conv_index (correlate pinfo st r h payload).1
      (correlate pinfo st' r h payload).1 := by
  obtain ⟨ha2, hav⟩ := assign_agree pinfo.conv_index pinfo st st' r h hv
  obtain ⟨hg, hp, hf⟩ := hav
  have hl : g_hash_table_lookup (assign_internal_id pinfo st r h).1.FiveCo_requests_hash
        { conversation := pinfo.conv_index, usExpCmd := h,
          unInternalID := (assign_internal_id pinfo st r h).2.2 }
      = g_hash_table_lookup (assign_internal_id pinfo st' r h).1.FiveCo_requests_hash
        { conversation := pinfo.conv_index, usExpCmd := h,
          unInternalID := (assign_internal_id pinfo st' r h).2.2 } := by
    rw [← lookup_flow_records pinfo.conv_index _ _ rfl,
      ← lookup_flow_records pinfo.conv_index
        (assign_internal_id pinfo st' r h).1.FiveCo_requests_hash _ rfl, hf, ha2]
  unfold correlate
  simp only
  rw [← hl, ← ha2, ← hg]
  split
  · refine ⟨rfl, rfl, hp, ?_⟩
    show flow_records pinfo.conv_index (g_hash_table_insert _ _ _)
      = flow_records pinfo.conv_index (g_hash_table_insert _ _ _)
    rw [insert_flow_records pinfo.conv_index _ _ _ rfl,
      insert_flow_records pinfo.conv_index _ _ _ rfl, hf]
  · exact ⟨rfl, hg, hp, hf⟩

/-- The rest of the loop body does not look at the state. -/
theorem frame_rest_agree (c : Nat) (fuel : Nat) (tvb : Tvb) (s s' : Loop) (st st' : State)
    (isRequest : Bool) (h id n : Nat) (ctx : Option FCOSConvRequestVal)
    (hs : Loop.agree c s s') (hv : same_flow_view c st st') :
    Step.agree c (frame_rest fuel tvb s st isRequest h id n ctx)
      (frame_rest fuel tvb s' st' isRequest h id n ctx) := by
  obtain ⟨ho, _, hout, _⟩ := hs
  unfold frame_rest
  rw [← ho, ← hout]
  split
  · exact ⟨rfl, hv⟩
  · exact ⟨rfl, hv⟩
  · split
    · exact ⟨rfl, hv⟩
    · exact ⟨rfl, hv⟩
    · simp only
      split
      · exact ⟨rfl, hv⟩
      · exact ⟨rfl, hv⟩
      · exact ⟨rfl, rfl, rfl, hv⟩

theorem tvb_memcpy_ne_fuel (tvb : Tvb) (off n : Nat) : tvb_memcpy tvb off n ≠ .fuel := by
  unfold tvb_memcpy
  split <;> simp

/-- A frame that gets to line 300 and whose parameters cannot be copied. -/
theorem frame_step_of_header_exn (fuel : Nat) (tvb : Tvb) (pinfo : packet_info) (s : Loop)
    (h id n : Nat) (hh : frame_header tvb s.tcp_data_offset = some (h, id, n))
    (hp : tvb_memcpy tvb (s.tcp_data_offset + 6) n = .exn) :
    frame_step fuel tvb pinfo s =
      if (!pinfo.visited &&
          (g_hash_table_lookup (assign_internal_id pinfo s.st s.isRequest h).1.FiveCo_requests_hash
            { conversation := pinfo.conv_index, usExpCmd := h,
              unInternalID := (assign_internal_id pinfo s.st s.isRequest h).2.2 }).isNone &&
          (assign_internal_id pinfo s.st s.isRequest h).2.1) = true then
        .done (.exception (assign_internal_id pinfo s.st s.isRequest h).1 s.out)
      else
        frame_rest fuel tvb s (assign_internal_id pinfo s.st s.isRequest h).1
          (assign_internal_id pinfo s.st s.isRequest h).2.1 h id n
          (g_hash_table_lookup (assign_internal_id pinfo s.st s.isRequest h).1.FiveCo_requests_hash
            { conversation := pinfo.conv_index, usExpCmd := h,
              unInternalID := (assign_internal_id pinfo s.st s.isRequest h).2.2 }) := by
  obtain ⟨h1, hty, h2, h3, hgt⟩ := frame_header_some tvb _ h id n hh
  unfold frame_step
  simp only [h1, h2, h3, if_neg hty, if_neg hgt, hp]

/-- One iteration of the frame loop on a packet of flow `c`, in two loop states that
differ at most in the records of other flows. -/
theorem frame_step_agree (fuel : Nat) (tvb : Tvb) (pinfo : packet_info) (s s' : Loop)
    (hs : Loop.agree pinfo.conv_index s s') :
    Step.agree pinfo.conv_index (frame_step fuel tvb pinfo s) (frame_step fuel tvb pinfo s') := by
  have hs0 := hs
  obtain ⟨ho, hr, hout, hv⟩ := hs
  cases hh : frame_header tvb s.tcp_data_offset with
  | some hdr =>
    obtain ⟨h, id, n⟩ := hdr
    have hh' : frame_header tvb s'.tcp_data_offset = some (h, id, n) := by rw [← ho]; exact hh
    cases hp : tvb_memcpy tvb (s.tcp_data_offset + 6) n with
    | ok payload =>
      have hp' : tvb_memcpy tvb (s'.tcp_data_offset + 6) n = .ok payload := by
        rw [← ho]; exact hp
      rw [frame_step_of_header fuel tvb pinfo s h id n payload hh hp,
        frame_step_of_header fuel tvb pinfo s' h id n payload hh' hp', ← hr]
      obtain ⟨h2, hcv⟩ := correlate_agree pinfo s.st s'.st s.isRequest h payload hv
      rw [← h2]
      exact frame_rest_agree _ fuel tvb s s' _ _ _ h id n _ hs0 hcv
    | fuel => exact absurd hp (tvb_memcpy_ne_fuel _ _ _)
    | exn =>
      have hp' : tvb_memcpy tvb (s'.tcp_data_offset + 6) n = .exn := by rw [← ho]; exact hp
      obtain ⟨ha2, hav⟩ := assign_agree pinfo.conv_index pinfo s.st s'.st s.isRequest h hv
      have hl : g_hash_table_lookup
            (assign_internal_id pinfo s.st s.isRequest h).1.FiveCo_requests_hash
            { conversation := pinfo.conv_index, usExpCmd := h,
              unInternalID := (assign_internal_id pinfo s.st s.isRequest h).2.2 }
          = g_hash_table_lookup
            (assign_internal_id pinfo s'.st s.isRequest h).1.FiveCo_requests_hash
            { conversation := pinfo.conv_index, usExpCmd := h,
              unInternalID := (assign_internal_id pinfo s'.st s.isRequest h).2.2 } := by
        rw [← lookup_flow_records pinfo.conv_index _ _ rfl,
          ← lookup_flow_records pinfo.conv_index
            (assign_internal_id pinfo s'.st s.isRequest h).1.FiveCo_requests_hash _ rfl,
          hav.2.2, ha2]
      rw [frame_step_of_header_exn fuel tvb pinfo s h id n hh hp,
        frame_step_of_header_exn fuel tvb pinfo s' h id n hh' hp', ← hr, ← hout, ← hl, ← ha2]
      split
      · exact ⟨rfl, hav⟩
      · exact frame_rest_agree _ fuel tvb s s' _ _ _ h id n _ hs0 hav
  | none =>
    unfold frame_header at hh
    unfold frame_step
    simp only [← ho, ← hout]
    cases h1 : tvb_get_ntohs tvb (s.tcp_data_offset + 0) with
    | exn => exact ⟨rfl, hv⟩
    | fuel => exact ⟨rfl, hv⟩
    | ok header_type =>
      rw [h1] at hh
      simp only at hh ⊢
      by_cases hty : try_val_to_str header_type packettypenames = none
      · simp only [if_pos hty]
        exact ⟨rfl, rfl, hv⟩
      · simp only [if_neg hty] at hh ⊢
        cases h2 : tvb_get_ntohs tvb (s.tcp_data_offset + 2) with
        | exn => exact ⟨rfl, hv⟩
        | fuel => exact ⟨rfl, hv⟩
        | ok header_id =>
          rw [h2] at hh
          simp only at hh ⊢
          cases h3 : tvb_get_ntohs tvb (s.tcp_data_offset + 4) with
          | exn => exact ⟨rfl, hv⟩
          | fuel => exact ⟨rfl, hv⟩
          | ok header_data_length =>
            rw [h3] at hh
            simp only at hh ⊢
            by_cases hgt : header_data_length
                > u32_sub (u32_sub (tvb_captured_length tvb) s.tcp_data_offset) 8
            · simp only [if_pos hgt]
              exact ⟨rfl, rfl, hv⟩
            · rw [if_neg hgt] at hh
              simp at hh

theorem frame_walk_agree (ifuel : Nat) (tvb : Tvb) (pinfo : packet_info) :
    ∀ (n : Nat) (s s' : Loop), Loop.agree pinfo.conv_index s s' →
      Outcome.agree pinfo.conv_index (frame_walk ifuel tvb pinfo n s)
        (frame_walk ifuel tvb pinfo n s') := by
  intro n
  induction n with
  | zero =>
    intro s s' hs
    obtain ⟨ho, _, hout, hv⟩ := hs
    unfold frame_walk
    rw [← ho, ← hout]
    split
    · exact ⟨rfl, hv⟩
    · exact ⟨rfl, rfl, hv⟩
  | succ n ih =>
    intro s s' hs
    have hstep := frame_step_agree ifuel tvb pinfo s s' hs
    obtain ⟨ho, _, hout, hv⟩ := hs
    rw [frame_walk_succ, frame_walk_succ, ← ho, ← hout]
    split
    · cases h1 : frame_step ifuel tvb pinfo s with
      | next s1 =>
        cases h2 : frame_step ifuel tvb pinfo s' with
        | next s2 =>
          rw [h1, h2] at hstep
          exact ih s1 s2 hstep
        | done o2 => rw [h1, h2] at hstep; exact absurd hstep id
      | done o1 =>
        cases h2 : frame_step ifuel tvb pinfo s' with
        | next s2 => rw [h1, h2] at hstep; exact absurd hstep id
        | done o2 =>
          rw [h1, h2] at hstep
          exact hstep
    · exact ⟨rfl, rfl, hv⟩

/-- The records of other flows have no part in a call: in two states that differ at most
in the records of flows other than the packet's, the call ends the same way, with the
same calls on the column text and the tree. -/
theorem dissect_agree (fuel : Nat) (tvb : Tvb) (pinfo : packet_info) (st st' : State)
    (hv : same_flow_view pinfo.conv_index st st') :
    Outcome.agree pinfo.conv_index (dissect_FiveCoLegacy fuel tvb pinfo st)
      (dissect_FiveCoLegacy fuel tvb pinfo st') := by
  unfold dissect_FiveCoLegacy
  split
  · exact ⟨rfl, rfl, hv⟩
  · exact frame_walk_agree fuel tvb pinfo fuel _ _ ⟨rfl, rfl, rfl, hv⟩

theorem hash_equal_fields (a b : FCOSConvRequestKey) (h : fiveco_hash_equal a b = true) :
    a.conversation = b.conversation ∧ a.usExpCmd = b.usExpCmd ∧
      a.unInternalID = b.unInternalID := by
  unfold fiveco_hash_equal at h
  simp only [Bool.and_eq_true, beq_iff_eq] at h
  exact ⟨h.1.1, h.1.2, h.2⟩

theorem lookup_some (t : RequestsHash) (key : FCOSConvRequestKey) (v : FCOSConvRequestVal)
    (h : g_hash_table_lookup t key = some v) :
    ∃ k, (k, v) ∈ t ∧ fiveco_hash_equal k key = true := by
  unfold g_hash_table_lookup at h
  cases hf : t.find? (fun e => fiveco_hash_equal e.1 key) with
  | none => rw [hf] at h; simp at h
  | some e =>
    rw [hf] at h
    simp only [Option.map_some', Option.some.injEq] at h
    have hm := List.mem_of_find?_eq_some hf
    have hq := List.find?_some hf
    refine ⟨e.1, ?_, hq⟩
    rw [← h]
    exact hm

theorem mem_insert (t : RequestsHash) (key : FCOSConvRequestKey) (v : FCOSConvRequestVal) :
    ∃ k, (k, v) ∈ g_hash_table_insert t key v ∧ fiveco_hash_equal k key = true := by
  unfold g_hash_table_insert
  split
  · rename_i hany
    rw [List.any_eq_true] at hany
    obtain ⟨e, he, hq⟩ := hany
    refine ⟨e.1, ?_, hq⟩
    rw [List.mem_map]
    exact ⟨e, he, by rw [if_pos hq]⟩
  · refine ⟨key, by simp, ?_⟩
    unfold fiveco_hash_equal
    simp

/-- Along a walk the flag `isRequest` is up only when the packet's cached id is the
counter's value. -/
theorem frame_walk_steps_flag (ifuel : Nat) (tvb : Tvb) (pinfo : packet_info) :
    ∀ (k : Nat) (s s' : Loop),
      (s.isRequest = true →
        p_get_proto_data s.st.proto_data pinfo.num = some s.st.g_unInternalID) →
      frame_walk_steps ifuel tvb pinfo k s = some s' →
      (s'.isRequest = true →
        p_get_proto_data s'.st.proto_data pinfo.num = some s'.st.g_unInternalID) := by
  have hassign : ∀ (st : State) (r : Bool) (h : Nat),
      (r = true → p_get_proto_data st.proto_data pinfo.num = some st.g_unInternalID) →
      ((assign_internal_id pinfo st r h).2.1 = true →
        p_get_proto_data (assign_internal_id pinfo st r h).1.proto_data pinfo.num
          = some (assign_internal_id pinfo st r h).1.g_unInternalID) := by
    intro st r h hst hflag
    cases hc : p_get_proto_data st.proto_data pinfo.num with
    | some id =>
      rw [assign_cached pinfo st r h id hc] at hflag ⊢
      exact hst hflag
    | none =>
      rw [assign_caches, assign_id_counter pinfo st r h hc]
  intro k
  induction k with
  | zero =>
    intro s s' hs hk
    simp only [frame_walk_steps, Option.some.injEq] at hk
    rw [← hk]
    exact hs
  | succ k ih =>
    intro s s' hs hk
    unfold frame_walk_steps at hk
    split at hk
    · obtain ⟨b, hb, hnext⟩ := frame_step_state_ind ifuel tvb pinfo s
        (fun st r => r = true →
          p_get_proto_data st.proto_data pinfo.num = some st.g_unInternalID) hs
        (fun h payload => by
          show (correlate pinfo s.st s.isRequest h payload).2.1 = true →
            p_get_proto_data (correlate pinfo s.st s.isRequest h payload).1.proto_data
              pinfo.num = some (correlate pinfo s.st s.isRequest h payload).1.g_unInternalID
          rw [correlate_flag, correlate_proto_data, correlate_counter]
          exact hassign s.st s.isRequest h hs)
        (fun h => hassign s.st s.isRequest h hs)
      cases hstep : frame_step ifuel tvb pinfo s with
      | next s1 =>
        rw [hstep] at hk hb
        simp only at hk
        apply ih s1 s' _ hk
        rw [hnext s1 hstep]
        exact hb
      | done o =>
        rw [hstep] at hk
        simp at hk
    · simp at hk

theorem expected_answer_of_answer (h : Nat) (hans : h ∈ answerCommandCodes) :
    expected_answer_command h = h := by
  simp only [answerCommandCodes, List.mem_cons, List.mem_singleton, List.not_mem_nil,
    or_false] at hans
  rcases hans with rfl | rfl | rfl | rfl <;> decide

/-- C20. For every state `st` a call starts in (so after every sequence of deliveries) and
every frame the walk reaches whose command is one of the four whose decoder takes a
request context and whose parameters lie in the buffer: the loop body hands the decoder
the context the correlator block leaves, and that context, if any, is the value of a
record of the table whose key has the packet's flow, the frame's command code and the
id given to the frame. Moreover the records of other flows have no part in the call: in a
state `st'` that differs from `st` at most in the records of flows other than the
packet's, the call ends the same way with the same calls on the column text and the
tree. -/
theorem C20_flow_isolation (fuel : Nat) (tvb : Tvb) (pinfo : packet_info) (st st' : State)
    (k : Nat) (s : Loop) (h id n : Nat) (payload : List Byte)
    (hview : same_flow_view pinfo.conv_index st st')
    (hk : frame_walk_steps fuel tvb pinfo k (loop_start st) = some s)
    (hh : frame_header tvb s.tcp_data_offset = some (h, id, n))
    (hp : tvb_memcpy tvb (s.tcp_data_offset + 6) n = .ok payload)
    (hans : h ∈ answerCommandCodes) :
    Outcome.agree pinfo.conv_index (dissect_FiveCoLegacy fuel tvb pinfo st)
      (dissect_FiveCoLegacy fuel tvb pinfo st') ∧
    frame_step fuel tvb pinfo s
      = frame_rest fuel tvb s (correlate pinfo s.st s.isRequest h payload).1
          (correlate pinfo s.st s.isRequest h payload).2.1 h id n
          (correlate pinfo s.st s.isRequest h payload).2.2 ∧
    ∀ v, (correlate pinfo s.st s.isRequest h payload).2.2 = some v →
      ∃ key, (key, v) ∈ (correlate pinfo s.st s.isRequest h payload).1.FiveCo_requests_hash ∧
        key.conversation = pinfo.conv_index ∧ key.usExpCmd = h ∧
        key.unInternalID = (assign_internal_id pinfo s.st s.isRequest h).2.2 := by
  refine ⟨dissect_agree fuel tvb pinfo st st' hview,
    frame_step_of_header fuel tvb pinfo s h id n payload hh hp, ?_⟩
  have hinv := frame_walk_steps_flag fuel tvb pinfo k (loop_start st) s
    (by intro hf; simp [loop_start] at hf) hk
  intro v hv
  unfold correlate at hv ⊢
  simp only at hv ⊢
  split at hv
  · rename_i hcond
    rw [if_pos hcond]
    simp only [Option.some.injEq] at hv
    subst hv
    obtain ⟨key, hmem, heq⟩ := mem_insert
      (assign_internal_id pinfo s.st s.isRequest h).1.FiveCo_requests_hash
      { conversation := pinfo.conv_index,
        unInternalID := (assign_internal_id pinfo s.st s.isRequest h).1.g_unInternalID,
        usExpCmd := expected_answer_command h }
      { usParaLen := payload.length, isReplied := 0, pData := payload }
    obtain ⟨e1, e2, e3⟩ := hash_equal_fields _ _ heq
    refine ⟨key, hmem, e1, ?_, ?_⟩
    · rw [e2]
      exact expected_answer_of_answer h hans
    · rw [e3]
      simp only [Bool.and_eq_true] at hcond
      have hflag := hcond.2
      cases hc : p_get_proto_data s.st.proto_data pinfo.num with
      | none => exact (assign_id_counter pinfo s.st s.isRequest h hc).symm
      | some c =>
        rw [assign_cached pinfo s.st s.isRequest h c hc] at hflag ⊢
        have := hinv hflag
        rw [hc] at this
        simp only [Option.some.injEq] at this
        exact this.symm
  · rename_i hcond
    rw [if_neg hcond]
    obtain ⟨key, hmem, heq⟩ := lookup_some _ _ v hv
    obtain ⟨e1, e2, e3⟩ := hash_equal_fields _ _ heq
    exact ⟨key, hmem, e1, e2, e3⟩

/-- Witness of C20: the answer to a `READ_REGISTER` request on flow 7, dissected in the
state the request left and in that state with a record of flow 8 under the same command
and id added in front. Both calls return 10 and decode the answer against the request of
flow 7 (register `0x14`), not against the record of flow 8 (register `0x15`). -/
theorem C20_flow_isolation_witness :
    Outcome.agree 7
      (dissect_FiveCoLegacy 5 [0, 0x23, 0, 1, 0, 2, 0x14, 5, 0xEB, 0xD4] ⟨2, false, 7⟩
        ⟨1, [(⟨7, 1, READ_REGISTER_ANSWER⟩, ⟨1, 0, [0x14]⟩)], [(1, 1)]⟩)
      (dissect_FiveCoLegacy 5 [0, 0x23, 0, 1, 0, 2, 0x14, 5, 0xEB, 0xD4] ⟨2, false, 7⟩
        ⟨1, [(⟨8, 1, READ_REGISTER_ANSWER⟩, ⟨1, 0, [0x15]⟩),
             (⟨7, 1, READ_REGISTER_ANSWER⟩, ⟨1, 0, [0x14]⟩)], [(1, 1)]⟩)
    ∧ (correlate ⟨2, false, 7⟩
        ⟨1, [(⟨8, 1, READ_REGISTER_ANSWER⟩, ⟨1, 0, [0x15]⟩),
             (⟨7, 1, READ_REGISTER_ANSWER⟩, ⟨1, 0, [0x14]⟩)], [(1, 1)]⟩
        false READ_REGISTER_ANSWER [0x14, 5]).2.2 = some ⟨1, 0, [0x14]⟩
    ∧ Event.add_item ⟨.nsWsHeaderID 0x14, 7, 1⟩ ∈
        (dissect_FiveCoLegacy 5 [0, 0x23, 0, 1, 0, 2, 0x14, 5, 0xEB, 0xD4] ⟨2, false, 7⟩
          ⟨1, [(⟨8, 1, READ_REGISTER_ANSWER⟩, ⟨1, 0, [0x15]⟩),
               (⟨7, 1, READ_REGISTER_ANSWER⟩, ⟨1, 0, [0x14]⟩)], [(1, 1)]⟩).trace :=
  ⟨(C20_flow_isolation 5 [0, 0x23, 0, 1, 0, 2, 0x14, 5, 0xEB, 0xD4] ⟨2, false, 7⟩
      ⟨1, [(⟨7, 1, READ_REGISTER_ANSWER⟩, ⟨1, 0, [0x14]⟩)], [(1, 1)]⟩
      ⟨1, [(⟨8, 1, READ_REGISTER_ANSWER⟩, ⟨1, 0, [0x15]⟩),
           (⟨7, 1, READ_REGISTER_ANSWER⟩, ⟨1, 0, [0x14]⟩)], [(1, 1)]⟩
      0 (loop_start ⟨1, [(⟨7, 1, READ_REGISTER_ANSWER⟩, ⟨1, 0, [0x14]⟩)], [(1, 1)]⟩)
      READ_REGISTER_ANSWER 1 2 [0x14, 5]
      (by decide) (by decide) (by decide) (by decide) (by decide)).1,
    by decide, by decide⟩

/-! ## Buffer access inside a known byte range -/

theorem at_offset_mid (pre mid rest : List Byte) :
    at_offset (pre ++ (mid ++ rest)) pre.length mid := by
  unfold at_offset
  constructor
  · simp only [List.length_append]; omega
  · simp

theorem at_offset_iff (tvb : Tvb) (pos : Nat) (bs : List Byte) :
    at_offset tvb pos bs ↔ ∃ pre rest, tvb = pre ++ (bs ++ rest) ∧ pre.length = pos := by
  constructor
  · rintro ⟨hl, he⟩
    refine ⟨tvb.take pos, (tvb.drop pos).drop bs.length, ?_, ?_⟩
    · conv_lhs => rw [← List.take_append_drop pos tvb,
        ← List.take_append_drop bs.length (tvb.drop pos), he]
    · rw [List.length_take]; omega
  · rintro ⟨pre, rest, rfl, rfl⟩
    exact at_offset_mid pre bs rest

theorem at_offset_append (tvb : Tvb) (pos : Nat) (xs ys : List Byte)
    (h : at_offset tvb pos (xs ++ ys)) :
    at_offset tvb pos xs ∧ at_offset tvb (pos + xs.length) ys := by
  rw [at_offset_iff] at h
  obtain ⟨pre, rest, rfl, rfl⟩ := h
  constructor
  · rw [List.append_assoc]
    exact at_offset_mid pre xs (ys ++ rest)
  · have := at_offset_mid (pre ++ xs) ys rest
    rw [List.length_append, List.append_assoc] at this
    rw [List.append_assoc]
    exact this

theorem at_offset_get (tvb : Tvb) (pos : Nat) (bs : List Byte) (h : at_offset tvb pos bs)
    (j : Nat) (hj : j < bs.length) : tvb[pos + j]? = bs[j]? := by
  obtain ⟨hl, he⟩ := h
  rw [← he, List.getElem?_take_of_lt hj, List.getElem?_drop]

theorem at_offset_cons (tvb : Tvb) (pos : Nat) (a : Byte) (as : List Byte)
    (h : at_offset tvb pos (a :: as)) : tvb[pos]? = some a ∧ at_offset tvb (pos + 1) as := by
  have h0 := at_offset_get tvb pos (a :: as) h 0 (by simp)
  exact ⟨by simpa using h0, (at_offset_append tvb pos [a] as h).2⟩

theorem at_offset_le (tvb : Tvb) (pos : Nat) (bs : List Byte) (h : at_offset tvb pos bs) :
    pos + bs.length ≤ tvb.length := h.1

theorem tvb_get_guint8_at (tvb : Tvb) (pos : Nat) (a : Byte) (h : tvb[pos]? = some a) :
    tvb_get_guint8 tvb pos = .ok a.val := by
  unfold tvb_get_guint8
  rw [h]

theorem add_item_ok (hf : Hf) (tvb : Tvb) (start length : Nat) (h : start + length ≤ tvb.length) :
    proto_tree_add_item hf tvb start length
      = ⟨[.add_item ⟨hf, start, length⟩], .ok ⟨hf, start, length⟩⟩ := by
  unfold proto_tree_add_item
  rw [if_pos]
  split
  · omega
  · exact h

theorem W_bind_ok {α β : Type} (out : List Event) (a : α) (f : α → W β) :
    W.bind ⟨out, .ok a⟩ f = ⟨out ++ (f a).out, (f a).res⟩ := rfl

theorem W_lift_ok_bind {α β : Type} (a : α) (f : α → W β) :
    W.bind (W.lift (.ok a)) f = f a := by
  unfold W.bind W.lift
  simp

/-! ## The register list of a `READ_REGISTER` request (C21) -/

theorem decode_payload_read_register (fuel : Nat) (tvb : Tvb) (off N : Nat)
    (rv : Option FCOSConvRequestVal) (item : Item) :
    decode_payload fuel tvb off N READ_REGISTER rv item = read_register_loop tvb off N 0 := rfl

theorem read_register_loop_eq (tvb : Tvb) (off : Nat) :
    ∀ (as : List Byte) (j : Nat), at_offset tvb (off + j) as →
      read_register_loop tvb off as.length j
        = ⟨(spec_read_register_entries off j as).flatten, .ok ()⟩ := by
  intro as
  induction as with
  | nil => intro j _; rfl
  | cons a as ih =>
    intro j h
    obtain ⟨h0, h1⟩ := at_offset_cons tvb _ a as h
    have hle : off + j + 0 ≤ tvb.length := by
      have := h.1
      omega
    have ih' := ih (j + 1) (by rw [← Nat.add_assoc]; exact h1)
    simp only [List.length_cons, read_register_loop, W_bind_eq, tvb_get_guint8_at tvb _ a h0,
      W_lift_ok_bind, ih', spec_read_register_entries, List.flatten_cons, spec_read_register_entry]
    cases hk : known_register a.val with
    | some r =>
      simp [W.bind, W_bind_eq, add_item_ok _ tvb _ 0 hle, proto_item_append_text, W_pure_eq]
    | none =>
      simp [W.bind, W_bind_eq, add_item_ok _ tvb _ 0 hle, proto_item_append_text, W_pure_eq]

theorem read_register_entries_length (off : Nat) :
    ∀ (as : List Byte) (i : Nat), (spec_read_register_entries off i as).length = as.length := by
  intro as
  induction as with
  | nil => intro i; rfl
  | cons a as ih => intro i; simp [spec_read_register_entries, ih]

theorem read_register_entries_get (off : Nat) :
    ∀ (as : List Byte) (i j : Nat),
      (spec_read_register_entries off i as)[j]? = as[j]?.map (spec_read_register_entry off (i + j)) := by
  intro as
  induction as with
  | nil => intro i j; simp [spec_read_register_entries]
  | cons a as ih =>
    intro i j
    cases j with
    | zero => simp [spec_read_register_entries]
    | succ j =>
      simp only [spec_read_register_entries, List.getElem?_cons_succ, ih]
      rw [show i + 1 + j = i + (j + 1) by omega]

/-- C21. For every `READ_REGISTER` payload of `N` address octets lying in the buffer at
`tcp_data_offset`, the decoder gives exactly `N` entries, one per octet and in payload
order: entry `j` is on the octet at index `j`, with the catalog name and `(0xAA)` when the
address is in the catalog and the unknown marker and `(0xAA)` when it is not. The list is
never cut short: an unknown address neither stops the decoding nor moves a later
entry. -/
theorem C21_read_register_lists_every_address (fuel : Nat) (tvb : Tvb) (off : Nat)
    (payload : List Byte) (rv : Option FCOSConvRequestVal) (item : Item)
    (hp : at_offset tvb off payload) :
    decode_payload fuel tvb off payload.length READ_REGISTER rv item
      = ⟨(spec_read_register_entries off 0 payload).flatten, .ok ()⟩ ∧
    (spec_read_register_entries off 0 payload).length = payload.length ∧
    ∀ j, (spec_read_register_entries off 0 payload)[j]?
      = payload[j]?.map (spec_read_register_entry off j) := by
  refine ⟨?_, read_register_entries_length off payload 0, ?_⟩
  · rw [decode_payload_read_register]
    exact read_register_loop_eq tvb off payload 0 hp
  · intro j
    rw [read_register_entries_get, Nat.zero_add]

/-- Witness of C21: the payload `[0x00, 0x99, 0x01]` of a `READ_REGISTER` frame gives
three entries, the second one the unknown marker for `0x99`, the third one the entry of
register `0x01` at its own index. -/
theorem C21_read_register_lists_every_address_witness :
    at_offset [0, 0x21, 0, 1, 0, 3, 0x00, 0x99, 0x01, 0xFE, 0x41] 6 [0x00, 0x99, 0x01] ∧
    decode_payload 0 [0, 0x21, 0, 1, 0, 3, 0x00, 0x99, 0x01, 0xFE, 0x41] 6 3 READ_REGISTER none
        ⟨.hf_fiveco_data, 6, 3⟩
      = ⟨[.add_item ⟨.hf_fiveco_regread, 6, 0⟩,
          .append_text ⟨.hf_fiveco_regread, 6, 0⟩ (.reg_name "Register Type/Model"),
          .append_text ⟨.hf_fiveco_regread, 6, 0⟩ (.paren_hex 0x00),
          .add_item ⟨.hf_fiveco_regreadunknown, 7, 0⟩,
          .append_text ⟨.hf_fiveco_regreadunknown, 7, 0⟩ (.paren_hex 0x99),
          .add_item ⟨.hf_fiveco_regread, 8, 0⟩,
          .append_text ⟨.hf_fiveco_regread, 8, 0⟩ (.reg_name "Register Version"),
          .append_text ⟨.hf_fiveco_regread, 8, 0⟩ (.paren_hex 0x01)], .ok ()⟩ :=
  ⟨by decide,
   (C21_read_register_lists_every_address 0
      [0, 0x21, 0, 1, 0, 3, 0x00, 0x99, 0x01, 0xFE, 0x41] 6 [0x00, 0x99, 0x01] none
      ⟨.hf_fiveco_data, 6, 3⟩ (by decide)).1.trans (by decide)⟩

/-! ## Register tuples (C22, C23, C24) -/

theorem known_register_mem (a : Nat) (r : FCOSRegisterDef) (h : known_register a = some r) :
    r ∈ aRegisters ∧ r.unValue = a := by
  unfold known_register at h
  cases hg : aRegisters[a]? with
  | none => rw [hg] at h; simp at h
  | some r' =>
    rw [hg] at h
    simp only at h
    split at h
    · rename_i hv
      simp only [Option.some.injEq] at h
      subst h
      exact ⟨List.getElem?_mem hg, hv⟩
    · simp at h

theorem known_register_size (a : Nat) (r : FCOSRegisterDef)
    (h : known_register a = some r) : r.unSize % 256 = r.unSize := by
  have hall : ∀ r ∈ aRegisters, r.unSize ≤ 16 := by decide
  have := hall r (known_register_mem a r h).1
  exact Nat.mod_eq_of_lt (by omega)

/-- The hex dump loop over the octets `v` that lie at `base + i`. -/
theorem hex_loop_eq (tvb : Tvb) (item : Item) (base : Nat) :
    ∀ (v : List Byte) (i : Nat), at_offset tvb (base + i) v → i < 65536 →
      i + v.length ≤ 65536 →
      hex_loop tvb item base v.length i
        = ⟨v.map (fun b => .append_text item (.hex b.val)), .ok ((i + v.length) % 65536)⟩ := by
  intro v
  induction v with
  | nil =>
    intro i _ hi0 _
    simp only [List.length_nil, Nat.add_zero, List.map_nil, hex_loop, Nat.mod_eq_of_lt hi0]
    rfl
  | cons a as ih =>
    intro i h hi0 hi
    obtain ⟨h0, h1⟩ := at_offset_cons tvb _ a as h
    simp only [List.length_cons] at hi ⊢
    simp only [hex_loop, W_bind_eq, tvb_get_guint8_at tvb _ a h0, W_lift_ok_bind,
      proto_item_append_text, W_bind_ok, List.map_cons]
    cases as with
    | nil =>
      simp only [List.length_nil, hex_loop, W_pure_eq, List.map_nil, Nat.zero_add]
      rfl
    | cons b bs =>
      simp only [List.length_cons] at hi
      have e : (i + 1) % 65536 = i + 1 := Nat.mod_eq_of_lt (by omega)
      rw [e, ih (i + 1) (by rw [← Nat.add_assoc]; exact h1) (by omega)
        (by simp only [List.length_cons]; omega)]
      simp only [List.length_cons, List.singleton_append, W.mk.injEq, true_and]
      rw [show i + 1 + (bs.length + 1) = i + (bs.length + 1 + 1) by omega]

/-- The rendering of a known register whose value octets `v` lie at `p + 1`. -/
theorem render_register_eq (tvb : Tvb) (a : Byte) (r : FCOSRegisterDef) (v : List Byte)
    (p : Nat) (hk : known_register a.val = some r) (hv : v.length = r.unSize)
    (hat : at_offset tvb (p + 1) v) (hp : p + 1 < 65536) (hp' : p + 1 + v.length ≤ 65536) :
    render_register tvb a.val r (p + 1)
      = ⟨spec_register_entry p (a, v), .ok ((p + 1 + v.length) % 65536)⟩ := by
  have hsz := known_register_size a.val r hk
  have hle : p + 1 + r.unSize ≤ tvb.length := by
    have := hat.1
    omega
  unfold render_register spec_register_entry
  simp only [hk, hsz, W_bind_eq, add_item_ok _ tvb _ _ hle, W_bind_ok, W_pure_eq]
  by_cases hf : r.pFct.isSome = true
  · simp only [hf, if_true, hv, List.append_nil]
  · simp only [hf, Bool.false_eq_true, if_false]
    by_cases hs : r.ft = .FT_STRING
    · have hstr : tvb_get_raw_bytes_as_string tvb (p + 1) (r.unSize + 1) = .ok v := by
        unfold tvb_get_raw_bytes_as_string
        rw [if_neg (by omega), Nat.add_sub_cancel, ← hv, hat.2]
      simp only [hs, if_true, hstr, W_lift_ok_bind, proto_item_append_text, hv]
      rfl
    · have hhex := hex_loop_eq tvb ⟨.hf_fiveco_regread, p + 1, r.unSize⟩ 0 v (p + 1)
        (by rw [Nat.zero_add]; exact hat) hp hp'
      rw [hv] at hhex
      simp only [hs, if_false, proto_item_append_text, W_bind_ok, hhex, hv]
      rfl

theorem encode_tuples_append (ts us : List (Byte × List Byte)) :
    encode_tuples (ts ++ us) = encode_tuples ts ++ encode_tuples us := by
  induction ts with
  | nil => rfl
  | cons t ts ih => simp [encode_tuples, ih]

theorem write_register_loop_done (tvb : Tvb) (off N fuel i : Nat) (h : ¬ i < off + N) :
    write_register_loop tvb off N fuel i = ⟨[], .ok ()⟩ := by
  cases fuel with
  | zero => unfold write_register_loop; rw [if_neg h]; rfl
  | succ n => unfold write_register_loop; rw [if_neg h]; rfl

theorem write_register_loop_succ (tvb : Tvb) (off N fuel i : Nat) :
    write_register_loop tvb off N (fuel + 1) i =
      if i < off + N then
        W.bind (W.lift (tvb_get_guint8 tvb i)) (fun ucRegAdd =>
          match known_register ucRegAdd with
          | some r =>
            W.bind (render_register tvb ucRegAdd r ((i + 1) % 65536)) (fun i =>
              write_register_loop tvb off N fuel i)
          | none =>
            W.bind (proto_tree_add_item .hf_fiveco_regreaduk tvb ((i + 1) % 65536)
              (off + N - (i + 1) % 65536)) (fun fiveco_data_item =>
                proto_item_append_text fiveco_data_item .depends_on_product))
      else pure () := rfl

/-- The register write loop over the known tuples `ts` that lie at `p` and end at or
before offset 65535: one entry per tuple, then the loop goes on at the octet after the
last tuple. -/
theorem write_register_loop_tuples (tvb : Tvb) (off N fuel : Nat) :
    ∀ (ts : List (Byte × List Byte)) (p : Nat), (∀ t ∈ ts, tuple_ok t) →
      at_offset tvb p (encode_tuples ts) →
      p + (encode_tuples ts).length ≤ 65535 → p + (encode_tuples ts).length ≤ off + N →
      write_register_loop tvb off N (fuel + ts.length) p
        = W.bind ⟨(spec_register_entries p ts).flatten, .ok ()⟩ (fun _ =>
            write_register_loop tvb off N fuel (p + (encode_tuples ts).length)) := by
  intro ts
  induction ts with
  | nil =>
    intro p _ _ _ _
    simp only [List.length_nil, Nat.add_zero, encode_tuples, spec_register_entries,
      List.flatten_nil, W_bind_ok, List.nil_append]
  | cons t ts ih =>
    intro p hok hat hp' hN
    obtain ⟨a, v⟩ := t
    have htok := hok (a, v) (List.mem_cons_self _ _)
    unfold tuple_ok at htok
    cases hk : known_register a.val with
    | none => rw [hk] at htok; exact absurd htok id
    | some r =>
      rw [hk] at htok
      simp only at htok
      simp only [encode_tuples, List.length_cons, List.length_append] at hat hp' hN ⊢
      obtain ⟨h0, h1⟩ := at_offset_cons tvb p a _ hat
      obtain ⟨hv, hrest⟩ := at_offset_append tvb (p + 1) v _ h1
      have hlt : p < off + N := by omega
      have e1 : (p + 1) % 65536 = p + 1 := Nat.mod_eq_of_lt (by omega)
      have e2 : (p + 1 + v.length) % 65536 = p + 1 + v.length :=
        Nat.mod_eq_of_lt (by omega)
      rw [show fuel + (ts.length + 1) = (fuel + ts.length) + 1 by omega,
        write_register_loop_succ, if_pos hlt, tvb_get_guint8_at tvb p a h0, W_lift_ok_bind]
      simp only [hk, e1]
      rw [render_register_eq tvb a r v p hk htok hv (by omega) (by omega), W_bind_ok, e2,
        ih (p + 1 + v.length) (fun t ht => hok t (List.mem_cons_of_mem _ ht)) hrest
          (by omega) (by omega), W_bind_ok, W_bind_ok]
      simp only [spec_register_entries, List.flatten_cons, List.append_assoc]
      rw [show p + 1 + v.length + (encode_tuples ts).length
        = p + (v.length + (encode_tuples ts).length + 1) by omega]

theorem decode_payload_write_register (fuel : Nat) (tvb : Tvb) (off N cmd : Nat)
    (rv : Option FCOSConvRequestVal) (item : Item)
    (hcmd : cmd = WRITE_REGISTER ∨ cmd = WRITE_REGISTER_QUIET) :
    decode_payload fuel tvb off N cmd rv item = write_register_loop tvb off N fuel off := by
  rcases hcmd with rfl | rfl <;> rfl

theorem register_entries_length :
    ∀ (ts : List (Byte × List Byte)) (p : Nat), (spec_register_entries p ts).length = ts.length := by
  intro ts
  induction ts with
  | nil => intro p; rfl
  | cons t ts ih => intro p; simp [spec_register_entries, ih]

theorem register_entries_get :
    ∀ (ts : List (Byte × List Byte)) (p j : Nat),
      (spec_register_entries p ts)[j]? = ts[j]?.map (spec_register_entry (tuple_start p ts j)) := by
  intro ts
  induction ts with
  | nil => intro p j; simp [spec_register_entries]
  | cons t ts ih =>
    intro p j
    cases j with
    | zero => simp [spec_register_entries, tuple_start, encode_tuples]
    | succ j =>
      simp only [spec_register_entries, List.getElem?_cons_succ, ih, tuple_start, List.take_succ_cons,
        encode_tuples, List.length_cons, List.length_append]
      rw [show p + 1 + t.2.length + (encode_tuples (List.take j ts)).length
        = p + (t.2.length + (encode_tuples (List.take j ts)).length + 1) by omega]

theorem register_entries_append :
    ∀ (ts us : List (Byte × List Byte)) (p : Nat),
      spec_register_entries p (ts ++ us)
        = spec_register_entries p ts ++ spec_register_entries (p + (encode_tuples ts).length) us := by
  intro ts
  induction ts with
  | nil => intro us p; rfl
  | cons t ts ih =>
    intro us p
    have e : p + (encode_tuples (t :: ts)).length
        = p + 1 + t.2.length + (encode_tuples ts).length := by
      simp only [encode_tuples, List.length_cons, List.length_append]
      omega
    rw [e]
    show spec_register_entry p t :: spec_register_entries (p + 1 + t.2.length) (ts ++ us) = _
    rw [ih]
    rfl

/-- The fields of the entries of known tuples: never the marker's. -/
theorem register_entry_no_marker (p : Nat) (t : Byte × List Byte) :
    ∀ e ∈ spec_register_entry p t, ∀ s l, e ≠ .add_item ⟨.hf_fiveco_regreaduk, s, l⟩ := by
  intro e he s l
  unfold spec_register_entry at he
  split at he
  · simp at he
  · split at he
    · simp only [List.mem_singleton] at he
      rw [he]
      simp
    · split at he
      · simp only [List.mem_cons, List.mem_singleton, List.not_mem_nil, or_false] at he
        rcases he with rfl | rfl <;> simp
      · simp only [List.cons_append, List.nil_append, List.mem_cons, List.mem_map] at he
        rcases he with rfl | rfl | ⟨b, _, rfl⟩ <;> simp

theorem register_entries_no_marker :
    ∀ (ts : List (Byte × List Byte)) (p : Nat),
      ∀ e ∈ (spec_register_entries p ts).flatten, ∀ s l,
        e ≠ .add_item ⟨.hf_fiveco_regreaduk, s, l⟩ := by
  intro ts
  induction ts with
  | nil => intro p e he; simp [spec_register_entries] at he
  | cons t ts ih =>
    intro p e he s l
    simp only [spec_register_entries, List.flatten_cons, List.mem_append] at he
    rcases he with he | he
    · exact register_entry_no_marker p t e he s l
    · exact ih _ e he s l

/-- The register write decoder on a payload made of known tuples that ends at or before
offset 65535. -/
theorem write_register_tuples (fuel : Nat) (tvb : Tvb) (off : Nat)
    (ts : List (Byte × List Byte)) (hok : ∀ t ∈ ts, tuple_ok t)
    (hat : at_offset tvb off (encode_tuples ts))
    (hend : off + (encode_tuples ts).length ≤ 65535) (hfuel : ts.length ≤ fuel) :
    write_register_loop tvb off (encode_tuples ts).length fuel off
      = ⟨(spec_register_entries off ts).flatten, .ok ()⟩ := by
  obtain ⟨m, rfl⟩ : ∃ m, fuel = m + ts.length := ⟨fuel - ts.length, by omega⟩
  rw [write_register_loop_tuples tvb off _ m ts off hok hat hend (le_refl _),
    write_register_loop_done _ _ _ _ _ (by omega), W_bind_ok, List.append_nil]

/-- The register write decoder on a payload made of known tuples, then an octet `u` that
is not a catalog address, then the octets `tail`, ending at or before offset 65535. -/
theorem write_register_unknown (fuel : Nat) (tvb : Tvb) (off : Nat)
    (ts : List (Byte × List Byte)) (u : Byte) (tail : List Byte)
    (hok : ∀ t ∈ ts, tuple_ok t) (hu : known_register u.val = none)
    (hat : at_offset tvb off (encode_tuples ts ++ u :: tail))
    (hend : off + (encode_tuples ts ++ u :: tail).length ≤ 65535) (hfuel : ts.length < fuel) :
    write_register_loop tvb off (encode_tuples ts ++ u :: tail).length fuel off
      = ⟨(spec_register_entries off ts).flatten
          ++ spec_uninterpreted_marker (off + (encode_tuples ts).length + 1) tail.length,
         .ok ()⟩ := by
  obtain ⟨m, rfl⟩ : ∃ m, fuel = (m + 1) + ts.length := ⟨fuel - ts.length - 1, by omega⟩
  obtain ⟨h1, h2⟩ := at_offset_append tvb off _ _ hat
  obtain ⟨h3, _⟩ := at_offset_cons tvb _ u tail h2
  simp only [List.length_append, List.length_cons] at hend ⊢
  have hle := hat.1
  simp only [List.length_append, List.length_cons] at hle
  rw [write_register_loop_tuples tvb off _ (m + 1) ts off hok h1 (by omega) (by omega),
    write_register_loop_succ, if_pos (by omega), tvb_get_guint8_at tvb _ u h3, W_lift_ok_bind]
  simp only [hu]
  have e1 : (off + (encode_tuples ts).length + 1) % 65536 = off + (encode_tuples ts).length + 1 :=
    Nat.mod_eq_of_lt (by omega)
  have e2 : off + ((encode_tuples ts).length + (tail.length + 1))
      - (off + (encode_tuples ts).length + 1) = tail.length := by omega
  rw [e1, e2, add_item_ok _ tvb _ _ (by omega), W_bind_ok, W_bind_ok]
  rfl

/-! ### A register write frame of 65538 octets -/

theorem encode_timeouts_length (k : Nat) :
    (encode_tuples (List.replicate k ((0x14 : Byte), [(0x05 : Byte)]))).length = 2 * k := by
  induction k with
  | zero => rfl
  | succ k ih =>
    simp only [List.replicate_succ, encode_tuples, List.length_cons, List.length_append,
      List.length_nil, ih]
    omega

theorem delivery_timeouts_length (k : Nat) : (delivery_timeouts k).length = 2 * k + 8 := by
  simp only [delivery_timeouts, List.length_append, List.length_cons, List.length_nil,
    encode_timeouts_length]
  omega

theorem timeouts_ok (k : Nat) :
    ∀ t ∈ List.replicate k ((0x14 : Byte), [(0x05 : Byte)]), tuple_ok t := by
  intro t ht
  rw [List.eq_of_mem_replicate ht]
  decide

theorem delivery_timeouts_at (k : Nat) :
    at_offset (delivery_timeouts k) 6 (encode_tuples (List.replicate k (0x14, [0x05]))) :=
  at_offset_mid [0x00, 0x22, 0x00, 0x01, 0xFF, 0xFA] _ _

/-- The register write decoder on the frame of 32765 tuples: the index `i`, a `guint16`,
is 0 after the last tuple, so the loop goes on with the octets of the header. -/
theorem delivery_timeouts_decode (m : Nat) (hm : m = 32764)
    (rv : Option FCOSConvRequestVal) (item : Item) :
    decode_payload (m + 3) (delivery_timeouts (m + 1)) 6 65530 WRITE_REGISTER rv item
      = ⟨(spec_register_entries 6 (List.replicate (m + 1) (0x14, [0x05]))).flatten
          ++ ([.add_item ⟨.nsWsHeaderID 0, 1, 4⟩] ++ spec_uninterpreted_marker 6 65530),
         .ok ()⟩ := by
  have hat := delivery_timeouts_at (m + 1)
  have hlen := delivery_timeouts_length (m + 1)
  rw [List.replicate_succ', encode_tuples_append] at hat
  obtain ⟨hinit, hlast⟩ := at_offset_append _ _ _ _ hat
  rw [encode_timeouts_length] at hlast
  have hlast' : at_offset (delivery_timeouts (m + 1)) (6 + 2 * m) (0x14 :: ([0x05] ++ [])) :=
    hlast
  obtain ⟨h0, h1⟩ := at_offset_cons _ _ _ _ hlast'
  obtain ⟨hv, _⟩ := at_offset_append _ _ _ _ h1
  have hloop := write_register_loop_tuples (delivery_timeouts (m + 1)) 6 65530 3
    (List.replicate m (0x14, [0x05])) 6 (timeouts_ok m) hinit
    (by rw [encode_timeouts_length]; omega) (by rw [encode_timeouts_length]; omega)
  rw [List.length_replicate, encode_timeouts_length] at hloop
  have hk14 : known_register ((0x14 : Byte) : Nat)
      = some ⟨0x14, 1, "Register TCP Timeout", "5co-legacy.RegTCPTimeout", .FT_UINT8,
          some .dispTimeout⟩ := by decide
  have hk0 : known_register ((0x00 : Byte) : Nat)
      = some ⟨0x00, 4, "Register Type/Model", "5co-legacy.RegTypeModel", .FT_UINT32,
          some .dispType⟩ := by decide
  have hkfa : known_register ((0xFA : Byte) : Nat) = none := by decide
  have hb0 : (delivery_timeouts (m + 1))[0]? = some (0x00 : Byte) := rfl
  have hb5 : (delivery_timeouts (m + 1))[5]? = some (0xFA : Byte) := rfl
  have hat1 : at_offset (delivery_timeouts (m + 1)) (0 + 1) [0x22, 0x00, 0x01, 0xFF] := by
    refine ⟨?_, rfl⟩
    rw [hlen]
    simp only [List.length_cons, List.length_nil]
    omega
  have e1 : (6 + 2 * m + 1) % 65536 = 6 + 2 * m + 1 := by omega
  have e2 : (6 + 2 * m + 1 + [(0x05 : Byte)].length) % 65536 = 0 := by
    simp only [List.length_cons, List.length_nil]
    omega
  rw [decode_payload_write_register _ _ _ _ _ _ _ (Or.inl rfl),
    show m + 3 = 3 + m by omega, hloop, W_bind_ok,
    write_register_loop_succ, if_pos (by omega), tvb_get_guint8_at _ _ _ h0, W_lift_ok_bind]
  simp only [hk14, e1]
  rw [render_register_eq _ 0x14 _ [0x05] (6 + 2 * m) hk14 rfl hv (by omega)
    (by simp only [List.length_cons, List.length_nil]; omega), W_bind_ok, e2,
    write_register_loop_succ, if_pos (by omega), tvb_get_guint8_at _ _ _ hb0, W_lift_ok_bind]
  simp only [hk0]
  rw [show (0 + 1) % 65536 = 0 + 1 by rfl,
    render_register_eq _ 0x00 _ [0x22, 0x00, 0x01, 0xFF] 0 hk0 rfl hat1 (by omega)
      (by simp only [List.length_cons, List.length_nil]; omega), W_bind_ok,
    show (0 + 1 + [(0x22 : Byte), 0x00, 0x01, 0xFF].length) % 65536 = 5 by rfl,
    write_register_loop_succ, if_pos (by omega), tvb_get_guint8_at _ _ _ hb5, W_lift_ok_bind]
  simp only [hkfa]
  rw [show (5 + 1) % 65536 = 6 by rfl, show 6 + 65530 - 6 = 65530 by rfl,
    add_item_ok _ _ _ _ (by rw [hlen]; omega), W_bind_ok]
  rw [List.replicate_succ', register_entries_append, encode_timeouts_length,
    List.flatten_append]
  simp only [spec_register_entries, List.flatten_cons, List.flatten_nil, List.append_nil,
    proto_item_append_text, spec_uninterpreted_marker, List.append_assoc]
  rfl

/-- Counterexample to C22 as stated, on the claim's own witness: the `WRITE_REGISTER`
payload `[0x14, 0x05, 0x99, 0xFF]` at offset 6. The tuple of TCP Timeout is decoded, and
the marker of the octets not interpreted is added at offset 9 over one octet, `[0xFF]`:
the address octet `0x99` at offset 8 was read with `i++` (line 506) before the marker is
added at `i` (line 546), so the marker does not start at the unknown address octet and
does not cover `[0x99, 0xFF]`. The same holds in the trace of the whole call. -/
theorem C22_counterexample :
    decode_payload 5 [0x00, 0x22, 0x00, 0x01, 0x00, 0x04, 0x14, 0x05, 0x99, 0xFF, 0x51, 0xD4]
        6 4 WRITE_REGISTER none ⟨.hf_fiveco_data, 6, 4⟩
      = ⟨[.add_item ⟨.nsWsHeaderID 0x14, 7, 1⟩,
          .add_item ⟨.hf_fiveco_regreaduk, 9, 1⟩,
          .append_text ⟨.hf_fiveco_regreaduk, 9, 1⟩ .depends_on_product], .ok ()⟩
    ∧ Event.add_item ⟨.hf_fiveco_regreaduk, 9, 1⟩ ∈
        (dissect_FiveCoLegacy 5
          [0x00, 0x22, 0x00, 0x01, 0x00, 0x04, 0x14, 0x05, 0x99, 0xFF, 0x51, 0xD4]
          ⟨1, false, 7⟩ ⟨0, [], []⟩).trace
    ∧ Event.add_item ⟨.hf_fiveco_regreaduk, 8, 2⟩ ∉
        (dissect_FiveCoLegacy 5
          [0x00, 0x22, 0x00, 0x01, 0x00, 0x04, 0x14, 0x05, 0x99, 0xFF, 0x51, 0xD4]
          ⟨1, false, 7⟩ ⟨0, [], []⟩).trace := by
  decide

/-- C22, as amended. For every `WRITE_REGISTER` or `WRITE_REGISTER_QUIET` payload that
lies in the buffer, ends at an offset of at most 65535 and is made of tuples of catalog
registers, then an octet `u` that is not a catalog address, then the octets `tail`: the
tuples before `u` are decoded, one entry each and in order, then one marker of the octets
not interpreted is added, which starts at the octet after `u` and covers `tail`, the
octets of the payload that follow the unknown address octet; nothing is decoded after
it. -/
theorem C22_register_write_stops_at_first_unknown (fuel : Nat) (tvb : Tvb) (off cmd : Nat)
    (ts : List (Byte × List Byte)) (u : Byte) (tail : List Byte)
    (rv : Option FCOSConvRequestVal) (item : Item)
    (hcmd : cmd = WRITE_REGISTER ∨ cmd = WRITE_REGISTER_QUIET)
    (hok : ∀ t ∈ ts, tuple_ok t) (hu : known_register u.val = none)
    (hat : at_offset tvb off (encode_tuples ts ++ u :: tail))
    (hend : off + (encode_tuples ts ++ u :: tail).length ≤ 65535) (hfuel : ts.length < fuel) :
    decode_payload fuel tvb off (encode_tuples ts ++ u :: tail).length cmd rv item
      = ⟨(spec_register_entries off ts).flatten
          ++ spec_uninterpreted_marker (off + (encode_tuples ts).length + 1) tail.length,
         .ok ()⟩ ∧
    (spec_register_entries off ts).length = ts.length ∧
    (∀ j, (spec_register_entries off ts)[j]?
      = ts[j]?.map (spec_register_entry (tuple_start off ts j))) ∧
    off + (encode_tuples ts).length + 1 + tail.length
      = off + (encode_tuples ts ++ u :: tail).length := by
  refine ⟨?_, register_entries_length ts off, register_entries_get ts off, ?_⟩
  · rw [decode_payload_write_register _ _ _ _ _ _ _ hcmd]
    exact write_register_unknown fuel tvb off ts u tail hok hu hat hend hfuel
  · simp only [List.length_append, List.length_cons]
    omega

/-- Witness of C22 as amended, on the claim's witness `[0x14, 0x05, 0x99, 0xFF]`: the
tuple of TCP Timeout with the value 5 is decoded and the marker covers `[0xFF]`. -/
theorem C22_register_write_stops_at_first_unknown_witness :
    decode_payload 5 [0x00, 0x22, 0x00, 0x01, 0x00, 0x04, 0x14, 0x05, 0x99, 0xFF, 0x51, 0xD4]
        6 4 WRITE_REGISTER none ⟨.hf_fiveco_data, 6, 4⟩
      = ⟨[.add_item ⟨.nsWsHeaderID 0x14, 7, 1⟩] ++ spec_uninterpreted_marker 9 1, .ok ()⟩ :=
  (C22_register_write_stops_at_first_unknown 5
    [0x00, 0x22, 0x00, 0x01, 0x00, 0x04, 0x14, 0x05, 0x99, 0xFF, 0x51, 0xD4] 6 WRITE_REGISTER
    [(0x14, [0x05])] 0x99 [0xFF] none ⟨.hf_fiveco_data, 6, 4⟩ (Or.inl rfl) (by decide)
    (by decide) (by decide) (by decide) (by decide)).1

/-- The register write decoder on a payload of complete tuples that ends at an offset of
at most 65535. For every list of K tuples of catalog registers, each value of the size
the catalog declares, whose concatenation is a `WRITE_REGISTER` (or
`WRITE_REGISTER_QUIET`) payload that lies in the buffer: the decoder gives exactly K
entries, in order, entry `j` being that of the address `a_j` over the value octets `v_j`,
which start one octet after the tuple's start; no marker of octets not interpreted is
added, and after the K entries the loop index is at the end of the payload. -/
theorem register_write_round_trip_in_range (fuel : Nat) (tvb : Tvb) (off cmd : Nat)
    (ts : List (Byte × List Byte)) (rv : Option FCOSConvRequestVal) (item : Item)
    (hcmd : cmd = WRITE_REGISTER ∨ cmd = WRITE_REGISTER_QUIET)
    (hok : ∀ t ∈ ts, tuple_ok t) (hat : at_offset tvb off (encode_tuples ts))
    (hend : off + (encode_tuples ts).length ≤ 65535) (hfuel : ts.length ≤ fuel) :
    decode_payload fuel tvb off (encode_tuples ts).length cmd rv item
      = ⟨(spec_register_entries off ts).flatten, .ok ()⟩ ∧
    (spec_register_entries off ts).length = ts.length ∧
    (∀ j, (spec_register_entries off ts)[j]?
      = ts[j]?.map (spec_register_entry (tuple_start off ts j))) ∧
    (∀ e ∈ (spec_register_entries off ts).flatten, ∀ s l,
      e ≠ .add_item ⟨.hf_fiveco_regreaduk, s, l⟩) ∧
    (∀ m, write_register_loop tvb off (encode_tuples ts).length (m + ts.length) off
      = W.bind ⟨(spec_register_entries off ts).flatten, .ok ()⟩ (fun _ =>
          write_register_loop tvb off (encode_tuples ts).length m
            (off + (encode_tuples ts).length))) := by
  refine ⟨?_, register_entries_length ts off, register_entries_get ts off,
    register_entries_no_marker ts off, ?_⟩
  · rw [decode_payload_write_register _ _ _ _ _ _ _ hcmd]
    exact write_register_tuples fuel tvb off ts hok hat hend hfuel
  · intro m
    exact write_register_loop_tuples tvb off _ m ts off hok hat hend (le_refl _)

/-! ## The TCP Timeout formatter (C25) -/

set_option maxRecDepth 100000 in
/-- C25 (the code departs from the claim). `dispTimeout` calls `snprintf` with a size of
12 for `"%d secondes"` and of 8 for `"Disabled"` (lines 927-930), one less than the text
and its terminator need when the value has three digits and when it is 0. So `0x2D`
gives `45 secondes`, but 100 gives `100 seconde`, 255 gives `255 seconde` and 0 gives
`Disable`; among the values 0 to 255 the complete text is given exactly for 1 to 99. -/
theorem C25_dispTimeout_drops_last_character :
    dispTimeout 0x2D = "45 secondes" ∧ dispTimeout 100 = "100 seconde"
    ∧ dispTimeout 255 = "255 seconde" ∧ dispTimeout 0 = "Disable"
    ∧ spec_timeout_text 100 = "100 secondes" ∧ spec_timeout_text 0 = "Disabled"
    ∧ ∀ n : Fin 256, (dispTimeout n.val = spec_timeout_text n.val ↔ (1 ≤ n.val ∧ n.val ≤ 99)) := by
  decide

/-! ## The flash commands (C27, C28) -/

theorem decode_payload_flash_area_load (fuel : Nat) (tvb : Tvb) (off N : Nat)
    (rv : Option FCOSConvRequestVal) (item : Item) :
    decode_payload fuel tvb off N FLASH_AREA_LOAD rv item =
      W.bind (W.lift (tvb_get_guint24 tvb off)) (fun unOffset =>
        W.bind (W.lift (tvb_get_guint24 tvb (off + 3))) (fun unSize =>
          proto_item_append_text item (.flash_load unSize unOffset))) := rfl

theorem decode_payload_flash_area_answer (fuel : Nat) (tvb : Tvb) (off N : Nat)
    (rv : Option FCOSConvRequestVal) (item : Item) :
    decode_payload fuel tvb off N FLASH_AREA_ANSWER rv item =
      W.bind (W.lift (tvb_get_raw_bytes_as_string tvb off (N - 1))) (fun string_buf =>
        proto_item_append_text item (.flash_answer string_buf)) := rfl

/-- Counterexample to C27 as stated: a delivery of a `FLASH_AREA_LOAD` frame with a
payload of one octet, `[0x01]`, followed by a `FLASH_AREA_ERASE` frame. The decoder reads
six octets from offset 6 whatever the payload length: the offset `0x01FECB` is made of the
payload octet and the two octets of the frame's trailer, and the size `0x003100` of the
first three octets of the next frame. When the frame is alone in the delivery the second
read leaves the buffer and the call ends with the bounds exception. -/
theorem C27_counterexample :
    Event.append_text ⟨.hf_fiveco_data, 6, 1⟩ (.flash_load 0x003100 0x01FECB) ∈
      (dissect_FiveCoLegacy 5
        [0x00, 0x32, 0x00, 0x01, 0x00, 0x01, 0x01, 0xFE, 0xCB,
         0x00, 0x31, 0x00, 0x02, 0x00, 0x00, 0xFF, 0xCC] ⟨1, false, 7⟩ ⟨0, [], []⟩).trace
    ∧ (dissect_FiveCoLegacy 5
        [0x00, 0x32, 0x00, 0x01, 0x00, 0x01, 0x01, 0xFE, 0xCB,
         0x00, 0x31, 0x00, 0x02, 0x00, 0x00, 0xFF, 0xCC] ⟨1, false, 7⟩ ⟨0, [], []⟩).value?
      = some 17
    ∧ (dissect_FiveCoLegacy 5 [0x00, 0x32, 0x00, 0x01, 0x00, 0x01, 0x01, 0xFE, 0xCB]
        ⟨1, false, 7⟩ ⟨0, [], []⟩).raised = true := by
  decide

/-- C27, as amended. For every `FLASH_AREA_LOAD` frame with parameters the decoder reads
the six octets that start at the first octet of the payload, whatever the payload length
`N` is: the offset is the big-endian value of the first three, the size that of the next
three, so for a payload `p` of 6 octets the offset is `p[0]*65536 + p[1]*256 + p[2]` and
the size `p[3]*65536 + p[4]*256 + p[5]`, and for a shorter payload the octets that follow
it in the buffer are read in the same way; when fewer than six octets are left in the
buffer the read raises the bounds exception and no text is added. -/
theorem C27_flash_area_load_reads_six_octets (fuel : Nat) (tvb : Tvb) (off N : Nat)
    (rv : Option FCOSConvRequestVal) (item : Item) (p0 p1 p2 p3 p4 p5 : Byte) :
    (at_offset tvb off [p0, p1, p2, p3, p4, p5] →
      decode_payload fuel tvb off N FLASH_AREA_LOAD rv item
        = ⟨[.append_text item (.flash_load (p3.val * 65536 + p4.val * 256 + p5.val)
              (p0.val * 65536 + p1.val * 256 + p2.val))], .ok ()⟩) ∧
    (tvb.length < off + 6 →
      decode_payload fuel tvb off N FLASH_AREA_LOAD rv item = ⟨[], .exn⟩) := by
  rw [decode_payload_flash_area_load]
  constructor
  · intro hat
    have g : ∀ j (hj : j < 6), tvb[off + j]? = [p0, p1, p2, p3, p4, p5][j]? :=
      fun j hj => at_offset_get tvb off _ hat j hj
    have g0 := g 0 (by omega)
    have g1 := g 1 (by omega)
    have g2 := g 2 (by omega)
    have g3 := g 3 (by omega)
    have g4 := g 4 (by omega)
    have g5 := g 5 (by omega)
    simp only [Nat.add_zero, List.getElem?_cons_zero, List.getElem?_cons_succ] at g0 g1 g2 g3 g4 g5
    unfold tvb_get_guint24
    simp only [g0, g1, g2, show off + 3 + 1 = off + 4 by omega,
      show off + 3 + 2 = off + 5 by omega, g3, g4, g5, W_lift_ok_bind, proto_item_append_text]
  · intro hlt
    unfold tvb_get_guint24
    cases h0 : tvb[off]? with
    | none => rfl
    | some a =>
      cases h1 : tvb[off + 1]? with
      | none => rfl
      | some b =>
        cases h2 : tvb[off + 2]? with
        | none => rfl
        | some c =>
          simp only [W_lift_ok_bind]
          have h5 : tvb[off + 3 + 2]? = none := List.getElem?_eq_none (by omega)
          rw [h5]
          cases h3 : tvb[off + 3]? with
          | none => rfl
          | some d =>
            cases h4 : tvb[off + 3 + 1]? with
            | none => rfl
            | some e => rfl

/-- Witness of C27 as amended: a frame with the payload `01 02 03 00 10 00` gives the
offset `0x010203` and the size `0x001000`; a frame with the payload `[0x01]`, alone in
its delivery, gives the exception. -/
theorem C27_flash_area_load_reads_six_octets_witness :
    decode_payload 5
        [0x00, 0x32, 0x00, 0x01, 0x00, 0x06, 0x01, 0x02, 0x03, 0x00, 0x10, 0x00, 0xEB, 0xC4]
        6 6 FLASH_AREA_LOAD none ⟨.hf_fiveco_data, 6, 6⟩
      = ⟨[.append_text ⟨.hf_fiveco_data, 6, 6⟩ (.flash_load 0x001000 0x010203)], .ok ()⟩
    ∧ decode_payload 5 [0x00, 0x32, 0x00, 0x01, 0x00, 0x01, 0x01, 0xFE, 0xCB]
        6 1 FLASH_AREA_LOAD none ⟨.hf_fiveco_data, 6, 1⟩ = ⟨[], .exn⟩ :=
  ⟨(C27_flash_area_load_reads_six_octets 5
      [0x00, 0x32, 0x00, 0x01, 0x00, 0x06, 0x01, 0x02, 0x03, 0x00, 0x10, 0x00, 0xEB, 0xC4]
      6 6 none ⟨.hf_fiveco_data, 6, 6⟩ 0x01 0x02 0x03 0x00 0x10 0x00).1 (by decide),
   (C27_flash_area_load_reads_six_octets 5
      [0x00, 0x32, 0x00, 0x01, 0x00, 0x01, 0x01, 0xFE, 0xCB]
      6 1 none ⟨.hf_fiveco_data, 6, 1⟩ 0 0 0 0 0 0).2 (by decide)⟩

/-- The decoder of `FLASH_AREA_ANSWER` on a payload of `N` octets: the size handed to
`tvb_get_raw_bytes_as_string` is `N - 1`, terminator included. -/
theorem flash_area_answer_eq (fuel : Nat) (tvb : Tvb) (off N : Nat)
    (rv : Option FCOSConvRequestVal) (item : Item) :
    decode_payload fuel tvb off N FLASH_AREA_ANSWER rv item =
      if N - 1 = 0 then ⟨[], .exn⟩
      else ⟨[.append_text item (.flash_answer ((tvb.drop off).take (N - 1 - 1)))], .ok ()⟩ := by
  rw [decode_payload_flash_area_answer]
  unfold tvb_get_raw_bytes_as_string
  split
  · rfl
  · rfl

/-- C28 (the code departs from the claim). The buffer of the status text has `N` octets
(line 696) but the size handed to `tvb_get_raw_bytes_as_string` is `N - 1` (line 697),
terminator included, where the string registers hand `ucRegSize + 1` for `ucRegSize`
octets (lines 525 and 654). So the text is made of the first `N - 2` octets of the
payload: the frame with the payload `4F 4B 21` gives the text `4F`, not `4F 4B`; and for
`N = 1` the size is 0, which the string reader refuses: the call ends with an exception
and no text. -/
theorem C28_flash_area_answer_text_one_octet_short :
    Event.append_text ⟨.hf_fiveco_data, 6, 3⟩ (.flash_answer [0x4F]) ∈
      (dissect_FiveCoLegacy 5 [0x00, 0x33, 0x00, 0x01, 0x00, 0x03, 0x4F, 0x4B, 0x21, 0x8F, 0x7D]
        ⟨1, false, 7⟩ ⟨0, [], []⟩).trace
    ∧ Event.append_text ⟨.hf_fiveco_data, 6, 3⟩ (.flash_answer [0x4F, 0x4B]) ∉
      (dissect_FiveCoLegacy 5 [0x00, 0x33, 0x00, 0x01, 0x00, 0x03, 0x4F, 0x4B, 0x21, 0x8F, 0x7D]
        ⟨1, false, 7⟩ ⟨0, [], []⟩).trace
    ∧ (dissect_FiveCoLegacy 5 [0x00, 0x33, 0x00, 0x01, 0x00, 0x01, 0x4F, 0xB0, 0xCA]
        ⟨1, false, 7⟩ ⟨0, [], []⟩).raised = true
    ∧ (∀ t, Event.append_text ⟨.hf_fiveco_data, 6, 1⟩ t ∉
        (dissect_FiveCoLegacy 5 [0x00, 0x33, 0x00, 0x01, 0x00, 0x01, 0x4F, 0xB0, 0xCA]
          ⟨1, false, 7⟩ ⟨0, [], []⟩).trace)
    ∧ ∀ (fuel : Nat) (tvb : Tvb) (off N : Nat) (rv : Option FCOSConvRequestVal) (item : Item),
        decode_payload fuel tvb off N FLASH_AREA_ANSWER rv item =
          if N - 1 = 0 then ⟨[], .exn⟩
          else ⟨[.append_text item (.flash_answer ((tvb.drop off).take (N - 1 - 1)))],
            .ok ()⟩ := by
  refine ⟨by decide, by decide, by decide, ?_, flash_area_answer_eq⟩
  intro t
  have h : (dissect_FiveCoLegacy 5 [0x00, 0x33, 0x00, 0x01, 0x00, 0x01, 0x4F, 0xB0, 0xCA]
      ⟨1, false, 7⟩ ⟨0, [], []⟩).trace
      = [.col_protocol, .col_clear, .col_frame false 0x33 1 1,
         .add_item ⟨.proto_FiveCoLegacy, 0, 9⟩,
         .append_text ⟨.proto_FiveCoLegacy, 0, 9⟩ (.type_name 0x33),
         .add_item ⟨.hf_fiveco_header, 0, 6⟩, .add_item ⟨.hf_fiveco_fct, 0, 2⟩,
         .add_item ⟨.hf_fiveco_id, 2, 2⟩, .add_item ⟨.hf_fiveco_length, 4, 2⟩,
         .add_item ⟨.hf_fiveco_data, 6, 1⟩] := by decide
  rw [h]
  simp

/-! ## One frame of a delivery of at most 65535 octets, with its tree (C24, C26) -/

/-- The loop body on a well-formed frame that lies at the walk's offset in a delivery of
at most 65535 octets, when the payload block gives the calls `P` and completes: the
calls of the frame, and the next loop state, 6 + N + 2 octets further. -/
theorem frame_step_encoded_tree (ifuel : Nat) (pinfo : packet_info) (s : Loop) (f : Frame)
    (pre rest : List Byte) (P : List Event) (hs : s.tcp_data_offset = pre.length) (hf : f.wf)
    (hlen : (pre ++ (encode_frame f ++ rest)).length ≤ 65535)
    (hP : payload_tree ifuel (pre ++ (encode_frame f ++ rest)) (s.tcp_data_offset + 6)
        f.payload.length f.cmd (correlate pinfo s.st s.isRequest f.cmd f.payload).2.2
      = ⟨P, .ok ()⟩) :
    frame_step ifuel (pre ++ (encode_frame f ++ rest)) pinfo s =
      .next { tcp_data_offset := s.tcp_data_offset + f.payload.length + 8,
              isRequest := (correlate pinfo s.st s.isRequest f.cmd f.payload).2.1,
              st := (correlate pinfo s.st s.isRequest f.cmd f.payload).1,
              out := s.out
                ++ frame_summary s.tcp_data_offset f.cmd f.seq f.payload.length
                    (frame_checksum f) f.trailer
                ++ ([.add_item ⟨.proto_FiveCoLegacy, s.tcp_data_offset, f.payload.length + 8⟩,
                     .append_text ⟨.proto_FiveCoLegacy, s.tcp_data_offset, f.payload.length + 8⟩
                       (.type_name f.cmd),
                     .add_item ⟨.hf_fiveco_header, s.tcp_data_offset, 6⟩,
                     .add_item ⟨.hf_fiveco_fct, s.tcp_data_offset, 2⟩,
                     .add_item ⟨.hf_fiveco_id, s.tcp_data_offset + 2, 2⟩,
                     .add_item ⟨.hf_fiveco_length, s.tcp_data_offset + 4, 2⟩]
                    ++ P
                    ++ [.add_checksum (s.tcp_data_offset + 6 + f.payload.length)
                          (frame_checksum f) f.trailer]) } := by
  have hflen := encode_frame_length f
  have hfit : s.tcp_data_offset + f.payload.length + 8
      ≤ (pre ++ (encode_frame f ++ rest)).length := by
    rw [hs]; simp [hflen]; omega
  have hrx : tvb_get_ntohs (pre ++ (encode_frame f ++ rest))
      (s.tcp_data_offset + f.payload.length + 6) = .ok f.trailer := by
    rw [hs]; exact encoded_trailer pre _ f hf.2.2.2
  rw [frame_step_encoded ifuel pinfo s f pre rest hs hf hlen]
  unfold frame_step_fields
  simp only
  rw [frame_tree_eq ifuel _ s.tcp_data_offset f.cmd f.payload.length _ (frame_checksum f)
    f.trailer hfit hlen hrx, hP]

/-- The payload block of the three commands that take no parameter. -/
theorem payload_tree_no_data (ifuel : Nat) (tvb : Tvb) (off N cmd : Nat)
    (rv : Option FCOSConvRequestVal)
    (hcmd : cmd = FLASH_AREA_ERASE ∨ cmd = WRITE_REGISTER_ANSWER ∨
      cmd = EASY_IP_ADDRESS_CONFIG_ANSWER) (hfit : off + N ≤ tvb.length) :
    payload_tree ifuel tvb off N cmd rv =
      ⟨if 0 < N then
          [.add_item ⟨.hf_fiveco_data, off, N⟩,
           .append_text ⟨.hf_fiveco_data, off, N⟩ .no_data_expected]
        else [], .ok ()⟩ := by
  unfold payload_tree
  by_cases hN : 0 < N
  · have hd : decode_payload ifuel tvb off N cmd rv ⟨.hf_fiveco_data, off, N⟩
        = ⟨[.append_text ⟨.hf_fiveco_data, off, N⟩ .no_data_expected], .ok ()⟩ := by
      rcases hcmd with rfl | rfl | rfl <;> rfl
    rw [if_pos hN, if_pos hN, W_bind_eq, add_item_ok _ tvb _ _ hfit, W_bind_ok, hd]
    rfl
  · rw [if_neg hN, if_neg hN]
    rfl

/-- The three commands that take no parameter, in a delivery of at most 65535 octets. For
every well-formed frame whose command is `FLASH_AREA_ERASE`, `WRITE_REGISTER_ANSWER` or
`EASY_IP_ADDRESS_CONFIG_ANSWER` and that lies at the walk's offset: the frame is decoded,
the annotation `No data should be present` is added, after the data item, exactly when
`N > 0`, and in both cases the walk goes on 6 + N + 2 octets further. -/
theorem no_data_commands_in_range (ifuel : Nat) (pinfo : packet_info) (s : Loop) (f : Frame)
    (pre rest : List Byte) (hs : s.tcp_data_offset = pre.length) (hf : f.wf)
    (hcmd : f.cmd = FLASH_AREA_ERASE ∨ f.cmd = WRITE_REGISTER_ANSWER ∨
      f.cmd = EASY_IP_ADDRESS_CONFIG_ANSWER)
    (hlen : (pre ++ (encode_frame f ++ rest)).length ≤ 65535) :
    frame_step ifuel (pre ++ (encode_frame f ++ rest)) pinfo s =
      .next { tcp_data_offset := s.tcp_data_offset + (6 + f.payload.length + 2),
              isRequest := (correlate pinfo s.st s.isRequest f.cmd f.payload).2.1,
              st := (correlate pinfo s.st s.isRequest f.cmd f.payload).1,
              out := s.out
                ++ frame_summary s.tcp_data_offset f.cmd f.seq f.payload.length
                    (frame_checksum f) f.trailer
                ++ ([.add_item ⟨.proto_FiveCoLegacy, s.tcp_data_offset, f.payload.length + 8⟩,
                     .append_text ⟨.proto_FiveCoLegacy, s.tcp_data_offset, f.payload.length + 8⟩
                       (.type_name f.cmd),
                     .add_item ⟨.hf_fiveco_header, s.tcp_data_offset, 6⟩,
                     .add_item ⟨.hf_fiveco_fct, s.tcp_data_offset, 2⟩,
                     .add_item ⟨.hf_fiveco_id, s.tcp_data_offset + 2, 2⟩,
                     .add_item ⟨.hf_fiveco_length, s.tcp_data_offset + 4, 2⟩]
                    ++ (if 0 < f.payload.length then
                          [.add_item ⟨.hf_fiveco_data, s.tcp_data_offset + 6, f.payload.length⟩,
                           .append_text
                             ⟨.hf_fiveco_data, s.tcp_data_offset + 6, f.payload.length⟩
                             .no_data_expected]
                        else [])
                    ++ [.add_checksum (s.tcp_data_offset + 6 + f.payload.length)
                          (frame_checksum f) f.trailer]) } := by
  have hflen := encode_frame_length f
  have hfit : s.tcp_data_offset + 6 + f.payload.length
      ≤ (pre ++ (encode_frame f ++ rest)).length := by
    rw [hs]; simp [hflen]; omega
  rw [frame_step_encoded_tree ifuel pinfo s f pre rest _ hs hf hlen
    (payload_tree_no_data ifuel _ _ _ f.cmd _ hcmd hfit),
    show s.tcp_data_offset + (6 + f.payload.length + 2)
      = s.tcp_data_offset + f.payload.length + 8 by omega]

/-- C26 (the code departs from the claim). The offset of the walk, `tcp_data_offset`, is a
`guint16`. In the delivery of one `FLASH_AREA_ERASE` frame with 65530 parameter octets,
65538 octets in all, the annotation is added and the frame is decoded, but the offset
goes from 0 to 2, not to 6 + 65530 + 2 = 65538. The annotation part of the claim holds
for every buffer: the payload block of the three commands adds the data item and the
annotation `No data should be present` exactly when `N > 0`, and completes. The advance
of 6 + N + 2 octets holds for every frame at the walk's offset in a delivery of at most
65535 octets. -/
theorem C26_frame_offset_wraps :
    ((delivery_ff 65530).length = 65538 ∧
    ∃ s', frame_step 5 (delivery_ff 65530) ⟨1, false, 7⟩ (loop_start ⟨0, [], []⟩) = .next s'
      ∧ s'.tcp_data_offset = 2
      ∧ Event.col_frame false FLASH_AREA_ERASE 0 65530 ∈ s'.out
      ∧ Event.append_text ⟨.hf_fiveco_data, 6, 65530⟩ .no_data_expected ∈ s'.out)
    ∧ (∀ (ifuel : Nat) (tvb : Tvb) (off N cmd : Nat) (rv : Option FCOSConvRequestVal),
        (cmd = FLASH_AREA_ERASE ∨ cmd = WRITE_REGISTER_ANSWER ∨
          cmd = EASY_IP_ADDRESS_CONFIG_ANSWER) → off + N ≤ tvb.length →
        payload_tree ifuel tvb off N cmd rv =
          ⟨if 0 < N then
              [.add_item ⟨.hf_fiveco_data, off, N⟩,
               .append_text ⟨.hf_fiveco_data, off, N⟩ .no_data_expected]
            else [], .ok ()⟩)
    ∧ (∀ (ifuel : Nat) (pinfo : packet_info) (s : Loop) (f : Frame) (pre rest : List Byte),
        s.tcp_data_offset = pre.length → f.wf →
        (f.cmd = FLASH_AREA_ERASE ∨ f.cmd = WRITE_REGISTER_ANSWER ∨
          f.cmd = EASY_IP_ADDRESS_CONFIG_ANSWER) →
        (pre ++ (encode_frame f ++ rest)).length ≤ 65535 →
        frame_step ifuel (pre ++ (encode_frame f ++ rest)) pinfo s =
          .next { tcp_data_offset := s.tcp_data_offset + (6 + f.payload.length + 2),
                  isRequest := (correlate pinfo s.st s.isRequest f.cmd f.payload).2.1,
                  st := (correlate pinfo s.st s.isRequest f.cmd f.payload).1,
                  out := s.out
                    ++ frame_summary s.tcp_data_offset f.cmd f.seq f.payload.length
                        (frame_checksum f) f.trailer
                    ++ ([.add_item ⟨.proto_FiveCoLegacy, s.tcp_data_offset, f.payload.length + 8⟩,
                         .append_text
                           ⟨.proto_FiveCoLegacy, s.tcp_data_offset, f.payload.length + 8⟩
                           (.type_name f.cmd),
                         .add_item ⟨.hf_fiveco_header, s.tcp_data_offset, 6⟩,
                         .add_item ⟨.hf_fiveco_fct, s.tcp_data_offset, 2⟩,
                         .add_item ⟨.hf_fiveco_id, s.tcp_data_offset + 2, 2⟩,
                         .add_item ⟨.hf_fiveco_length, s.tcp_data_offset + 4, 2⟩]
                        ++ (if 0 < f.payload.length then
                              [.add_item
                                 ⟨.hf_fiveco_data, s.tcp_data_offset + 6, f.payload.length⟩,
                               .append_text
                                 ⟨.hf_fiveco_data, s.tcp_data_offset + 6, f.payload.length⟩
                                 .no_data_expected]
                            else [])
                        ++ [.add_checksum (s.tcp_data_offset + 6 + f.payload.length)
                              (frame_checksum f) f.trailer]) }) := by
  refine ⟨?_, fun ifuel tvb off N cmd rv hcmd hfit =>
      payload_tree_no_data ifuel tvb off N cmd rv hcmd hfit,
    fun ifuel pinfo s f pre rest hs hf hcmd hlen =>
      no_data_commands_in_range ifuel pinfo s f pre rest hs hf hcmd hlen⟩
  refine ⟨delivery_ff_length 65530, _, delivery_ff_step 65530 rfl, rfl, ?_, ?_⟩
  · simp [FLASH_AREA_ERASE]
  · simp

/-- Witness of the last part of C26: a `WRITE_REGISTER_ANSWER` frame with one parameter
octet gets the annotation and the walk goes from 0 to 9; a `FLASH_AREA_ERASE` frame
without parameters gets no annotation and the walk goes from 0 to 8. -/
theorem C26_frame_offset_wraps_witness :
    frame_step 5 [0x00, 0x24, 0x00, 0x01, 0x00, 0x01, 0xAA, 0x55, 0xD9] ⟨1, false, 7⟩
        (loop_start ⟨0, [], []⟩)
      = .next ⟨9, false, ⟨0, [], [(1, 0)]⟩,
          [.col_protocol, .col_clear, .col_frame false 0x24 1 1,
           .add_item ⟨.proto_FiveCoLegacy, 0, 9⟩,
           .append_text ⟨.proto_FiveCoLegacy, 0, 9⟩ (.type_name 0x24),
           .add_item ⟨.hf_fiveco_header, 0, 6⟩, .add_item ⟨.hf_fiveco_fct, 0, 2⟩,
           .add_item ⟨.hf_fiveco_id, 2, 2⟩, .add_item ⟨.hf_fiveco_length, 4, 2⟩,
           .add_item ⟨.hf_fiveco_data, 6, 1⟩,
           .append_text ⟨.hf_fiveco_data, 6, 1⟩ .no_data_expected,
           .add_checksum 7 0x55D9 0x55D9]⟩
    ∧ frame_step 5 [0x00, 0x31, 0x00, 0x01, 0x00, 0x00, 0xFF, 0xCD] ⟨1, false, 7⟩
        (loop_start ⟨0, [], []⟩)
      = .next ⟨8, false, ⟨0, [], [(1, 0)]⟩,
          [.col_protocol, .col_clear, .col_frame false 0x31 1 0,
           .add_item ⟨.proto_FiveCoLegacy, 0, 8⟩,
           .append_text ⟨.proto_FiveCoLegacy, 0, 8⟩ (.type_name 0x31),
           .add_item ⟨.hf_fiveco_header, 0, 6⟩, .add_item ⟨.hf_fiveco_fct, 0, 2⟩,
           .add_item ⟨.hf_fiveco_id, 2, 2⟩, .add_item ⟨.hf_fiveco_length, 4, 2⟩,
           .add_checksum 6 0xFFCD 0xFFCD]⟩ :=
  ⟨(C26_frame_offset_wraps.2.2 5 ⟨1, false, 7⟩ (loop_start ⟨0, [], []⟩)
      ⟨WRITE_REGISTER_ANSWER, 1, [0xAA], 0x55D9⟩ [] [] rfl (by decide) (by decide)
      (by decide)).trans (by decide),
   (C26_frame_offset_wraps.2.2 5 ⟨1, false, 7⟩ (loop_start ⟨0, [], []⟩)
      ⟨FLASH_AREA_ERASE, 1, [], 0xFFCD⟩ [] [] rfl (by decide) (by decide)
      (by decide)).trans (by decide)⟩

/-! ## The I2C request decoders (C29) -/

theorem i2c_read_loop_succ (tvb : Tvb) (off N fuel i : Nat) :
    i2c_read_loop tvb off N (fuel + 1) i =
      if i < N then
        W.bind (proto_tree_add_item .hf_fiveco_i2cadd tvb (off + i) 1) (fun _ =>
          W.bind (W.lift (tvb_get_guint8 tvb (off + (i + 1) % 65536))) (fun data_i2c_length =>
            W.bind (proto_tree_add_item .hf_fiveco_i2c2write tvb (off + (i + 1) % 65536) 1)
              (fun _ =>
                W.bind (proto_tree_add_item .hf_fiveco_i2cwrite tvb
                    (off + ((i + 1) % 65536 + 1) % 65536) data_i2c_length)
                  (fun fiveco_data_item =>
                    W.bind (proto_item_append_text fiveco_data_item .colon) (fun _ =>
                      W.bind (hex_loop tvb fiveco_data_item off data_i2c_length
                          (((i + 1) % 65536 + 1) % 65536)) (fun i =>
                        W.bind (proto_tree_add_item .hf_fiveco_i2c2read tvb (off + i) 1)
                          (fun _ => i2c_read_loop tvb off N fuel ((i + 1) % 65536))))))))
      else pure () := rfl

theorem i2c_write_loop_succ (tvb : Tvb) (off N fuel i : Nat) :
    i2c_write_loop tvb off N (fuel + 1) i =
      if i < N then
        W.bind (proto_tree_add_item .hf_fiveco_i2cadd tvb (off + i) 1) (fun _ =>
          W.bind (W.lift (tvb_get_guint8 tvb (off + (i + 1) % 65536))) (fun data_i2c_length =>
            W.bind (proto_tree_add_item .hf_fiveco_i2c2write tvb (off + (i + 1) % 65536) 1)
              (fun _ =>
                W.bind (proto_tree_add_item .hf_fiveco_i2cwrite tvb
                    (off + ((i + 1) % 65536 + 1) % 65536) data_i2c_length)
                  (fun fiveco_data_item =>
                    W.bind (proto_item_append_text fiveco_data_item .colon) (fun _ =>
                      W.bind (hex_loop tvb fiveco_data_item off data_i2c_length
                          (((i + 1) % 65536 + 1) % 65536)) (fun i =>
                        i2c_write_loop tvb off N fuel i))))))
      else pure () := rfl

theorem i2c_read_loop_done (tvb : Tvb) (off N fuel i : Nat) (h : ¬ i < N) :
    i2c_read_loop tvb off N fuel i = ⟨[], .ok ()⟩ := by
  cases fuel with
  | zero => unfold i2c_read_loop; rw [if_neg h]; rfl
  | succ n => unfold i2c_read_loop; rw [if_neg h]; rfl

theorem i2c_write_loop_done (tvb : Tvb) (off N fuel i : Nat) (h : ¬ i < N) :
    i2c_write_loop tvb off N fuel i = ⟨[], .ok ()⟩ := by
  cases fuel with
  | zero => unfold i2c_write_loop; rw [if_neg h]; rfl
  | succ n => unfold i2c_write_loop; rw [if_neg h]; rfl

theorem fin_ofNat_val (n : Nat) (h : n ≤ 255) : ((Fin.ofNat n : Byte) : Nat) = n := by
  simp only [Fin.ofNat]
  omega

/-- The loop of `I2C_READ` and `I2C_READ_WRITE_ACK` over the sub-records `rs` that lie at
index `i` of the payload: one entry per sub-record, then the loop goes on at the index
after the last one. -/
theorem i2c_read_loop_subs (tvb : Tvb) (off N fuel : Nat) :
    ∀ (rs : List I2CSub) (i : Nat), (∀ r ∈ rs, r.written.length ≤ 255) →
      at_offset tvb (off + i) (encode_i2c true rs) →
      i + (encode_i2c true rs).length ≤ 65535 → i + (encode_i2c true rs).length ≤ N →
      i2c_read_loop tvb off N (fuel + rs.length) i
        = W.bind ⟨(spec_i2c_request_entries true off i rs).flatten, .ok ()⟩ (fun _ =>
            i2c_read_loop tvb off N fuel (i + (encode_i2c true rs).length)) := by
  intro rs
  induction rs with
  | nil =>
    intro i _ _ _ _
    simp only [List.length_nil, Nat.add_zero, encode_i2c, spec_i2c_request_entries,
      List.flatten_nil, W_bind_ok, List.nil_append]
  | cons r rs ih =>
    intro i hw hat h16 hN
    have hwr := hw r (List.mem_cons_self _ _)
    have hsub : (encode_i2c_sub true r).length = r.written.length + 3 := by
      simp [encode_i2c_sub]
    have hlen : (encode_i2c true (r :: rs)).length
        = r.written.length + 3 + (encode_i2c true rs).length := by
      simp only [encode_i2c, List.length_append, hsub]
    rw [hlen] at h16 hN
    obtain ⟨hsubat, hrest⟩ := at_offset_append tvb (off + i) _ _ hat
    have hsubat' : at_offset tvb (off + i)
        ([r.addr] ++ ([Fin.ofNat r.written.length] ++ (r.written ++ [r.toRead]))) := hsubat
    obtain ⟨ha, h1⟩ := at_offset_append tvb _ _ _ hsubat'
    obtain ⟨hl, h2⟩ := at_offset_append tvb _ _ _ h1
    obtain ⟨hwat, hr⟩ := at_offset_append tvb _ _ _ h2
    simp only [List.length_cons, List.length_nil] at hl h2 hwat hr
    have hl0 := (at_offset_cons tvb _ _ _ hl).1
    have e1 : (i + 1) % 65536 = i + 1 := Nat.mod_eq_of_lt (by omega)
    have e2 : (i + 1 + 1) % 65536 = i + 2 := Nat.mod_eq_of_lt (by omega)
    have e3 : (i + 2 + r.written.length) % 65536 = i + 2 + r.written.length :=
      Nat.mod_eq_of_lt (by omega)
    have e4 : (i + 2 + r.written.length + 1) % 65536 = i + (r.written.length + 3) := by
      rw [Nat.mod_eq_of_lt (by omega)]
      omega
    have hhex := hex_loop_eq tvb ⟨.hf_fiveco_i2cwrite, off + (i + 2), r.written.length⟩ off
      r.written (i + 2)
      (by rw [show off + (i + 2) = off + i + 0 + 1 + 1 by omega]; exact hwat)
      (by omega) (by omega)
    rw [e3] at hhex
    rw [show fuel + (r :: rs).length = (fuel + rs.length) + 1 by simp; omega,
      i2c_read_loop_succ, if_pos (by omega), e1, e2,
      add_item_ok _ tvb _ 1 (by have := ha.1; simp at this; omega), W_bind_ok,
      tvb_get_guint8_at tvb (off + (i + 1)) _
        (by rw [show off + (i + 1) = off + i + 0 + 1 by omega]; exact hl0),
      W_lift_ok_bind, fin_ofNat_val _ hwr,
      add_item_ok _ tvb _ 1 (by have := hl.1; simp at this; omega), W_bind_ok,
      add_item_ok _ tvb _ _ (by have := hwat.1; omega), W_bind_ok]
    simp only [proto_item_append_text, W_bind_ok]
    rw [hhex, W_bind_ok,
      add_item_ok _ tvb _ 1 (by have := hr.1; simp at this; omega), W_bind_ok, e4,
      ih (i + (r.written.length + 3)) (fun x hx => hw x (List.mem_cons_of_mem _ hx))
        (by rw [← Nat.add_assoc, ← hsub]; exact hrest) (by omega) (by omega)]
    simp only [W_bind_ok]
    simp only [spec_i2c_request_entries, spec_i2c_request_entry, hsub, if_true, List.flatten_cons,
      List.cons_append, List.nil_append, List.append_assoc, List.singleton_append, hlen]
    rw [show i + (r.written.length + 3) + (encode_i2c true rs).length
      = i + (r.written.length + 3 + (encode_i2c true rs).length) by omega]

/-- The loop of `I2C_WRITE` over the sub-records `rs` that lie at index `i` of the
payload. -/
theorem i2c_write_loop_subs (tvb : Tvb) (off N fuel : Nat) :
    ∀ (rs : List I2CSub) (i : Nat), (∀ r ∈ rs, r.written.length ≤ 255) →
      at_offset tvb (off + i) (encode_i2c false rs) →
      i + (encode_i2c false rs).length ≤ 65535 → i + (encode_i2c false rs).length ≤ N →
      i2c_write_loop tvb off N (fuel + rs.length) i
        = W.bind ⟨(spec_i2c_request_entries false off i rs).flatten, .ok ()⟩ (fun _ =>
            i2c_write_loop tvb off N fuel (i + (encode_i2c false rs).length)) := by
  intro rs
  induction rs with
  | nil =>
    intro i _ _ _ _
    simp only [List.length_nil, Nat.add_zero, encode_i2c, spec_i2c_request_entries,
      List.flatten_nil, W_bind_ok, List.nil_append]
  | cons r rs ih =>
    intro i hw hat h16 hN
    have hwr := hw r (List.mem_cons_self _ _)
    have hsub : (encode_i2c_sub false r).length = r.written.length + 2 := by
      simp [encode_i2c_sub]
    have hlen : (encode_i2c false (r :: rs)).length
        = r.written.length + 2 + (encode_i2c false rs).length := by
      simp only [encode_i2c, List.length_append, hsub]
    rw [hlen] at h16 hN
    obtain ⟨hsubat, hrest⟩ := at_offset_append tvb (off + i) _ _ hat
    have hsubat' : at_offset tvb (off + i)
        ([r.addr] ++ ([Fin.ofNat r.written.length] ++ (r.written ++ []))) := hsubat
    obtain ⟨ha, h1⟩ := at_offset_append tvb _ _ _ hsubat'
    obtain ⟨hl, h2⟩ := at_offset_append tvb _ _ _ h1
    obtain ⟨hwat, _⟩ := at_offset_append tvb _ _ _ h2
    simp only [List.length_cons, List.length_nil] at hl h2 hwat
    have hl0 := (at_offset_cons tvb _ _ _ hl).1
    have e1 : (i + 1) % 65536 = i + 1 := Nat.mod_eq_of_lt (by omega)
    have e2 : (i + 1 + 1) % 65536 = i + 2 := Nat.mod_eq_of_lt (by omega)
    have e3 : (i + 2 + r.written.length) % 65536 = i + (r.written.length + 2) := by
      rw [Nat.mod_eq_of_lt (by omega)]
      omega
    have hhex := hex_loop_eq tvb ⟨.hf_fiveco_i2cwrite, off + (i + 2), r.written.length⟩ off
      r.written (i + 2)
      (by rw [show off + (i + 2) = off + i + 0 + 1 + 1 by omega]; exact hwat)
      (by omega) (by omega)
    rw [e3] at hhex
    rw [show fuel + (r :: rs).length = (fuel + rs.length) + 1 by simp; omega,
      i2c_write_loop_succ, if_pos (by omega), e1, e2,
      add_item_ok _ tvb _ 1 (by have := ha.1; simp at this; omega), W_bind_ok,
      tvb_get_guint8_at tvb (off + (i + 1)) _
        (by rw [show off + (i + 1) = off + i + 0 + 1 by omega]; exact hl0),
      W_lift_ok_bind, fin_ofNat_val _ hwr,
      add_item_ok _ tvb _ 1 (by have := hl.1; simp at this; omega), W_bind_ok,
      add_item_ok _ tvb _ _ (by have := hwat.1; omega), W_bind_ok]
    simp only [proto_item_append_text, W_bind_ok]
    rw [hhex, W_bind_ok,
      ih (i + (r.written.length + 2)) (fun x hx => hw x (List.mem_cons_of_mem _ hx))
        (by rw [← Nat.add_assoc, ← hsub]; exact hrest) (by omega) (by omega)]
    simp only [W_bind_ok]
    simp only [spec_i2c_request_entries, spec_i2c_request_entry, hsub, Bool.false_eq_true, if_false,
      List.flatten_cons, List.cons_append, List.nil_append, List.append_assoc,
      List.singleton_append, hlen, List.append_nil]
    rw [show i + (r.written.length + 2) + (encode_i2c false rs).length
      = i + (r.written.length + 2 + (encode_i2c false rs).length) by omega]

theorem i2c_request_entries_length (withRead : Bool) (off : Nat) :
    ∀ (rs : List I2CSub) (i : Nat),
      (spec_i2c_request_entries withRead off i rs).length = rs.length := by
  intro rs
  induction rs with
  | nil => intro i; rfl
  | cons r rs ih => intro i; simp [spec_i2c_request_entries, ih]

theorem i2c_request_entries_get (withRead : Bool) (off : Nat) :
    ∀ (rs : List I2CSub) (i j : Nat),
      (spec_i2c_request_entries withRead off i rs)[j]?
        = rs[j]?.map (spec_i2c_request_entry withRead off (i + i2c_sub_start withRead rs j)) := by
  intro rs
  induction rs with
  | nil => intro i j; simp [spec_i2c_request_entries]
  | cons r rs ih =>
    intro i j
    cases j with
    | zero => simp [spec_i2c_request_entries, i2c_sub_start, encode_i2c]
    | succ j =>
      simp only [spec_i2c_request_entries, List.getElem?_cons_succ, ih, i2c_sub_start,
        List.take_succ_cons, encode_i2c, List.length_append]
      rw [Nat.add_assoc]

/-- C29. For every `I2C_READ` or `I2C_READ_WRITE_ACK` payload that is the concatenation
of `k` complete sub-records (address, write length `w`, `w` octets, read length), and
every `I2C_WRITE` payload that is the concatenation of `k` complete sub-records (address,
write length `w`, `w` octets), lying in the buffer: the decoder walks exactly `k`
sub-records, in order; the entry of sub-record `j` starts at the index where the
sub-record starts and is made of the items over its address octet, its write-length
octet, its written octets (with their hex dump) and, where present, its read-length
octet; and after the `k` sub-records the loop index is `N`, the payload length: exactly
`N` octets are consumed. -/
theorem C29_i2c_request_walk (fuel : Nat) (tvb : Tvb) (off cmd : Nat) (withRead : Bool)
    (rs : List I2CSub) (rv : Option FCOSConvRequestVal) (item : Item)
    (hcmd : (withRead = true ∧ (cmd = I2C_READ ∨ cmd = I2C_READ_WRITE_ACK)) ∨
      (withRead = false ∧ cmd = I2C_WRITE))
    (hw : ∀ r ∈ rs, r.written.length ≤ 255)
    (hat : at_offset tvb off (encode_i2c withRead rs))
    (hN : (encode_i2c withRead rs).length ≤ 65535) (hfuel : rs.length ≤ fuel) :
    decode_payload fuel tvb off (encode_i2c withRead rs).length cmd rv item
      = ⟨(spec_i2c_request_entries withRead off 0 rs).flatten, .ok ()⟩ ∧
    (spec_i2c_request_entries withRead off 0 rs).length = rs.length ∧
    (∀ j, (spec_i2c_request_entries withRead off 0 rs)[j]?
      = rs[j]?.map (spec_i2c_request_entry withRead off (i2c_sub_start withRead rs j))) ∧
    (∀ m, i2c_request_loop withRead tvb off (encode_i2c withRead rs).length (m + rs.length) 0
      = W.bind ⟨(spec_i2c_request_entries withRead off 0 rs).flatten, .ok ()⟩ (fun _ =>
          i2c_request_loop withRead tvb off (encode_i2c withRead rs).length m
            (encode_i2c withRead rs).length)) := by
  have hget : ∀ j, (spec_i2c_request_entries withRead off 0 rs)[j]?
      = rs[j]?.map (spec_i2c_request_entry withRead off (i2c_sub_start withRead rs j)) := by
    intro j
    rw [i2c_request_entries_get, Nat.zero_add]
  obtain ⟨m0, rfl⟩ : ∃ m0, fuel = m0 + rs.length := ⟨fuel - rs.length, by omega⟩
  refine ⟨?_, i2c_request_entries_length withRead off rs 0, hget, ?_⟩
  · rcases hcmd with ⟨rfl, hc⟩ | ⟨rfl, rfl⟩
    · have hd : decode_payload (m0 + rs.length) tvb off (encode_i2c true rs).length cmd rv item
          = i2c_read_loop tvb off (encode_i2c true rs).length (m0 + rs.length) 0 := by
        rcases hc with rfl | rfl <;> rfl
      rw [hd, i2c_read_loop_subs tvb off _ m0 rs 0 hw hat (by omega) (by omega),
        i2c_read_loop_done _ _ _ _ _ (by omega), W_bind_ok, List.append_nil]
    · have hd : decode_payload (m0 + rs.length) tvb off (encode_i2c false rs).length I2C_WRITE
            rv item
          = i2c_write_loop tvb off (encode_i2c false rs).length (m0 + rs.length) 0 := rfl
      rw [hd, i2c_write_loop_subs tvb off _ m0 rs 0 hw hat (by omega) (by omega),
        i2c_write_loop_done _ _ _ _ _ (by omega), W_bind_ok, List.append_nil]
  · intro m
    rcases hcmd with ⟨rfl, _⟩ | ⟨rfl, _⟩
    · have := i2c_read_loop_subs tvb off (encode_i2c true rs).length m rs 0 hw hat
        (by omega) (by omega)
      rw [Nat.zero_add] at this
      exact this
    · have := i2c_write_loop_subs tvb off (encode_i2c false rs).length m rs 0 hw hat
        (by omega) (by omega)
      rw [Nat.zero_add] at this
      exact this

/-- Witness of C29: the `I2C_READ` payload `50 02 AA BB 04 51 00 01`, two sub-records:
write `AA BB` to the address `0x50` and read 4 octets, write nothing to `0x51` and read
1 octet. -/
theorem C29_i2c_request_walk_witness :
    decode_payload 5
        [0x00, 0x01, 0x00, 0x01, 0x00, 0x08, 0x50, 0x02, 0xAA, 0xBB, 0x04, 0x51, 0x00, 0x01,
         0x00, 0xE6] 6 8 I2C_READ none ⟨.hf_fiveco_data, 6, 8⟩
      = ⟨[.add_item ⟨.hf_fiveco_i2cadd, 6, 1⟩, .add_item ⟨.hf_fiveco_i2c2write, 7, 1⟩,
          .add_item ⟨.hf_fiveco_i2cwrite, 8, 2⟩,
          .append_text ⟨.hf_fiveco_i2cwrite, 8, 2⟩ .colon,
          .append_text ⟨.hf_fiveco_i2cwrite, 8, 2⟩ (.hex 0xAA),
          .append_text ⟨.hf_fiveco_i2cwrite, 8, 2⟩ (.hex 0xBB),
          .add_item ⟨.hf_fiveco_i2c2read, 10, 1⟩,
          .add_item ⟨.hf_fiveco_i2cadd, 11, 1⟩, .add_item ⟨.hf_fiveco_i2c2write, 12, 1⟩,
          .add_item ⟨.hf_fiveco_i2cwrite, 13, 0⟩,
          .append_text ⟨.hf_fiveco_i2cwrite, 13, 0⟩ .colon,
          .add_item ⟨.hf_fiveco_i2c2read, 13, 1⟩], .ok ()⟩ :=
  (C29_i2c_request_walk 5
    [0x00, 0x01, 0x00, 0x01, 0x00, 0x08, 0x50, 0x02, 0xAA, 0xBB, 0x04, 0x51, 0x00, 0x01,
     0x00, 0xE6] 6 I2C_READ true [⟨0x50, [0xAA, 0xBB], 0x04⟩, ⟨0x51, [], 0x01⟩] none
    ⟨.hf_fiveco_data, 6, 8⟩ (Or.inl ⟨rfl, Or.inl rfl⟩) (by decide) (by decide) (by decide)
    (by decide)).1

/-! ## The I2C answer decoder (C30) -/

theorem i2c_answer_loop_succ (tvb : Tvb) (off N cmd : Nat) (v : FCOSConvRequestVal)
    (fuel i y : Nat) :
    i2c_answer_loop tvb off N cmd v (fuel + 1) i y =
      if y < v.usParaLen ∧ i < off + N then
        W.bind (W.lift (tvb_get_guint8 v.pData y)) (fun ucAdd =>
          W.bind (W.lift (tvb_get_guint8 v.pData ((y + 1) % 65536))) (fun ucBytesToWrite =>
            W.bind (W.lift (tvb_get_guint8 v.pData
                (((y + 1) % 65536 + (1 + ucBytesToWrite)) % 65536))) (fun ucBytesToRead =>
              if ucBytesToRead > 0 then
                W.bind (proto_tree_add_item .hf_fiveco_i2canswer tvb i ucBytesToRead)
                  (fun fiveco_data_item =>
                    W.bind (proto_item_append_text fiveco_data_item
                        (.from_address ucAdd ucBytesToWrite)) (fun _ =>
                      W.bind (hex_loop tvb fiveco_data_item 0 ucBytesToRead i) (fun i =>
                        if cmd = 0x08 then
                          W.bind (proto_tree_add_item .hf_fiveco_i2cack tvb i 1) (fun _ =>
                            i2c_answer_loop tvb off N cmd v fuel ((i + 1) % 65536)
                              ((((y + 1) % 65536 + (1 + ucBytesToWrite)) % 65536 + 1) % 65536))
                        else
                          i2c_answer_loop tvb off N cmd v fuel i
                            ((((y + 1) % 65536 + (1 + ucBytesToWrite)) % 65536 + 1) % 65536))))
              else if cmd = I2C_READ_WRITE_ACK_ANSWER then
                W.bind (proto_tree_add_item .hf_fiveco_i2cwriteanswer tvb i ucBytesToRead)
                  (fun fiveco_data_item =>
                    W.bind (proto_item_append_text fiveco_data_item
                        (.to_address ucAdd ucBytesToWrite)) (fun _ =>
                      W.bind (proto_tree_add_item .hf_fiveco_i2cack tvb i 1) (fun _ =>
                        i2c_answer_loop tvb off N cmd v fuel ((i + 1) % 65536)
                          ((((y + 1) % 65536 + (1 + ucBytesToWrite)) % 65536 + 1) % 65536))))
              else
                i2c_answer_loop tvb off N cmd v fuel i
                  ((((y + 1) % 65536 + (1 + ucBytesToWrite)) % 65536 + 1) % 65536))))
      else pure () := rfl

theorem i2c_answer_loop_done (tvb : Tvb) (off N cmd : Nat) (v : FCOSConvRequestVal)
    (fuel i y : Nat) (h : ¬ (y < v.usParaLen ∧ i < off + N)) :
    i2c_answer_loop tvb off N cmd v fuel i y = ⟨[], .ok ()⟩ := by
  cases fuel with
  | zero => unfold i2c_answer_loop; rw [if_neg h]; rfl
  | succ n => unfold i2c_answer_loop; rw [if_neg h]; rfl

/-- One iteration of the I2C answer loop: the sub-record `x.sub` lies at index `y` of the
stored request, the octets of the answer for it lie at `i`. -/
theorem i2c_answer_loop_step (tvb : Tvb) (off N cmd : Nat) (withAck : Bool)
    (v : FCOSConvRequestVal) (fuel i y : Nat) (x : I2CReply)
    (hcmd : (withAck = false ∧ cmd = I2C_READ_ANSWER) ∨
      (withAck = true ∧ cmd = I2C_READ_WRITE_ACK_ANSWER))
    (hw : x.sub.written.length ≤ 255) (hr : x.result.length = x.sub.toRead.val)
    (hreq : at_offset v.pData y (encode_i2c_sub true x.sub))
    (hy : y + (encode_i2c_sub true x.sub).length ≤ 65535)
    (hyl : y < v.usParaLen) (hi : i < off + N) (hi16 : i < 65536)
    (hat : at_offset tvb i (x.result ++ (if withAck then [x.ack] else [])))
    (hend : i + (x.result ++ (if withAck then [x.ack] else [])).length ≤ 65536) :
    i2c_answer_loop tvb off N cmd v (fuel + 1) i y
      = W.bind ⟨spec_i2c_answer_entry withAck i x, .ok ()⟩ (fun _ =>
          i2c_answer_loop tvb off N cmd v fuel
            ((i + (x.result ++ (if withAck then [x.ack] else [])).length) % 65536)
            (y + (encode_i2c_sub true x.sub).length)) := by
  have hsub : (encode_i2c_sub true x.sub).length = x.sub.written.length + 3 := by
    simp [encode_i2c_sub]
  rw [hsub] at hy ⊢
  have hreq' : at_offset v.pData y
      ([x.sub.addr] ++ ([Fin.ofNat x.sub.written.length] ++ (x.sub.written ++ [x.sub.toRead]))) :=
    hreq
  obtain ⟨ha, h1⟩ := at_offset_append _ _ _ _ hreq'
  obtain ⟨hl, h2⟩ := at_offset_append _ _ _ _ h1
  obtain ⟨_, h3⟩ := at_offset_append _ _ _ _ h2
  simp only [List.length_cons, List.length_nil] at hl h2 h3
  have ga := (at_offset_cons _ _ _ _ ha).1
  have gl := (at_offset_cons _ _ _ _ hl).1
  have gr := (at_offset_cons _ _ _ _ h3).1
  have e1 : (y + 1) % 65536 = y + 1 := Nat.mod_eq_of_lt (by omega)
  have e2 : (y + 1 + (1 + x.sub.written.length)) % 65536 = y + 1 + 1 + x.sub.written.length := by
    rw [Nat.mod_eq_of_lt (by omega)]
    omega
  have e3 : (y + 1 + 1 + x.sub.written.length + 1) % 65536 = y + (x.sub.written.length + 3) := by
    rw [Nat.mod_eq_of_lt (by omega)]
    omega
  obtain ⟨hres, hack⟩ := at_offset_append _ _ _ _ hat
  have hlenat := hat.1
  rw [i2c_answer_loop_succ, if_pos ⟨hyl, hi⟩, tvb_get_guint8_at _ _ _ ga, W_lift_ok_bind, e1,
    tvb_get_guint8_at _ _ _ (by rw [show y + 1 = y + (0 + 1) by omega]; exact gl),
    W_lift_ok_bind, fin_ofNat_val _ hw, e2,
    tvb_get_guint8_at _ _ _
      (by rw [show y + 1 + 1 + x.sub.written.length
            = y + (0 + 1) + (0 + 1) + x.sub.written.length by omega]; exact gr),
    W_lift_ok_bind, e3, ← hr]
  unfold spec_i2c_answer_entry
  by_cases hpos : 0 < x.result.length
  · have hhex := hex_loop_eq tvb ⟨.hf_fiveco_i2canswer, i, x.result.length⟩ 0 x.result i
      (by rw [Nat.zero_add]; exact hres) hi16
      (by simp only [List.length_append] at hend; omega)
    rw [if_pos hpos, if_pos hpos, add_item_ok _ tvb _ _ hres.1, W_bind_ok]
    simp only [proto_item_append_text, W_bind_ok]
    rw [hhex, W_bind_ok]
    rcases hcmd with ⟨rfl, rfl⟩ | ⟨rfl, rfl⟩
    · rw [if_neg (by decide)]
      simp only [Bool.false_eq_true, if_false, List.append_nil, W_bind_ok, List.append_assoc,
        List.cons_append, List.nil_append]
    · simp only [if_true, List.length_append, List.length_cons, List.length_nil] at hend hack ⊢
      have e4 : (i + x.result.length) % 65536 = i + x.result.length :=
        Nat.mod_eq_of_lt (by omega)
      rw [if_pos (by decide), e4, add_item_ok _ tvb _ 1 (by have := hack.1; simpa using this),
        W_bind_ok]
      simp only [W_bind_ok, List.append_assoc, List.cons_append, List.nil_append]
      rw [show i + x.result.length + 1 = i + (x.result.length + (0 + 1)) by omega]
  · have h0 : x.result.length = 0 := by omega
    have hnil : x.result = [] := List.length_eq_zero.mp h0
    rw [if_neg hpos, if_neg hpos]
    rcases hcmd with ⟨rfl, rfl⟩ | ⟨rfl, rfl⟩
    · rw [if_neg (by decide)]
      simp only [Bool.false_eq_true, if_false, List.append_nil, W_bind_ok, List.nil_append, h0,
        Nat.add_zero, Nat.mod_eq_of_lt hi16]
    · simp only [hnil, if_true, List.nil_append, List.length_cons, List.length_nil] at hat hend ⊢
      rw [add_item_ok _ tvb _ 0 (by have := hat.1; omega), W_bind_ok]
      simp only [proto_item_append_text, W_bind_ok]
      rw [add_item_ok _ tvb _ 1 (by have := hat.1; simpa using this), W_bind_ok]
      simp only [W_bind_ok, List.append_assoc, List.cons_append, List.nil_append, Nat.zero_add]

theorem i2c_answer_entries_empty (withAck : Bool) :
    ∀ (xs : List I2CReply) (p : Nat), (encode_i2c_answer withAck xs).length = 0 →
      (spec_i2c_answer_entries withAck p xs).flatten = [] := by
  intro xs
  induction xs with
  | nil => intro p _; rfl
  | cons x xs ih =>
    intro p h
    simp only [encode_i2c_answer, List.length_append] at h
    have hx : x.result.length = 0 := by omega
    have ha : (if withAck = true then [x.ack] else []).length = 0 := by omega
    have hack : withAck = false := by
      cases withAck with
      | false => rfl
      | true => simp at ha
    subst hack
    simp only [spec_i2c_answer_entries, List.flatten_cons, spec_i2c_answer_entry, hx, Nat.lt_irrefl,
      if_false, Bool.false_eq_true, List.nil_append]
    exact ih _ (by omega)

/-- The I2C answer loop over the answer to the sub-records of the stored request, from
the sub-record at index `y` of the request and the offset `i` of the buffer on, when the
answer ends with the payload, at or before offset 65535. -/
theorem i2c_answer_loop_replies (tvb : Tvb) (off N cmd : Nat) (withAck : Bool)
    (v : FCOSConvRequestVal)
    (hcmd : (withAck = false ∧ cmd = I2C_READ_ANSWER) ∨
      (withAck = true ∧ cmd = I2C_READ_WRITE_ACK_ANSWER))
    (hv : v.usParaLen ≤ 65535) (hN : off + N ≤ 65535) :
    ∀ (xs : List I2CReply) (fuel i y : Nat), xs.length ≤ fuel →
      (∀ x ∈ xs, x.sub.written.length ≤ 255 ∧ x.result.length = x.sub.toRead.val) →
      at_offset v.pData y (encode_i2c true (xs.map (fun x => x.sub))) →
      y + (encode_i2c true (xs.map (fun x => x.sub))).length = v.usParaLen →
      at_offset tvb i (encode_i2c_answer withAck xs) →
      i + (encode_i2c_answer withAck xs).length = off + N →
      i2c_answer_loop tvb off N cmd v fuel i y
        = ⟨(spec_i2c_answer_entries withAck i xs).flatten, .ok ()⟩ := by
  intro xs
  induction xs with
  | nil =>
    intro fuel i y _ _ _ hy _ _
    simp only [List.map_nil, encode_i2c, List.length_nil, Nat.add_zero] at hy
    rw [i2c_answer_loop_done _ _ _ _ _ _ _ _ (by omega)]
    rfl
  | cons x xs ih =>
    intro fuel i y hfuel hok hreq hy hat hi
    by_cases hlt : i < off + N
    · obtain ⟨f, rfl⟩ : ∃ f, fuel = f + 1 := ⟨fuel - 1, by simp at hfuel; omega⟩
      obtain ⟨hw, hr⟩ := hok x (List.mem_cons_self _ _)
      have hreq' : at_offset v.pData y
          (encode_i2c_sub true x.sub ++ encode_i2c true (xs.map (fun x => x.sub))) := hreq
      obtain ⟨hq1, hq2⟩ := at_offset_append _ _ _ _ hreq'
      have hy' : y + ((encode_i2c_sub true x.sub).length
          + (encode_i2c true (xs.map (fun x => x.sub))).length) = v.usParaLen := by
        rw [← hy]
        simp only [List.map_cons, encode_i2c, List.length_append]
      have hsubpos : 0 < (encode_i2c_sub true x.sub).length := by simp [encode_i2c_sub]
      have hat' : at_offset tvb i
          ((x.result ++ (if withAck then [x.ack] else [])) ++ encode_i2c_answer withAck xs) := hat
      obtain ⟨ha1, ha2⟩ := at_offset_append _ _ _ _ hat'
      have hi' : i + ((x.result ++ (if withAck then [x.ack] else [])).length
          + (encode_i2c_answer withAck xs).length) = off + N := by
        rw [← hi]
        simp only [encode_i2c_answer, List.length_append]
      rw [i2c_answer_loop_step tvb off N cmd withAck v f i y x hcmd hw hr hq1 (by omega)
        (by omega) hlt (by omega) ha1 (by omega),
        Nat.mod_eq_of_lt (by omega),
        ih f _ _ (by simp at hfuel; omega) (fun z hz => hok z (List.mem_cons_of_mem _ hz))
          hq2 (by omega) ha2 (by omega), W_bind_ok]
      simp only [spec_i2c_answer_entries, List.flatten_cons, List.length_append]
      cases withAck <;> simp [Nat.add_assoc]
    · rw [i2c_answer_loop_done _ _ _ _ _ _ _ _ (by omega),
        i2c_answer_entries_empty withAck (x :: xs) i (by omega)]

theorem i2c_answer_entries_length (withAck : Bool) :
    ∀ (xs : List I2CReply) (p : Nat), (spec_i2c_answer_entries withAck p xs).length = xs.length := by
  intro xs
  induction xs with
  | nil => intro p; rfl
  | cons x xs ih => intro p; simp [spec_i2c_answer_entries, ih]

theorem i2c_answer_entries_get (withAck : Bool) :
    ∀ (xs : List I2CReply) (p j : Nat),
      (spec_i2c_answer_entries withAck p xs)[j]?
        = xs[j]?.map (spec_i2c_answer_entry withAck (i2c_reply_start withAck p xs j)) := by
  intro xs
  induction xs with
  | nil => intro p j; simp [spec_i2c_answer_entries]
  | cons x xs ih =>
    intro p j
    cases j with
    | zero => simp [spec_i2c_answer_entries, i2c_reply_start, encode_i2c_answer]
    | succ j =>
      simp only [spec_i2c_answer_entries, List.getElem?_cons_succ, ih, i2c_reply_start,
        List.take_succ_cons, encode_i2c_answer, List.length_append]
      cases withAck <;> simp [Nat.add_assoc]

theorem at_offset_self (bs : List Byte) : at_offset bs 0 bs := by
  have := at_offset_mid [] bs []
  simpa using this

theorem delivery_after_filler_length (n : Nat) (frame : List Byte) :
    (delivery_after_filler n frame).length = n + 8 + frame.length := by
  simp only [delivery_after_filler, List.length_append, List.length_cons, List.length_nil,
    List.length_replicate]
  omega

/-- The octets of the second frame lie after the first one. -/
theorem delivery_after_filler_at (n : Nat) (frame : List Byte) :
    at_offset (delivery_after_filler n frame) (n + 8) frame := by
  have h := at_offset_mid ([0x00, 0x31, 0x00, 0x01, 0xFF, 0xEE] ++ (List.replicate n 0x00
    ++ [0xFF, 0xDE])) frame []
  simp only [List.length_append, List.length_cons, List.length_nil, List.length_replicate,
    List.append_nil, List.append_assoc] at h
  rw [show 0 + 1 + 1 + 1 + 1 + 1 + 1 + (n + (0 + 1 + 1)) = n + 8 by omega] at h
  exact h

/-- The I2C answer decoder on an answer of two results of 4 octets that starts at offset
65532: the index `i`, a `guint16`, is 0 after the first result, and the second result is
taken from the start of the buffer. -/
theorem i2c_answer_wrapped (n : Nat) (hn : n = 65518) (item : Item) :
    decode_payload 5
        (delivery_after_filler n
          [0x00, 0x03, 0x00, 0x02, 0x00, 0x08, 0x01, 0x02, 0x03, 0x04, 0x05, 0x06, 0x07, 0x08,
           0xEF, 0xDE])
        65532 8 I2C_READ_ANSWER
        (some (i2c_request_record [⟨0x50, [], 0x04⟩, ⟨0x51, [], 0x04⟩])) item
      = ⟨[.add_item ⟨.hf_fiveco_i2canswer, 65532, 4⟩,
          .append_text ⟨.hf_fiveco_i2canswer, 65532, 4⟩ (.from_address 0x50 0),
          .append_text ⟨.hf_fiveco_i2canswer, 65532, 4⟩ (.hex 0x01),
          .append_text ⟨.hf_fiveco_i2canswer, 65532, 4⟩ (.hex 0x02),
          .append_text ⟨.hf_fiveco_i2canswer, 65532, 4⟩ (.hex 0x03),
          .append_text ⟨.hf_fiveco_i2canswer, 65532, 4⟩ (.hex 0x04),
          .add_item ⟨.hf_fiveco_i2canswer, 0, 4⟩,
          .append_text ⟨.hf_fiveco_i2canswer, 0, 4⟩ (.from_address 0x51 0),
          .append_text ⟨.hf_fiveco_i2canswer, 0, 4⟩ (.hex 0x00),
          .append_text ⟨.hf_fiveco_i2canswer, 0, 4⟩ (.hex 0x31),
          .append_text ⟨.hf_fiveco_i2canswer, 0, 4⟩ (.hex 0x00),
          .append_text ⟨.hf_fiveco_i2canswer, 0, 4⟩ (.hex 0x01)], .ok ()⟩ := by
  have hfr := delivery_after_filler_at n
    [0x00, 0x03, 0x00, 0x02, 0x00, 0x08, 0x01, 0x02, 0x03, 0x04, 0x05, 0x06, 0x07, 0x08,
     0xEF, 0xDE]
  have hfr' : at_offset _ (n + 8)
      ([0x00, 0x03, 0x00, 0x02, 0x00, 0x08] ++ ([0x01, 0x02, 0x03, 0x04]
        ++ [0x05, 0x06, 0x07, 0x08, 0xEF, 0xDE])) := hfr
  obtain ⟨_, h1⟩ := at_offset_append _ _ _ _ hfr'
  obtain ⟨hres1, _⟩ := at_offset_append _ _ _ _ h1
  simp only [List.length_cons, List.length_nil] at hres1
  rw [show n + 8 + (0 + 1 + 1 + 1 + 1 + 1 + 1) = 65532 by omega] at hres1
  have hres2 : at_offset (delivery_after_filler n
      [0x00, 0x03, 0x00, 0x02, 0x00, 0x08, 0x01, 0x02, 0x03, 0x04, 0x05, 0x06, 0x07, 0x08,
       0xEF, 0xDE]) 0 [0x00, 0x31, 0x00, 0x01] := by
    refine ⟨?_, rfl⟩
    rw [delivery_after_filler_length]
    simp only [List.length_cons, List.length_nil]
    omega
  have hd : decode_payload 5
        (delivery_after_filler n
          [0x00, 0x03, 0x00, 0x02, 0x00, 0x08, 0x01, 0x02, 0x03, 0x04, 0x05, 0x06, 0x07, 0x08,
           0xEF, 0xDE])
        65532 8 I2C_READ_ANSWER
        (some (i2c_request_record [⟨0x50, [], 0x04⟩, ⟨0x51, [], 0x04⟩])) item
      = i2c_answer_loop _ 65532 8 I2C_READ_ANSWER
          (i2c_request_record [⟨0x50, [], 0x04⟩, ⟨0x51, [], 0x04⟩]) 5 65532 0 := rfl
  rw [hd, show (5 : Nat) = 4 + 1 by rfl,
    i2c_answer_loop_step _ 65532 8 I2C_READ_ANSWER false _ 4 65532 0
      ⟨⟨0x50, [], 0x04⟩, [0x01, 0x02, 0x03, 0x04], 0⟩ (Or.inl ⟨rfl, rfl⟩) (by decide) (by decide)
      (by decide) (by decide) (by decide) (by decide) (by decide) hres1 (by decide),
    W_bind_ok, show (4 : Nat) = 3 + 1 by rfl,
    show (65532 + ([(0x01 : Byte), 0x02, 0x03, 0x04] ++ if false = true then [(0 : Byte)]
      else []).length) % 65536 = 0 by decide,
    i2c_answer_loop_step _ 65532 8 I2C_READ_ANSWER false _ 3 0 _
      ⟨⟨0x51, [], 0x04⟩, [0x00, 0x31, 0x00, 0x01], 0⟩ (Or.inl ⟨rfl, rfl⟩) (by decide) (by decide)
      (by decide) (by decide) (by decide) (by decide) (by decide) hres2 (by decide),
    W_bind_ok, i2c_answer_loop_done _ _ _ _ _ _ _ _ (by decide)]
  rfl

/-- The I2C answer decoder on an answer payload that ends at an offset of at most 65535.
For every `I2C_READ_ANSWER` decoded against the stored `I2C_READ` request whose
sub-records have the read lengths `r_1 .. r_k`, with an answer payload of
`r_1 + ... + r_k` octets that lies in the buffer: the decoder gives one result item per
sub-record `j` with `r_j > 0`, in request order, over the next `r_j` answer octets, with
the address and the write length of sub-record `j` and the hex dump of the octets, and
nothing for a sub-record with `r_j = 0`. For an `I2C_READ_WRITE_ACK_ANSWER` decoded
against the stored `I2C_READ_WRITE_ACK` request, with one acknowledge octet after the
`r_j` octets of each sub-record, each sub-record takes in addition exactly one
acknowledge octet after its `r_j` result octets (a sub-record with `r_j = 0` gets a write
answer item and its acknowledge octet). -/
theorem i2c_answer_replay_in_range (fuel : Nat) (tvb : Tvb) (off cmd : Nat) (withAck : Bool)
    (xs : List I2CReply) (item : Item)
    (hcmd : (withAck = false ∧ cmd = I2C_READ_ANSWER) ∨
      (withAck = true ∧ cmd = I2C_READ_WRITE_ACK_ANSWER))
    (hok : ∀ x ∈ xs, x.sub.written.length ≤ 255 ∧ x.result.length = x.sub.toRead.val)
    (hreq : (encode_i2c true (xs.map (fun x => x.sub))).length ≤ 65535)
    (hat : at_offset tvb off (encode_i2c_answer withAck xs))
    (hend : off + (encode_i2c_answer withAck xs).length ≤ 65535) (hfuel : xs.length ≤ fuel) :
    decode_payload fuel tvb off (encode_i2c_answer withAck xs).length cmd
        (some (i2c_request_record (xs.map (fun x => x.sub)))) item
      = ⟨(spec_i2c_answer_entries withAck off xs).flatten, .ok ()⟩ ∧
    (spec_i2c_answer_entries withAck off xs).length = xs.length ∧
    (∀ j, (spec_i2c_answer_entries withAck off xs)[j]?
      = xs[j]?.map (spec_i2c_answer_entry withAck (i2c_reply_start withAck off xs j))) := by
  refine ⟨?_, i2c_answer_entries_length withAck xs off, i2c_answer_entries_get withAck xs off⟩
  have hd : decode_payload fuel tvb off (encode_i2c_answer withAck xs).length cmd
        (some (i2c_request_record (xs.map (fun x => x.sub)))) item
      = i2c_answer_loop tvb off (encode_i2c_answer withAck xs).length cmd
          (i2c_request_record (xs.map (fun x => x.sub))) fuel off 0 := by
    rcases hcmd with ⟨_, rfl⟩ | ⟨_, rfl⟩ <;> rfl
  rw [hd]
  exact i2c_answer_loop_replies tvb off _ cmd withAck _ hcmd hreq hend xs fuel off 0 hfuel hok
    (at_offset_self _) (Nat.zero_add _) hat rfl

/-! ## The register answer decoder (C24) -/

theorem read_register_answer_loop_succ (tvb : Tvb) (off N : Nat) (v : FCOSConvRequestVal)
    (fuel i y : Nat) :
    read_register_answer_loop tvb off N v (fuel + 1) i y =
      if y < v.usParaLen ∧ i < off + N then
        W.bind (W.lift (tvb_get_guint8 v.pData y)) (fun ucRegAdd =>
          match known_register ucRegAdd with
          | some r =>
            W.bind (W.lift (tvb_get_guint8 tvb i)) (fun b =>
              if ucRegAdd = b then
                W.bind (render_register tvb ucRegAdd r ((i + 1) % 65536)) (fun i =>
                  read_register_answer_loop tvb off N v fuel i ((y + 1) % 65536))
              else
                W.bind (proto_tree_add_item .hf_fiveco_regreaduk tvb ((i + 1) % 65536)
                  (off + N - (i + 1) % 65536)) (fun fiveco_data_item =>
                    proto_item_append_text fiveco_data_item .depends_on_product))
          | none =>
            W.bind (proto_tree_add_item .hf_fiveco_regreaduk tvb i (off + N - i))
              (fun fiveco_data_item =>
                proto_item_append_text fiveco_data_item .depends_on_product))
      else pure () := rfl

theorem read_register_answer_loop_done (tvb : Tvb) (off N : Nat) (v : FCOSConvRequestVal)
    (fuel i y : Nat) (h : ¬ (y < v.usParaLen ∧ i < off + N)) :
    read_register_answer_loop tvb off N v fuel i y = ⟨[], .ok ()⟩ := by
  cases fuel with
  | zero => unfold read_register_answer_loop; rw [if_neg h]; rfl
  | succ n => unfold read_register_answer_loop; rw [if_neg h]; rfl

/-- The register answer loop over the tuples `ts` that lie at `i`, when the stored
request lists their addresses from index `y` on and the tuples end at or before offset
65535: one entry per tuple. -/
theorem read_register_answer_loop_tuples (tvb : Tvb) (off N : Nat) (v : FCOSConvRequestVal)
    (hv : v.usParaLen ≤ 65535) :
    ∀ (ts : List (Byte × List Byte)) (fuel i y : Nat), ts.length ≤ fuel →
      (∀ t ∈ ts, tuple_ok t) →
      at_offset v.pData y (ts.map (fun t => t.1)) → y + ts.length = v.usParaLen →
      at_offset tvb i (encode_tuples ts) →
      i + (encode_tuples ts).length ≤ off + N → i + (encode_tuples ts).length ≤ 65535 →
      read_register_answer_loop tvb off N v fuel i y
        = ⟨(spec_register_entries i ts).flatten, .ok ()⟩ := by
  intro ts
  induction ts with
  | nil =>
    intro fuel i y _ _ _ hy _ _ _
    simp only [List.length_nil, Nat.add_zero] at hy
    rw [read_register_answer_loop_done _ _ _ _ _ _ _ (by omega)]
    rfl
  | cons t ts ih =>
    intro fuel i y hfuel hok hreq hy hat hN h16
    obtain ⟨a, val⟩ := t
    obtain ⟨f, rfl⟩ : ∃ f, fuel = f + 1 := ⟨fuel - 1, by simp at hfuel; omega⟩
    have htok := hok (a, val) (List.mem_cons_self _ _)
    unfold tuple_ok at htok
    cases hk : known_register a.val with
    | none => rw [hk] at htok; exact absurd htok id
    | some r =>
      rw [hk] at htok
      simp only at htok
      simp only [List.map_cons, List.length_cons] at hreq hy
      obtain ⟨hq0, hq1⟩ := at_offset_cons _ _ _ _ hreq
      simp only [encode_tuples, List.length_cons, List.length_append] at hat hN h16
      obtain ⟨h0, h1⟩ := at_offset_cons tvb i a _ hat
      obtain ⟨hval, hrest⟩ := at_offset_append tvb (i + 1) val _ h1
      have e1 : (i + 1) % 65536 = i + 1 := Nat.mod_eq_of_lt (by omega)
      have e2 : (i + 1 + val.length) % 65536 = i + 1 + val.length :=
        Nat.mod_eq_of_lt (by omega)
      have e3 : (y + 1) % 65536 = y + 1 := Nat.mod_eq_of_lt (by omega)
      rw [read_register_answer_loop_succ, if_pos ⟨by omega, by omega⟩,
        tvb_get_guint8_at _ _ _ hq0, W_lift_ok_bind]
      simp only [hk]
      rw [tvb_get_guint8_at _ _ _ h0, W_lift_ok_bind, if_pos rfl, e1,
        render_register_eq tvb a r val i hk htok hval (by omega) (by omega), W_bind_ok, e2, e3,
        ih f _ _ (by simp at hfuel; omega) (fun t ht => hok t (List.mem_cons_of_mem _ ht)) hq1
          (by omega) hrest (by omega) (by omega)]
      simp only [spec_register_entries, List.flatten_cons]

theorem frame_walk_at_end (ifuel : Nat) (tvb : Tvb) (pinfo : packet_info) (n : Nat) (s : Loop)
    (h : ¬ s.tcp_data_offset < tvb_captured_length tvb) :
    frame_walk ifuel tvb pinfo n s = .returned (tvb_captured_length tvb) s.st s.out := by
  cases n with
  | zero => unfold frame_walk; rw [if_neg h]
  | succ n => rw [frame_walk_succ, if_neg h]

/-- The call on a delivery made of one well-formed frame of at most 65535 octets, when the
payload block gives the calls `P` and completes: the state the correlator block leaves,
the calls of the frame, and the delivery's length as the value. -/
theorem dissect_single_frame (fuel : Nat) (pinfo : packet_info) (st : State) (f : Frame)
    (P : List Event) (hf : f.wf) (hlen : f.payload.length + 8 ≤ 65535) (hfuel : 0 < fuel)
    (hP : payload_tree fuel (encode_frame f) 6 f.payload.length f.cmd
        (correlate pinfo st false f.cmd f.payload).2.2 = ⟨P, .ok ()⟩) :
    dissect_FiveCoLegacy fuel (encode_frame f) pinfo st =
      .returned (f.payload.length + 8) (correlate pinfo st false f.cmd f.payload).1
        ([.col_protocol, .col_clear]
          ++ frame_summary 0 f.cmd f.seq f.payload.length (frame_checksum f) f.trailer
          ++ ([.add_item ⟨.proto_FiveCoLegacy, 0, f.payload.length + 8⟩,
               .append_text ⟨.proto_FiveCoLegacy, 0, f.payload.length + 8⟩ (.type_name f.cmd),
               .add_item ⟨.hf_fiveco_header, 0, 6⟩, .add_item ⟨.hf_fiveco_fct, 0, 2⟩,
               .add_item ⟨.hf_fiveco_id, 2, 2⟩, .add_item ⟨.hf_fiveco_length, 4, 2⟩]
              ++ P
              ++ [.add_checksum (6 + f.payload.length) (frame_checksum f) f.trailer])) := by
  obtain ⟨m, rfl⟩ : ∃ m, fuel = m + 1 := ⟨fuel - 1, by omega⟩
  have hflen := encode_frame_length f
  have hlong : ¬ tvb_captured_length (encode_frame f) < FIVECO_LEGACY_MIN_LENGTH := by
    simp only [tvb_captured_length, hflen, FIVECO_LEGACY_MIN_LENGTH,
      FIVECO_LEGACY_HEADER_LENGTH]
    omega
  have hstep := frame_step_encoded_tree (m + 1) pinfo (loop_start st) f [] [] P rfl hf
    (by simp only [List.nil_append, List.append_nil, hflen]; omega)
    (by simpa only [List.nil_append, List.append_nil, loop_start, Nat.zero_add] using hP)
  simp only [List.nil_append, List.append_nil, loop_start, Nat.zero_add] at hstep
  unfold dissect_FiveCoLegacy
  rw [if_neg hlong, frame_walk_succ, if_pos (by simp only [tvb_captured_length, hflen]; omega),
    hstep]
  simp only
  rw [frame_walk_at_end _ _ _ _ _ (by simp only [tvb_captured_length, hflen]; omega)]
  simp only [tvb_captured_length, hflen]

/-! ### A request and its answer in two deliveries (C24) -/

theorem hash_equal_self (k : FCOSConvRequestKey) : fiveco_hash_equal k k = true := by
  simp [fiveco_hash_equal]

theorem lookup_insert_self (k : FCOSConvRequestKey) (v : FCOSConvRequestVal) :
    ∀ (t : RequestsHash), g_hash_table_lookup (g_hash_table_insert t k v) k = some v := by
  intro t
  unfold g_hash_table_lookup g_hash_table_insert
  by_cases hany : t.any (fun e => fiveco_hash_equal e.1 k) = true
  · rw [if_pos hany]
    induction t with
    | nil => simp at hany
    | cons e t ih =>
      by_cases he : fiveco_hash_equal e.1 k = true
      · simp [List.find?, he]
      · have hany' : t.any (fun e => fiveco_hash_equal e.1 k) = true := by
          simpa [he] using hany
        simp only [List.map_cons, he, Bool.false_eq_true, if_false, List.find?]
        exact ih hany'
  · rw [if_neg hany]
    have hnone : t.find? (fun e => fiveco_hash_equal e.1 k) = none := by
      rw [List.find?_eq_none]
      intro e he hq
      apply hany
      rw [List.any_eq_true]
      exact ⟨e, he, hq⟩
    simp [List.find?_append, hnone, List.find?, hash_equal_self]

/-- The correlator block on a `READ_REGISTER` request frame of a delivery seen for the
first time, when the table has no record under the request's own command and the id the
frame gets: the counter goes up by one, the packet is given its value as id, and the
request parameters are stored under the flow, that id and `READ_REGISTER_ANSWER`. -/
theorem correlate_read_register (pinfo : packet_info) (st : State) (r : Bool)
    (payload : List Byte) (hvis : pinfo.visited = false)
    (hnew : p_get_proto_data st.proto_data pinfo.num = none)
    (hfree : g_hash_table_lookup st.FiveCo_requests_hash
      ⟨pinfo.conv_index, (st.g_unInternalID + 1) % 18446744073709551616, READ_REGISTER⟩ = none) :
    correlate pinfo st r READ_REGISTER payload
      = (⟨(st.g_unInternalID + 1) % 18446744073709551616,
          g_hash_table_insert st.FiveCo_requests_hash
            ⟨pinfo.conv_index, (st.g_unInternalID + 1) % 18446744073709551616,
              READ_REGISTER_ANSWER⟩ ⟨payload.length, 0, payload⟩,
          p_add_proto_data st.proto_data pinfo.num
            ((st.g_unInternalID + 1) % 18446744073709551616)⟩,
         true, some ⟨payload.length, 0, payload⟩) := by
  have hreq : is_request_command READ_REGISTER = true := by decide
  have hexp : expected_answer_command READ_REGISTER = READ_REGISTER_ANSWER := by decide
  unfold correlate assign_internal_id
  simp only [hnew, hreq, if_true, hvis, hfree, hexp, Bool.not_false, Option.isNone_none,
    Bool.and_self]

/-- The correlator block on a `READ_REGISTER_ANSWER` frame of a delivery seen for the
first time, in a state whose table holds a record under the packet's flow, the counter's
value and `READ_REGISTER_ANSWER`: the frame is given the counter's value as id, and the
record is the request context. -/
theorem correlate_read_register_answer (pinfo : packet_info) (st : State)
    (payload : List Byte) (v : FCOSConvRequestVal)
    (hnew : p_get_proto_data st.proto_data pinfo.num = none)
    (hrec : g_hash_table_lookup st.FiveCo_requests_hash
      ⟨pinfo.conv_index, st.g_unInternalID, READ_REGISTER_ANSWER⟩ = some v) :
    correlate pinfo st false READ_REGISTER_ANSWER payload
      = (⟨st.g_unInternalID, st.FiveCo_requests_hash,
          p_add_proto_data st.proto_data pinfo.num st.g_unInternalID⟩, false, some v) := by
  have hreq : is_request_command READ_REGISTER_ANSWER = false := by decide
  unfold correlate assign_internal_id
  simp only [hnew, hreq, Bool.false_eq_true, if_false, hrec, Option.isNone_some,
    Bool.and_false]

theorem expected_ne_read_register (h : Nat) : expected_answer_command h ≠ READ_REGISTER := by
  unfold expected_answer_command
  split_ifs with h1 h2 h3 h4 h5
  · decide
  · decide
  · decide
  · decide
  · decide
  · exact h5

theorem insert_keys (Q : FCOSConvRequestKey → Prop) (t : RequestsHash)
    (key : FCOSConvRequestKey) (value : FCOSConvRequestVal)
    (ht : ∀ e ∈ t, Q e.1) (hk : Q key) :
    ∀ e ∈ g_hash_table_insert t key value, Q e.1 := by
  intro e he
  unfold g_hash_table_insert at he
  split at he
  · rw [List.mem_map] at he
    obtain ⟨e0, he0, rfl⟩ := he
    split
    · exact ht e0 he0
    · exact ht e0 he0
  · rw [List.mem_append] at he
    rcases he with he | he
    · exact ht e he
    · simp only [List.mem_singleton] at he
      rw [he]
      exact hk

/-- No record is ever stored under the command `READ_REGISTER` itself: a request is
stored under the command of its answer (lines 329-346). In a table without such a record,
as the empty table of the initial state, there is none after any call. -/
theorem no_read_register_key (fuel : Nat) (tvb : Tvb) (pinfo : packet_info) (st : State)
    (h : ∀ e ∈ st.FiveCo_requests_hash, e.1.usExpCmd ≠ READ_REGISTER) :
    ∀ e ∈ (dissect_FiveCoLegacy fuel tvb pinfo st).state.FiveCo_requests_hash,
      e.1.usExpCmd ≠ READ_REGISTER := by
  obtain ⟨_, hb⟩ := dissect_state_ind fuel tvb pinfo st
    (fun st' _ => ∀ e ∈ st'.FiveCo_requests_hash, e.1.usExpCmd ≠ READ_REGISTER)
    (fun st' r hd payload hst => by
      show ∀ e ∈ (correlate pinfo st' r hd payload).1.FiveCo_requests_hash,
        e.1.usExpCmd ≠ READ_REGISTER
      unfold correlate
      simp only
      split
      · exact insert_keys (fun k => k.usExpCmd ≠ READ_REGISTER) _ _ _
          (by rw [assign_hash]; exact hst) (expected_ne_read_register hd)
      · rw [assign_hash]; exact hst)
    (fun st' r hd hst => by
      show ∀ e ∈ (assign_internal_id pinfo st' r hd).1.FiveCo_requests_hash,
        e.1.usExpCmd ≠ READ_REGISTER
      rw [assign_hash]; exact hst)
    h
  exact hb

theorem no_read_register_key_run (fuel : Nat) :
    ∀ (ds : List (Tvb × packet_info)) (st : State),
      (∀ e ∈ st.FiveCo_requests_hash, e.1.usExpCmd ≠ READ_REGISTER) →
      ∀ e ∈ (run_deliveries fuel ds st).FiveCo_requests_hash, e.1.usExpCmd ≠ READ_REGISTER := by
  intro ds
  induction ds with
  | nil => intro st h; exact h
  | cons d ds ih =>
    intro st h
    exact ih _ (no_read_register_key fuel d.1 d.2 st h)

theorem lookup_read_register_none (t : RequestsHash) (c id : Nat)
    (h : ∀ e ∈ t, e.1.usExpCmd ≠ READ_REGISTER) :
    g_hash_table_lookup t ⟨c, id, READ_REGISTER⟩ = none := by
  cases hl : g_hash_table_lookup t ⟨c, id, READ_REGISTER⟩ with
  | none => rfl
  | some v =>
    obtain ⟨k, hk, heq⟩ := lookup_some t _ v hl
    exact absurd (hash_equal_fields _ _ heq).2.1 (h (k, v) hk)

theorem encode_frame_at (f : Frame) : at_offset (encode_frame f) 6 f.payload := by
  have h := at_offset_mid (be16 f.cmd ++ (be16 f.seq ++ be16 f.payload.length)) f.payload
    (be16 f.trailer)
  have e : (be16 f.cmd ++ (be16 f.seq ++ be16 f.payload.length)) ++ (f.payload ++ be16 f.trailer)
      = encode_frame f := by
    simp [encode_frame, frame_body]
  rw [e] at h
  exact h

theorem encode_tuples_length_ge (ts : List (Byte × List Byte)) :
    ts.length ≤ (encode_tuples ts).length := by
  induction ts with
  | nil => exact Nat.le_refl _
  | cons t ts ih =>
    simp only [encode_tuples, List.length_cons, List.length_append]
    omega

/-- The payload block of a `READ_REGISTER` frame whose parameters lie in the buffer. -/
theorem payload_tree_read_register (fuel : Nat) (tvb : Tvb) (off : Nat) (payload : List Byte)
    (rv : Option FCOSConvRequestVal) (hne : payload ≠ []) (hat : at_offset tvb off payload) :
    payload_tree fuel tvb off payload.length READ_REGISTER rv
      = ⟨.add_item ⟨.hf_fiveco_data, off, payload.length⟩
          :: (spec_read_register_entries off 0 payload).flatten, .ok ()⟩ := by
  have hpos : payload.length > 0 := List.length_pos.mpr hne
  unfold payload_tree
  rw [if_pos hpos, W_bind_eq, add_item_ok _ tvb _ _ hat.1, W_bind_ok,
    decode_payload_read_register, read_register_loop_eq tvb off payload 0 hat]
  rfl

/-- The payload block of a `READ_REGISTER_ANSWER` frame that holds the tuples `ts`,
decoded against the request that lists their addresses. -/
theorem payload_tree_read_register_answer (fuel : Nat) (tvb : Tvb) (off : Nat)
    (ts : List (Byte × List Byte)) (hne : ts ≠ []) (hok : ∀ t ∈ ts, tuple_ok t)
    (hat : at_offset tvb off (encode_tuples ts))
    (hend : off + (encode_tuples ts).length ≤ 65535) (hfuel : ts.length ≤ fuel) :
    payload_tree fuel tvb off (encode_tuples ts).length READ_REGISTER_ANSWER
        (some ⟨(ts.map (fun t => t.1)).length, 0, ts.map (fun t => t.1)⟩)
      = ⟨.add_item ⟨.hf_fiveco_data, off, (encode_tuples ts).length⟩
          :: (spec_register_entries off ts).flatten, .ok ()⟩ := by
  have hge := encode_tuples_length_ge ts
  have hpos : (encode_tuples ts).length > 0 := by
    have : 0 < ts.length := List.length_pos.mpr hne
    omega
  have hd : ∀ item, decode_payload fuel tvb off (encode_tuples ts).length READ_REGISTER_ANSWER
        (some ⟨(ts.map (fun t => t.1)).length, 0, ts.map (fun t => t.1)⟩) item
      = read_register_answer_loop tvb off (encode_tuples ts).length
          ⟨(ts.map (fun t => t.1)).length, 0, ts.map (fun t => t.1)⟩ fuel off 0 :=
    fun _ => rfl
  unfold payload_tree
  rw [if_pos hpos, W_bind_eq, add_item_ok _ tvb _ _ hat.1, W_bind_ok, hd,
    read_register_answer_loop_tuples tvb off _ _ (by simp only [List.length_map]; omega) ts fuel
      off 0 hfuel hok (at_offset_self _) (by simp only [List.length_map]; omega) hat
      (Nat.le_refl _) hend]
  rfl

/-! ## One frame at an offset below 65530, in a delivery of any length -/

theorem tvb_memcpy_at (tvb : Tvb) (pos : Nat) (bs : List Byte) (h : at_offset tvb pos bs) :
    tvb_memcpy tvb pos bs.length = .ok bs := by
  unfold tvb_memcpy
  rw [if_pos h.1, h.2]

theorem tvb_get_ntohs_at (tvb : Tvb) (pos : Nat) (a b : Byte) (h : at_offset tvb pos [a, b]) :
    tvb_get_ntohs tvb pos = .ok (a.val * 256 + b.val) := by
  have h0 := at_offset_get tvb pos _ h 0 (by simp)
  have h1 := at_offset_get tvb pos _ h 1 (by simp)
  simp only [Nat.add_zero, List.getElem?_cons_zero, List.getElem?_cons_succ] at h0 h1
  unfold tvb_get_ntohs
  rw [h0, h1]

/-- The tree of a frame whose parameters start below offset 65536, in a buffer of any
length. -/
theorem frame_tree_eq_local (ifuel : Nat) (tvb : Tvb) (off cmd N : Nat)
    (rv : Option FCOSConvRequestVal) (cal rx : Nat)
    (hfit : off + N + 8 ≤ tvb.length) (hloc : off + 6 < 65536)
    (hrx : tvb_get_ntohs tvb (off + N + 6) = .ok rx) :
    frame_tree ifuel tvb off cmd N rv cal =
      ⟨[.add_item ⟨.proto_FiveCoLegacy, off, N + 8⟩,
        .append_text ⟨.proto_FiveCoLegacy, off, N + 8⟩ (.type_name cmd),
        .add_item ⟨.hf_fiveco_header, off, 6⟩, .add_item ⟨.hf_fiveco_fct, off, 2⟩,
        .add_item ⟨.hf_fiveco_id, off + 2, 2⟩, .add_item ⟨.hf_fiveco_length, off + 4, 2⟩]
        ++ (payload_tree ifuel tvb (off + 6) N cmd rv).out
        ++ (match (payload_tree ifuel tvb (off + 6) N cmd rv).res with
            | .ok _ => [.add_checksum (off + 6 + N) cal rx]
            | _ => []),
       (payload_tree ifuel tvb (off + 6) N cmd rv).res⟩ := by
  have e6 : (off + 6) % 65536 = off + 6 := Nat.mod_eq_of_lt hloc
  have hrx' : tvb_get_ntohs tvb (off + 6 + N) = .ok rx := by
    rw [show off + 6 + N = off + N + 6 by omega]; exact hrx
  have c1 : off + (N + 8) ≤ tvb.length := by omega
  have c2 : off + 6 ≤ tvb.length := by omega
  have c3 : off + 2 ≤ tvb.length := by omega
  have c4 : off + 2 + 2 ≤ tvb.length := by omega
  have c5 : off + 4 + 2 ≤ tvb.length := by omega
  have a1 : ∀ hf, proto_tree_add_item hf tvb off (N + 8)
      = ⟨[.add_item ⟨hf, off, N + 8⟩], .ok ⟨hf, off, N + 8⟩⟩ := fun hf => by
    unfold proto_tree_add_item
    rw [if_pos]
    split <;> omega
  have a2 : ∀ hf, proto_tree_add_item hf tvb off 6
      = ⟨[.add_item ⟨hf, off, 6⟩], .ok ⟨hf, off, 6⟩⟩ := fun hf => by
    unfold proto_tree_add_item
    rw [if_pos]
    split <;> omega
  have a3 : ∀ hf, proto_tree_add_item hf tvb off 2
      = ⟨[.add_item ⟨hf, off, 2⟩], .ok ⟨hf, off, 2⟩⟩ := fun hf => by
    unfold proto_tree_add_item
    rw [if_pos]
    split <;> omega
  have a4 : ∀ hf, proto_tree_add_item hf tvb (off + 2) 2
      = ⟨[.add_item ⟨hf, off + 2, 2⟩], .ok ⟨hf, off + 2, 2⟩⟩ := fun hf => by
    unfold proto_tree_add_item
    rw [if_pos]
    split <;> omega
  have a5 : ∀ hf, proto_tree_add_item hf tvb (off + 4) 2
      = ⟨[.add_item ⟨hf, off + 4, 2⟩], .ok ⟨hf, off + 4, 2⟩⟩ := fun hf => by
    unfold proto_tree_add_item
    rw [if_pos]
    split <;> omega
  unfold frame_tree
  simp only [W_bind_eq, W.bind, a1, a2, a3, a4, a5, proto_item_append_text,
    proto_tree_add_checksum, Nat.add_zero, e6, hrx']
  cases hp : (payload_tree ifuel tvb (off + 6) N cmd rv).res with
  | ok a => simp
  | exn => simp
  | fuel => simp

/-- The loop body on a frame that gets to line 300, whose parameters start below offset
65536 and lie in the buffer, when the payload block gives the calls `P` and completes:
the calls of the frame and the next loop state, whose offset is that of the end of the
frame as a `guint16`. -/
theorem frame_step_at (ifuel : Nat) (tvb : Tvb) (pinfo : packet_info) (s : Loop)
    (h id n : Nat) (payload : List Byte) (cal rx : Nat) (P : List Event)
    (hn : payload.length = n)
    (hh : frame_header tvb s.tcp_data_offset = some (h, id, n))
    (hp : at_offset tvb (s.tcp_data_offset + 6) payload)
    (hcal : checksum_fiveco tvb s.tcp_data_offset ((n + 6) % 65536) = .ok cal)
    (hrx : tvb_get_ntohs tvb (s.tcp_data_offset + n + 6) = .ok rx)
    (hloc : s.tcp_data_offset + 6 < 65536)
    (hP : payload_tree ifuel tvb (s.tcp_data_offset + 6) n h
        (correlate pinfo s.st s.isRequest h payload).2.2 = ⟨P, .ok ()⟩) :
    frame_step ifuel tvb pinfo s =
      .next { tcp_data_offset := (s.tcp_data_offset + n + 8) % 65536,
              isRequest := (correlate pinfo s.st s.isRequest h payload).2.1,
              st := (correlate pinfo s.st s.isRequest h payload).1,
              out := s.out
                ++ frame_summary s.tcp_data_offset h id n cal rx
                ++ ([.add_item ⟨.proto_FiveCoLegacy, s.tcp_data_offset, n + 8⟩,
                     .append_text ⟨.proto_FiveCoLegacy, s.tcp_data_offset, n + 8⟩
                       (.type_name h),
                     .add_item ⟨.hf_fiveco_header, s.tcp_data_offset, 6⟩,
                     .add_item ⟨.hf_fiveco_fct, s.tcp_data_offset, 2⟩,
                     .add_item ⟨.hf_fiveco_id, s.tcp_data_offset + 2, 2⟩,
                     .add_item ⟨.hf_fiveco_length, s.tcp_data_offset + 4, 2⟩]
                    ++ P
                    ++ [.add_checksum (s.tcp_data_offset + 6 + n) cal rx]) } := by
  subst hn
  have hfit : s.tcp_data_offset + payload.length + 8 ≤ tvb.length := by
    have h1 := tvb_get_ntohs_ok_imp tvb _ rx hrx
    omega
  have e2 : ((s.tcp_data_offset + 6) % 65536 + (payload.length + 2)) % 65536
      = (s.tcp_data_offset + payload.length + 8) % 65536 := by
    rw [Nat.mod_eq_of_lt hloc]
    congr 1
    omega
  rw [frame_step_of_header ifuel tvb pinfo s h id payload.length payload hh
    (tvb_memcpy_at tvb _ payload hp)]
  unfold frame_rest
  rw [hcal, hrx]
  simp only
  rw [frame_tree_eq_local ifuel tvb s.tcp_data_offset h payload.length _ cal rx hfit hloc hrx,
    hP, e2]

/-- The loop body on the delivery of the register write frame of 32765 tuples, from the
start of a call: the frame passes the checks of the reader, its tree holds the entries of
the 32765 tuples, then an entry of register `0x00` and the marker, and the walk goes on
at offset 2. -/
theorem delivery_timeouts_step (m : Nat) (hm : m = 32764) :
    frame_step (m + 3) (delivery_timeouts (m + 1)) ⟨1, false, 7⟩ (loop_start ⟨0, [], []⟩) =
      .next { tcp_data_offset := 2,
              isRequest := (correlate ⟨1, false, 7⟩ ⟨0, [], []⟩ false WRITE_REGISTER
                (encode_tuples (List.replicate (m + 1) (0x14, [0x05])))).2.1,
              st := (correlate ⟨1, false, 7⟩ ⟨0, [], []⟩ false WRITE_REGISTER
                (encode_tuples (List.replicate (m + 1) (0x14, [0x05])))).1,
              out := [.col_protocol, .col_clear]
                ++ frame_summary 0 WRITE_REGISTER 1 65530 0 0xB1EE
                ++ ([.add_item ⟨.proto_FiveCoLegacy, 0, 65538⟩,
                     .append_text ⟨.proto_FiveCoLegacy, 0, 65538⟩ (.type_name WRITE_REGISTER),
                     .add_item ⟨.hf_fiveco_header, 0, 6⟩, .add_item ⟨.hf_fiveco_fct, 0, 2⟩,
                     .add_item ⟨.hf_fiveco_id, 2, 2⟩, .add_item ⟨.hf_fiveco_length, 4, 2⟩]
                    ++ (.add_item ⟨.hf_fiveco_data, 6, 65530⟩
                        :: ((spec_register_entries 6 (List.replicate (m + 1) (0x14, [0x05]))).flatten
                          ++ ([.add_item ⟨.nsWsHeaderID 0, 1, 4⟩]
                            ++ spec_uninterpreted_marker 6 65530)))
                    ++ [.add_checksum 65536 0 0xB1EE]) } := by
  have hlen := delivery_timeouts_length (m + 1)
  have hpl := encode_timeouts_length (m + 1)
  have hat := delivery_timeouts_at (m + 1)
  have hh : frame_header (delivery_timeouts (m + 1)) 0 = some (WRITE_REGISTER, 1, 65530) := by
    obtain ⟨h0, h2, h4⟩ : tvb_get_ntohs (delivery_timeouts (m + 1)) (0 + 0) = .ok 0x22 ∧
        tvb_get_ntohs (delivery_timeouts (m + 1)) (0 + 2) = .ok 1 ∧
        tvb_get_ntohs (delivery_timeouts (m + 1)) (0 + 4) = .ok 65530 := by
      refine ⟨?_, ?_, ?_⟩ <;>
      · unfold tvb_get_ntohs delivery_timeouts
        rw [List.getElem?_append_left (by simp), List.getElem?_append_left (by simp)]
        rfl
    have hty : ¬ (try_val_to_str 0x22 packettypenames = none) := by decide
    have hl : tvb_captured_length (delivery_timeouts (m + 1)) = 65538 := by
      rw [tvb_captured_length, hlen]; omega
    unfold frame_header
    simp only [h0, h2, h4, if_neg hty, hl]
    decide
  have hrx : tvb_get_ntohs (delivery_timeouts (m + 1)) (0 + 65530 + 6) = .ok 0xB1EE := by
    have h := at_offset_mid ([0x00, 0x22, 0x00, 0x01, 0xFF, 0xFA]
      ++ encode_tuples (List.replicate (m + 1) (0x14, [0x05]))) [0xB1, 0xEE] []
    simp only [List.length_append, List.length_cons, List.length_nil, hpl, List.append_nil,
      List.append_assoc] at h
    rw [show 0 + 1 + 1 + 1 + 1 + 1 + 1 + 2 * (m + 1) = 0 + 65530 + 6 by omega] at h
    exact tvb_get_ntohs_at _ _ _ _ h
  have hP : payload_tree (m + 3) (delivery_timeouts (m + 1)) (0 + 6) 65530 WRITE_REGISTER
      (correlate ⟨1, false, 7⟩ ⟨0, [], []⟩ false WRITE_REGISTER
        (encode_tuples (List.replicate (m + 1) (0x14, [0x05])))).2.2
      = ⟨.add_item ⟨.hf_fiveco_data, 6, 65530⟩
          :: ((spec_register_entries 6 (List.replicate (m + 1) (0x14, [0x05]))).flatten
            ++ ([.add_item ⟨.nsWsHeaderID 0, 1, 4⟩] ++ spec_uninterpreted_marker 6 65530)),
         .ok ()⟩ := by
    unfold payload_tree
    rw [if_pos (by decide), W_bind_eq, Nat.zero_add,
      add_item_ok _ _ _ _ (by rw [hlen]; omega), W_bind_ok, delivery_timeouts_decode m hm]
    rfl
  have h := frame_step_at (m + 3) (delivery_timeouts (m + 1)) ⟨1, false, 7⟩
    (loop_start ⟨0, [], []⟩) WRITE_REGISTER 1 65530
    (encode_tuples (List.replicate (m + 1) (0x14, [0x05]))) 0 0xB1EE _
    (by rw [hpl]; omega) hh (by rw [show (loop_start ⟨0, [], []⟩).tcp_data_offset + 6 = 6 from rfl]; exact hat)
    rfl hrx (by decide) hP
  rw [h]
  rfl

/-- The loop body on the first frame of the delivery of two frames, a `FLASH_AREA_ERASE`
frame of 65526 octets, from the start of a call on flow 7 in a state that holds the
record of an `I2C_READ` request of flow 7 under the id 1: the walk goes on at offset
65526, where the second frame starts. -/
theorem delivery_after_filler_step (n : Nat) (hn : n = 65518) (frame : List Byte)
    (hf : frame.length = 16) (v : FCOSConvRequestVal) :
    ∃ out, frame_step 5 (delivery_after_filler n frame) ⟨2, false, 7⟩
        (loop_start ⟨1, [(⟨7, 1, I2C_READ_ANSWER⟩, v)], [(1, 1)]⟩) =
      .next { tcp_data_offset := 65526, isRequest := false,
              st := ⟨1, [(⟨7, 1, I2C_READ_ANSWER⟩, v)], [(2, 1), (1, 1)]⟩, out := out } := by
  have hlen := delivery_after_filler_length n frame
  have hh : frame_header (delivery_after_filler n frame) 0
      = some (FLASH_AREA_ERASE, 1, 65518) := by
    obtain ⟨h0, h2, h4⟩ : tvb_get_ntohs (delivery_after_filler n frame) (0 + 0) = .ok 0x31 ∧
        tvb_get_ntohs (delivery_after_filler n frame) (0 + 2) = .ok 1 ∧
        tvb_get_ntohs (delivery_after_filler n frame) (0 + 4) = .ok 65518 := by
      refine ⟨?_, ?_, ?_⟩ <;>
      · unfold tvb_get_ntohs delivery_after_filler
        rw [List.getElem?_append_left (by simp), List.getElem?_append_left (by simp)]
        rfl
    have hty : ¬ (try_val_to_str 0x31 packettypenames = none) := by decide
    have hl : tvb_captured_length (delivery_after_filler n frame) = 65542 := by
      rw [tvb_captured_length, hlen]; omega
    unfold frame_header
    simp only [h0, h2, h4, if_neg hty, hl]
    decide
  have hp : at_offset (delivery_after_filler n frame) (0 + 6) (List.replicate n 0x00) :=
    at_offset_mid [0x00, 0x31, 0x00, 0x01, 0xFF, 0xEE] _ _
  have hcal : checksum_fiveco (delivery_after_filler n frame) 0 ((65518 + 6) % 65536)
      = .ok (fold16 (fold16 (specSum
          ([0x00, 0x31, 0x00, 0x01, 0xFF, 0xEE] ++ List.replicate n 0x00)))) := by
    have h := checksum_fiveco_mid []
      ([0x00, 0x31, 0x00, 0x01, 0xFF, 0xEE] ++ List.replicate n 0x00) ([0xFF, 0xDE] ++ frame)
      (by simp only [List.length_append, List.length_cons, List.length_nil,
        List.length_replicate]; omega)
    simp only [List.nil_append, List.length_nil, List.length_append, List.length_cons,
      List.length_replicate, List.append_assoc] at h
    rw [show 0 + 1 + 1 + 1 + 1 + 1 + 1 + n = (65518 + 6) % 65536 by omega] at h
    exact h
  have hrx : tvb_get_ntohs (delivery_after_filler n frame) (0 + 65518 + 6) = .ok 0xFFDE := by
    have h := at_offset_mid ([0x00, 0x31, 0x00, 0x01, 0xFF, 0xEE] ++ List.replicate n 0x00)
      [0xFF, 0xDE] frame
    simp only [List.length_append, List.length_cons, List.length_nil, List.length_replicate,
      List.append_assoc] at h
    rw [show 0 + 1 + 1 + 1 + 1 + 1 + 1 + n = 0 + 65518 + 6 by omega] at h
    exact tvb_get_ntohs_at _ _ _ _ h
  have hc : correlate ⟨2, false, 7⟩ ⟨1, [(⟨7, 1, I2C_READ_ANSWER⟩, v)], [(1, 1)]⟩ false
      FLASH_AREA_ERASE (List.replicate n 0x00)
      = (⟨1, [(⟨7, 1, I2C_READ_ANSWER⟩, v)], [(2, 1), (1, 1)]⟩, false, none) := rfl
  have hP := payload_tree_no_data 5 (delivery_after_filler n frame) (0 + 6) 65518
    FLASH_AREA_ERASE
    (correlate ⟨2, false, 7⟩ ⟨1, [(⟨7, 1, I2C_READ_ANSWER⟩, v)], [(1, 1)]⟩ false
      FLASH_AREA_ERASE (List.replicate n 0x00)).2.2 (Or.inl rfl) (by rw [hlen]; omega)
  have h := frame_step_at 5 (delivery_after_filler n frame) ⟨2, false, 7⟩
    (loop_start ⟨1, [(⟨7, 1, I2C_READ_ANSWER⟩, v)], [(1, 1)]⟩) FLASH_AREA_ERASE 1 65518
    (List.replicate n 0x00) _ 0xFFDE _ (by rw [List.length_replicate]; exact hn) hh hp hcal hrx
    (show 0 + 6 < 65536 by decide) hP
  simp only [loop_start] at h ⊢
  rw [hc] at h
  rw [h]
  exact ⟨_, rfl⟩

/-- The loop body on the second frame of that delivery, the `I2C_READ_ANSWER` frame at
offset 65526, decoded against the stored request of two sub-records with the read lengths
4 and 4: the second result item is added at offset 0 of the delivery, and the walk goes
on at offset 6. -/
theorem delivery_after_filler_answer_step (n : Nat) (hn : n = 65518) (out1 : List Event) :
    ∃ s2, frame_step 5
        (delivery_after_filler n
          [0x00, 0x03, 0x00, 0x02, 0x00, 0x08, 0x01, 0x02, 0x03, 0x04, 0x05, 0x06, 0x07, 0x08,
           0xEF, 0xDE]) ⟨2, false, 7⟩
        { tcp_data_offset := 65526, isRequest := false,
          st := ⟨1, [(⟨7, 1, I2C_READ_ANSWER⟩,
                  i2c_request_record [⟨0x50, [], 0x04⟩, ⟨0x51, [], 0x04⟩])], [(2, 1), (1, 1)]⟩,
          out := out1 } = .next s2
      ∧ s2.tcp_data_offset = 6
      ∧ Event.add_item ⟨.hf_fiveco_i2canswer, 65532, 4⟩ ∈ s2.out
      ∧ Event.add_item ⟨.hf_fiveco_i2canswer, 0, 4⟩ ∈ s2.out := by
  have hlen := delivery_after_filler_length n
    [0x00, 0x03, 0x00, 0x02, 0x00, 0x08, 0x01, 0x02, 0x03, 0x04, 0x05, 0x06, 0x07, 0x08,
     0xEF, 0xDE]
  have hfr := delivery_after_filler_at n
    [0x00, 0x03, 0x00, 0x02, 0x00, 0x08, 0x01, 0x02, 0x03, 0x04, 0x05, 0x06, 0x07, 0x08,
     0xEF, 0xDE]
  have hn8 : n + 8 = 65526 := by omega
  rw [hn8] at hfr
  have hfr' : at_offset _ 65526
      ([0x00, 0x03] ++ ([0x00, 0x02] ++ ([0x00, 0x08]
        ++ ([0x01, 0x02, 0x03, 0x04, 0x05, 0x06, 0x07, 0x08] ++ [0xEF, 0xDE])))) := hfr
  obtain ⟨a0, r0⟩ := at_offset_append _ _ _ _ hfr'
  obtain ⟨a2, r2⟩ := at_offset_append _ _ _ _ r0
  obtain ⟨a4, r4⟩ := at_offset_append _ _ _ _ r2
  obtain ⟨a6, a14⟩ := at_offset_append _ _ _ _ r4
  simp only [List.length_cons, List.length_nil] at a2 a4 a6 a14
  have hh : frame_header (delivery_after_filler n
      [0x00, 0x03, 0x00, 0x02, 0x00, 0x08, 0x01, 0x02, 0x03, 0x04, 0x05, 0x06, 0x07, 0x08,
       0xEF, 0xDE]) 65526 = some (I2C_READ_ANSWER, 2, 8) := by
    have h0 := tvb_get_ntohs_at _ _ _ _ a0
    have h2 := tvb_get_ntohs_at _ _ _ _ a2
    have h4 := tvb_get_ntohs_at _ _ _ _ a4
    have hty : ¬ (try_val_to_str 0x03 packettypenames = none) := by decide
    have hl : tvb_captured_length (delivery_after_filler n
        [0x00, 0x03, 0x00, 0x02, 0x00, 0x08, 0x01, 0x02, 0x03, 0x04, 0x05, 0x06, 0x07, 0x08,
         0xEF, 0xDE]) = 65542 := by
      rw [tvb_captured_length, hlen]
      simp only [List.length_cons, List.length_nil]
      omega
    unfold frame_header
    rw [Nat.add_zero, h0]
    simp only
    rw [if_neg (by exact hty), h2]
    simp only
    rw [show 65526 + 4 = 65526 + (0 + 1 + 1) + (0 + 1 + 1) by rfl, h4, hl]
    decide
  have hcal : checksum_fiveco (delivery_after_filler n
      [0x00, 0x03, 0x00, 0x02, 0x00, 0x08, 0x01, 0x02, 0x03, 0x04, 0x05, 0x06, 0x07, 0x08,
       0xEF, 0xDE]) 65526 ((8 + 6) % 65536) = .ok 0xEFDE := by
    have h := checksum_fiveco_mid
      ([0x00, 0x31, 0x00, 0x01, 0xFF, 0xEE] ++ (List.replicate n 0x00 ++ [0xFF, 0xDE]))
      [0x00, 0x03, 0x00, 0x02, 0x00, 0x08, 0x01, 0x02, 0x03, 0x04, 0x05, 0x06, 0x07, 0x08]
      [0xEF, 0xDE] (by decide)
    have e : ([0x00, 0x31, 0x00, 0x01, 0xFF, 0xEE] ++ (List.replicate n 0x00 ++ [0xFF, 0xDE]))
        ++ ([0x00, 0x03, 0x00, 0x02, 0x00, 0x08, 0x01, 0x02, 0x03, 0x04, 0x05, 0x06, 0x07, 0x08]
          ++ [0xEF, 0xDE])
        = delivery_after_filler n
            [0x00, 0x03, 0x00, 0x02, 0x00, 0x08, 0x01, 0x02, 0x03, 0x04, 0x05, 0x06, 0x07, 0x08,
             0xEF, 0xDE] := by
      simp [delivery_after_filler]
    have el : ([(0x00 : Byte), 0x31, 0x00, 0x01, 0xFF, 0xEE]
        ++ (List.replicate n 0x00 ++ [0xFF, 0xDE])).length = 65526 := by
      simp only [List.length_append, List.length_cons, List.length_nil, List.length_replicate]
      omega
    rw [e, el] at h
    have hv : fold16 (fold16 (specSum
        [(0x00 : Byte), 0x03, 0x00, 0x02, 0x00, 0x08, 0x01, 0x02, 0x03, 0x04, 0x05, 0x06, 0x07,
          0x08])) = 0xEFDE := by decide
    rw [hv] at h
    exact h
  have hrx : tvb_get_ntohs (delivery_after_filler n
      [0x00, 0x03, 0x00, 0x02, 0x00, 0x08, 0x01, 0x02, 0x03, 0x04, 0x05, 0x06, 0x07, 0x08,
       0xEF, 0xDE]) (65526 + 8 + 6) = .ok 0xEFDE :=
    tvb_get_ntohs_at _ _ _ _ a14
  have hc : (correlate ⟨2, false, 7⟩
      ⟨1, [(⟨7, 1, I2C_READ_ANSWER⟩,
        i2c_request_record [⟨0x50, [], 0x04⟩, ⟨0x51, [], 0x04⟩])], [(2, 1), (1, 1)]⟩
      false I2C_READ_ANSWER [0x01, 0x02, 0x03, 0x04, 0x05, 0x06, 0x07, 0x08])
      = (⟨1, [(⟨7, 1, I2C_READ_ANSWER⟩,
          i2c_request_record [⟨0x50, [], 0x04⟩, ⟨0x51, [], 0x04⟩])], [(2, 1), (1, 1)]⟩,
         false, some (i2c_request_record [⟨0x50, [], 0x04⟩, ⟨0x51, [], 0x04⟩])) := by
    decide
  have hP : payload_tree 5 (delivery_after_filler n
      [0x00, 0x03, 0x00, 0x02, 0x00, 0x08, 0x01, 0x02, 0x03, 0x04, 0x05, 0x06, 0x07, 0x08,
       0xEF, 0xDE]) (65526 + 6) 8 I2C_READ_ANSWER
      (some (i2c_request_record [⟨0x50, [], 0x04⟩, ⟨0x51, [], 0x04⟩]))
      = ⟨.add_item ⟨.hf_fiveco_data, 65532, 8⟩ ::
          [.add_item ⟨.hf_fiveco_i2canswer, 65532, 4⟩,
           .append_text ⟨.hf_fiveco_i2canswer, 65532, 4⟩ (.from_address 0x50 0),
           .append_text ⟨.hf_fiveco_i2canswer, 65532, 4⟩ (.hex 0x01),
           .append_text ⟨.hf_fiveco_i2canswer, 65532, 4⟩ (.hex 0x02),
           .append_text ⟨.hf_fiveco_i2canswer, 65532, 4⟩ (.hex 0x03),
           .append_text ⟨.hf_fiveco_i2canswer, 65532, 4⟩ (.hex 0x04),
           .add_item ⟨.hf_fiveco_i2canswer, 0, 4⟩,
           .append_text ⟨.hf_fiveco_i2canswer, 0, 4⟩ (.from_address 0x51 0),
           .append_text ⟨.hf_fiveco_i2canswer, 0, 4⟩ (.hex 0x00),
           .append_text ⟨.hf_fiveco_i2canswer, 0, 4⟩ (.hex 0x31),
           .append_text ⟨.hf_fiveco_i2canswer, 0, 4⟩ (.hex 0x00),
           .append_text ⟨.hf_fiveco_i2canswer, 0, 4⟩ (.hex 0x01)], .ok ()⟩ := by
    unfold payload_tree
    rw [if_pos (by decide), W_bind_eq, show 65526 + 6 = 65532 from rfl,
      add_item_ok _ _ _ _ (by rw [hlen]; simp only [List.length_cons, List.length_nil]; omega),
      W_bind_ok, i2c_answer_wrapped n hn]
    rfl
  have h := frame_step_at 5 _ ⟨2, false, 7⟩
    { tcp_data_offset := 65526, isRequest := false,
      st := ⟨1, [(⟨7, 1, I2C_READ_ANSWER⟩,
              i2c_request_record [⟨0x50, [], 0x04⟩, ⟨0x51, [], 0x04⟩])], [(2, 1), (1, 1)]⟩,
      out := out1 } I2C_READ_ANSWER 2 8 [0x01, 0x02, 0x03, 0x04, 0x05, 0x06, 0x07, 0x08]
    0xEFDE 0xEFDE _ rfl hh a6 hcal hrx (show 65526 + 6 < 65536 by decide)
    (by
      show payload_tree 5 _ (65526 + 6) 8 I2C_READ_ANSWER (correlate ⟨2, false, 7⟩ _ false
        I2C_READ_ANSWER [0x01, 0x02, 0x03, 0x04, 0x05, 0x06, 0x07, 0x08]).2.2 = _
      rw [hc]
      exact hP)
  refine ⟨_, h, ?_, ?_, ?_⟩
  · show (65526 + 8 + 8) % 65536 = 6
    rfl
  · apply List.mem_append_right
    apply List.mem_append_left
    apply List.mem_append_right
    simp
  · apply List.mem_append_right
    apply List.mem_append_left
    apply List.mem_append_right
    simp

/-- C23 (the code departs from the claim). The loop index `i` of the register write
decoder is a `guint16` that runs over offsets of the buffer. In the delivery of one
`WRITE_REGISTER` frame of 65538 octets whose payload is K = 32765 tuples, each the address
`0x14` (TCP Timeout, size 1) and the value 5, the payload starts at offset 6 and ends at
offset 65536; after the last tuple `i` is 0 and still below
`tcp_data_offset + header_data_length`, so the loop goes on with the header of the frame:
a K+1-th entry is added, of register `0x00` over the octets 1 to 4, and then the marker
of the octets not interpreted, at offset 6 over 65530 octets. The loop body of the
dissector, run on this delivery from the start of a call, makes these calls and leaves
the walk at offset 2. Whenever the payload ends at an offset of at most 65535 the decoder
does what the claim says: exactly the K entries, in order, entry `j` of the address `a_j`
over the value octets `v_j`, no marker, and the loop index at the end of the payload. -/
theorem C23_register_write_index_wraps :
    ((∀ t ∈ List.replicate 32765 ((0x14 : Byte), [(0x05 : Byte)]), tuple_ok t)
    ∧ at_offset (delivery_timeouts 32765) 6
        (encode_tuples (List.replicate 32765 (0x14, [0x05])))
    ∧ (encode_tuples (List.replicate 32765 ((0x14 : Byte), [(0x05 : Byte)]))).length = 65530
    ∧ (delivery_timeouts 32765).length = 65538
    ∧ decode_payload 32767 (delivery_timeouts 32765) 6 65530 WRITE_REGISTER none
          ⟨.hf_fiveco_data, 6, 65530⟩
        = ⟨(spec_register_entries 6 (List.replicate 32765 (0x14, [0x05]))).flatten
            ++ ([.add_item ⟨.nsWsHeaderID 0, 1, 4⟩] ++ spec_uninterpreted_marker 6 65530),
           .ok ()⟩
    ∧ ∃ s', frame_step 32767 (delivery_timeouts 32765) ⟨1, false, 7⟩
          (loop_start ⟨0, [], []⟩) = .next s'
        ∧ s'.tcp_data_offset = 2
        ∧ Event.add_item ⟨.nsWsHeaderID 0, 1, 4⟩ ∈ s'.out
        ∧ Event.add_item ⟨.hf_fiveco_regreaduk, 6, 65530⟩ ∈ s'.out)
    ∧ (∀ (fuel : Nat) (tvb : Tvb) (off cmd : Nat) (ts : List (Byte × List Byte))
        (rv : Option FCOSConvRequestVal) (item : Item),
        (cmd = WRITE_REGISTER ∨ cmd = WRITE_REGISTER_QUIET) →
        (∀ t ∈ ts, tuple_ok t) → at_offset tvb off (encode_tuples ts) →
        off + (encode_tuples ts).length ≤ 65535 → ts.length ≤ fuel →
        decode_payload fuel tvb off (encode_tuples ts).length cmd rv item
          = ⟨(spec_register_entries off ts).flatten, .ok ()⟩ ∧
        (spec_register_entries off ts).length = ts.length ∧
        (∀ j, (spec_register_entries off ts)[j]?
          = ts[j]?.map (spec_register_entry (tuple_start off ts j))) ∧
        (∀ e ∈ (spec_register_entries off ts).flatten, ∀ s l,
          e ≠ .add_item ⟨.hf_fiveco_regreaduk, s, l⟩) ∧
        (∀ m, write_register_loop tvb off (encode_tuples ts).length (m + ts.length) off
          = W.bind ⟨(spec_register_entries off ts).flatten, .ok ()⟩ (fun _ =>
              write_register_loop tvb off (encode_tuples ts).length m
                (off + (encode_tuples ts).length)))) := by
  refine ⟨?_, fun fuel tvb off cmd ts rv item hcmd hok hat hend hfuel =>
    register_write_round_trip_in_range fuel tvb off cmd ts rv item hcmd hok hat hend hfuel⟩
  refine ⟨timeouts_ok 32765, delivery_timeouts_at 32765, encode_timeouts_length 32765,
    delivery_timeouts_length 32765,
    delivery_timeouts_decode 32764 rfl none ⟨.hf_fiveco_data, 6, 65530⟩,
    _, delivery_timeouts_step 32764 rfl, rfl, ?_, ?_⟩
  · apply List.mem_append_right
    apply List.mem_append_left
    apply List.mem_append_right
    apply List.mem_cons_of_mem
    apply List.mem_append_right
    apply List.mem_append_left
    exact List.mem_singleton.mpr rfl
  · apply List.mem_append_right
    apply List.mem_append_left
    apply List.mem_append_right
    apply List.mem_cons_of_mem
    apply List.mem_append_right
    apply List.mem_append_right
    exact List.mem_cons_self _ _

/-- Witness of the second part of C23: the frame that writes 5 to TCP Timeout (`0x14`) and
`DE AD BE EF` to Communication options (`0x10`, shown as a hex dump). -/
theorem C23_register_write_index_wraps_witness :
    decode_payload 5
        [0x00, 0x22, 0x00, 0x01, 0x00, 0x07, 0x14, 0x05, 0x10, 0xDE, 0xAD, 0xBE, 0xEF, 0x3E,
          0x33] 6 7 WRITE_REGISTER none ⟨.hf_fiveco_data, 6, 7⟩
      = ⟨[.add_item ⟨.nsWsHeaderID 0x14, 7, 1⟩,
          .add_item ⟨.hf_fiveco_regread, 9, 4⟩,
          .append_text ⟨.hf_fiveco_regread, 9, 4⟩
            (.raw_header "Register Communication options" 0x10 4),
          .append_text ⟨.hf_fiveco_regread, 9, 4⟩ (.hex 0xDE),
          .append_text ⟨.hf_fiveco_regread, 9, 4⟩ (.hex 0xAD),
          .append_text ⟨.hf_fiveco_regread, 9, 4⟩ (.hex 0xBE),
          .append_text ⟨.hf_fiveco_regread, 9, 4⟩ (.hex 0xEF)], .ok ()⟩ :=
  (C23_register_write_index_wraps.2 5
    [0x00, 0x22, 0x00, 0x01, 0x00, 0x07, 0x14, 0x05, 0x10, 0xDE, 0xAD, 0xBE, 0xEF, 0x3E, 0x33]
    6 WRITE_REGISTER [(0x14, [0x05]), (0x10, [0xDE, 0xAD, 0xBE, 0xEF])] none
    ⟨.hf_fiveco_data, 6, 7⟩ (Or.inl rfl) (by decide) (by decide) (by decide) (by decide)).1

/-- C30 (the code departs from the claim). The answer index `i` of the I2C answer decoder
is a `guint16` that runs over offsets of the buffer. In a delivery of 65542 octets, a
`FLASH_AREA_ERASE` frame of 65526 octets followed by an `I2C_READ_ANSWER` frame whose 8
parameter octets `01 .. 08` lie at the offsets 65532 to 65539, decoded against the stored
`I2C_READ` request of two sub-records (addresses `0x50` and `0x51`, nothing written) with
the read lengths 4 and 4, the first result item covers the first 4 answer octets; then
`i` is 0, and the second result item is added at offset 0 over the first four octets of
the delivery, `00 31 00 01`, not over the next 4 answer octets `05 06 07 08` at offset
65536. The walk of the dissector on this delivery, in the state that holds the request
under the id 1 of flow 7, gets to the answer frame after one iteration and makes these
calls in the second. Whenever the answer payload ends at an offset of at most 65535 the
decoder does what the claim says: one result item per sub-record with `r_j > 0`, in
request order, over the next `r_j` answer octets, and with acknowledge octets one more
octet per sub-record. -/
theorem C30_answer_index_wraps :
    ((delivery_after_filler 65518
      [0x00, 0x03, 0x00, 0x02, 0x00, 0x08, 0x01, 0x02, 0x03, 0x04, 0x05, 0x06, 0x07, 0x08,
       0xEF, 0xDE]).length = 65542
    ∧ at_offset
        (delivery_after_filler 65518
          [0x00, 0x03, 0x00, 0x02, 0x00, 0x08, 0x01, 0x02, 0x03, 0x04, 0x05, 0x06, 0x07, 0x08,
           0xEF, 0xDE])
        65526
        [0x00, 0x03, 0x00, 0x02, 0x00, 0x08, 0x01, 0x02, 0x03, 0x04, 0x05, 0x06, 0x07, 0x08,
         0xEF, 0xDE]
    ∧ decode_payload 5
        (delivery_after_filler 65518
          [0x00, 0x03, 0x00, 0x02, 0x00, 0x08, 0x01, 0x02, 0x03, 0x04, 0x05, 0x06, 0x07, 0x08,
           0xEF, 0xDE])
        65532 8 I2C_READ_ANSWER
        (some (i2c_request_record [⟨0x50, [], 0x04⟩, ⟨0x51, [], 0x04⟩]))
        ⟨.hf_fiveco_data, 65532, 8⟩
      = ⟨[.add_item ⟨.hf_fiveco_i2canswer, 65532, 4⟩,
          .append_text ⟨.hf_fiveco_i2canswer, 65532, 4⟩ (.from_address 0x50 0),
          .append_text ⟨.hf_fiveco_i2canswer, 65532, 4⟩ (.hex 0x01),
          .append_text ⟨.hf_fiveco_i2canswer, 65532, 4⟩ (.hex 0x02),
          .append_text ⟨.hf_fiveco_i2canswer, 65532, 4⟩ (.hex 0x03),
          .append_text ⟨.hf_fiveco_i2canswer, 65532, 4⟩ (.hex 0x04),
          .add_item ⟨.hf_fiveco_i2canswer, 0, 4⟩,
          .append_text ⟨.hf_fiveco_i2canswer, 0, 4⟩ (.from_address 0x51 0),
          .append_text ⟨.hf_fiveco_i2canswer, 0, 4⟩ (.hex 0x00),
          .append_text ⟨.hf_fiveco_i2canswer, 0, 4⟩ (.hex 0x31),
          .append_text ⟨.hf_fiveco_i2canswer, 0, 4⟩ (.hex 0x00),
          .append_text ⟨.hf_fiveco_i2canswer, 0, 4⟩ (.hex 0x01)], .ok ()⟩
    ∧ ∃ s1 s2,
        frame_step 5
          (delivery_after_filler 65518
            [0x00, 0x03, 0x00, 0x02, 0x00, 0x08, 0x01, 0x02, 0x03, 0x04, 0x05, 0x06, 0x07, 0x08,
             0xEF, 0xDE]) ⟨2, false, 7⟩
          (loop_start ⟨1, [(⟨7, 1, I2C_READ_ANSWER⟩,
            i2c_request_record [⟨0x50, [], 0x04⟩, ⟨0x51, [], 0x04⟩])], [(1, 1)]⟩) = .next s1
        ∧ s1.tcp_data_offset = 65526
        ∧ frame_step 5
          (delivery_after_filler 65518
            [0x00, 0x03, 0x00, 0x02, 0x00, 0x08, 0x01, 0x02, 0x03, 0x04, 0x05, 0x06, 0x07, 0x08,
             0xEF, 0xDE]) ⟨2, false, 7⟩ s1 = .next s2
        ∧ Event.add_item ⟨.hf_fiveco_i2canswer, 65532, 4⟩ ∈ s2.out
        ∧ Event.add_item ⟨.hf_fiveco_i2canswer, 0, 4⟩ ∈ s2.out)
    ∧ (∀ (fuel : Nat) (tvb : Tvb) (off cmd : Nat) (withAck : Bool) (xs : List I2CReply)
        (item : Item),
        ((withAck = false ∧ cmd = I2C_READ_ANSWER) ∨
          (withAck = true ∧ cmd = I2C_READ_WRITE_ACK_ANSWER)) →
        (∀ x ∈ xs, x.sub.written.length ≤ 255 ∧ x.result.length = x.sub.toRead.val) →
        (encode_i2c true (xs.map (fun x => x.sub))).length ≤ 65535 →
        at_offset tvb off (encode_i2c_answer withAck xs) →
        off + (encode_i2c_answer withAck xs).length ≤ 65535 → xs.length ≤ fuel →
        decode_payload fuel tvb off (encode_i2c_answer withAck xs).length cmd
            (some (i2c_request_record (xs.map (fun x => x.sub)))) item
          = ⟨(spec_i2c_answer_entries withAck off xs).flatten, .ok ()⟩ ∧
        (spec_i2c_answer_entries withAck off xs).length = xs.length ∧
        (∀ j, (spec_i2c_answer_entries withAck off xs)[j]?
          = xs[j]?.map (spec_i2c_answer_entry withAck (i2c_reply_start withAck off xs j)))) := by
  refine ⟨?_, fun fuel tvb off cmd withAck xs item hcmd hok hreq hat hend hfuel =>
    i2c_answer_replay_in_range fuel tvb off cmd withAck xs item hcmd hok hreq hat hend hfuel⟩
  refine ⟨delivery_after_filler_length 65518 _, delivery_after_filler_at 65518 _,
    i2c_answer_wrapped 65518 rfl ⟨.hf_fiveco_data, 65532, 8⟩, ?_⟩
  obtain ⟨out1, h1⟩ := delivery_after_filler_step 65518 rfl
    [0x00, 0x03, 0x00, 0x02, 0x00, 0x08, 0x01, 0x02, 0x03, 0x04, 0x05, 0x06, 0x07, 0x08,
     0xEF, 0xDE] rfl (i2c_request_record [⟨0x50, [], 0x04⟩, ⟨0x51, [], 0x04⟩])
  obtain ⟨s2, h2, _, hm1, hm2⟩ := delivery_after_filler_answer_step 65518 rfl out1
  exact ⟨_, s2, h1, rfl, h2, hm1, hm2⟩

/-- Witness of the second part of C30: the stored request has three sub-records, to the
addresses `0x50` (2 octets written, 2 to read), `0x51` (nothing to read) and `0x52` (1 to
read). The `I2C_READ_ANSWER` payload `11 22 33` gives two result items; the
`I2C_READ_WRITE_ACK_ANSWER` payload `11 22 06 06 33 06` gives in addition one
acknowledge octet per sub-record. -/
theorem C30_answer_index_wraps_witness :
    decode_payload 5 [0x00, 0x03, 0x00, 0x01, 0x00, 0x03, 0x11, 0x22, 0x33, 0xBB, 0xD6]
        6 3 I2C_READ_ANSWER
        (some (i2c_request_record
          [⟨0x50, [0xAA, 0xBB], 0x02⟩, ⟨0x51, [], 0x00⟩, ⟨0x52, [], 0x01⟩]))
        ⟨.hf_fiveco_data, 6, 3⟩
      = ⟨[.add_item ⟨.hf_fiveco_i2canswer, 6, 2⟩,
          .append_text ⟨.hf_fiveco_i2canswer, 6, 2⟩ (.from_address 0x50 2),
          .append_text ⟨.hf_fiveco_i2canswer, 6, 2⟩ (.hex 0x11),
          .append_text ⟨.hf_fiveco_i2canswer, 6, 2⟩ (.hex 0x22),
          .add_item ⟨.hf_fiveco_i2canswer, 8, 1⟩,
          .append_text ⟨.hf_fiveco_i2canswer, 8, 1⟩ (.from_address 0x52 0),
          .append_text ⟨.hf_fiveco_i2canswer, 8, 1⟩ (.hex 0x33)], .ok ()⟩
    ∧ decode_payload 5
        [0x00, 0x08, 0x00, 0x01, 0x00, 0x06, 0x11, 0x22, 0x06, 0x06, 0x33, 0x06, 0xB5, 0xC2]
        6 6 I2C_READ_WRITE_ACK_ANSWER
        (some (i2c_request_record
          [⟨0x50, [0xAA, 0xBB], 0x02⟩, ⟨0x51, [], 0x00⟩, ⟨0x52, [], 0x01⟩]))
        ⟨.hf_fiveco_data, 6, 6⟩
      = ⟨[.add_item ⟨.hf_fiveco_i2canswer, 6, 2⟩,
          .append_text ⟨.hf_fiveco_i2canswer, 6, 2⟩ (.from_address 0x50 2),
          .append_text ⟨.hf_fiveco_i2canswer, 6, 2⟩ (.hex 0x11),
          .append_text ⟨.hf_fiveco_i2canswer, 6, 2⟩ (.hex 0x22),
          .add_item ⟨.hf_fiveco_i2cack, 8, 1⟩,
          .add_item ⟨.hf_fiveco_i2cwriteanswer, 9, 0⟩,
          .append_text ⟨.hf_fiveco_i2cwriteanswer, 9, 0⟩ (.to_address 0x51 0),
          .add_item ⟨.hf_fiveco_i2cack, 9, 1⟩,
          .add_item ⟨.hf_fiveco_i2canswer, 10, 1⟩,
          .append_text ⟨.hf_fiveco_i2canswer, 10, 1⟩ (.from_address 0x52 0),
          .append_text ⟨.hf_fiveco_i2canswer, 10, 1⟩ (.hex 0x33),
          .add_item ⟨.hf_fiveco_i2cack, 11, 1⟩], .ok ()⟩ :=
  ⟨(C30_answer_index_wraps.2 5 [0x00, 0x03, 0x00, 0x01, 0x00, 0x03, 0x11, 0x22, 0x33, 0xBB, 0xD6]
      6 I2C_READ_ANSWER false
      [⟨⟨0x50, [0xAA, 0xBB], 0x02⟩, [0x11, 0x22], 0⟩, ⟨⟨0x51, [], 0x00⟩, [], 0⟩,
       ⟨⟨0x52, [], 0x01⟩, [0x33], 0⟩]
      ⟨.hf_fiveco_data, 6, 3⟩ (Or.inl ⟨rfl, rfl⟩) (by decide) (by decide) (by decide)
      (by decide) (by decide)).1,
   (C30_answer_index_wraps.2 5
      [0x00, 0x08, 0x00, 0x01, 0x00, 0x06, 0x11, 0x22, 0x06, 0x06, 0x33, 0x06, 0xB5, 0xC2]
      6 I2C_READ_WRITE_ACK_ANSWER true
      [⟨⟨0x50, [0xAA, 0xBB], 0x02⟩, [0x11, 0x22], 0x06⟩, ⟨⟨0x51, [], 0x00⟩, [], 0x06⟩,
       ⟨⟨0x52, [], 0x01⟩, [0x33], 0x06⟩]
      ⟨.hf_fiveco_data, 6, 6⟩ (Or.inr ⟨rfl, rfl⟩) (by decide) (by decide) (by decide)
      (by decide) (by decide)).1⟩

/-! ### A register answer frame of 65540 octets (C24) -/

/-- The register answer loop over the tuples `ts` that lie at `i` and end at or before
offset 65535, when the stored request lists their addresses from index `y` on: one entry
per tuple, then the loop goes on after the last tuple. -/
theorem read_register_answer_loop_prefix (tvb : Tvb) (off N : Nat) (v : FCOSConvRequestVal)
    (hv : v.usParaLen ≤ 65535) (fuel : Nat) :
    ∀ (ts : List (Byte × List Byte)) (i y : Nat), (∀ t ∈ ts, tuple_ok t) →
      at_offset v.pData y (ts.map (fun t => t.1)) → y + ts.length ≤ v.usParaLen →
      at_offset tvb i (encode_tuples ts) →
      i + (encode_tuples ts).length ≤ off + N → i + (encode_tuples ts).length ≤ 65535 →
      read_register_answer_loop tvb off N v (fuel + ts.length) i y
        = W.bind ⟨(spec_register_entries i ts).flatten, .ok ()⟩ (fun _ =>
            read_register_answer_loop tvb off N v fuel (i + (encode_tuples ts).length)
              (y + ts.length)) := by
  intro ts
  induction ts with
  | nil =>
    intro i y _ _ _ _ _ _
    simp only [List.length_nil, Nat.add_zero, encode_tuples, spec_register_entries,
      List.flatten_nil, W_bind_ok, List.nil_append]
  | cons t ts ih =>
    intro i y hok hreq hy hat hN h16
    obtain ⟨a, val⟩ := t
    have htok := hok (a, val) (List.mem_cons_self _ _)
    unfold tuple_ok at htok
    cases hk : known_register a.val with
    | none => rw [hk] at htok; exact absurd htok id
    | some r =>
      rw [hk] at htok
      simp only at htok
      simp only [List.map_cons, List.length_cons] at hreq hy ⊢
      obtain ⟨hq0, hq1⟩ := at_offset_cons _ _ _ _ hreq
      simp only [encode_tuples, List.length_cons, List.length_append] at hat hN h16 ⊢
      obtain ⟨h0, h1⟩ := at_offset_cons tvb i a _ hat
      obtain ⟨hval, hrest⟩ := at_offset_append tvb (i + 1) val _ h1
      have e1 : (i + 1) % 65536 = i + 1 := Nat.mod_eq_of_lt (by omega)
      have e2 : (i + 1 + val.length) % 65536 = i + 1 + val.length :=
        Nat.mod_eq_of_lt (by omega)
      have e3 : (y + 1) % 65536 = y + 1 := Nat.mod_eq_of_lt (by omega)
      rw [show fuel + (ts.length + 1) = (fuel + ts.length) + 1 by omega,
        read_register_answer_loop_succ, if_pos ⟨by omega, by omega⟩,
        tvb_get_guint8_at _ _ _ hq0, W_lift_ok_bind]
      simp only [hk]
      rw [tvb_get_guint8_at _ _ _ h0, W_lift_ok_bind, if_pos rfl, e1,
        render_register_eq tvb a r val i hk htok hval (by omega) (by omega), W_bind_ok, e2, e3,
        ih _ _ (fun t ht => hok t (List.mem_cons_of_mem _ ht)) hq1 (by omega) hrest (by omega)
          (by omega), W_bind_ok, W_bind_ok]
      simp only [spec_register_entries, List.flatten_cons, List.append_assoc]
      rw [show i + 1 + val.length + (encode_tuples ts).length
          = i + (val.length + (encode_tuples ts).length + 1) by omega,
        show y + 1 + ts.length = y + (ts.length + 1) by omega]

theorem delivery_timeout_answers_length (k : Nat) :
    (delivery_timeout_answers k).length = 2 * k + 8 := by
  simp only [delivery_timeout_answers, List.length_append, List.length_cons, List.length_nil,
    encode_timeouts_length]
  omega

theorem delivery_timeout_answers_at (k : Nat) :
    at_offset (delivery_timeout_answers k) 6 (encode_tuples (List.replicate k (0x14, [0x05]))) :=
  at_offset_mid [0x00, 0x23, 0x00, 0x02, 0xFF, 0xFC] _ _

/-- The register answer decoder on the frame of 32766 tuples, against the request that
lists the address `0x14` 32766 times: the index `i`, a `guint16`, is 0 after the 32765th
tuple, the next octet compared with the requested address is the first octet of the
delivery, and the marker is added instead of the last entry. -/
theorem delivery_timeout_answers_decode (m : Nat) (hm : m = 32764) (item : Item) :
    decode_payload (m + 2) (delivery_timeout_answers (m + 2)) 6 65532 READ_REGISTER_ANSWER
        (some ⟨m + 2, 0, List.replicate (m + 2) 0x14⟩) item
      = ⟨(spec_register_entries 6 (List.replicate (m + 1) (0x14, [0x05]))).flatten
          ++ spec_uninterpreted_marker 1 65537, .ok ()⟩ := by
  have hat := delivery_timeout_answers_at (m + 2)
  have hlen := delivery_timeout_answers_length (m + 2)
  have hsplit : List.replicate (m + 2) ((0x14 : Byte), [(0x05 : Byte)])
      = List.replicate m (0x14, [0x05]) ++ [(0x14, [0x05]), (0x14, [0x05])] := by
    rw [List.replicate_add]
    rfl
  rw [hsplit, encode_tuples_append] at hat
  obtain ⟨hinit, hlast⟩ := at_offset_append _ _ _ _ hat
  rw [encode_timeouts_length] at hlast
  have hlast' : at_offset (delivery_timeout_answers (m + 2)) (6 + 2 * m)
      (0x14 :: ([0x05] ++ [0x14, 0x05])) := hlast
  obtain ⟨h0, h1⟩ := at_offset_cons _ _ _ _ hlast'
  obtain ⟨hval, _⟩ := at_offset_append _ _ _ _ h1
  have hreq : at_offset (List.replicate (m + 2) (0x14 : Byte)) 0
      ((List.replicate m ((0x14 : Byte), [(0x05 : Byte)])).map (fun t => t.1)) := by
    have h := at_offset_mid [] (List.replicate m (0x14 : Byte)) (List.replicate 2 0x14)
    rw [List.nil_append, ← List.replicate_add] at h
    rw [List.map_replicate]
    exact h
  have hloop := read_register_answer_loop_prefix (delivery_timeout_answers (m + 2)) 6 65532
    ⟨m + 2, 0, List.replicate (m + 2) 0x14⟩ (by show m + 2 ≤ 65535; omega) 2
    (List.replicate m (0x14, [0x05])) 6 0 (timeouts_ok m) hreq
    (by show 0 + (List.replicate m ((0x14 : Byte), [(0x05 : Byte)])).length ≤ m + 2
        rw [List.length_replicate]; omega)
    hinit (by rw [encode_timeouts_length]; omega) (by rw [encode_timeouts_length]; omega)
  rw [List.length_replicate, encode_timeouts_length, Nat.zero_add] at hloop
  have hk14 : known_register ((0x14 : Byte) : Nat)
      = some ⟨0x14, 1, "Register TCP Timeout", "5co-legacy.RegTCPTimeout", .FT_UINT8,
          some .dispTimeout⟩ := by decide
  have hq0 : (List.replicate (m + 2) (0x14 : Byte))[m]? = some 0x14 := by
    rw [List.getElem?_replicate, if_pos (by omega)]
  have hq1 : (List.replicate (m + 2) (0x14 : Byte))[m + 1]? = some 0x14 := by
    rw [List.getElem?_replicate, if_pos (by omega)]
  have hb0 : (delivery_timeout_answers (m + 2))[0]? = some (0x00 : Byte) := rfl
  have e1 : (6 + 2 * m + 1) % 65536 = 6 + 2 * m + 1 := by omega
  have e2 : (6 + 2 * m + 1 + [(0x05 : Byte)].length) % 65536 = 0 := by
    simp only [List.length_cons, List.length_nil]
    omega
  have e3 : (m + 1) % 65536 = m + 1 := by omega
  have hd : decode_payload (m + 2) (delivery_timeout_answers (m + 2)) 6 65532
        READ_REGISTER_ANSWER (some ⟨m + 2, 0, List.replicate (m + 2) 0x14⟩) item
      = read_register_answer_loop (delivery_timeout_answers (m + 2)) 6 65532
          ⟨m + 2, 0, List.replicate (m + 2) 0x14⟩ (m + 2) 6 0 := rfl
  rw [show 2 + m = m + 2 by omega] at hloop
  rw [hd, hloop, W_bind_ok,
    read_register_answer_loop_succ, if_pos ⟨by show m < m + 2; omega, by omega⟩,
    tvb_get_guint8_at _ _ _ hq0, W_lift_ok_bind]
  simp only [hk14]
  rw [tvb_get_guint8_at _ _ _ h0, W_lift_ok_bind, if_pos rfl, e1,
    render_register_eq _ 0x14 _ [0x05] (6 + 2 * m) hk14 rfl hval (by omega)
      (by simp only [List.length_cons, List.length_nil]; omega), W_bind_ok, e2, e3,
    read_register_answer_loop_succ, if_pos ⟨by show m + 1 < m + 2; omega, by omega⟩,
    tvb_get_guint8_at _ _ _ hq1, W_lift_ok_bind]
  simp only [hk14]
  rw [tvb_get_guint8_at _ _ _ hb0, W_lift_ok_bind, if_neg (by decide),
    show (0 + 1) % 65536 = 1 by rfl, show 6 + 65532 - 1 = 65537 by rfl,
    add_item_ok _ _ _ _ (by rw [hlen]; omega), W_bind_ok]
  rw [List.replicate_succ', register_entries_append, encode_timeouts_length,
    List.flatten_append]
  simp only [spec_register_entries, List.flatten_cons, List.flatten_nil, List.append_nil,
    proto_item_append_text, spec_uninterpreted_marker, List.append_assoc]
  rfl

/-- The state after the delivery of one `READ_REGISTER` request frame seen for the first
time: the counter is one up, the packet has its value as id, and the addresses asked for
are stored under the flow, that id and `READ_REGISTER_ANSWER`. -/
theorem read_register_request_state (fuel : Nat) (st : State) (p1 : packet_info)
    (seq1 ck1 : Nat) (ts : List (Byte × List Byte)) (hne : ts ≠ [])
    (hseq1 : seq1 < 65536) (hck1 : ck1 < 65536) (hlen : ts.length + 8 ≤ 65535)
    (hvis : p1.visited = false) (hnew1 : p_get_proto_data st.proto_data p1.num = none)
    (hinv : ∀ e ∈ st.FiveCo_requests_hash, e.1.usExpCmd ≠ READ_REGISTER)
    (hfuel0 : 0 < fuel) :
    (dissect_FiveCoLegacy fuel (encode_frame (read_register_request seq1 ts ck1)) p1 st).state
      = ⟨(st.g_unInternalID + 1) % 18446744073709551616,
          g_hash_table_insert st.FiveCo_requests_hash
            ⟨p1.conv_index, (st.g_unInternalID + 1) % 18446744073709551616,
              READ_REGISTER_ANSWER⟩ ⟨(ts.map (fun t => t.1)).length, 0, ts.map (fun t => t.1)⟩,
          p_add_proto_data st.proto_data p1.num
            ((st.g_unInternalID + 1) % 18446744073709551616)⟩ := by
  have hfree := lookup_read_register_none st.FiveCo_requests_hash p1.conv_index
    ((st.g_unInternalID + 1) % 18446744073709551616) hinv
  have hmaplen : (ts.map (fun t => t.1)).length = ts.length := List.length_map _ _
  have hmapne : ts.map (fun t => t.1) ≠ [] := by
    intro h
    exact hne (List.map_eq_nil_iff.mp h)
  have hwf1 : (read_register_request seq1 ts ck1).wf :=
    ⟨by show READ_REGISTER ∈ knownCommandCodes; decide, hseq1,
      by show (ts.map (fun t => t.1)).length < 65536; omega, hck1⟩
  have hc1 := correlate_read_register p1 st false (ts.map (fun t => t.1)) hvis hnew1 hfree
  have hP1 := payload_tree_read_register fuel (encode_frame (read_register_request seq1 ts ck1))
    6 (ts.map (fun t => t.1)) (correlate p1 st false READ_REGISTER (ts.map (fun t => t.1))).2.2
    hmapne (show at_offset _ 6 (ts.map (fun t => t.1))
      from encode_frame_at (read_register_request seq1 ts ck1))
  have hd1 := dissect_single_frame fuel p1 st (read_register_request seq1 ts ck1) _ hwf1
    (by show (ts.map (fun t => t.1)).length + 8 ≤ 65535; omega) hfuel0 hP1
  rw [hd1]
  show (correlate p1 st false READ_REGISTER (ts.map (fun t => t.1))).1 = _
  rw [hc1]

/-- The loop body on the delivery of the register answer frame of 32766 tuples, in the
state that holds the request for 32766 times the register `0x14` of flow 7 under the id
1: the frame passes the checks of the reader, it is decoded against that request, its
tree holds 32765 entries and then the marker, and the walk goes on at offset 4. -/
theorem delivery_timeout_answers_step (m : Nat) (hm : m = 32764) :
    ∃ s', frame_step (m + 2) (delivery_timeout_answers (m + 2)) ⟨2, false, 7⟩
        (loop_start ⟨1, [(⟨7, 1, READ_REGISTER_ANSWER⟩,
          ⟨m + 2, 0, List.replicate (m + 2) 0x14⟩)], [(1, 1)]⟩) = .next s'
      ∧ s'.tcp_data_offset = 4
      ∧ Event.add_item ⟨.hf_fiveco_regreaduk, 1, 65537⟩ ∈ s'.out := by
  have hlen := delivery_timeout_answers_length (m + 2)
  have hpl := encode_timeouts_length (m + 2)
  have hat := delivery_timeout_answers_at (m + 2)
  have hh : frame_header (delivery_timeout_answers (m + 2)) 0
      = some (READ_REGISTER_ANSWER, 2, 65532) := by
    obtain ⟨h0, h2, h4⟩ : tvb_get_ntohs (delivery_timeout_answers (m + 2)) (0 + 0) = .ok 0x23 ∧
        tvb_get_ntohs (delivery_timeout_answers (m + 2)) (0 + 2) = .ok 2 ∧
        tvb_get_ntohs (delivery_timeout_answers (m + 2)) (0 + 4) = .ok 65532 := by
      refine ⟨?_, ?_, ?_⟩ <;>
      · unfold tvb_get_ntohs delivery_timeout_answers
        rw [List.getElem?_append_left (by simp), List.getElem?_append_left (by simp)]
        rfl
    have hty : ¬ (try_val_to_str 0x23 packettypenames = none) := by decide
    have hl : tvb_captured_length (delivery_timeout_answers (m + 2)) = 65540 := by
      rw [tvb_captured_length, hlen]; omega
    unfold frame_header
    simp only [h0, h2, h4, if_neg hty, hl]
    decide
  have hcal : checksum_fiveco (delivery_timeout_answers (m + 2)) 0 ((65532 + 6) % 65536)
      = .ok 0xFFDC := by
    have h := checksum_fiveco_mid [] [0x00, 0x23]
      ([0x00, 0x02, 0xFF, 0xFC]
        ++ (encode_tuples (List.replicate (m + 2) (0x14, [0x05])) ++ [0x9D, 0xE5]))
      (by decide)
    have hv : fold16 (fold16 (specSum [(0x00 : Byte), 0x23])) = 0xFFDC := by decide
    rw [hv] at h
    exact h
  have hrx : tvb_get_ntohs (delivery_timeout_answers (m + 2)) (0 + 65532 + 6) = .ok 0x9DE5 := by
    have h := at_offset_mid ([0x00, 0x23, 0x00, 0x02, 0xFF, 0xFC]
      ++ encode_tuples (List.replicate (m + 2) (0x14, [0x05]))) [0x9D, 0xE5] []
    simp only [List.length_append, List.length_cons, List.length_nil, hpl, List.append_nil,
      List.append_assoc] at h
    rw [show 0 + 1 + 1 + 1 + 1 + 1 + 1 + 2 * (m + 2) = 0 + 65532 + 6 by omega] at h
    exact tvb_get_ntohs_at _ _ _ _ h
  have hc : (correlate ⟨2, false, 7⟩
      ⟨1, [(⟨7, 1, READ_REGISTER_ANSWER⟩, ⟨m + 2, 0, List.replicate (m + 2) 0x14⟩)], [(1, 1)]⟩
      false READ_REGISTER_ANSWER (encode_tuples (List.replicate (m + 2) (0x14, [0x05])))).2.2
      = some ⟨m + 2, 0, List.replicate (m + 2) 0x14⟩ := rfl
  have hP : payload_tree (m + 2) (delivery_timeout_answers (m + 2)) (0 + 6) 65532
      READ_REGISTER_ANSWER
      (correlate ⟨2, false, 7⟩
        ⟨1, [(⟨7, 1, READ_REGISTER_ANSWER⟩, ⟨m + 2, 0, List.replicate (m + 2) 0x14⟩)],
          [(1, 1)]⟩
        false READ_REGISTER_ANSWER (encode_tuples (List.replicate (m + 2) (0x14, [0x05])))).2.2
      = ⟨.add_item ⟨.hf_fiveco_data, 6, 65532⟩
          :: ((spec_register_entries 6 (List.replicate (m + 1) (0x14, [0x05]))).flatten
            ++ spec_uninterpreted_marker 1 65537), .ok ()⟩ := by
    rw [hc]
    unfold payload_tree
    rw [if_pos (by decide), W_bind_eq, Nat.zero_add,
      add_item_ok _ _ _ _ (by rw [hlen]; omega), W_bind_ok,
      delivery_timeout_answers_decode m hm]
    rfl
  have h := frame_step_at (m + 2) (delivery_timeout_answers (m + 2)) ⟨2, false, 7⟩
    (loop_start ⟨1, [(⟨7, 1, READ_REGISTER_ANSWER⟩,
      ⟨m + 2, 0, List.replicate (m + 2) 0x14⟩)], [(1, 1)]⟩) READ_REGISTER_ANSWER 2 65532
    (encode_tuples (List.replicate (m + 2) (0x14, [0x05]))) 0xFFDC 0x9DE5 _
    (by rw [hpl]; omega) hh
    (by
      rw [show (loop_start ⟨1, [(⟨7, 1, READ_REGISTER_ANSWER⟩,
        ⟨m + 2, 0, List.replicate (m + 2) 0x14⟩)], [(1, 1)]⟩).tcp_data_offset + 6 = 6 from rfl]
      exact hat)
    hcal hrx (show 0 + 6 < 65536 by decide) hP
  refine ⟨_, h, ?_, ?_⟩
  · show (0 + 65532 + 8) % 65536 = 4
    rfl
  · apply List.mem_append_right
    apply List.mem_append_left
    apply List.mem_append_right
    apply List.mem_cons_of_mem
    apply List.mem_append_right
    exact List.mem_cons_self _ _

theorem timeout_request_state (m : Nat) (hm : m = 32764) :
    (dissect_FiveCoLegacy (m + 2)
        (encode_frame (read_register_request 1 (List.replicate (m + 2) (0x14, [0x05])) 0x8EEE))
        ⟨1, false, 7⟩ ⟨0, [], []⟩).state
      = ⟨1, [(⟨7, 1, READ_REGISTER_ANSWER⟩, ⟨m + 2, 0, List.replicate (m + 2) 0x14⟩)],
          [(1, 1)]⟩ := by
  rw [read_register_request_state (m + 2) ⟨0, [], []⟩ ⟨1, false, 7⟩ 1 0x8EEE
    (List.replicate (m + 2) (0x14, [0x05])) (by simp [List.replicate_succ]) (by decide)
    (by decide) (by rw [List.length_replicate]; omega) rfl rfl (by simp) (by omega),
    List.map_replicate, List.length_replicate]
  rfl

theorem delivery_timeout_answers_frame (k : Nat) (hk : k = 32766) :
    delivery_timeout_answers k
      = encode_frame (read_register_answer 2 (List.replicate k (0x14, [0x05])) 0x9DE5) := by
  have hl := encode_timeouts_length k
  have hb : be16 (encode_tuples (List.replicate k ((0x14 : Byte), [(0x05 : Byte)]))).length
      = [0xFF, 0xFC] := by
    rw [hl, hk]
    decide
  unfold encode_frame frame_body read_register_answer delivery_timeout_answers
  simp only [hb]
  rfl

/-- Counterexample to C24 as stated. First: a `READ_REGISTER` request `[0x14]` is first
seen on flow 7 (packet 1), then a `READ_REGISTER` request on flow 8 (packet 2), then the
next delivery on flow 7 is the `READ_REGISTER_ANSWER` `[0x14, 0x2D]` (packet 3). The
counter is shared by all flows: the request of flow 7 is stored under the id 1, the
request of flow 8 takes the counter to 2, and the answer is looked up under the id 2: no
record is found, the answer is not correlated and no register entry is added. Without the
delivery of flow 8 the same answer is decoded against the request. Second, with no
delivery in between: the request for k = 32766 times the register `0x14` (packet 1, flow
7), then the answer frame of 65540 octets with the 32766 tuples (packet 2, flow 7). The
answer is correlated, but the offset `i`, a `guint16`, is 0 after the 32765th tuple: the
address compared next is the first octet of the delivery, and the marker of the octets
not interpreted is added at offset 1 in place of the last entry. -/
theorem C24_counterexample :
    (correlate ⟨3, false, 7⟩
        (run_deliveries 5
          [([0x00, 0x21, 0x00, 0x01, 0x00, 0x01, 0x14, 0xEB, 0xDC], ⟨1, false, 7⟩),
           ([0x00, 0x21, 0x00, 0x01, 0x00, 0x01, 0x14, 0xEB, 0xDC], ⟨2, false, 8⟩)]
          ⟨0, [], []⟩)
        false READ_REGISTER_ANSWER [0x14, 0x2D]).2.2 = none
    ∧ (dissect_FiveCoLegacy 5 [0x00, 0x23, 0x00, 0x02, 0x00, 0x02, 0x14, 0x2D, 0xEB, 0xAB]
        ⟨3, false, 7⟩
        (run_deliveries 5
          [([0x00, 0x21, 0x00, 0x01, 0x00, 0x01, 0x14, 0xEB, 0xDC], ⟨1, false, 7⟩),
           ([0x00, 0x21, 0x00, 0x01, 0x00, 0x01, 0x14, 0xEB, 0xDC], ⟨2, false, 8⟩)]
          ⟨0, [], []⟩)).trace
      = [.col_protocol, .col_clear, .col_frame false 0x23 2 2,
         .add_item ⟨.proto_FiveCoLegacy, 0, 10⟩,
         .append_text ⟨.proto_FiveCoLegacy, 0, 10⟩ (.type_name 0x23),
         .add_item ⟨.hf_fiveco_header, 0, 6⟩, .add_item ⟨.hf_fiveco_fct, 0, 2⟩,
         .add_item ⟨.hf_fiveco_id, 2, 2⟩, .add_item ⟨.hf_fiveco_length, 4, 2⟩,
         .add_item ⟨.hf_fiveco_data, 6, 2⟩, .add_checksum 8 0xEBAB 0xEBAB]
    ∧ Event.add_item ⟨.nsWsHeaderID 0x14, 7, 1⟩ ∈
        (dissect_FiveCoLegacy 5 [0x00, 0x23, 0x00, 0x02, 0x00, 0x02, 0x14, 0x2D, 0xEB, 0xAB]
          ⟨3, false, 7⟩
          (run_deliveries 5
            [([0x00, 0x21, 0x00, 0x01, 0x00, 0x01, 0x14, 0xEB, 0xDC], ⟨1, false, 7⟩)]
            ⟨0, [], []⟩)).trace
    ∧ delivery_timeout_answers 32766
        = encode_frame (read_register_answer 2 (List.replicate 32766 (0x14, [0x05])) 0x9DE5)
    ∧ (delivery_timeout_answers 32766).length = 65540
    ∧ (correlate ⟨2, false, 7⟩
        (dissect_FiveCoLegacy 32766
          (encode_frame (read_register_request 1 (List.replicate 32766 (0x14, [0x05])) 0x8EEE))
          ⟨1, false, 7⟩ ⟨0, [], []⟩).state
        false READ_REGISTER_ANSWER
        (encode_tuples (List.replicate 32766 (0x14, [0x05])))).2.2
      = some ⟨32766, 0, List.replicate 32766 0x14⟩
    ∧ ∃ s', frame_step 32766 (delivery_timeout_answers 32766) ⟨2, false, 7⟩
          (loop_start (dissect_FiveCoLegacy 32766
            (encode_frame
              (read_register_request 1 (List.replicate 32766 (0x14, [0x05])) 0x8EEE))
            ⟨1, false, 7⟩ ⟨0, [], []⟩).state) = .next s'
        ∧ Event.add_item ⟨.hf_fiveco_regreaduk, 1, 65537⟩ ∈ s'.out := by
  refine ⟨by decide, by decide, by decide, delivery_timeout_answers_frame 32766 rfl,
    delivery_timeout_answers_length 32766, ?_, ?_⟩
  · rw [timeout_request_state 32764 rfl]
    rfl
  · rw [timeout_request_state 32764 rfl]
    obtain ⟨s', h, _, hmem⟩ := delivery_timeout_answers_step 32764 rfl
    exact ⟨s', h, hmem⟩

/-! ## The width of the checksum's accumulator (C33) -/

theorem tvb_get_guint8_lt (tvb : Tvb) (off t : Nat) (h : tvb_get_guint8 tvb off = .ok t) :
    t < 256 := by
  unfold tvb_get_guint8 at h
  cases hg : tvb[off]? with
  | none => rw [hg] at h; simp at h
  | some b =>
    rw [hg] at h
    simp only [Res.ok.injEq] at h
    rw [← h]
    exact b.isLt

theorem ideal_checksum_loop_succ (tvb : Tvb) (start n i S hi : Nat) :
    ideal_checksum_loop tvb start (n + 1) i S hi =
      match tvb_get_guint8 tvb (start + i) with
      | .ok temp =>
        if hi ≠ 0 then
          ideal_checksum_loop tvb start n (i + 1) (S + ((temp <<< 8) ^^^ 0xFF00)) 0
        else
          ideal_checksum_loop tvb start n (i + 1) (S + (temp ^^^ 0x00FF)) 1
      | .exn => .exn
      | .fuel => .fuel := rfl

/-- While the accumulator has room for `n` more terms, the 32-bit loop and the loop in
unbounded integers agree, and the accumulator grows by at most 65535 by term. -/
theorem checksum_loop_ideal (tvb : Tvb) (start : Nat) :
    ∀ (n i S hi : Nat), S + 65535 * n < 4294967296 →
      checksum_loop tvb start n i S hi = ideal_checksum_loop tvb start n i S hi ∧
      ∀ S' hi', ideal_checksum_loop tvb start n i S hi = .ok (S', hi') → S' ≤ S + 65535 * n := by
  intro n
  induction n with
  | zero =>
    intro i S hi _
    refine ⟨rfl, ?_⟩
    intro S' hi' h
    simp only [ideal_checksum_loop, Res.ok.injEq, Prod.mk.injEq] at h
    omega
  | succ n ih =>
    intro i S hi hS
    rw [checksum_loop_succ, ideal_checksum_loop_succ]
    cases hg : tvb_get_guint8 tvb (start + i) with
    | exn => exact ⟨rfl, by intro S' hi' h; simp at h⟩
    | fuel => exact ⟨rfl, by intro S' hi' h; simp at h⟩
    | ok temp =>
      have ht := tvb_get_guint8_lt tvb _ temp hg
      have h1 := term_hi_lt ⟨temp, ht⟩
      have h2 := term_lo_lt ⟨temp, ht⟩
      simp only at h1 h2
      have e : temp <<< 8 = temp * 256 := by rw [Nat.shiftLeft_eq]
      simp only
      by_cases hhi : hi ≠ 0
      · rw [if_pos hhi, if_pos hhi, e, Nat.mod_eq_of_lt (by omega)]
        obtain ⟨ih1, ih2⟩ := ih (i + 1) (S + (temp * 256 ^^^ 0xFF00)) 0 (by omega)
        refine ⟨ih1, ?_⟩
        intro S' hi' h
        have := ih2 S' hi' h
        omega
      · rw [if_neg hhi, if_neg hhi, Nat.mod_eq_of_lt (by omega)]
        obtain ⟨ih1, ih2⟩ := ih (i + 1) (S + (temp ^^^ 0xFF)) 1 (by omega)
        refine ⟨ih1, ?_⟩
        intro S' hi' h
        have := ih2 S' hi' h
        omega

/-- The accumulation loop runs to its end on a range that lies in the buffer. -/
theorem ideal_checksum_loop_ok (tvb : Tvb) (start : Nat) :
    ∀ (n i S hi : Nat), start + i + n ≤ tvb.length →
      ∃ S' hi', ideal_checksum_loop tvb start n i S hi = .ok (S', hi') := by
  intro n
  induction n with
  | zero => intro i S hi _; exact ⟨S, hi, rfl⟩
  | succ n ih =>
    intro i S hi h
    rw [ideal_checksum_loop_succ]
    have hlt : start + i < tvb.length := by omega
    have hg : tvb_get_guint8 tvb (start + i) = .ok (tvb[start + i]).val := by
      unfold tvb_get_guint8
      rw [List.getElem?_eq_getElem hlt]
    rw [hg]
    simp only
    split
    · exact ih _ _ _ (by omega)
    · exact ih _ _ _ (by omega)

/-- C33. For every range of at most 65535 octets (`size` is a `guint16`, so for every
call): after each number `k` of iterations the 32-bit accumulator `Sum` of
`checksum_fiveco` holds the sum computed in unbounded integers, which with the final
`0xFF` of an odd count still is below `2^32`: no addition overflows. The value of
`ChecksumCalculated` after the two folding steps is at most `0xFFFF`, so the conversion to
`guint16` of the `return` discards nothing: the function returns that value. On a range
that lies in the buffer the function does return a value. -/
theorem C33_checksum_accumulator_in_range (tvb : Tvb) (start size : Nat)
    (hsize : size ≤ 65535) :
    (∀ k, k ≤ size →
      checksum_loop tvb start k 0 0 1 = ideal_checksum_loop tvb start k 0 0 1 ∧
      ∀ S hi, ideal_checksum_loop tvb start k 0 0 1 = .ok (S, hi) → S + 0xFF < 4294967296) ∧
    (∀ c, checksum_folded tvb start size = .ok c →
      c ≤ 0xFFFF ∧ checksum_fiveco tvb start size = .ok c) ∧
    (start + size ≤ tvb.length → ∃ c, checksum_folded tvb start size = .ok c) := by
  have hloop : ∀ k, k ≤ size →
      checksum_loop tvb start k 0 0 1 = ideal_checksum_loop tvb start k 0 0 1 ∧
      ∀ S hi, ideal_checksum_loop tvb start k 0 0 1 = .ok (S, hi) → S + 0xFF < 4294967296 := by
    intro k hk
    obtain ⟨h1, h2⟩ := checksum_loop_ideal tvb start k 0 0 1 (by omega)
    refine ⟨h1, ?_⟩
    intro S hi h
    have := h2 S hi h
    omega
  refine ⟨hloop, ?_, ?_⟩
  · intro c hc
    unfold checksum_folded at hc
    unfold checksum_fiveco
    obtain ⟨h1, h2⟩ := hloop size (Nat.le_refl _)
    cases hl : checksum_loop tvb start size 0 0 1 with
    | exn => rw [hl] at hc; simp at hc
    | fuel => rw [hl] at hc; simp at hc
    | ok p =>
      obtain ⟨S, hi⟩ := p
      rw [hl] at hc
      simp only [Res.ok.injEq] at hc
      have hS := h2 S hi (by rw [← h1, hl])
      have hS' : (if hi = 0 then (S + 0xFF) % 4294967296 else S) < 4294967296 := by
        split
        · exact Nat.mod_lt _ (by norm_num)
        · omega
      rw [fold_line_eq _ hS', fold_line_eq _ (by have := fold16_lt _ hS'; omega)] at hc
      have hlt := fold16_fold16_lt _ hS'
      simp only
      rw [fold_line_eq _ hS', fold_line_eq _ (by have := fold16_lt _ hS'; omega),
        Nat.mod_eq_of_lt hlt, hc]
      refine ⟨?_, rfl⟩
      rw [← hc]
      omega
  · intro hfit
    obtain ⟨h1, _⟩ := hloop size (Nat.le_refl _)
    obtain ⟨S, hi, hok⟩ := ideal_checksum_loop_ok tvb start size 0 0 1 (by omega)
    unfold checksum_folded
    rw [h1, hok]
    exact ⟨_, rfl⟩

/-- Witness of C33 on the seven header and payload octets of a `FLASH_AREA_ERASE` frame:
the folded value is `0xF8CE`, which is also the value returned. -/
theorem C33_checksum_accumulator_in_range_witness :
    (7 : Nat) ≤ 65535 ∧ checksum_folded [0, 0x31, 0, 0, 0, 0, 7] 0 7 = .ok 0xF8CE ∧
    (0xF8CE : Nat) ≤ 0xFFFF ∧ checksum_fiveco [0, 0x31, 0, 0, 0, 0, 7] 0 7 = .ok 0xF8CE :=
  ⟨by decide, by decide,
    ((C33_checksum_accumulator_in_range [0, 0x31, 0, 0, 0, 0, 7] 0 7 (by decide)).2.1 0xF8CE
      (by decide)).1,
    ((C33_checksum_accumulator_in_range [0, 0x31, 0, 0, 0, 0, 7] 0 7 (by decide)).2.1 0xF8CE
      (by decide)).2⟩

/-! ## The checksum and the Internet checksum (C34) -/

set_option maxRecDepth 100000 in
theorem xor_ff00 : ∀ x : Fin 256, (x.val * 256) ^^^ 0xFF00 = 0xFF00 - x.val * 256 := by
  decide

set_option maxRecDepth 100000 in
theorem xor_ff : ∀ x : Fin 256, x.val ^^^ 0x00FF = 0xFF - x.val := by
  decide

theorem xor_ffff (x : Nat) (h : x < 65536) : x ^^^ 0xFFFF = 0xFFFF - x := by
  apply Nat.eq_of_testBit_eq
  intro i
  have e1 : (0xFFFF : Nat) = 2 ^ 16 - 1 := by norm_num
  have e2 : 0xFFFF - x = 2 ^ 16 - (x + 1) := by omega
  rw [e2, Nat.testBit_two_pow_sub_succ (by simpa using h), Nat.testBit_xor, e1,
    Nat.testBit_two_pow_sub_one]
  by_cases hi : i < 16
  · simp [hi]
  · have : x.testBit i = false := by
      apply Nat.testBit_lt_two_pow
      calc x < 2 ^ 16 := by simpa using h
        _ ≤ 2 ^ i := Nat.pow_le_pow_right (by norm_num) (by omega)
    simp [hi, this]

/-- The two foldings of a 32-bit value: 0 for 0, and otherwise the representative of the
value modulo `0xFFFF` in the range 1 to `0xFFFF`. -/
theorem fold16_fold16_eq (x : Nat) (h : x < 4294967296) :
    fold16 (fold16 x) = if x = 0 then 0 else (x - 1) % 65535 + 1 := by
  rw [fold16_eq, fold16_eq]
  split <;> omega

theorem spec_words_append (x : Byte) : ∀ (b : List Byte),
    (spec_words (b ++ [x])).sum
      = (spec_words b).sum + (if b.length % 2 = 0 then x.val * 256 else x.val) ∧
    (spec_words (b ++ [x])).length
      = (spec_words b).length + (if b.length % 2 = 0 then 1 else 0)
  | [] => by simp [spec_words]
  | [a] => by simp [spec_words]
  | a :: c :: rest => by
    obtain ⟨h1, h2⟩ := spec_words_append x rest
    have e : (a :: c :: rest).length % 2 = rest.length % 2 := by
      simp only [List.length_cons]
      omega
    have e' : (a :: c :: rest) ++ [x] = a :: c :: (rest ++ [x]) := rfl
    have w1 : spec_words (a :: c :: (rest ++ [x]))
        = (a.val * 256 + c.val) :: spec_words (rest ++ [x]) := rfl
    have w2 : spec_words (a :: c :: rest) = (a.val * 256 + c.val) :: spec_words rest := rfl
    rw [e', w1, w2, e, List.sum_cons, List.sum_cons, List.length_cons, List.length_cons, h1, h2]
    constructor <;> omega

/-- The accumulator of the checksum and the sum of the words add up to `0xFFFF` by
word: each term of the accumulator is the complement of its octet in the word. -/
theorem specSum_add_words (b : List Byte) :
    specSum b + (spec_words b).sum = 65535 * (spec_words b).length := by
  rw [specSum_eq]
  induction b using List.reverseRecOn with
  | nil => simp [accSum, spec_words]
  | append_singleton b x ih =>
    obtain ⟨h1, h2⟩ := spec_words_append x b
    rw [accSum_append, h1, h2]
    have hx := x.isLt
    have e1 := xor_ff00 x
    have e2 := xor_ff x
    simp only [List.length_append, List.length_singleton]
    by_cases hpar : b.length % 2 = 0
    · have hp1 : (b.length + 1) % 2 = 1 := by omega
      have hp0 : ¬ (b.length % 2 = 1) := by omega
      rw [if_pos hpar, if_pos hpar, if_pos hpar, if_pos hp1, e1]
      rw [if_neg hp0] at ih
      omega
    · have hp1 : ¬ ((b.length + 1) % 2 = 1) := by omega
      have hp0 : b.length % 2 = 1 := by omega
      rw [if_neg hpar, if_neg hpar, if_neg hpar, if_neg hp1, e2]
      rw [if_pos hp0] at ih
      omega

theorem spec_words_length (b : List Byte) : 2 * (spec_words b).length = b.length + b.length % 2 := by
  induction b using List.reverseRecOn with
  | nil => simp [spec_words]
  | append_singleton b x ih =>
    rw [(spec_words_append x b).2]
    simp only [List.length_append, List.length_singleton]
    split <;> omega

/-- The checksum of the dissector against the Internet checksum, for a sequence of 1 to
65535 octets: both are `0xFFFF` minus the word sum modulo `0xFFFF`, and they differ
exactly in how a result congruent to 0 is written. -/
theorem checksum_vs_ip (b : List Byte) (h1 : 1 ≤ b.length) (h2 : b.length ≤ 65535) :
    fold16 (fold16 (specSum b))
      = (if 0 < (spec_words b).sum ∧ (spec_words b).sum % 65535 = 0 ∧
            (spec_words b).sum < 65535 * (spec_words b).length then 0xFFFF
          else spec_ip_checksum b) ∧
    ((0 < (spec_words b).sum ∧ (spec_words b).sum % 65535 = 0 ∧
        (spec_words b).sum < 65535 * (spec_words b).length) → spec_ip_checksum b = 0) := by
  have hid := specSum_add_words b
  have hn := spec_words_length b
  have hs : (spec_words b).sum < 4294967296 := by omega
  have hx : specSum b < 4294967296 := by omega
  have hip : spec_ip_checksum b = 0xFFFF - fold16 (fold16 (spec_words b).sum) := by
    unfold spec_ip_checksum
    exact xor_ffff _ (fold16_fold16_lt _ hs)
  rw [hip, fold16_fold16_eq _ hx, fold16_fold16_eq _ hs]
  generalize (spec_words b).sum = s at *
  generalize (spec_words b).length = n at *
  generalize specSum b = x at *
  constructor
  · split_ifs <;> omega
  · intro h
    split_ifs <;> omega

/-- Counterexample to C34 as stated: the six header octets of a `READ_REGISTER` frame
with sequence id `0xFFDE` and no parameter. Their words `0x0021`, `0xFFDE`, `0x0000` add
up to `0xFFFF`, so the Internet checksum is the complement `0x0000`; `checksum_fiveco`
adds the complements of the octets, `0x1FFFE`, and folds them to `0xFFFF`. The frame
with the trailer `00 00` is flagged with a bad checksum, the frame with the trailer
`FF FF` is not. -/
theorem C34_counterexample :
    spec_words [0x00, 0x21, 0xFF, 0xDE, 0x00, 0x00] = [0x0021, 0xFFDE, 0x0000]
    ∧ spec_ip_checksum [0x00, 0x21, 0xFF, 0xDE, 0x00, 0x00] = 0x0000
    ∧ checksum_fiveco [0x00, 0x21, 0xFF, 0xDE, 0x00, 0x00] 0 6 = .ok 0xFFFF
    ∧ Event.col_bad_checksum ∈
        (dissect_FiveCoLegacy 5 [0x00, 0x21, 0xFF, 0xDE, 0x00, 0x00, 0x00, 0x00]
          ⟨1, false, 7⟩ ⟨0, [], []⟩).trace
    ∧ Event.col_bad_checksum ∉
        (dissect_FiveCoLegacy 5 [0x00, 0x21, 0xFF, 0xDE, 0x00, 0x00, 0xFF, 0xFF]
          ⟨1, false, 7⟩ ⟨0, [], []⟩).trace := by
  decide

/-- C34, as amended. For every sequence `b` of 1 to 65535 octets, wherever it lies in the
buffer, `checksum_fiveco` is the Internet checksum of `b` (the complement of the
end-around-carry folded sum of its big-endian words, an odd trailing octet padded with a
zero low octet), except when the sum of the words is a positive multiple of `0xFFFF`
without all words being `0xFFFF`: then the Internet checksum is `0x0000` and
`checksum_fiveco` is `0xFFFF`, the other way to write zero in one's complement. -/
theorem C34_checksum_is_ip_checksum_up_to_zero (pre b rest : List Byte)
    (h1 : 1 ≤ b.length) (h2 : b.length ≤ 65535) :
    checksum_fiveco (pre ++ (b ++ rest)) pre.length b.length
      = .ok (if 0 < (spec_words b).sum ∧ (spec_words b).sum % 65535 = 0 ∧
                (spec_words b).sum < 65535 * (spec_words b).length then 0xFFFF
              else spec_ip_checksum b) ∧
    ((0 < (spec_words b).sum ∧ (spec_words b).sum % 65535 = 0 ∧
        (spec_words b).sum < 65535 * (spec_words b).length) → spec_ip_checksum b = 0) ∧
    (¬ (0 < (spec_words b).sum ∧ (spec_words b).sum % 65535 = 0 ∧
        (spec_words b).sum < 65535 * (spec_words b).length) →
      checksum_fiveco (pre ++ (b ++ rest)) pre.length b.length = .ok (spec_ip_checksum b)) := by
  obtain ⟨hv, hz⟩ := checksum_vs_ip b h1 h2
  have hc := checksum_fiveco_mid pre b rest h2
  rw [hv] at hc
  refine ⟨hc, hz, ?_⟩
  intro hn
  rw [hc, if_neg hn]

/-- Witness of C34 as amended, on the six header octets of a `FLASH_AREA_ERASE` frame with
sequence id 0 followed by their trailer: the word sum is `0x0031` and both checksums are
`0xFFCE`. -/
theorem C34_checksum_is_ip_checksum_up_to_zero_witness :
    checksum_fiveco (([] : List Byte) ++ ([0x00, 0x31, 0x00, 0x00, 0x00, 0x00] ++ [0xFF, 0xCE]))
        ([] : List Byte).length ([0x00, 0x31, 0x00, 0x00, 0x00, 0x00] : List Byte).length
      = .ok (spec_ip_checksum [0x00, 0x31, 0x00, 0x00, 0x00, 0x00])
    ∧ spec_ip_checksum [0x00, 0x31, 0x00, 0x00, 0x00, 0x00] = 0xFFCE :=
  ⟨(C34_checksum_is_ip_checksum_up_to_zero [] [0x00, 0x31, 0x00, 0x00, 0x00, 0x00] [0xFF, 0xCE]
      (by decide) (by decide)).2.2 (by decide), by decide⟩

/-! ## The register catalog (C35) -/

/-- Every entry of the catalog sits at the index that is its address. -/
theorem aRegisters_index : ∀ i, i < 22 → (aRegisters[i]?).map (fun r => r.unValue) = some i := by
  decide

/-- The test of the register decoders holds exactly for the addresses up to `0x15`, and
gives the entry at that index. -/
theorem known_register_iff (a : Nat) :
    (a ≤ 0x15 → ∃ r, known_register a = some r ∧ aRegisters[a]? = some r ∧ r.unValue = a) ∧
    (¬ a ≤ 0x15 → known_register a = none) := by
  constructor
  · intro ha
    have hi := aRegisters_index a (by omega)
    cases hg : aRegisters[a]? with
    | none => rw [hg] at hi; simp at hi
    | some r =>
      rw [hg] at hi
      simp only [Option.map_some', Option.some.injEq] at hi
      refine ⟨r, ?_, rfl, hi⟩
      unfold known_register
      rw [hg]
      simp only
      rw [if_pos hi]
  · intro ha
    unfold known_register
    have hlen : aRegisters.length = 22 := rfl
    rw [List.getElem?_eq_none (by omega)]

/-- C35. The catalog `aRegisters` has 22 entries and the entry at index `i` has the address
`i`, for every `i` from 0 to 21. So the test `(ucRegAdd < array_length(aRegisters)) &&
(aRegisters[ucRegAdd].unValue == ucRegAdd)` of the register read decoder (lines 484-485),
of the register write decoder (lines 506-507) and of the register answer decoder (lines
633-634) holds for an address `a` if and only if `a <= 0x15`, and the entry it selects is
the one at index `a`, whose address field is `a`. For a known address each decoder takes
its branch of the known register with that entry (the name in the register read list, the
entry's rendering in the write and answer decoders); for any other address the register
read decoder adds the unknown-register entry and the write and answer decoders add the
marker of the octets not interpreted and stop. -/
theorem C35_register_catalog_well_formed :
    aRegisters.length = 22
    ∧ (∀ i, i < 22 → (aRegisters[i]?).map (fun r => r.unValue) = some i)
    ∧ (∀ a : Nat, (known_register a).isSome = true ↔ a ≤ 0x15)
    ∧ (∀ (a : Nat) (r : FCOSRegisterDef), known_register a = some r →
        r.unValue = a ∧ aRegisters[a]? = some r)
    ∧ (∀ a : Byte, a.val ≤ 0x15 → ∃ r, aRegisters[a.val]? = some r ∧ r.unValue = a.val ∧
        (∀ (tvb : Tvb) (off j : Nat), at_offset tvb (off + j) [a] →
          read_register_loop tvb off 1 j
            = ⟨[.add_item ⟨.hf_fiveco_regread, off + j, 0⟩,
                .append_text ⟨.hf_fiveco_regread, off + j, 0⟩ (.reg_name r.name),
                .append_text ⟨.hf_fiveco_regread, off + j, 0⟩ (.paren_hex a.val)], .ok ()⟩) ∧
        (∀ (tvb : Tvb) (off N fuel i : Nat), i < off + N → tvb[i]? = some a →
          write_register_loop tvb off N (fuel + 1) i
            = W.bind (render_register tvb a.val r ((i + 1) % 65536)) (fun i =>
                write_register_loop tvb off N fuel i)) ∧
        (∀ (tvb : Tvb) (off N : Nat) (v : FCOSConvRequestVal) (fuel i y : Nat),
          y < v.usParaLen → i < off + N → v.pData[y]? = some a → tvb[i]? = some a →
          read_register_answer_loop tvb off N v (fuel + 1) i y
            = W.bind (render_register tvb a.val r ((i + 1) % 65536)) (fun i =>
                read_register_answer_loop tvb off N v fuel i ((y + 1) % 65536))))
    ∧ (∀ a : Byte, ¬ a.val ≤ 0x15 →
        (∀ (tvb : Tvb) (off j : Nat), at_offset tvb (off + j) [a] →
          read_register_loop tvb off 1 j
            = ⟨[.add_item ⟨.hf_fiveco_regreadunknown, off + j, 0⟩,
                .append_text ⟨.hf_fiveco_regreadunknown, off + j, 0⟩ (.paren_hex a.val)],
               .ok ()⟩) ∧
        (∀ (tvb : Tvb) (off N fuel i : Nat), i < off + N → tvb[i]? = some a →
          write_register_loop tvb off N (fuel + 1) i
            = W.bind (proto_tree_add_item .hf_fiveco_regreaduk tvb ((i + 1) % 65536)
                (off + N - (i + 1) % 65536)) (fun fiveco_data_item =>
                  proto_item_append_text fiveco_data_item .depends_on_product)) ∧
        (∀ (tvb : Tvb) (off N : Nat) (v : FCOSConvRequestVal) (fuel i y : Nat),
          y < v.usParaLen → i < off + N → v.pData[y]? = some a →
          read_register_answer_loop tvb off N v (fuel + 1) i y
            = W.bind (proto_tree_add_item .hf_fiveco_regreaduk tvb i (off + N - i))
                (fun fiveco_data_item =>
                  proto_item_append_text fiveco_data_item .depends_on_product))) := by
  refine ⟨rfl, aRegisters_index, ?_, ?_, ?_, ?_⟩
  · intro a
    constructor
    · intro h
      by_contra hc
      rw [(known_register_iff a).2 hc] at h
      simp at h
    · intro h
      obtain ⟨r, hr, _⟩ := (known_register_iff a).1 h
      rw [hr]
      rfl
  · intro a r h
    have ha : a ≤ 0x15 := by
      by_contra hc
      rw [(known_register_iff a).2 hc] at h
      simp at h
    obtain ⟨r', hr', hg, hv⟩ := (known_register_iff a).1 ha
    rw [hr'] at h
    simp only [Option.some.injEq] at h
    subst h
    exact ⟨hv, hg⟩
  · intro a ha
    obtain ⟨r, hr, hg, hv⟩ := (known_register_iff a.val).1 ha
    refine ⟨r, hg, hv, ?_, ?_, ?_⟩
    · intro tvb off j hat
      have h := read_register_loop_eq tvb off [a] j hat
      simp only [List.length_singleton] at h
      rw [h]
      simp [spec_read_register_entries, spec_read_register_entry, hr]
    · intro tvb off N fuel i hi hget
      rw [write_register_loop_succ, if_pos hi, tvb_get_guint8_at tvb i a hget, W_lift_ok_bind]
      simp only [hr]
    · intro tvb off N v fuel i y hy hi hget hget'
      rw [read_register_answer_loop_succ, if_pos ⟨hy, hi⟩, tvb_get_guint8_at _ y a hget,
        W_lift_ok_bind]
      simp only [hr]
      rw [tvb_get_guint8_at tvb i a hget', W_lift_ok_bind, if_pos rfl]
  · intro a ha
    have hr := (known_register_iff a.val).2 ha
    refine ⟨?_, ?_, ?_⟩
    · intro tvb off j hat
      have h := read_register_loop_eq tvb off [a] j hat
      simp only [List.length_singleton] at h
      rw [h]
      simp [spec_read_register_entries, spec_read_register_entry, hr]
    · intro tvb off N fuel i hi hget
      rw [write_register_loop_succ, if_pos hi, tvb_get_guint8_at tvb i a hget, W_lift_ok_bind]
      simp only [hr]
    · intro tvb off N v fuel i y hy hi hget
      rw [read_register_answer_loop_succ, if_pos ⟨hy, hi⟩, tvb_get_guint8_at _ y a hget,
        W_lift_ok_bind]
      simp only [hr]

/-! ## The address and version formatters (C39, C40) -/

set_option maxRecDepth 100000 in
theorem toDigits_length_byte : ∀ n : Fin 256,
    (Nat.toDigits 10 n.val).length = if n.val < 10 then 1 else if n.val < 100 then 2 else 3 := by
  decide

theorem fmt_d_byte (b : Byte) : fmt_d b.val = Nat.toDigits 10 b.val := by
  unfold fmt_d
  have := b.isLt
  rw [Nat.mod_eq_of_lt (by omega), if_pos (by omega)]

theorem pData_bytes (b3 b2 b1 b0 : Byte) :
    pData (u32_of_bytes b3 b2 b1 b0) 3 = b3.val ∧ pData (u32_of_bytes b3 b2 b1 b0) 2 = b2.val ∧
    pData (u32_of_bytes b3 b2 b1 b0) 1 = b1.val ∧ pData (u32_of_bytes b3 b2 b1 b0) 0 = b0.val := by
  have h3 := b3.isLt
  have h2 := b2.isLt
  have h1 := b1.isLt
  have h0 := b0.isLt
  unfold pData u32_of_bytes
  simp only [Nat.shiftRight_eq_div_pow]
  norm_num
  refine ⟨?_, ?_, ?_, ?_⟩ <;> omega

/-- The text `dispIP` and `dispMask` hand to `snprintf` is the dotted-decimal text; 14
characters of it are kept. -/
theorem dispIP_eq (b3 b2 b1 b0 : Byte) :
    dispIP (u32_of_bytes b3 b2 b1 b0)
      = String.mk ((spec_dotted_text b3 b2 b1 b0).data.take 14) ∧
    dispMask (u32_of_bytes b3 b2 b1 b0)
      = String.mk ((spec_dotted_text b3 b2 b1 b0).data.take 14) := by
  obtain ⟨e3, e2, e1, e0⟩ := pData_bytes b3 b2 b1 b0
  unfold dispIP dispMask snprintf spec_dotted_text
  rw [e3, e2, e1, e0, fmt_d_byte, fmt_d_byte, fmt_d_byte, fmt_d_byte]
  exact ⟨rfl, rfl⟩

theorem spec_dotted_length (b3 b2 b1 b0 : Byte) :
    (spec_dotted_text b3 b2 b1 b0).data.length
      = (Nat.toDigits 10 b3.val).length + (Nat.toDigits 10 b2.val).length
        + (Nat.toDigits 10 b1.val).length + (Nat.toDigits 10 b0.val).length + 3 := by
  unfold spec_dotted_text
  simp only [List.length_append, List.length_cons]
  omega

/-- The dotted-decimal text is complete exactly when it has at most 14 characters, which
is when one of the four octets is below 100. -/
theorem dispIP_complete_iff (b3 b2 b1 b0 : Byte) :
    dispIP (u32_of_bytes b3 b2 b1 b0) = spec_dotted_text b3 b2 b1 b0
      ↔ ¬ (100 ≤ b3.val ∧ 100 ≤ b2.val ∧ 100 ≤ b1.val ∧ 100 ≤ b0.val) := by
  rw [(dispIP_eq b3 b2 b1 b0).1]
  have hl := spec_dotted_length b3 b2 b1 b0
  have l3 := toDigits_length_byte b3
  have l2 := toDigits_length_byte b2
  have l1 := toDigits_length_byte b1
  have l0 := toDigits_length_byte b0
  have key : String.mk ((spec_dotted_text b3 b2 b1 b0).data.take 14) = spec_dotted_text b3 b2 b1 b0
      ↔ (spec_dotted_text b3 b2 b1 b0).data.length ≤ 14 := by
    constructor
    · intro h
      have h' := congrArg String.data h
      simp only at h'
      exact List.take_eq_self_iff _ |>.1 h'
    · intro h
      rw [List.take_of_length_le h]
  rw [key, hl, l3, l2, l1, l0]
  split_ifs <;> omega

theorem and_ff000000 (v : Nat) : v &&& 0xFF000000 = (v / 16777216 % 256) * 16777216 := by
  apply Nat.eq_of_testBit_eq
  intro i
  have hM : (0xFF000000 : Nat) = 2 ^ 24 * (2 ^ 8 - 1) := by norm_num
  have hD : (16777216 : Nat) = 2 ^ 24 := by norm_num
  have h256 : (256 : Nat) = 2 ^ 8 := by norm_num
  rw [Nat.testBit_and, hM, hD, h256, Nat.mul_comm (v / 2 ^ 24 % 2 ^ 8), Nat.testBit_mul_pow_two,
    Nat.testBit_mul_pow_two, Nat.testBit_two_pow_sub_one, Nat.testBit_mod_two_pow,
    ← Nat.shiftRight_eq_div_pow, Nat.testBit_shiftRight]
  by_cases h : 24 ≤ i
  · have e : 24 + (i - 24) = i := by omega
    simp [h, e, Bool.and_comm]
  · simp [h]

theorem and_ff (x : Nat) : x &&& 0xFF = x % 256 := by
  have : (0xFF : Nat) = 2 ^ 8 - 1 := by norm_num
  rw [this, Nat.and_pow_two_sub_one_eq_mod]

theorem fmt_d_small (n : Nat) (h : n < 2147483648) : fmt_d n = Nat.toDigits 10 n := by
  unfold fmt_d
  rw [Nat.mod_eq_of_lt (by omega), if_pos h]

/-- The text `dispVersion` hands to `snprintf` when the most significant octet is not 0:
the firmware number is written with the octet `b1` twice, and 24 characters are kept. -/
theorem dispVersion_hw (b3 b2 b1 b0 : Byte) (h : b3.val ≠ 0) :
    dispVersion (u32_of_bytes b3 b2 b1 b0)
      = String.mk ((spec_version_text b3 b2 b1 b1).data.take 24) := by
  have h3 := b3.isLt
  have h2 := b2.isLt
  have h1 := b1.isLt
  have h0 := b0.isLt
  have hc : ¬ (u32_of_bytes b3 b2 b1 b0 &&& 0xFF000000 = 0) := by
    rw [and_ff000000]
    unfold u32_of_bytes
    omega
  have e3 : (u32_of_bytes b3 b2 b1 b0 >>> 24) &&& 0xFF = b3.val := by
    rw [and_ff, Nat.shiftRight_eq_div_pow]
    unfold u32_of_bytes
    norm_num
    omega
  have e2 : (u32_of_bytes b3 b2 b1 b0 >>> 16) &&& 0xFF = b2.val := by
    rw [and_ff, Nat.shiftRight_eq_div_pow]
    unfold u32_of_bytes
    norm_num
    omega
  have e1 : (u32_of_bytes b3 b2 b1 b0 >>> 8) &&& 0xFF = b1.val := by
    rw [and_ff, Nat.shiftRight_eq_div_pow]
    unfold u32_of_bytes
    norm_num
    omega
  unfold dispVersion
  rw [if_neg hc]
  simp only [e3, e2, e1]
  unfold spec_version_text snprintf
  rw [if_neg h, fmt_d_byte, fmt_d_byte, fmt_d_byte]

/-- The text `dispVersion` hands to `snprintf` when the most significant octet is 0: the
two 16-bit halves, of which 10 characters are kept. -/
theorem dispVersion_fw (b2 b1 b0 : Byte) :
    dispVersion (u32_of_bytes 0 b2 b1 b0)
      = String.mk ((spec_version_text 0 b2 b1 b0).data.take 10) := by
  have h2 := b2.isLt
  have h1 := b1.isLt
  have h0 := b0.isLt
  have hz : ((0 : Byte) : Nat) = 0 := rfl
  have hc : u32_of_bytes 0 b2 b1 b0 &&& 0xFF000000 = 0 := by
    rw [and_ff000000]
    unfold u32_of_bytes
    rw [hz]
    omega
  have eH : (u32_of_bytes 0 b2 b1 b0 >>> 16) &&& 0xFFFF = 0 * 256 + b2.val := by
    rw [and_ffff, shr16]
    unfold u32_of_bytes
    rw [hz]
    omega
  have eL : u32_of_bytes 0 b2 b1 b0 &&& 0xFFFF = b1.val * 256 + b0.val := by
    rw [and_ffff]
    unfold u32_of_bytes
    rw [hz]
    omega
  unfold dispVersion
  rw [if_pos hc]
  simp only [eH, eL]
  unfold spec_version_text snprintf
  rw [if_pos hz, hz, fmt_d_small _ (by omega), fmt_d_small _ (by omega)]

set_option maxRecDepth 100000 in
/-- C39 (the code departs from the claim). `dispIP` and `dispMask` call `snprintf` with a
size of 15 for `"%d.%d.%d.%d"` (lines 915 and 922): 14 characters are stored, one less than
the longest dotted-decimal text has. So `192.168.0.1` and `255.255.255.0` are complete,
but the address `0xFFFFFFFF` gives `255.255.255.25`, `192.168.100.100` gives
`192.168.100.10` and the mask `255.255.255.128` gives `255.255.255.12`. For every value
the text is the first 14 characters of the dotted-decimal text of the claim (on a
little-endian host), and it is complete exactly when one of the four octets is below
100. -/
theorem C39_dispIP_drops_last_character :
    dispIP 0xFFFFFFFF = "255.255.255.25"
    ∧ spec_dotted_text 255 255 255 255 = "255.255.255.255"
    ∧ dispIP 0xC0A86464 = "192.168.100.10"
    ∧ spec_dotted_text 192 168 100 100 = "192.168.100.100"
    ∧ dispMask 0xFFFFFF80 = "255.255.255.12"
    ∧ spec_dotted_text 255 255 255 128 = "255.255.255.128"
    ∧ dispIP 0xC0A80001 = "192.168.0.1" ∧ dispMask 0xFFFFFF00 = "255.255.255.0"
    ∧ (∀ b3 b2 b1 b0 : Byte,
        dispIP (u32_of_bytes b3 b2 b1 b0)
          = String.mk ((spec_dotted_text b3 b2 b1 b0).data.take 14)
        ∧ dispMask (u32_of_bytes b3 b2 b1 b0)
          = String.mk ((spec_dotted_text b3 b2 b1 b0).data.take 14)
        ∧ (dispIP (u32_of_bytes b3 b2 b1 b0) = spec_dotted_text b3 b2 b1 b0
            ↔ ¬ (100 ≤ b3.val ∧ 100 ≤ b2.val ∧ 100 ≤ b1.val ∧ 100 ≤ b0.val))) := by
  refine ⟨by decide, by decide, by decide, by decide, by decide, by decide, by decide,
    by decide, ?_⟩
  intro b3 b2 b1 b0
  exact ⟨(dispIP_eq b3 b2 b1 b0).1, (dispIP_eq b3 b2 b1 b0).2, dispIP_complete_iff b3 b2 b1 b0⟩

set_option maxRecDepth 100000 in
/-- C40 (the code departs from the claim). In the branch of a most significant octet
other than 0, `dispVersion` computes the firmware minor number as `(version>>8) & 0xFF`
(line 898), the same as the firmware major number one line above, not `version & 0xFF`: the
value `0x01020304` gives `HW: 1.2 / FW: 3.3`, not `HW: 1.2 / FW: 3.4`, and the text does
not depend on the least significant octet at all. The sizes given to `snprintf` (11 and
25, lines 891 and 899) also keep only 10 and 24 characters: `0x00FFFFFF` gives
`FW: 255.65`, not `FW: 255.65535`, and `0xFFFFFFFF` gives `HW: 255.255 / FW: 255.25`. The
value `0x00010002` gives the complete `FW: 1.2`. -/
theorem C40_dispVersion_repeats_firmware_major :
    dispVersion 0x01020304 = "HW: 1.2 / FW: 3.3"
    ∧ spec_version_text 1 2 3 4 = "HW: 1.2 / FW: 3.4"
    ∧ dispVersion 0x00FFFFFF = "FW: 255.65"
    ∧ spec_version_text 0 255 255 255 = "FW: 255.65535"
    ∧ dispVersion 0xFFFFFFFF = "HW: 255.255 / FW: 255.25"
    ∧ spec_version_text 255 255 255 255 = "HW: 255.255 / FW: 255.255"
    ∧ dispVersion 0x00010002 = "FW: 1.2" ∧ spec_version_text 0 1 0 2 = "FW: 1.2"
    ∧ (∀ b3 b2 b1 b0 : Byte, b3.val ≠ 0 →
        dispVersion (u32_of_bytes b3 b2 b1 b0)
          = String.mk ((spec_version_text b3 b2 b1 b1).data.take 24))
    ∧ (∀ b3 b2 b1 b0 c0 : Byte, b3.val ≠ 0 →
        dispVersion (u32_of_bytes b3 b2 b1 b0) = dispVersion (u32_of_bytes b3 b2 b1 c0))
    ∧ (∀ b2 b1 b0 : Byte,
        dispVersion (u32_of_bytes 0 b2 b1 b0)
          = String.mk ((spec_version_text 0 b2 b1 b0).data.take 10)) := by
  refine ⟨by decide, by decide, by decide, by decide, by decide, by decide, by decide,
    by decide, ?_, ?_, ?_⟩
  · intro b3 b2 b1 b0 h
    exact dispVersion_hw b3 b2 b1 b0 h
  · intro b3 b2 b1 b0 c0 h
    rw [dispVersion_hw b3 b2 b1 b0 h, dispVersion_hw b3 b2 b1 c0 h]
  · intro b2 b1 b0
    exact dispVersion_fw b2 b1 b0

/-! ## The marker of the register answer decoder (C32) -/

/-- C32 (the code departs from the claim). In the register answer decoder the answer's
address octet is read by `tvb_get_guint8(tvb, i++)` inside the condition of line 633-635,
after the two tests of the requested address: when the requested address is not in the
catalog the `&&` stops before it and the marker of lines 677-680 starts at the address
octet and covers the octets left from there; when the address is known but differs from
the answer's octet, `i` has been stepped and the marker starts one octet further, after
the address octet, and is one octet shorter. In both cases the marker is the only thing
added and the loop is left. On the answer payload `[0x99, 0x2D]` at offset 6 the marker is
at offset 6 over 2 octets after the request `[0x99]`, and at offset 7 over 1 octet after
the request `[0x14]`. -/
theorem C32_answer_marker_start_differs :
    Event.add_item ⟨.hf_fiveco_regreaduk, 6, 2⟩ ∈
        (dissect_FiveCoLegacy 5 [0x00, 0x23, 0x00, 0x02, 0x00, 0x02, 0x99, 0x2D, 0x66, 0xAB]
          ⟨2, false, 7⟩
          (run_deliveries 5
            [([0x00, 0x21, 0x00, 0x01, 0x00, 0x01, 0x99, 0x66, 0xDC], ⟨1, false, 7⟩)]
            ⟨0, [], []⟩)).trace
    ∧ Event.add_item ⟨.hf_fiveco_regreaduk, 7, 1⟩ ∈
        (dissect_FiveCoLegacy 5 [0x00, 0x23, 0x00, 0x02, 0x00, 0x02, 0x99, 0x2D, 0x66, 0xAB]
          ⟨2, false, 7⟩
          (run_deliveries 5
            [([0x00, 0x21, 0x00, 0x01, 0x00, 0x01, 0x14, 0xEB, 0xDC], ⟨1, false, 7⟩)]
            ⟨0, [], []⟩)).trace
    ∧ Event.add_item ⟨.hf_fiveco_regreaduk, 6, 2⟩ ∉
        (dissect_FiveCoLegacy 5 [0x00, 0x23, 0x00, 0x02, 0x00, 0x02, 0x99, 0x2D, 0x66, 0xAB]
          ⟨2, false, 7⟩
          (run_deliveries 5
            [([0x00, 0x21, 0x00, 0x01, 0x00, 0x01, 0x14, 0xEB, 0xDC], ⟨1, false, 7⟩)]
            ⟨0, [], []⟩)).trace
    ∧ (∀ (tvb : Tvb) (off N : Nat) (v : FCOSConvRequestVal) (fuel i y : Nat) (a : Byte),
        y < v.usParaLen → i < off + N → v.pData[y]? = some a → known_register a.val = none →
        read_register_answer_loop tvb off N v (fuel + 1) i y
          = W.bind (proto_tree_add_item .hf_fiveco_regreaduk tvb i (off + N - i))
              (fun fiveco_data_item =>
                proto_item_append_text fiveco_data_item .depends_on_product))
    ∧ (∀ (tvb : Tvb) (off N : Nat) (v : FCOSConvRequestVal) (fuel i y : Nat) (a b : Byte)
        (r : FCOSRegisterDef),
        y < v.usParaLen → i < off + N → v.pData[y]? = some a → known_register a.val = some r →
        tvb[i]? = some b → a ≠ b →
        read_register_answer_loop tvb off N v (fuel + 1) i y
          = W.bind (proto_tree_add_item .hf_fiveco_regreaduk tvb ((i + 1) % 65536)
              (off + N - (i + 1) % 65536)) (fun fiveco_data_item =>
                proto_item_append_text fiveco_data_item .depends_on_product)) := by
  refine ⟨by decide, by decide, by decide, ?_, ?_⟩
  · intro tvb off N v fuel i y a hy hi hget hk
    rw [read_register_answer_loop_succ, if_pos ⟨hy, hi⟩, tvb_get_guint8_at _ y a hget,
      W_lift_ok_bind]
    simp only [hk]
  · intro tvb off N v fuel i y a b r hy hi hget hk hget' hne
    rw [read_register_answer_loop_succ, if_pos ⟨hy, hi⟩, tvb_get_guint8_at _ y a hget,
      W_lift_ok_bind]
    simp only [hk]
    rw [tvb_get_guint8_at tvb i b hget', W_lift_ok_bind, if_neg]
    intro h
    exact hne (Fin.ext h)

/-! ## The frame loop and its 16-bit offset (C38) -/

theorem frame_rest_next_offset (fuel : Nat) (tvb : Tvb) (s : Loop) (st : State)
    (isRequest : Bool) (header_type header_id header_data_length : Nat)
    (pRequestVal : Option FCOSConvRequestVal) (s' : Loop)
    (h : frame_rest fuel tvb s st isRequest header_type header_id header_data_length
      pRequestVal = .next s') :
    s'.tcp_data_offset
      = ((s.tcp_data_offset + 6) % 65536 + (header_data_length + 2)) % 65536 := by
  unfold frame_rest at h
  split at h
  · simp at h
  · simp at h
  · split at h
    · simp at h
    · simp at h
    · simp only at h
      split at h
      · simp at h
      · simp at h
      · simp only [Step.next.injEq] at h
        rw [← h]

/-- The offset after a frame whose loop body runs to its end: the frame lies in the
buffer and the offset is stepped by its declared length, as a `guint16`. -/
theorem frame_step_next_offset (fuel : Nat) (tvb : Tvb) (pinfo : packet_info) (s s' : Loop)
    (h : frame_step fuel tvb pinfo s = .next s') :
    ∃ N, s.tcp_data_offset + N + 8 ≤ tvb.length ∧
      s'.tcp_data_offset = ((s.tcp_data_offset + 6) % 65536 + (N + 2)) % 65536 := by
  cases hN : tvb_get_ntohs tvb (s.tcp_data_offset + 4) with
  | exn =>
    unfold frame_step at h
    simp only [hN] at h
    repeat' (first | (simp at h; done) | split at h)
  | fuel =>
    unfold frame_step at h
    simp only [hN] at h
    repeat' (first | (simp at h; done) | split at h)
  | ok N =>
    have hfit := frame_step_next_fits fuel tvb pinfo s s' N hN h
    refine ⟨N, by omega, ?_⟩
    unfold frame_step at h
    simp only [hN] at h
    repeat' (first | (simp at h; done) | split at h)
    all_goals exact frame_rest_next_offset _ _ _ _ _ _ _ _ _ _ h

/-- In a buffer of at most 65535 octets every completed iteration of the frame loop moves
the offset forward by at least 8, within the buffer. -/
theorem frame_step_advances (fuel : Nat) (tvb : Tvb) (pinfo : packet_info) (s s' : Loop)
    (hlen : tvb.length ≤ 65535) (h : frame_step fuel tvb pinfo s = .next s') :
    s.tcp_data_offset + 8 ≤ s'.tcp_data_offset ∧ s'.tcp_data_offset ≤ tvb.length := by
  obtain ⟨N, h1, h2⟩ := frame_step_next_offset fuel tvb pinfo s s' h
  omega

theorem frame_walk_steps_advance (ifuel : Nat) (tvb : Tvb) (pinfo : packet_info)
    (hlen : tvb.length ≤ 65535) :
    ∀ (k : Nat) (s s' : Loop), s.tcp_data_offset ≤ tvb.length →
      frame_walk_steps ifuel tvb pinfo k s = some s' →
      s.tcp_data_offset + 8 * k ≤ s'.tcp_data_offset ∧ s'.tcp_data_offset ≤ tvb.length := by
  intro k
  induction k with
  | zero =>
    intro s s' hs h
    simp only [frame_walk_steps, Option.some.injEq] at h
    rw [← h]
    omega
  | succ k ih =>
    intro s s' hs h
    unfold frame_walk_steps at h
    split at h
    · cases hstep : frame_step ifuel tvb pinfo s with
      | next s1 =>
        rw [hstep] at h
        simp only at h
        obtain ⟨a1, a2⟩ := frame_step_advances ifuel tvb pinfo s s1 hlen hstep
        obtain ⟨b1, b2⟩ := ih s1 s' a2 h
        omega
      | done o =>
        rw [hstep] at h
        simp at h
    · simp at h

/-- In a buffer of at most 65535 octets a budget of more iterations than the buffer has
groups of 8 octets is never used up by the frame loop: a larger budget gives the same
outcome. -/
theorem frame_walk_budget (ifuel : Nat) (tvb : Tvb) (pinfo : packet_info)
    (hlen : tvb.length ≤ 65535) :
    ∀ (n m : Nat) (s : Loop), tvb.length < s.tcp_data_offset + 8 * n →
      frame_walk ifuel tvb pinfo (n + m) s = frame_walk ifuel tvb pinfo n s := by
  intro n
  induction n with
  | zero =>
    intro m s hs
    have hge : ¬ s.tcp_data_offset < tvb_captured_length tvb := by
      unfold tvb_captured_length
      omega
    rw [frame_walk_at_end _ _ _ _ _ hge, frame_walk_at_end _ _ _ _ _ hge]
  | succ n ih =>
    intro m s hs
    rw [show n + 1 + m = (n + m) + 1 by omega, frame_walk_succ, frame_walk_succ]
    split
    · cases hstep : frame_step ifuel tvb pinfo s with
      | next s1 =>
        simp only
        obtain ⟨a1, _⟩ := frame_step_advances ifuel tvb pinfo s s1 hlen hstep
        exact ih m s1 (by omega)
      | done o => rfl
    · rfl

theorem minimal_frames_length (k : Nat) : (delivery_minimal_frames k).length = 8 * k := by
  unfold delivery_minimal_frames
  induction k with
  | zero => rfl
  | succ k ih =>
    rw [List.replicate_succ, List.flatten_cons, List.length_append, ih]
    simp only [List.length_cons, List.length_nil]
    omega

theorem minimal_frames_at (k j : Nat) (hj : j < k) :
    at_offset (delivery_minimal_frames k) (8 * j)
      [0x00, 0x31, 0x00, 0x00, 0x00, 0x00, 0xFF, 0xCE] := by
  rw [at_offset_iff]
  refine ⟨delivery_minimal_frames j, delivery_minimal_frames (k - j - 1), ?_,
    minimal_frames_length j⟩
  unfold delivery_minimal_frames
  rw [← List.flatten_cons, ← List.replicate_succ, ← List.flatten_append,
    ← List.replicate_add]
  congr 2
  omega

/-- The loop body on a frame `FLASH_AREA_ERASE` without parameter that starts below
offset 65530: the frame is decoded and the offset is stepped by 8, as a `guint16`. -/
theorem minimal_frame_step (ifuel : Nat) (tvb : Tvb) (pinfo : packet_info) (s : Loop)
    (hat : at_offset tvb s.tcp_data_offset [0x00, 0x31, 0x00, 0x00, 0x00, 0x00, 0xFF, 0xCE])
    (hloc : s.tcp_data_offset + 6 < 65536) :
    ∃ s', frame_step ifuel tvb pinfo s = .next s' ∧
      s'.tcp_data_offset = (s.tcp_data_offset + 8) % 65536 := by
  obtain ⟨pre, rest, htvb, hpre⟩ := (at_offset_iff _ _ _).1 hat
  have hat' : at_offset tvb s.tcp_data_offset
      ([0x00, 0x31] ++ ([0x00, 0x00] ++ ([0x00, 0x00] ++ [0xFF, 0xCE]))) := hat
  obtain ⟨a0, r0⟩ := at_offset_append _ _ _ _ hat'
  obtain ⟨a2, r2⟩ := at_offset_append _ _ _ _ r0
  obtain ⟨a4, a6⟩ := at_offset_append _ _ _ _ r2
  simp only [List.length_cons, List.length_nil] at a2 r2 a4 a6
  have g0 := tvb_get_ntohs_at tvb _ _ _ a0
  have g2 := tvb_get_ntohs_at tvb _ _ _ a2
  have g4 := tvb_get_ntohs_at tvb _ _ _ a4
  have g6 := tvb_get_ntohs_at tvb _ _ _ a6
  have hh : frame_header tvb s.tcp_data_offset = some (0x31, 0, 0) := by
    unfold frame_header
    rw [Nat.add_zero, g0]
    simp only
    rw [if_neg (by decide), show s.tcp_data_offset + 2 = s.tcp_data_offset + (0 + 1 + 1) by omega,
      g2]
    simp only
    rw [show s.tcp_data_offset + 4 = s.tcp_data_offset + (0 + 1 + 1) + (0 + 1 + 1) by omega, g4]
    simp only
    rw [if_neg (by
      show ¬ (0 > u32_sub (u32_sub (tvb_captured_length tvb) s.tcp_data_offset) 8)
      exact Nat.not_lt_zero _)]
    rfl
  have hcal : checksum_fiveco tvb s.tcp_data_offset ((0 + 6) % 65536) = .ok 0xFFCE := by
    have hm := checksum_fiveco_mid pre [0x00, 0x31, 0x00, 0x00, 0x00, 0x00]
      ([0xFF, 0xCE] ++ rest) (by decide)
    rw [htvb, ← hpre]
    have e : pre ++ ([0x00, 0x31, 0x00, 0x00, 0x00, 0x00, 0xFF, 0xCE] ++ rest)
        = pre ++ ([0x00, 0x31, 0x00, 0x00, 0x00, 0x00] ++ ([0xFF, 0xCE] ++ rest)) := rfl
    rw [e]
    rw [show ((0 + 6) % 65536 : Nat)
      = ([0x00, 0x31, 0x00, 0x00, 0x00, 0x00] : List Byte).length from rfl, hm]
    decide
  have hrx : tvb_get_ntohs tvb (s.tcp_data_offset + 0 + 6) = .ok 0xFFCE := by
    rw [show s.tcp_data_offset + 0 + 6
      = s.tcp_data_offset + (0 + 1 + 1) + (0 + 1 + 1) + (0 + 1 + 1) by omega, g6]
    rfl
  have hp : at_offset tvb (s.tcp_data_offset + 6) [] := by
    have := hat.1
    simp only [List.length_cons, List.length_nil] at this
    exact ⟨by simp only [List.length_nil]; omega, by simp⟩
  have hP : payload_tree ifuel tvb (s.tcp_data_offset + 6) 0 0x31
      (correlate pinfo s.st s.isRequest 0x31 []).2.2 = ⟨[], .ok ()⟩ := rfl
  have hstep := frame_step_at ifuel tvb pinfo s 0x31 0 0 [] 0xFFCE 0xFFCE [] rfl hh hp hcal hrx
    hloc hP
  exact ⟨_, hstep, by simp⟩

/-- The walk over the delivery of 8192 minimal frames, from an offset that starts a frame:
every iteration completes and steps the 16-bit offset by 8, from 65528 back to 0, so the
condition of the loop holds for ever and every budget is used up. -/
theorem minimal_frames_walk (ifuel : Nat) (pinfo : packet_info) (k : Nat) (hk : k = 8192) :
    ∀ (n : Nat) (s : Loop), s.tcp_data_offset % 8 = 0 → s.tcp_data_offset < 65536 →
      (∃ st out, frame_walk ifuel (delivery_minimal_frames k) pinfo n s = .timeout st out) ∧
      (∃ s', frame_walk_steps ifuel (delivery_minimal_frames k) pinfo n s = some s' ∧
        s'.tcp_data_offset = (s.tcp_data_offset + 8 * n) % 65536) := by
  have hlen := minimal_frames_length k
  intro n
  induction n with
  | zero =>
    intro s _ h16
    constructor
    · unfold frame_walk
      rw [if_pos (by unfold tvb_captured_length; omega)]
      exact ⟨_, _, rfl⟩
    · exact ⟨s, rfl, by omega⟩
  | succ n ih =>
    intro s h8 h16
    have hlt : s.tcp_data_offset < tvb_captured_length (delivery_minimal_frames k) := by
      unfold tvb_captured_length
      omega
    have hat := minimal_frames_at k (s.tcp_data_offset / 8) (by omega)
    rw [show 8 * (s.tcp_data_offset / 8) = s.tcp_data_offset by omega] at hat
    obtain ⟨s1, hstep, hoff⟩ := minimal_frame_step ifuel _ pinfo s hat (by omega)
    obtain ⟨ih1, ⟨s2, ih2, ih3⟩⟩ := ih s1 (by omega) (by omega)
    constructor
    · rw [frame_walk_succ, if_pos hlt, hstep]
      exact ih1
    · refine ⟨s2, ?_, by omega⟩
      unfold frame_walk_steps
      rw [if_pos hlt, hstep]
      exact ih2

/-- C38 (the code departs from the claim). The frame offset `tcp_data_offset` is a
`guint16` (line 242) compared with the length of the buffer held in a `guint32` (lines 243
and 284). On the delivery of 65536 octets made of 8192 frames `FLASH_AREA_ERASE` without
parameter, every iteration completes and steps the offset by 8; after the 8192nd
iteration the offset is 0 again, the condition `tcp_data_offset < tcp_data_length` still
holds, and the walk starts over: for every number `n` the loop completes `n` iterations,
and whatever the budget the call does not return. In a buffer of at most 65535 octets the
offset does move forward by at least 8 at every completed iteration, so that `k`
completed iterations end at an offset of at least `8 k` inside the buffer, and a budget of
more iterations than the buffer has groups of 8 octets is never used up. -/
theorem C38_frame_loop_never_ends :
    (delivery_minimal_frames 8192).length = 65536
    ∧ (∀ (fuel : Nat) (pinfo : packet_info) (st : State),
        ∃ st' out, dissect_FiveCoLegacy fuel (delivery_minimal_frames 8192) pinfo st
          = .timeout st' out)
    ∧ (∀ (ifuel n : Nat) (pinfo : packet_info) (st : State),
        ∃ s, frame_walk_steps ifuel (delivery_minimal_frames 8192) pinfo n (loop_start st)
            = some s ∧ s.tcp_data_offset = (8 * n) % 65536)
    ∧ (∀ (ifuel : Nat) (tvb : Tvb) (pinfo : packet_info) (st : State), tvb.length ≤ 65535 →
        (∀ k s, frame_walk_steps ifuel tvb pinfo k (loop_start st) = some s →
          8 * k ≤ s.tcp_data_offset ∧ s.tcp_data_offset ≤ tvb.length) ∧
        (∀ n m, tvb.length < 8 * n →
          frame_walk ifuel tvb pinfo (n + m) (loop_start st)
            = frame_walk ifuel tvb pinfo n (loop_start st))) := by
  refine ⟨minimal_frames_length 8192, ?_, ?_, ?_⟩
  · intro fuel pinfo st
    unfold dissect_FiveCoLegacy
    rw [if_neg (by
      unfold tvb_captured_length
      rw [minimal_frames_length]
      decide)]
    exact (minimal_frames_walk fuel pinfo 8192 rfl fuel (loop_start st) rfl
      (show 0 < 65536 by decide)).1
  · intro ifuel n pinfo st
    obtain ⟨s, h1, h2⟩ :=
      (minimal_frames_walk ifuel pinfo 8192 rfl n (loop_start st) rfl
        (show 0 < 65536 by decide)).2
    refine ⟨s, h1, ?_⟩
    rw [h2]
    show (0 + 8 * n) % 65536 = _
    rw [Nat.zero_add]
  · intro ifuel tvb pinfo st hlen
    constructor
    · intro k s h
      have := frame_walk_steps_advance ifuel tvb pinfo hlen k (loop_start st) s
        (Nat.zero_le _) h
      have e : (loop_start st).tcp_data_offset = 0 := rfl
      rw [e] at this
      omega
    · intro n m h
      exact frame_walk_budget ifuel tvb pinfo hlen n m (loop_start st)
        (by
          have e : (loop_start st).tcp_data_offset = 0 := rfl
          rw [e]
          omega)

/-! ## The id of a frame that is not a request (C31) -/

theorem assigned_frames_succ (ifuel : Nat) (tvb : Tvb) (pinfo : packet_info) (n : Nat)
    (s : Loop) :
    assigned_frames ifuel tvb pinfo (n + 1) s =
      if s.tcp_data_offset < tvb_captured_length tvb then
        (match frame_header tvb s.tcp_data_offset with
          | some h =>
            [{ before := s.st.g_unInternalID, header_type := h.1,
               id := (assign_internal_id pinfo s.st s.isRequest h.1).2.2,
               after := (assign_internal_id pinfo s.st s.isRequest h.1).1.g_unInternalID }]
          | none => []) ++
        (match frame_step ifuel tvb pinfo s with
          | .next s' => assigned_frames ifuel tvb pinfo n s'
          | .done _ => [])
      else [] := rfl

/-- The counter after an iteration of the frame loop that gets to the id assignment is
the counter the assignment left. -/
theorem frame_step_counter (fuel : Nat) (tvb : Tvb) (pinfo : packet_info) (s : Loop)
    (h id n : Nat) (hh : frame_header tvb s.tcp_data_offset = some (h, id, n)) :
    (frame_step fuel tvb pinfo s).state.g_unInternalID
      = (assign_internal_id pinfo s.st s.isRequest h).1.g_unInternalID := by
  cases hp : tvb_memcpy tvb (s.tcp_data_offset + 6) n with
  | ok payload =>
    rw [frame_step_of_header fuel tvb pinfo s h id n payload hh hp,
      (frame_rest_state _ _ _ _ _ _ _ _ _).1, correlate_counter]
  | exn =>
    rw [(frame_step_of_header_short fuel tvb pinfo s h id n hh
      (by intro p hp'; rw [hp] at hp'; simp at hp')).1]
  | fuel =>
    rw [(frame_step_of_header_short fuel tvb pinfo s h id n hh
      (by intro p hp'; rw [hp] at hp'; simp at hp')).1]

/-- The id assignment in a packet that has no stored id, or whose stored id is the
counter: the id given is the counter after the assignment, and the counter is unchanged
when the command is not a request. -/
theorem assign_id_after (pinfo : packet_info) (st : State) (r : Bool) (h : Nat)
    (hI : p_get_proto_data st.proto_data pinfo.num = none ∨
      p_get_proto_data st.proto_data pinfo.num = some st.g_unInternalID) :
    (assign_internal_id pinfo st r h).2.2 = (assign_internal_id pinfo st r h).1.g_unInternalID ∧
    (is_request_command h = false →
      (assign_internal_id pinfo st r h).1.g_unInternalID = st.g_unInternalID) := by
  rcases hI with hI | hI
  · refine ⟨assign_id_counter pinfo st r h hI, ?_⟩
    intro hreq
    rw [assign_counter_new pinfo st r h hI, hreq]
    rfl
  · rw [assign_cached pinfo st r h _ hI]
    exact ⟨rfl, fun _ => rfl⟩

theorem linked_append : ∀ (xs ys : List Assigned) (g g1 g2 : Nat),
    linked g xs g1 → linked g1 ys g2 → linked g (xs ++ ys) g2 := by
  intro xs
  induction xs with
  | nil =>
    intro ys g g1 g2 h1 h2
    simp only [linked] at h1
    rw [h1] at h2
    exact h2
  | cons x xs ih =>
    intro ys g g1 g2 h1 h2
    simp only [linked, List.cons_append] at h1 ⊢
    exact ⟨h1.1, ih ys _ g1 g2 h1.2 h2⟩

/-- In a walk on a packet that has no stored id, or whose stored id is the counter, the
frames follow one another to the counter the walk leaves, and each is given the counter's
value after its assignment, which is the value before it when the frame is not a
request. -/
theorem assigned_frames_linked (ifuel : Nat) (tvb : Tvb) (pinfo : packet_info) :
    ∀ (n : Nat) (s : Loop),
      (p_get_proto_data s.st.proto_data pinfo.num = none ∨
        p_get_proto_data s.st.proto_data pinfo.num = some s.st.g_unInternalID) →
      linked s.st.g_unInternalID (assigned_frames ifuel tvb pinfo n s)
        (frame_walk ifuel tvb pinfo n s).state.g_unInternalID ∧
      ∀ e ∈ assigned_frames ifuel tvb pinfo n s,
        e.id = e.after ∧ (is_request_command e.header_type = false → e.after = e.before) := by
  intro n
  induction n with
  | zero =>
    intro s _
    constructor
    · unfold frame_walk
      split <;> rfl
    · intro e he
      simp [assigned_frames] at he
  | succ n ih =>
    intro s hI
    rw [assigned_frames_succ, frame_walk_succ]
    split
    · cases hh : frame_header tvb s.tcp_data_offset with
      | none =>
        obtain ⟨o, ho, hst, _⟩ := frame_step_of_header_none ifuel tvb pinfo s hh
        rw [ho]
        simp only [List.append_nil]
        constructor
        · show o.state.g_unInternalID = s.st.g_unInternalID
          rw [hst]
        · intro e he
          simp at he
      | some hdr =>
        obtain ⟨h, id, m⟩ := hdr
        obtain ⟨a1, a2⟩ := assign_id_after pinfo s.st s.isRequest h hI
        have hcnt := frame_step_counter ifuel tvb pinfo s h id m hh
        have hcache := frame_step_caches ifuel tvb pinfo s h id m hh
        simp only
        cases hstep : frame_step ifuel tvb pinfo s with
        | next s' =>
          rw [hstep] at hcnt hcache
          simp only [Step.state] at hcnt hcache
          have hI' : p_get_proto_data s'.st.proto_data pinfo.num = none ∨
              p_get_proto_data s'.st.proto_data pinfo.num = some s'.st.g_unInternalID := by
            right
            rw [hcache, a1, hcnt]
          obtain ⟨ih1, ih2⟩ := ih s' hI'
          simp only [List.singleton_append]
          constructor
          · refine ⟨rfl, ?_⟩
            show linked (assign_internal_id pinfo s.st s.isRequest h).1.g_unInternalID _ _
            rw [← hcnt]
            exact ih1
          · intro e he
            simp only [List.mem_cons] at he
            rcases he with he | he
            · rw [he]
              exact ⟨a1, a2⟩
            · exact ih2 e he
        | done o =>
          rw [hstep] at hcnt
          simp only [Step.state] at hcnt
          simp only [List.append_nil]
          constructor
          · refine ⟨rfl, ?_⟩
            show o.state.g_unInternalID = _
            exact hcnt
          · intro e he
            simp only [List.mem_singleton] at he
            rw [he]
            exact ⟨a1, a2⟩
    · constructor
      · rfl
      · intro e he
        simp at he

theorem dissect_assigned_linked (fuel : Nat) (tvb : Tvb) (pinfo : packet_info) (st : State)
    (hnew : p_get_proto_data st.proto_data pinfo.num = none) :
    linked st.g_unInternalID (dissect_assigned fuel tvb pinfo st)
      (dissect_FiveCoLegacy fuel tvb pinfo st).state.g_unInternalID ∧
    ∀ e ∈ dissect_assigned fuel tvb pinfo st,
      e.id = e.after ∧ (is_request_command e.header_type = false → e.after = e.before) := by
  unfold dissect_assigned dissect_FiveCoLegacy
  split
  · exact ⟨rfl, by intro e he; simp at he⟩
  · exact assigned_frames_linked fuel tvb pinfo fuel (loop_start st) (Or.inl hnew)

theorem run_assigned_linked (fuel : Nat) :
    ∀ (ds : List (Tvb × packet_info)) (st : State), first_observed fuel ds st →
      linked st.g_unInternalID (run_assigned fuel ds st)
        (run_deliveries fuel ds st).g_unInternalID ∧
      ∀ e ∈ run_assigned fuel ds st,
        e.id = e.after ∧ (is_request_command e.header_type = false → e.after = e.before) := by
  intro ds
  induction ds with
  | nil => intro st _; exact ⟨rfl, by intro e he; simp [run_assigned] at he⟩
  | cons d ds ih =>
    intro st hf
    obtain ⟨hnew, hrest⟩ := hf
    obtain ⟨d1, d2⟩ := dissect_assigned_linked fuel d.1 d.2 st hnew
    obtain ⟨r1, r2⟩ := ih _ hrest
    constructor
    · exact linked_append _ _ _ _ _ d1 r1
    · intro e he
      simp only [run_assigned, List.mem_append] at he
      rcases he with he | he
      · exact d2 e he
      · exact r2 e he

/-- Frames that are not requests hand the counter on unchanged: after a frame `q` and
frames `mid` that leave the counter as they find it, the next frame finds the counter as
`q` left it. -/
theorem linked_through : ∀ (mid : List Assigned) (q a : Assigned) (post : List Assigned)
    (g g' : Nat), linked g (q :: (mid ++ a :: post)) g' →
    (∀ m ∈ mid, m.after = m.before) → a.before = q.after := by
  intro mid
  induction mid with
  | nil =>
    intro q a post g g' h _
    simp only [linked, List.nil_append] at h
    exact h.2.1
  | cons m mid ih =>
    intro q a post g g' h hmid
    simp only [linked, List.cons_append] at h
    have hm := hmid m (List.mem_cons_self _ _)
    have := ih m a post q.after g' (by simp only [linked]; exact h.2)
      (fun x hx => hmid x (List.mem_cons_of_mem _ hx))
    rw [this, hm, h.2.1]

theorem linked_suffix : ∀ (pre rest : List Assigned) (g g' : Nat),
    linked g (pre ++ rest) g' → ∃ g1, linked g1 rest g' := by
  intro pre
  induction pre with
  | nil => intro rest g g' h; exact ⟨g, h⟩
  | cons p pre ih =>
    intro rest g g' h
    simp only [linked, List.cons_append] at h
    exact ih rest _ g' h.2

/-- C31. While deliveries are observed for the first time, one after the other and
whatever their flows, every frame whose command is not a request command and that gets
to the id assignment of lines 300-317 with the counter `g_unInternalID` at `c` is given
the id `c` and leaves the counter at `c`. Hence a frame that is not a request, coming
after a request with only frames that are not requests in between, is given the id of
that request, on whatever flow the request was; and the record such a frame is handed is
the one found under the key made of its flow, that id and its command (lines 320-322).
The frames listed follow one another from the counter's first value to the value the run
leaves, and for one assignment in a packet without a stored id the state, the flag and
the id are given outright. -/
theorem C31_non_request_frame_takes_counter (fuel : Nat) (ds : List (Tvb × packet_info))
    (st : State) (hfirst : first_observed fuel ds st) :
    (∀ a ∈ run_assigned fuel ds st, is_request_command a.header_type = false →
      a.id = a.before ∧ a.after = a.before)
    ∧ (∀ (pre : List Assigned) (q : Assigned) (mid : List Assigned) (a : Assigned)
        (post : List Assigned),
        run_assigned fuel ds st = pre ++ q :: (mid ++ a :: post) →
        is_request_command q.header_type = true →
        (∀ m ∈ mid, is_request_command m.header_type = false) →
        is_request_command a.header_type = false → a.id = q.id)
    ∧ linked st.g_unInternalID (run_assigned fuel ds st)
        (run_deliveries fuel ds st).g_unInternalID
    ∧ (∀ (pinfo : packet_info) (s : State) (r : Bool) (h : Nat),
        p_get_proto_data s.proto_data pinfo.num = none → is_request_command h = false →
        assign_internal_id pinfo s r h
          = ({ s with proto_data := p_add_proto_data s.proto_data pinfo.num s.g_unInternalID },
              r, s.g_unInternalID))
    ∧ (∀ (pinfo : packet_info) (s : State) (r : Bool) (h : Nat) (payload : List Byte)
        (v : FCOSConvRequestVal),
        g_hash_table_lookup (assign_internal_id pinfo s r h).1.FiveCo_requests_hash
            { conversation := pinfo.conv_index,
              unInternalID := (assign_internal_id pinfo s r h).2.2, usExpCmd := h } = some v →
        (correlate pinfo s r h payload).2.2 = some v) := by
  obtain ⟨hl, hp⟩ := run_assigned_linked fuel ds st hfirst
  refine ⟨?_, ?_, hl, ?_, ?_⟩
  · intro a ha hreq
    obtain ⟨h1, h2⟩ := hp a ha
    exact ⟨by rw [h1, h2 hreq], h2 hreq⟩
  · intro pre q mid a post hsplit hq hmid ha
    have hmem : ∀ x, x ∈ q :: (mid ++ a :: post) → x ∈ run_assigned fuel ds st := by
      intro x hx
      rw [hsplit]
      exact List.mem_append_right _ hx
    rw [hsplit] at hl
    obtain ⟨g1, hl'⟩ := linked_suffix pre _ _ _ hl
    have hthrough := linked_through mid q a post g1 _ hl' (by
      intro m hm
      exact (hp m (hmem m (List.mem_cons_of_mem _ (List.mem_append_left _ hm)))).2
        (hmid m hm))
    have hamem : a ∈ run_assigned fuel ds st :=
      hmem a (List.mem_cons_of_mem _ (List.mem_append_right _ (List.mem_cons_self _ _)))
    obtain ⟨a1, a2⟩ := hp a hamem
    obtain ⟨q1, _⟩ := hp q (hmem q (List.mem_cons_self _ _))
    rw [a1, a2 ha, hthrough, q1]
  · intro pinfo s r h hnew hreq
    unfold assign_internal_id
    rw [hnew]
    simp only [hreq]
    rfl
  · intro pinfo s r h payload v hv
    unfold correlate
    simp only [hv]
    simp

set_option maxRecDepth 100000 in
theorem C31_non_request_frame_takes_counter_witness :
    first_observed 5 deliveries_two_flows ⟨0, [], []⟩
    ∧ run_assigned 5 deliveries_two_flows ⟨0, [], []⟩
        = [⟨0, 0x21, 1, 1⟩, ⟨1, 0x21, 2, 2⟩, ⟨2, 0x23, 2, 2⟩]
    ∧ (∀ a ∈ run_assigned 5 deliveries_two_flows ⟨0, [], []⟩,
        is_request_command a.header_type = false → a.id = a.before ∧ a.after = a.before) :=
  ⟨⟨by decide, by decide, by decide, trivial⟩, by decide,
    (C31_non_request_frame_takes_counter 5 deliveries_two_flows ⟨0, [], []⟩
      ⟨by decide, by decide, by decide, trivial⟩).1⟩

/-! ## Byte ranges of the register write decoder (C36) -/

theorem mem_bind_out {α β : Type} (x : W α) (f : α → W β) (e : Event)
    (h : e ∈ (W.bind x f).out) : e ∈ x.out ∨ ∃ a, x.res = .ok a ∧ e ∈ (f a).out := by
  unfold W.bind at h
  split at h
  · rename_i a ha
    simp only [List.mem_append] at h
    rcases h with h | h
    · exact Or.inl h
    · exact Or.inr ⟨a, ha, h⟩
  · exact Or.inl h
  · exact Or.inl h

theorem bind_res_ok {α β : Type} (x : W α) (f : α → W β) (b : β)
    (h : (W.bind x f).res = .ok b) : ∃ a, x.res = .ok a ∧ (f a).res = .ok b := by
  unfold W.bind at h
  split at h
  · rename_i a ha
    exact ⟨a, ha, h⟩
  · simp at h
  · simp at h

theorem add_item_out (hf : Hf) (tvb : Tvb) (start length : Nat) (e : Event)
    (h : e ∈ (proto_tree_add_item hf tvb start length).out) :
    e = .add_item ⟨hf, start, length⟩ ∧
      (hf.no_value = false → start + length ≤ tvb.length) := by
  unfold proto_tree_add_item at h
  by_cases hc : (if hf.no_value then start ≤ tvb.length else start + length ≤ tvb.length)
  · rw [if_pos hc] at h
    simp only [List.mem_singleton] at h
    refine ⟨h, ?_⟩
    intro hv
    rw [hv] at hc
    exact hc
  · rw [if_neg hc] at h
    simp at h

theorem add_item_res (hf : Hf) (tvb : Tvb) (start length : Nat) (item : Item)
    (h : (proto_tree_add_item hf tvb start length).res = .ok item) :
    item = ⟨hf, start, length⟩ ∧
      (hf.no_value = false → start + length ≤ tvb.length) := by
  unfold proto_tree_add_item at h
  by_cases hc : (if hf.no_value then start ≤ tvb.length else start + length ≤ tvb.length)
  · rw [if_pos hc] at h
    simp only [Res.ok.injEq] at h
    refine ⟨h.symm, ?_⟩
    intro hv
    rw [hv] at hc
    exact hc
  · rw [if_neg hc] at h
    simp at h

/-- The hex dump loop appends its texts to the one item it is given. -/
theorem hex_loop_items (tvb : Tvb) (item : Item) (base : Nat) :
    ∀ (n i : Nat), ∀ e ∈ (hex_loop tvb item base n i).out, e.item? = some item := by
  intro n
  induction n with
  | zero => intro i e he; simp [hex_loop, W_pure_eq] at he
  | succ n ih =>
    intro i e he
    unfold hex_loop at he
    simp only [W_bind_eq] at he
    rcases mem_bind_out _ _ e he with h | ⟨b, _, h⟩
    · simp [W.lift] at h
    · rcases mem_bind_out _ _ e h with h | ⟨_, _, h⟩
      · simp only [proto_item_append_text, List.mem_singleton] at h
        rw [h]
        rfl
      · exact ih _ e h

/-- The hex dump loop that ends normally leaves `i` after the octets it read. -/
theorem hex_loop_res (tvb : Tvb) (item : Item) :
    ∀ (n i j : Nat), i + n ≤ 65535 → (hex_loop tvb item 0 n i).res = .ok j → j = i + n := by
  intro n
  induction n with
  | zero =>
    intro i j _ h
    simp only [hex_loop, W_pure_eq, Res.ok.injEq] at h
    omega
  | succ n ih =>
    intro i j hi h
    unfold hex_loop at h
    simp only [W_bind_eq] at h
    obtain ⟨b, _, h⟩ := bind_res_ok _ _ j h
    obtain ⟨_, _, h⟩ := bind_res_ok _ _ j h
    rw [Nat.mod_eq_of_lt (by omega)] at h
    have := ih (i + 1) j (by omega) h
    omega

/-- Every text of the hex dump loop shows an octet the bounds-checked accessor gave, at
an offset among the `n` offsets from `i` on. -/
theorem hex_loop_texts (tvb : Tvb) (item : Item) :
    ∀ (n i : Nat), i + n ≤ 65535 → ∀ e ∈ (hex_loop tvb item 0 n i).out,
      ∃ k b, e = .append_text item (.hex b) ∧ i ≤ k ∧ k < i + n ∧ k < tvb.length ∧
        tvb_get_guint8 tvb k = .ok b := by
  intro n
  induction n with
  | zero => intro i _ e he; simp [hex_loop, W_pure_eq] at he
  | succ n ih =>
    intro i hi e he
    unfold hex_loop at he
    simp only [W_bind_eq, Nat.zero_add] at he
    rcases mem_bind_out _ _ e he with h | ⟨b, hb, h⟩
    · simp [W.lift] at h
    · have hb' : tvb_get_guint8 tvb i = .ok b := hb
      have hlt : i < tvb.length := by
        unfold tvb_get_guint8 at hb'
        cases hg : tvb[i]? with
        | none => rw [hg] at hb'; simp at hb'
        | some x =>
          by_contra hc
          rw [List.getElem?_eq_none (by omega)] at hg
          simp at hg
      rcases mem_bind_out _ _ e h with h | ⟨_, _, h⟩
      · simp only [proto_item_append_text, List.mem_singleton] at h
        exact ⟨i, b, h, Nat.le_refl _, by omega, hlt, hb'⟩
      · rw [Nat.mod_eq_of_lt (by omega)] at h
        obtain ⟨k, c, h1, h2, h3, h4, h5⟩ := ih (i + 1) (by omega) e h
        exact ⟨k, c, h1, by omega, by omega, h4, h5⟩

/-- The rendering of a known register at `i`, when `i` plus the declared size is an offset
a `guint16` holds: every item is the range of the declared size at `i`; an item that
carries a value lies in the buffer; a hex text shows an octet of the buffer inside the
range; the string text shows what the buffer holds of the range; and `i` is left after the
range. -/
theorem render_register_items (tvb : Tvb) (a : Nat) (r : FCOSRegisterDef) (i : Nat)
    (hk : known_register a = some r) (hi : i + r.unSize ≤ 65535) :
    (∀ e ∈ (render_register tvb a r i).out,
      (∀ it, e.item? = some it →
        it.start = i ∧ it.length = r.unSize ∧
          (it.hf.no_value = false → i + r.unSize ≤ tvb.length)) ∧
      (∀ it b, e = .append_text it (.hex b) →
        ∃ k, i ≤ k ∧ k < i + r.unSize ∧ k < tvb.length ∧ tvb_get_guint8 tvb k = .ok b) ∧
      (∀ it s, e = .append_text it (.str16 s) → s = (tvb.drop i).take r.unSize)) ∧
    (∀ j, (render_register tvb a r i).res = .ok j → j = i + r.unSize) := by
  have hsz := known_register_size a r hk
  unfold render_register
  simp only [W_bind_eq, hsz]
  split
  · constructor
    · intro e he
      rcases mem_bind_out _ _ e he with h | ⟨x, hx, h⟩
      · obtain ⟨h1, h2⟩ := add_item_out _ _ _ _ e h
        refine ⟨?_, ?_, ?_⟩
        · intro it hit
          rw [h1] at hit
          simp only [Event.item?, Option.some.injEq] at hit
          rw [← hit]
          exact ⟨rfl, rfl, h2⟩
        · intro it b hb
          rw [h1] at hb
          simp at hb
        · intro it s hs
          rw [h1] at hs
          simp at hs
      · simp [W_pure_eq] at h
    · intro j hj
      obtain ⟨x, hx, h⟩ := bind_res_ok _ _ j hj
      simp only [W_pure_eq, Res.ok.injEq] at h
      rw [Nat.mod_eq_of_lt (by omega)] at h
      omega
  · split
    · constructor
      · intro e he
        rcases mem_bind_out _ _ e he with h | ⟨x, hx, h⟩
        · obtain ⟨h1, h2⟩ := add_item_out _ _ _ _ e h
          refine ⟨?_, ?_, ?_⟩
          · intro it hit
            rw [h1] at hit
            simp only [Event.item?, Option.some.injEq] at hit
            rw [← hit]
            exact ⟨rfl, rfl, h2⟩
          · intro it b hb
            rw [h1] at hb
            simp at hb
          · intro it s hs
            rw [h1] at hs
            simp at hs
        · obtain ⟨hx1, hx2⟩ := add_item_res _ _ _ _ x hx
          rcases mem_bind_out _ _ e h with h | ⟨s0, hs0, h⟩
          · simp [W.lift] at h
          · rcases mem_bind_out _ _ e h with h | ⟨_, _, h⟩
            · simp only [proto_item_append_text, List.mem_singleton] at h
              refine ⟨?_, ?_, ?_⟩
              · intro it hit
                rw [h, hx1] at hit
                simp only [Event.item?, Option.some.injEq] at hit
                rw [← hit]
                exact ⟨rfl, rfl, hx2⟩
              · intro it b hb
                rw [h] at hb
                simp at hb
              · intro it s hs
                rw [h] at hs
                simp only [Event.append_text.injEq, Txt.str16.injEq] at hs
                have hs0' : tvb_get_raw_bytes_as_string tvb i (r.unSize + 1) = .ok s0 := hs0
                unfold tvb_get_raw_bytes_as_string at hs0'
                rw [if_neg (by omega)] at hs0'
                simp only [Nat.add_sub_cancel, Res.ok.injEq] at hs0'
                rw [← hs.2, ← hs0']
            · simp [W_pure_eq] at h
      · intro j hj
        obtain ⟨x, hx, h⟩ := bind_res_ok _ _ j hj
        obtain ⟨_, _, h⟩ := bind_res_ok _ _ j h
        obtain ⟨_, _, h⟩ := bind_res_ok _ _ j h
        simp only [W_pure_eq, Res.ok.injEq] at h
        rw [Nat.mod_eq_of_lt (by omega)] at h
        omega
    · constructor
      · intro e he
        rcases mem_bind_out _ _ e he with h | ⟨x, hx, h⟩
        · obtain ⟨h1, h2⟩ := add_item_out _ _ _ _ e h
          refine ⟨?_, ?_, ?_⟩
          · intro it hit
            rw [h1] at hit
            simp only [Event.item?, Option.some.injEq] at hit
            rw [← hit]
            exact ⟨rfl, rfl, h2⟩
          · intro it b hb
            rw [h1] at hb
            simp at hb
          · intro it s hs
            rw [h1] at hs
            simp at hs
        · obtain ⟨hx1, hx2⟩ := add_item_res _ _ _ _ x hx
          rcases mem_bind_out _ _ e h with h | ⟨_, _, h⟩
          · simp only [proto_item_append_text, List.mem_singleton] at h
            refine ⟨?_, ?_, ?_⟩
            · intro it hit
              rw [h, hx1] at hit
              simp only [Event.item?, Option.some.injEq] at hit
              rw [← hit]
              exact ⟨rfl, rfl, hx2⟩
            · intro it b hb
              rw [h] at hb
              simp at hb
            · intro it s hs
              rw [h] at hs
              simp at hs
          · refine ⟨?_, ?_, ?_⟩
            · intro it hit
              have := hex_loop_items tvb x 0 _ _ e h
              rw [this, hx1] at hit
              simp only [Option.some.injEq] at hit
              rw [← hit]
              exact ⟨rfl, rfl, hx2⟩
            · intro it b hb
              obtain ⟨k, c, h1, h2, h3, h4, h5⟩ := hex_loop_texts tvb x r.unSize i hi e h
              rw [h1] at hb
              simp only [Event.append_text.injEq, Txt.hex.injEq] at hb
              exact ⟨k, h2, h3, h4, by rw [← hb.2]; exact h5⟩
            · intro it s hs
              obtain ⟨k, c, h1, _⟩ := hex_loop_texts tvb x r.unSize i hi e h
              rw [h1] at hs
              simp at hs
      · intro j hj
        obtain ⟨x, hx, h⟩ := bind_res_ok _ _ j hj
        obtain ⟨_, _, h⟩ := bind_res_ok _ _ j h
        have := hex_loop_res tvb x _ _ j hi h
        omega

/-- Every item of the register write loop starts after an address octet of the payload
and ends at most 16 octets (the largest declared size) after the end of the payload; an
item that carries a value lies in the buffer; the texts show octets of the buffer inside
the item's range. The payload ends at least 16 octets before offset 65535, so that the
`guint16` index does not wrap. -/
theorem write_register_loop_items (tvb : Tvb) (off N : Nat) (hend : off + N + 16 ≤ 65535) :
    ∀ (fuel i : Nat), off ≤ i →
      ∀ e ∈ (write_register_loop tvb off N fuel i).out,
        (∀ it, e.item? = some it →
          off + 1 ≤ it.start ∧ it.start ≤ off + N ∧ it.start + it.length ≤ off + N + 16 ∧
            (it.hf.no_value = false → it.start + it.length ≤ tvb.length)) ∧
        (∀ it b, e = .append_text it (.hex b) →
          ∃ k, it.start ≤ k ∧ k < it.start + it.length ∧ k < tvb.length ∧
            tvb_get_guint8 tvb k = .ok b) ∧
        (∀ it s, e = .append_text it (.str16 s) →
          s = (tvb.drop it.start).take it.length) := by
  have hall : ∀ r ∈ aRegisters, r.unSize ≤ 16 := by decide
  intro fuel
  induction fuel with
  | zero =>
    intro i _ e he
    unfold write_register_loop at he
    split at he
    · simp [W.timeout] at he
    · simp [W_pure_eq] at he
  | succ fuel ih =>
    intro i hi e he
    rw [write_register_loop_succ] at he
    split at he
    · rename_i hlt
      have e1 : (i + 1) % 65536 = i + 1 := Nat.mod_eq_of_lt (by omega)
      rw [e1] at he
      rcases mem_bind_out _ _ e he with h | ⟨a, _, h⟩
      · simp [W.lift] at h
      · cases hk : known_register a with
        | some r =>
          rw [hk] at h
          simp only at h
          have hsz := hall r (known_register_mem a r hk).1
          obtain ⟨hr1, hr2⟩ := render_register_items tvb a r (i + 1) hk (by omega)
          rcases mem_bind_out _ _ e h with h | ⟨j, hj, h⟩
          · obtain ⟨q1, q2, q3⟩ := hr1 e h
            have hitem : ∀ it, e.item? = some it → it.start = i + 1 ∧ it.length = r.unSize :=
              fun it hit => ⟨(q1 it hit).1, (q1 it hit).2.1⟩
            refine ⟨?_, ?_, ?_⟩
            · intro it hit
              obtain ⟨s1, s2, s3⟩ := q1 it hit
              rw [s1, s2]
              exact ⟨by omega, by omega, by omega, s3⟩
            · intro it b hb
              obtain ⟨s1, s2⟩ := hitem it (by rw [hb]; rfl)
              rw [s1, s2]
              exact q2 it b hb
            · intro it s hs
              obtain ⟨s1, s2⟩ := hitem it (by rw [hs]; rfl)
              rw [s1, s2]
              exact q3 it s hs
          · have j1 := hr2 j hj
            exact ih j (by omega) e h
        | none =>
          rw [hk] at h
          simp only at h
          have hnv : Hf.no_value .hf_fiveco_regreaduk = true := by decide
          rcases mem_bind_out _ _ e h with h | ⟨x, hx, h⟩
          · obtain ⟨h1, _⟩ := add_item_out _ _ _ _ e h
            refine ⟨?_, ?_, ?_⟩
            · intro it hit
              rw [h1] at hit
              simp only [Event.item?, Option.some.injEq] at hit
              rw [← hit]
              simp only [hnv]
              exact ⟨by omega, by omega, by omega, fun hc => by simp at hc⟩
            · intro it b hb
              rw [h1] at hb
              simp at hb
            · intro it s hs
              rw [h1] at hs
              simp at hs
          · obtain ⟨hx1, _⟩ := add_item_res _ _ _ _ x hx
            simp only [proto_item_append_text, List.mem_singleton] at h
            refine ⟨?_, ?_, ?_⟩
            · intro it hit
              rw [h, hx1] at hit
              simp only [Event.item?, Option.some.injEq] at hit
              rw [← hit]
              simp only [hnv]
              exact ⟨by omega, by omega, by omega, fun hc => by simp at hc⟩
            · intro it b hb
              rw [h] at hb
              simp at hb
            · intro it s hs
              rw [h] at hs
              simp at hs
    · simp [W_pure_eq] at he

/-- The items of the entries of complete register tuples lie inside the octets of the
tuples. -/
theorem register_entries_items :
    ∀ (ts : List (Byte × List Byte)) (p : Nat), (∀ t ∈ ts, tuple_ok t) →
      ∀ e ∈ (spec_register_entries p ts).flatten, ∀ it, e.item? = some it →
        p + 1 ≤ it.start ∧ it.start + it.length ≤ p + (encode_tuples ts).length := by
  intro ts
  induction ts with
  | nil => intro p _ e he; simp [spec_register_entries] at he
  | cons t ts ih =>
    intro p hok e he it hit
    have hok' : ∀ t ∈ ts, tuple_ok t := fun u hu => hok u (List.mem_cons_of_mem _ hu)
    have ht := hok t (List.mem_cons_self _ _)
    simp only [spec_register_entries, List.flatten_cons, List.mem_append] at he
    have hl : (encode_tuples (t :: ts)).length = 1 + t.2.length + (encode_tuples ts).length := by
      simp only [encode_tuples, List.length_cons, List.length_append]
      omega
    rw [hl]
    rcases he with he | he
    · unfold tuple_ok at ht
      unfold spec_register_entry at he
      cases hk : known_register t.1.val with
      | none => rw [hk] at ht; exact absurd ht id
      | some r =>
        rw [hk] at ht he
        simp only at ht he
        have key : it.start = p + 1 ∧ it.length = r.unSize := by
          split at he
          · simp only [List.mem_singleton] at he
            rw [he] at hit
            simp only [Event.item?, Option.some.injEq] at hit
            rw [← hit]
            exact ⟨rfl, rfl⟩
          · split at he
            · simp only [List.mem_cons, List.mem_singleton, List.not_mem_nil, or_false] at he
              rcases he with he | he <;>
              · rw [he] at hit
                simp only [Event.item?, Option.some.injEq] at hit
                rw [← hit]
                exact ⟨rfl, rfl⟩
            · simp only [List.mem_append, List.mem_cons, List.mem_singleton, List.not_mem_nil,
                or_false, List.mem_map] at he
              rcases he with (he | he) | ⟨b, _, he⟩
              · rw [he] at hit
                simp only [Event.item?, Option.some.injEq] at hit
                rw [← hit]
                exact ⟨rfl, rfl⟩
              · rw [he] at hit
                simp only [Event.item?, Option.some.injEq] at hit
                rw [← hit]
                exact ⟨rfl, rfl⟩
              · rw [← he] at hit
                simp only [Event.item?, Option.some.injEq] at hit
                rw [← hit]
                exact ⟨rfl, rfl⟩
        omega
    · have := ih (p + 1 + t.2.length) hok' e he it hit
      omega

set_option maxRecDepth 100000 in
/-- Counterexample to C36 as stated. (1) A `WRITE_REGISTER` frame with the four parameter
octets `14 05 10 DE` (payload at offsets 6 to 9, trailer `DA F5` at 10 and 11), followed
by a `FLASH_AREA_ERASE` frame. The register `0x10` has a declared size of 4 and one
octet is left in the payload: the decoder adds its item over the offsets 9 to 12 and
dumps `DE` from the payload, `DA` and `F5` from the trailer and `00` from the next
frame. (2) The same frame alone in its delivery of 12 octets: the item is added over the
offsets 9 to 12 all the same, `DE`, `DA` and `F5` are dumped, and the read at offset 12,
beyond the end of the buffer, raises the bounds exception. (3) A `WRITE_REGISTER` frame
with the parameter octets `15 41 42`, alone in its delivery of 11 octets: the string
register `0x15` has a declared size of 16 and two octets are left; its item is added
over the offsets 7 to 22, its text is read from what the buffer holds from offset 7 on,
`41 42` and the trailer `00 00`, and the call returns 11. -/
theorem C36_counterexample :
    Event.add_item ⟨.hf_fiveco_regread, 9, 4⟩ ∈
      (dissect_FiveCoLegacy 5
        [0x00, 0x22, 0x00, 0x01, 0x00, 0x04, 0x14, 0x05, 0x10, 0xDE, 0xDA, 0xF5,
         0x00, 0x31, 0x00, 0x02, 0x00, 0x00, 0xFF, 0xCC] ⟨1, false, 7⟩ ⟨0, [], []⟩).trace
    ∧ Event.append_text ⟨.hf_fiveco_regread, 9, 4⟩ (.hex 0xDA) ∈
      (dissect_FiveCoLegacy 5
        [0x00, 0x22, 0x00, 0x01, 0x00, 0x04, 0x14, 0x05, 0x10, 0xDE, 0xDA, 0xF5,
         0x00, 0x31, 0x00, 0x02, 0x00, 0x00, 0xFF, 0xCC] ⟨1, false, 7⟩ ⟨0, [], []⟩).trace
    ∧ Event.append_text ⟨.hf_fiveco_regread, 9, 4⟩ (.hex 0x00) ∈
      (dissect_FiveCoLegacy 5
        [0x00, 0x22, 0x00, 0x01, 0x00, 0x04, 0x14, 0x05, 0x10, 0xDE, 0xDA, 0xF5,
         0x00, 0x31, 0x00, 0x02, 0x00, 0x00, 0xFF, 0xCC] ⟨1, false, 7⟩ ⟨0, [], []⟩).trace
    ∧ (dissect_FiveCoLegacy 5
        [0x00, 0x22, 0x00, 0x01, 0x00, 0x04, 0x14, 0x05, 0x10, 0xDE, 0xDA, 0xF5,
         0x00, 0x31, 0x00, 0x02, 0x00, 0x00, 0xFF, 0xCC] ⟨1, false, 7⟩ ⟨0, [], []⟩).value?
      = some 20
    ∧ (dissect_FiveCoLegacy 5
        [0x00, 0x22, 0x00, 0x01, 0x00, 0x04, 0x14, 0x05, 0x10, 0xDE, 0xDA, 0xF5]
        ⟨1, false, 7⟩ ⟨0, [], []⟩)
      = .exception ⟨1, [(⟨7, 1, WRITE_REGISTER⟩, ⟨4, 0, [0x14, 0x05, 0x10, 0xDE]⟩)], [(1, 1)]⟩
          [.col_protocol, .col_clear, .col_frame false 0x22 1 4,
           .add_item ⟨.proto_FiveCoLegacy, 0, 12⟩,
           .append_text ⟨.proto_FiveCoLegacy, 0, 12⟩ (.type_name 0x22),
           .add_item ⟨.hf_fiveco_header, 0, 6⟩, .add_item ⟨.hf_fiveco_fct, 0, 2⟩,
           .add_item ⟨.hf_fiveco_id, 2, 2⟩, .add_item ⟨.hf_fiveco_length, 4, 2⟩,
           .add_item ⟨.hf_fiveco_data, 6, 4⟩, .add_item ⟨.nsWsHeaderID 0x14, 7, 1⟩,
           .add_item ⟨.hf_fiveco_regread, 9, 4⟩,
           .append_text ⟨.hf_fiveco_regread, 9, 4⟩
             (.raw_header "Register Communication options" 0x10 4),
           .append_text ⟨.hf_fiveco_regread, 9, 4⟩ (.hex 0xDE),
           .append_text ⟨.hf_fiveco_regread, 9, 4⟩ (.hex 0xDA),
           .append_text ⟨.hf_fiveco_regread, 9, 4⟩ (.hex 0xF5)]
    ∧ (dissect_FiveCoLegacy 5
        [0x00, 0x22, 0x00, 0x01, 0x00, 0x03, 0x15, 0x41, 0x42, 0x00, 0x00]
        ⟨1, false, 7⟩ ⟨0, [], []⟩).value? = some 11
    ∧ Event.add_item ⟨.nsWsHeaderID 0x15, 7, 16⟩ ∈
      (dissect_FiveCoLegacy 5
        [0x00, 0x22, 0x00, 0x01, 0x00, 0x03, 0x15, 0x41, 0x42, 0x00, 0x00]
        ⟨1, false, 7⟩ ⟨0, [], []⟩).trace
    ∧ Event.append_text ⟨.nsWsHeaderID 0x15, 7, 16⟩ (.str16 [0x41, 0x42, 0x00, 0x00]) ∈
      (dissect_FiveCoLegacy 5
        [0x00, 0x22, 0x00, 0x01, 0x00, 0x03, 0x15, 0x41, 0x42, 0x00, 0x00]
        ⟨1, false, 7⟩ ⟨0, [], []⟩).trace := by
  decide

/-- C36, as amended. For a `WRITE_REGISTER` or `WRITE_REGISTER_QUIET` frame whose `N`
parameter octets lie at `off` in the buffer and end at least 16 octets before offset
65535: every item of the decoder starts after an address octet of the payload (at
`off + 1` at the earliest and at the end of the payload at the latest) and ends at most
16 octets after the end of the payload: the declared size of a known register is not
compared with the octets left. No octet beyond the end of the buffer is rendered: an item
of a field that carries a value (a register with a conversion function) is added only
when its range lies in the buffer; every hex text shows the octet the bounds-checked
accessor gave at an offset of the buffer inside the item's range; the string text shows
what the buffer holds of the item's range. When the payload is made of complete tuples (a
known address, then as many value octets as the catalog declares), the decoder completes
and every item lies inside the payload. -/
theorem C36_register_write_ranges (fuel : Nat) (tvb : Tvb) (off N cmd : Nat)
    (rv : Option FCOSConvRequestVal) (item : Item)
    (hcmd : cmd = WRITE_REGISTER ∨ cmd = WRITE_REGISTER_QUIET)
    (hfit : off + N ≤ tvb.length) (hend : off + N + 16 ≤ 65535) :
    (∀ e ∈ (decode_payload fuel tvb off N cmd rv item).out,
      (∀ it, e.item? = some it →
        off + 1 ≤ it.start ∧ it.start ≤ off + N ∧ it.start ≤ tvb.length ∧
          it.start + it.length ≤ off + N + 16 ∧
          (it.hf.no_value = false → it.start + it.length ≤ tvb.length)) ∧
      (∀ it b, e = .append_text it (.hex b) →
        ∃ k, it.start ≤ k ∧ k < it.start + it.length ∧ k < tvb.length ∧
          tvb_get_guint8 tvb k = .ok b) ∧
      (∀ it s, e = .append_text it (.str16 s) →
        s = (tvb.drop it.start).take it.length)) ∧
    (∀ ts : List (Byte × List Byte), (∀ t ∈ ts, tuple_ok t) →
      at_offset tvb off (encode_tuples ts) → N = (encode_tuples ts).length →
      ts.length ≤ fuel →
      (decode_payload fuel tvb off N cmd rv item).res = .ok () ∧
      ∀ e ∈ (decode_payload fuel tvb off N cmd rv item).out, ∀ it, e.item? = some it →
        off + 1 ≤ it.start ∧ it.start + it.length ≤ off + N) := by
  rw [decode_payload_write_register fuel tvb off N cmd rv item hcmd]
  constructor
  · intro e he
    obtain ⟨q1, q2, q3⟩ := write_register_loop_items tvb off N hend fuel off (Nat.le_refl _) e he
    refine ⟨?_, q2, q3⟩
    intro it hit
    obtain ⟨s1, s2, s3, s4⟩ := q1 it hit
    exact ⟨s1, s2, by omega, s3, s4⟩
  · intro ts hok hat hN hfuel
    subst hN
    rw [write_register_tuples fuel tvb off ts hok hat (by omega) hfuel]
    exact ⟨rfl, register_entries_items ts off hok⟩

/-- Witness of C36 as amended, on the payload `14 05 10 DE AD BE EF` of two complete
tuples at offset 6: the item of the register `0x10` covers the offsets 9 to 12, inside
the payload that ends at offset 13. -/
theorem C36_register_write_ranges_witness :
    Event.add_item ⟨.hf_fiveco_regread, 9, 4⟩ ∈
      (decode_payload 5
        [0x00, 0x22, 0x00, 0x01, 0x00, 0x07, 0x14, 0x05, 0x10, 0xDE, 0xAD, 0xBE, 0xEF, 0x3E,
          0x33] 6 7 WRITE_REGISTER none ⟨.hf_fiveco_data, 6, 7⟩).out
    ∧ (6 + 1 ≤ (⟨.hf_fiveco_regread, 9, 4⟩ : Item).start
      ∧ (⟨.hf_fiveco_regread, 9, 4⟩ : Item).start + (⟨.hf_fiveco_regread, 9, 4⟩ : Item).length
          ≤ 6 + 7) :=
  ⟨by decide,
    ((C36_register_write_ranges 5
      [0x00, 0x22, 0x00, 0x01, 0x00, 0x07, 0x14, 0x05, 0x10, 0xDE, 0xAD, 0xBE, 0xEF, 0x3E, 0x33]
      6 7 WRITE_REGISTER none ⟨.hf_fiveco_data, 6, 7⟩ (Or.inl rfl) (by decide) (by decide)).2
      [(0x14, [0x05]), (0x10, [0xDE, 0xAD, 0xBE, 0xEF])] (by decide) (by decide) (by decide)
      (by decide)).2 (.add_item ⟨.hf_fiveco_regread, 9, 4⟩) (by decide)
      ⟨.hf_fiveco_regread, 9, 4⟩ rfl⟩

/-! ## Reads of the stored request in the I2C answer replay (C37) -/

theorem W_bind_assoc {α β γ : Type} (x : W α) (f : α → W β) (g : β → W γ) :
    W.bind (W.bind x f) g = W.bind x (fun a => W.bind (f a) g) := by
  unfold W.bind
  cases hx : x.res with
  | ok a =>
    simp only
    cases hf : (f a).res <;> simp [List.append_assoc]
  | exn => simp
  | fuel => simp

theorem W_bind_pure {α β : Type} (a : α) (g : α → W β) :
    W.bind (⟨[], .ok a⟩ : W α) g = g a := by
  unfold W.bind
  simp

theorem W_bind_res_ok {α β : Type} (x : W α) (f : α → W β) (a : α) (h : x.res = .ok a) :
    (W.bind x f).res = (f a).res := by
  unfold W.bind
  rw [h]

theorem W_bind_res_exn {α β : Type} (x : W α) (f : α → W β) (h : x.res = .exn) :
    (W.bind x f).res = .exn := by
  unfold W.bind
  rw [h]

theorem W_bind_res_fuel {α β : Type} (x : W α) (f : α → W β) (h : x.res = .fuel) :
    (W.bind x f).res = .fuel := by
  unfold W.bind
  rw [h]

/-- One iteration of the I2C answer loop: the three reads of the stored request, the calls
on the tree, then the loop again. -/
theorem i2c_answer_loop_body (tvb : Tvb) (off N cmd : Nat) (v : FCOSConvRequestVal)
    (fuel i y : Nat) :
    i2c_answer_loop tvb off N cmd v (fuel + 1) i y =
      if y < v.usParaLen ∧ i < off + N then
        W.bind (W.lift (tvb_get_guint8 v.pData y)) (fun ucAdd =>
          W.bind (W.lift (tvb_get_guint8 v.pData ((y + 1) % 65536))) (fun ucBytesToWrite =>
            W.bind (W.lift (tvb_get_guint8 v.pData
                (((y + 1) % 65536 + (1 + ucBytesToWrite)) % 65536))) (fun ucBytesToRead =>
              W.bind (i2c_answer_body tvb cmd ucAdd ucBytesToWrite ucBytesToRead i) (fun i =>
                i2c_answer_loop tvb off N cmd v fuel i
                  ((((y + 1) % 65536 + (1 + ucBytesToWrite)) % 65536 + 1) % 65536)))))
      else pure () := by
  rw [i2c_answer_loop_succ]
  split
  · congr 1
    funext ucAdd
    congr 1
    funext ucBytesToWrite
    congr 1
    funext ucBytesToRead
    unfold i2c_answer_body
    simp only [W_bind_eq, W_pure_eq]
    split
    · rw [W_bind_assoc]
      congr 1
      funext item
      rw [W_bind_assoc]
      congr 1
      funext u
      rw [W_bind_assoc]
      congr 1
      funext j
      split
      · rw [W_bind_assoc]
        simp only [W_bind_pure]
      · rw [W_bind_pure]
    · split
      · rw [W_bind_assoc]
        congr 1
        funext item
        rw [W_bind_assoc]
        congr 1
        funext u
        rw [W_bind_assoc]
        simp only [W_bind_pure]
      · rw [W_bind_pure]
  · rfl

theorem i2c_answer_request_reads_succ (tvb : Tvb) (off N cmd : Nat) (v : FCOSConvRequestVal)
    (fuel i y : Nat) :
    i2c_answer_request_reads tvb off N cmd v (fuel + 1) i y =
      if y < v.usParaLen ∧ i < off + N then
        (y, tvb_get_guint8 v.pData y) ::
          match tvb_get_guint8 v.pData y with
          | .ok ucAdd =>
            ((y + 1) % 65536, tvb_get_guint8 v.pData ((y + 1) % 65536)) ::
              match tvb_get_guint8 v.pData ((y + 1) % 65536) with
              | .ok ucBytesToWrite =>
                (((y + 1) % 65536 + (1 + ucBytesToWrite)) % 65536,
                  tvb_get_guint8 v.pData (((y + 1) % 65536 + (1 + ucBytesToWrite)) % 65536)) ::
                  match tvb_get_guint8 v.pData
                      (((y + 1) % 65536 + (1 + ucBytesToWrite)) % 65536) with
                  | .ok ucBytesToRead =>
                    match (i2c_answer_body tvb cmd ucAdd ucBytesToWrite ucBytesToRead i).res with
                    | .ok i =>
                      i2c_answer_request_reads tvb off N cmd v fuel i
                        ((((y + 1) % 65536 + (1 + ucBytesToWrite)) % 65536 + 1) % 65536)
                    | _ => []
                  | _ => []
              | _ => []
          | _ => []
      else [] := rfl

/-- Every entry of the list of reads is a call of the bounds-checked accessor on the
stored request. -/
theorem i2c_answer_request_reads_get (tvb : Tvb) (off N cmd : Nat) (v : FCOSConvRequestVal) :
    ∀ (fuel i y : Nat), ∀ p ∈ i2c_answer_request_reads tvb off N cmd v fuel i y,
      p.2 = tvb_get_guint8 v.pData p.1 := by
  intro fuel
  induction fuel with
  | zero => intro i y p hp; simp [i2c_answer_request_reads] at hp
  | succ fuel ih =>
    intro i y p hp
    rw [i2c_answer_request_reads_succ] at hp
    split at hp
    · simp only [List.mem_cons] at hp
      rcases hp with hp | hp
      · rw [hp]
      · split at hp
        · simp only [List.mem_cons] at hp
          rcases hp with hp | hp
          · rw [hp]
          · split at hp
            · simp only [List.mem_cons] at hp
              rcases hp with hp | hp
              · rw [hp]
              · split at hp
                · split at hp
                  · exact ih _ _ p hp
                  · simp at hp
                · simp at hp
            · simp at hp
        · simp at hp
    · simp at hp

/-- A read of the stored request that raises ends the replay with the bounds
exception. -/
theorem i2c_answer_request_reads_exn (tvb : Tvb) (off N cmd : Nat) (v : FCOSConvRequestVal) :
    ∀ (fuel i y : Nat), (∃ p ∈ i2c_answer_request_reads tvb off N cmd v fuel i y, p.2 = .exn) →
      (i2c_answer_loop tvb off N cmd v fuel i y).res = .exn := by
  intro fuel
  induction fuel with
  | zero => intro i y ⟨p, hp, _⟩; simp [i2c_answer_request_reads] at hp
  | succ fuel ih =>
    intro i y ⟨p, hp, hexn⟩
    rw [i2c_answer_request_reads_succ] at hp
    rw [i2c_answer_loop_body]
    split at hp
    · rename_i hc
      rw [if_pos hc]
      cases h0 : tvb_get_guint8 v.pData y with
      | exn => exact W_bind_res_exn _ _ rfl
      | fuel =>
        rw [h0] at hp
        simp only [List.mem_cons, List.not_mem_nil, or_false] at hp
        rw [hp] at hexn
        simp at hexn
      | ok ucAdd =>
        rw [h0] at hp
        simp only [List.mem_cons] at hp
        rw [W_lift_ok_bind]
        rcases hp with hp | hp
        · rw [hp] at hexn
          simp at hexn
        · cases h1 : tvb_get_guint8 v.pData ((y + 1) % 65536) with
          | exn => exact W_bind_res_exn _ _ rfl
          | fuel =>
            rw [h1] at hp
            simp only [List.mem_cons, List.not_mem_nil, or_false] at hp
            rw [hp] at hexn
            simp at hexn
          | ok ucBytesToWrite =>
            rw [h1] at hp
            simp only [List.mem_cons] at hp
            rw [W_lift_ok_bind]
            rcases hp with hp | hp
            · rw [hp] at hexn
              simp at hexn
            · cases h2 : tvb_get_guint8 v.pData
                  (((y + 1) % 65536 + (1 + ucBytesToWrite)) % 65536) with
              | exn => exact W_bind_res_exn _ _ rfl
              | fuel =>
                rw [h2] at hp
                simp only [List.mem_cons, List.not_mem_nil, or_false] at hp
                rw [hp] at hexn
                simp at hexn
              | ok ucBytesToRead =>
                rw [h2] at hp
                simp only [List.mem_cons] at hp
                rw [W_lift_ok_bind]
                rcases hp with hp | hp
                · rw [hp] at hexn
                  simp at hexn
                · cases hb : (i2c_answer_body tvb cmd ucAdd ucBytesToWrite ucBytesToRead
                      i).res with
                  | ok j =>
                    rw [hb] at hp
                    simp only at hp
                    rw [W_bind_res_ok _ _ j hb]
                    exact ih _ _ ⟨p, hp, hexn⟩
                  | exn => rw [hb] at hp; simp at hp
                  | fuel => rw [hb] at hp; simp at hp
    · simp at hp

/-- A read of the bounds-checked accessor that gives an octet is made inside the buffer and
gives the octet that lies there; a read at or after the end of the buffer gives no octet:
it raises. -/
theorem tvb_get_guint8_inside (tvb : Tvb) (k : Nat) :
    (∀ b, tvb_get_guint8 tvb k = .ok b → k < tvb.length ∧ (tvb[k]?).map (fun x => x.val) = some b)
    ∧ (tvb.length ≤ k → tvb_get_guint8 tvb k = .exn) := by
  unfold tvb_get_guint8
  constructor
  · intro b hb
    cases hg : tvb[k]? with
    | none => rw [hg] at hb; simp at hb
    | some x =>
      rw [hg] at hb
      simp only [Res.ok.injEq] at hb
      constructor
      · by_contra hc
        rw [List.getElem?_eq_none (by omega)] at hg
        simp at hg
      · simp [hb]
  · intro hk
    rw [List.getElem?_eq_none hk]

/-- Every record of the table has the length of its copy of the request parameters as
`usParaLen` (lines 349-352), in every state a call leaves when it held before. -/
theorem stored_request_length (fuel : Nat) (tvb : Tvb) (pinfo : packet_info) (st : State)
    (h : ∀ e ∈ st.FiveCo_requests_hash, e.2.usParaLen = e.2.pData.length) :
    ∀ e ∈ (dissect_FiveCoLegacy fuel tvb pinfo st).state.FiveCo_requests_hash,
      e.2.usParaLen = e.2.pData.length := by
  obtain ⟨_, hb⟩ := dissect_state_ind fuel tvb pinfo st
    (fun st' _ => ∀ e ∈ st'.FiveCo_requests_hash, e.2.usParaLen = e.2.pData.length)
    (fun st' r hd payload hst => by
      show ∀ e ∈ (correlate pinfo st' r hd payload).1.FiveCo_requests_hash,
        e.2.usParaLen = e.2.pData.length
      unfold correlate
      simp only
      split
      · exact g_hash_table_insert_all (fun v => v.usParaLen = v.pData.length) _ _ _
          (by rw [assign_hash]; exact hst) rfl
      · rw [assign_hash]; exact hst)
    (fun st' r hd hst => by
      show ∀ e ∈ (assign_internal_id pinfo st' r hd).1.FiveCo_requests_hash,
        e.2.usParaLen = e.2.pData.length
      rw [assign_hash]; exact hst)
    h
  exact hb

theorem stored_request_length_run (fuel : Nat) :
    ∀ (ds : List (Tvb × packet_info)) (st : State),
      (∀ e ∈ st.FiveCo_requests_hash, e.2.usParaLen = e.2.pData.length) →
      ∀ e ∈ (run_deliveries fuel ds st).FiveCo_requests_hash,
        e.2.usParaLen = e.2.pData.length := by
  intro ds
  induction ds with
  | nil => intro st h; exact h
  | cons d ds ih =>
    intro st h
    exact ih _ (stored_request_length fuel d.1 d.2 st h)

/-- The request record the correlator hands to the decoder has the length of its copy of
the request parameters as `usParaLen`, when the records of the table have. -/
theorem correlate_request_length (pinfo : packet_info) (st : State) (r : Bool) (hd : Nat)
    (payload : List Byte) (v : FCOSConvRequestVal)
    (h : ∀ e ∈ st.FiveCo_requests_hash, e.2.usParaLen = e.2.pData.length)
    (hv : (correlate pinfo st r hd payload).2.2 = some v) :
    v.usParaLen = v.pData.length := by
  unfold correlate at hv
  simp only at hv
  split at hv
  · simp only [Option.some.injEq] at hv
    rw [← hv]
  · obtain ⟨k, hk, _⟩ := lookup_some _ _ v hv
    rw [assign_hash] at hk
    exact h (k, v) hk

theorem encode_i2c_write_single (r : I2CSub) :
    encode_i2c false [r] = r.addr :: Fin.ofNat r.written.length :: r.written := by
  simp [encode_i2c, encode_i2c_sub]

/-- The replay of a stored `I2C_WRITE` request of one sub-record: the read of the number
of octets to read is made at the index that is the length of the stored request, and
raises the bounds exception. -/
theorem i2c_answer_loop_write_request (tvb : Tvb) (off N cmd fuel i : Nat) (r : I2CSub)
    (hw : r.written.length ≤ 255) (hi : i < off + N) :
    i2c_answer_loop tvb off N cmd
        ⟨(encode_i2c false [r]).length, 0, encode_i2c false [r]⟩ (fuel + 1) i 0
      = ⟨[], .exn⟩ := by
  rw [encode_i2c_write_single]
  have hl : (r.addr :: Fin.ofNat r.written.length :: r.written : List Byte).length
      = r.written.length + 2 := by simp
  have g0 : tvb_get_guint8 (r.addr :: Fin.ofNat r.written.length :: r.written) 0
      = .ok r.addr.val := rfl
  have g1 : tvb_get_guint8 (r.addr :: Fin.ofNat r.written.length :: r.written) 1
      = .ok r.written.length := by
    have e : tvb_get_guint8 (r.addr :: Fin.ofNat r.written.length :: r.written) 1
        = .ok ((Fin.ofNat r.written.length : Byte) : Nat) := by
      unfold tvb_get_guint8
      rw [List.getElem?_cons_succ, List.getElem?_cons_zero]
    rw [e, fin_ofNat_val _ hw]
  have e2 : ((0 + 1) % 65536 + (1 + r.written.length)) % 65536 = r.written.length + 2 := by
    omega
  have g2 : tvb_get_guint8 (r.addr :: Fin.ofNat r.written.length :: r.written)
      (r.written.length + 2) = .exn := by
    unfold tvb_get_guint8
    rw [List.getElem?_eq_none (by rw [hl])]
  rw [i2c_answer_loop_succ, if_pos ⟨by simp only [hl]; omega, hi⟩]
  simp only [g0, W_lift_ok_bind]
  rw [show (0 + 1) % 65536 = 1 from rfl] at e2 ⊢
  simp only [g1, W_lift_ok_bind, e2, g2]
  rfl

/-- C37. The stored request is a tvbuff made over the private copy of the request
parameters (line 351) and the replay of the I2C answer decoder reads it by
`tvb_get_guint8(pRequestVal->pData, y)` only (lines 577-581), the bounds-checked accessor.
For a record whose `usParaLen` is the length of its copy, as every record of the table
is, and for every answer buffer, start of the replay and budget: every entry of the list
of reads the replay makes is a call of that accessor; every read that gives an octet is
made at an index smaller than the stored request length, and gives the octet stored
there; a read attempted at an index that is not smaller gives no octet, it raises the
bounds exception, and the replay ends with that exception. The record the correlator
hands to the decoder has that length, in every state reached from the initial one. For a
stored `I2C_WRITE` request of one sub-record, which has no read-length octet, the third
read of the replay is attempted at the index that is the stored request length and
raises. -/
theorem C37_replay_reads_inside_stored_request (tvb : Tvb) (off N cmd : Nat)
    (v : FCOSConvRequestVal) (fuel i y : Nat) (hv : v.usParaLen = v.pData.length) :
    (∀ p ∈ i2c_answer_request_reads tvb off N cmd v fuel i y,
      p.2 = tvb_get_guint8 v.pData p.1
      ∧ (∀ b, p.2 = .ok b →
          p.1 < v.usParaLen ∧ (v.pData[p.1]?).map (fun x => x.val) = some b)
      ∧ (v.usParaLen ≤ p.1 → p.2 = .exn ∧
          (i2c_answer_loop tvb off N cmd v fuel i y).res = .exn))
    ∧ (∀ (ds : List (Tvb × packet_info)) (pinfo : packet_info) (r : Bool) (hd : Nat)
        (payload : List Byte) (w : FCOSConvRequestVal),
        (correlate pinfo (run_deliveries fuel ds ⟨0, [], []⟩) r hd payload).2.2 = some w →
        w.usParaLen = w.pData.length)
    ∧ (∀ (sub : I2CSub), sub.written.length ≤ 255 → i < off + N →
        i2c_answer_request_reads tvb off N cmd
            ⟨(encode_i2c false [sub]).length, 0, encode_i2c false [sub]⟩ (fuel + 1) i 0
          = [(0, .ok sub.addr.val), (1, .ok sub.written.length),
             ((encode_i2c false [sub]).length, .exn)]
        ∧ i2c_answer_loop tvb off N cmd
            ⟨(encode_i2c false [sub]).length, 0, encode_i2c false [sub]⟩ (fuel + 1) i 0
          = ⟨[], .exn⟩) := by
  refine ⟨?_, ?_, ?_⟩
  · intro p hp
    have hget := i2c_answer_request_reads_get tvb off N cmd v fuel i y p hp
    obtain ⟨g1, g2⟩ := tvb_get_guint8_inside v.pData p.1
    refine ⟨hget, ?_, ?_⟩
    · intro b hb
      rw [hget] at hb
      rw [hv]
      exact g1 b hb
    · intro hk
      have hx : p.2 = .exn := by
        rw [hget]
        exact g2 (by omega)
      exact ⟨hx, i2c_answer_request_reads_exn tvb off N cmd v fuel i y ⟨p, hp, hx⟩⟩
  · intro ds pinfo r hd payload w hw
    exact correlate_request_length pinfo _ r hd payload w
      (stored_request_length_run fuel ds ⟨0, [], []⟩ (by intro e he; simp at he)) hw
  · intro sub hw hi
    refine ⟨?_, i2c_answer_loop_write_request tvb off N cmd fuel i sub hw hi⟩
    rw [encode_i2c_write_single]
    have hl : (sub.addr :: Fin.ofNat sub.written.length :: sub.written : List Byte).length
        = sub.written.length + 2 := by simp
    have g0 : tvb_get_guint8 (sub.addr :: Fin.ofNat sub.written.length :: sub.written) 0
        = .ok sub.addr.val := rfl
    have g1 : tvb_get_guint8 (sub.addr :: Fin.ofNat sub.written.length :: sub.written) 1
        = .ok sub.written.length := by
      have e : tvb_get_guint8 (sub.addr :: Fin.ofNat sub.written.length :: sub.written) 1
          = .ok ((Fin.ofNat sub.written.length : Byte) : Nat) := by
        unfold tvb_get_guint8
        rw [List.getElem?_cons_succ, List.getElem?_cons_zero]
      rw [e, fin_ofNat_val _ hw]
    have e2 : ((0 + 1) % 65536 + (1 + sub.written.length)) % 65536
        = sub.written.length + 2 := by omega
    have g2 : tvb_get_guint8 (sub.addr :: Fin.ofNat sub.written.length :: sub.written)
        (sub.written.length + 2) = .exn := by
      unfold tvb_get_guint8
      rw [List.getElem?_eq_none (by rw [hl])]
    rw [i2c_answer_request_reads_succ, if_pos ⟨by simp only [hl]; omega, hi⟩]
    simp only [g0]
    rw [show (0 + 1) % 65536 = 1 from rfl] at e2 ⊢
    simp only [g1, e2, g2, hl]

set_option maxRecDepth 100000 in
/-- Witness of C37: the `I2C_WRITE` request `50 01 AA` (packet 1, flow 7) is stored with
length 3; the replay made for the `I2C_WRITE_ANSWER` frame `00 04 00 01 00 01 00 FF F9`
(packet 2, same flow) reads the indices 0 and 1, and the read attempted at index 3 gives
no octet: it raises, and the dissection of the answer ends with the exception. -/
theorem C37_replay_reads_inside_stored_request_witness :
    run_deliveries 5
        [([0x00, 0x02, 0x00, 0x01, 0x00, 0x03, 0x50, 0x01, 0xAA, 0x05, 0xF8], ⟨1, false, 7⟩)]
        ⟨0, [], []⟩
      = ⟨1, [(⟨7, 1, I2C_WRITE_ANSWER⟩, ⟨3, 0, [0x50, 0x01, 0xAA]⟩)], [(1, 1)]⟩
    ∧ (correlate ⟨2, false, 7⟩
        ⟨1, [(⟨7, 1, I2C_WRITE_ANSWER⟩, ⟨3, 0, [0x50, 0x01, 0xAA]⟩)], [(1, 1)]⟩
        false I2C_WRITE_ANSWER [0x00]).2.2 = some ⟨3, 0, [0x50, 0x01, 0xAA]⟩
    ∧ i2c_answer_request_reads [0x00, 0x04, 0x00, 0x01, 0x00, 0x01, 0x00, 0xFF, 0xF9] 6 1
        I2C_WRITE_ANSWER ⟨3, 0, [0x50, 0x01, 0xAA]⟩ 5 6 0
      = [(0, .ok 0x50), (1, .ok 0x01), (3, .exn)]
    ∧ (∀ p ∈ i2c_answer_request_reads [0x00, 0x04, 0x00, 0x01, 0x00, 0x01, 0x00, 0xFF, 0xF9]
          6 1 I2C_WRITE_ANSWER ⟨3, 0, [0x50, 0x01, 0xAA]⟩ 5 6 0,
        ∀ b, p.2 = .ok b → p.1 < 3)
    ∧ (dissect_FiveCoLegacy 5 [0x00, 0x04, 0x00, 0x01, 0x00, 0x01, 0x00, 0xFF, 0xF9]
        ⟨2, false, 7⟩
        ⟨1, [(⟨7, 1, I2C_WRITE_ANSWER⟩, ⟨3, 0, [0x50, 0x01, 0xAA]⟩)], [(1, 1)]⟩).raised = true :=
  ⟨by decide, by decide, by decide,
    fun p hp b hb =>
      (((C37_replay_reads_inside_stored_request
        [0x00, 0x04, 0x00, 0x01, 0x00, 0x01, 0x00, 0xFF, 0xF9] 6 1 I2C_WRITE_ANSWER
        ⟨3, 0, [0x50, 0x01, 0xAA]⟩ 5 6 0 rfl).1 p hp).2.1 b hb).1,
    by decide⟩

/-! ### Deliveries between a request and its answer (C24) -/

/-- The walk on a packet that has a stored id, with the flag `isRequest` down, leaves the
state as it was. -/
theorem frame_walk_cached_state (ifuel : Nat) (tvb : Tvb) (pinfo : packet_info) (n : Nat)
    (s : Loop) (id : Nat) (hr : s.isRequest = false)
    (h : p_get_proto_data s.st.proto_data pinfo.num = some id) :
    (frame_walk ifuel tvb pinfo n s).state = s.st := by
  obtain ⟨_, hb⟩ := frame_walk_state_ind ifuel tvb pinfo
    (fun st' r => st' = s.st ∧ r = false)
    (fun st' r hd payload hst => by
      obtain ⟨e1, e2⟩ := hst
      subst e1 e2
      exact correlate_cached pinfo _ hd id payload h)
    (fun st' r hd hst => by
      obtain ⟨e1, e2⟩ := hst
      subst e1 e2
      rw [assign_cached pinfo _ false hd id h]
      exact ⟨rfl, rfl⟩)
    n s ⟨rfl, hr⟩
  exact hb.1

/-- The id assignment of a frame that has no request command, with the flag `isRequest`
down: the counter and the flag stay. -/
theorem assign_not_request (pinfo : packet_info) (st : State) (h : Nat)
    (hreq : is_request_command h = false) :
    (assign_internal_id pinfo st false h).1.g_unInternalID = st.g_unInternalID ∧
    (assign_internal_id pinfo st false h).2.1 = false := by
  unfold assign_internal_id
  cases hc : p_get_proto_data st.proto_data pinfo.num with
  | some id => exact ⟨rfl, rfl⟩
  | none =>
    simp only [hreq]
    exact ⟨rfl, rfl⟩

/-- The correlator block on a frame that has no request command, with the flag
`isRequest` down: the counter, the table and the flag stay. -/
theorem correlate_not_request (pinfo : packet_info) (st : State) (h : Nat)
    (payload : List Byte) (hreq : is_request_command h = false) :
    (correlate pinfo st false h payload).1.g_unInternalID = st.g_unInternalID ∧
    (correlate pinfo st false h payload).1.FiveCo_requests_hash = st.FiveCo_requests_hash ∧
    (correlate pinfo st false h payload).2.1 = false := by
  obtain ⟨a1, a2⟩ := assign_not_request pinfo st h hreq
  have hflag := correlate_flag pinfo st false h payload
  refine ⟨by rw [correlate_counter]; exact a1, ?_, by rw [hflag]; exact a2⟩
  unfold correlate
  simp only [a2, Bool.and_false]
  exact assign_hash pinfo st false h

/-- One iteration of the frame loop on a frame that has no request command, with the
flag `isRequest` down: the counter, the table and the flag stay. -/
theorem frame_step_not_request (fuel : Nat) (tvb : Tvb) (pinfo : packet_info) (s : Loop)
    (h id n : Nat) (hr : s.isRequest = false)
    (hh : frame_header tvb s.tcp_data_offset = some (h, id, n))
    (hreq : is_request_command h = false) :
    (frame_step fuel tvb pinfo s).state.g_unInternalID = s.st.g_unInternalID ∧
    (frame_step fuel tvb pinfo s).state.FiveCo_requests_hash = s.st.FiveCo_requests_hash ∧
    ∀ s', frame_step fuel tvb pinfo s = .next s' → s'.isRequest = false := by
  cases hp : tvb_memcpy tvb (s.tcp_data_offset + 6) n with
  | ok payload =>
    rw [frame_step_of_header fuel tvb pinfo s h id n payload hh hp, hr]
    obtain ⟨c1, c2, c3⟩ := correlate_not_request pinfo s.st h payload hreq
    obtain ⟨f1, f2⟩ := frame_rest_state fuel tvb s (correlate pinfo s.st false h payload).1
      (correlate pinfo s.st false h payload).2.1 h id n (correlate pinfo s.st false h payload).2.2
    rw [f1]
    exact ⟨c1, c2, fun s' hs' => by rw [f2 s' hs']; exact c3⟩
  | exn =>
    obtain ⟨f1, f2⟩ := frame_step_of_header_short fuel tvb pinfo s h id n hh
      (by intro p hp'; rw [hp] at hp'; simp at hp')
    rw [hr] at f1 f2
    obtain ⟨a1, a2⟩ := assign_not_request pinfo s.st h hreq
    rw [f1]
    exact ⟨a1, assign_hash pinfo s.st false h, fun s' hs' => by rw [f2 s' hs']; exact a2⟩
  | fuel =>
    obtain ⟨f1, f2⟩ := frame_step_of_header_short fuel tvb pinfo s h id n hh
      (by intro p hp'; rw [hp] at hp'; simp at hp')
    rw [hr] at f1 f2
    obtain ⟨a1, a2⟩ := assign_not_request pinfo s.st h hreq
    rw [f1]
    exact ⟨a1, assign_hash pinfo s.st false h, fun s' hs' => by rw [f2 s' hs']; exact a2⟩

/-- A delivery that is observed again, or whose first frame is no request, leaves the
counter and the table of requests as they were. -/
theorem dissect_keeps_requests (fuel : Nat) (tvb : Tvb) (pinfo : packet_info) (st : State)
    (hq : no_new_request (tvb, pinfo) st) :
    (dissect_FiveCoLegacy fuel tvb pinfo st).state.g_unInternalID = st.g_unInternalID ∧
    (dissect_FiveCoLegacy fuel tvb pinfo st).state.FiveCo_requests_hash
      = st.FiveCo_requests_hash := by
  rcases hq with hq | hq
  · cases hc : p_get_proto_data st.proto_data pinfo.num with
    | none =>
      have hq' : (p_get_proto_data st.proto_data pinfo.num).isSome = true := hq
      rw [hc] at hq'
      simp at hq'
    | some id =>
      rw [dissect_cached_state fuel tvb pinfo st id hc]
      exact ⟨rfl, rfl⟩
  · cases hh : frame_header tvb 0 with
    | none =>
      rw [dissect_no_id_state fuel tvb pinfo st (Or.inr (Or.inr hh))]
      exact ⟨rfl, rfl⟩
    | some hdr =>
      obtain ⟨h, id, n⟩ := hdr
      have hq' : (frame_header tvb 0).map (fun h => is_request_command h.1) ≠ some true := hq
      rw [hh] at hq'
      have hreq : is_request_command h = false := by
        cases hb : is_request_command h with
        | false => rfl
        | true =>
          exfalso
          apply hq'
          simp only [Option.map_some', hb]
      unfold dissect_FiveCoLegacy
      split
      · exact ⟨rfl, rfl⟩
      · cases fuel with
        | zero =>
          unfold frame_walk
          split <;> exact ⟨rfl, rfl⟩
        | succ m =>
          rw [frame_walk_succ]
          split
          · have hh' : frame_header tvb
                ({ tcp_data_offset := 0, isRequest := false, st := st,
                   out := [.col_protocol, .col_clear] } : Loop).tcp_data_offset
                = some (h, id, n) := hh
            obtain ⟨s1, s2, s3⟩ := frame_step_not_request (m + 1) tvb pinfo _ h id n rfl hh' hreq
            have hcache := frame_step_caches (m + 1) tvb pinfo _ h id n hh'
            cases hstep : frame_step (m + 1) tvb pinfo
                { tcp_data_offset := 0, isRequest := false, st := st,
                  out := [.col_protocol, .col_clear] } with
            | next s' =>
              rw [hstep] at s1 s2 hcache
              simp only [Step.state] at s1 s2 hcache
              simp only
              rw [frame_walk_cached_state (m + 1) tvb pinfo m s' _ (s3 s' hstep) hcache]
              exact ⟨s1, s2⟩
            | done o =>
              rw [hstep] at s1 s2
              exact ⟨s1, s2⟩
          · exact ⟨rfl, rfl⟩

theorem run_keeps_requests (fuel : Nat) :
    ∀ (ds : List (Tvb × packet_info)) (st : State), no_new_requests fuel ds st →
      (run_deliveries fuel ds st).g_unInternalID = st.g_unInternalID ∧
      (run_deliveries fuel ds st).FiveCo_requests_hash = st.FiveCo_requests_hash := by
  intro ds
  induction ds with
  | nil => intro st _; exact ⟨rfl, rfl⟩
  | cons d ds ih =>
    intro st hq
    obtain ⟨h1, h2⟩ := hq
    obtain ⟨d1, d2⟩ := dissect_keeps_requests fuel d.1 d.2 st h1
    obtain ⟨r1, r2⟩ := ih _ h2
    unfold run_deliveries
    exact ⟨by rw [r1, d1], by rw [r2, d2]⟩

/-- The state after the delivery of one `READ_REGISTER` request frame seen for the first
time, whatever the number of addresses asked for. -/
theorem read_register_request_leaves (fuel : Nat) (st : State) (p1 : packet_info)
    (seq1 ck1 : Nat) (ts : List (Byte × List Byte))
    (hseq1 : seq1 < 65536) (hck1 : ck1 < 65536) (hlen : ts.length + 8 ≤ 65535)
    (hvis : p1.visited = false) (hnew1 : p_get_proto_data st.proto_data p1.num = none)
    (hinv : ∀ e ∈ st.FiveCo_requests_hash, e.1.usExpCmd ≠ READ_REGISTER)
    (hfuel0 : 0 < fuel) :
    (dissect_FiveCoLegacy fuel (encode_frame (read_register_request seq1 ts ck1)) p1 st).state
      = ⟨(st.g_unInternalID + 1) % 18446744073709551616,
          g_hash_table_insert st.FiveCo_requests_hash
            ⟨p1.conv_index, (st.g_unInternalID + 1) % 18446744073709551616,
              READ_REGISTER_ANSWER⟩ ⟨(ts.map (fun t => t.1)).length, 0, ts.map (fun t => t.1)⟩,
          p_add_proto_data st.proto_data p1.num
            ((st.g_unInternalID + 1) % 18446744073709551616)⟩ := by
  have hfree := lookup_read_register_none st.FiveCo_requests_hash p1.conv_index
    ((st.g_unInternalID + 1) % 18446744073709551616) hinv
  have hmaplen : (ts.map (fun t => t.1)).length = ts.length := List.length_map _ _
  have hwf1 : (read_register_request seq1 ts ck1).wf :=
    ⟨by show READ_REGISTER ∈ knownCommandCodes; decide, hseq1,
      by show (ts.map (fun t => t.1)).length < 65536; omega, hck1⟩
  have hc1 := correlate_read_register p1 st false (ts.map (fun t => t.1)) hvis hnew1 hfree
  have hP1 : ∃ P, payload_tree fuel (encode_frame (read_register_request seq1 ts ck1)) 6
      (ts.map (fun t => t.1)).length READ_REGISTER
      (correlate p1 st false READ_REGISTER (ts.map (fun t => t.1))).2.2 = ⟨P, .ok ()⟩ := by
    cases ts with
    | nil => exact ⟨[], payload_tree_empty _ _ _ _ _⟩
    | cons t ts' =>
      exact ⟨_, payload_tree_read_register fuel
        (encode_frame (read_register_request seq1 (t :: ts') ck1)) 6
        ((t :: ts').map (fun t => t.1)) _ (by simp)
        (show at_offset _ 6 ((t :: ts').map (fun t => t.1))
          from encode_frame_at (read_register_request seq1 (t :: ts') ck1))⟩
  obtain ⟨P, hP⟩ := hP1
  have hd1 := dissect_single_frame fuel p1 st (read_register_request seq1 ts ck1) P hwf1
    (by show (ts.map (fun t => t.1)).length + 8 ≤ 65535; omega) hfuel0 hP
  rw [hd1]
  show (correlate p1 st false READ_REGISTER (ts.map (fun t => t.1))).1 = _
  rw [hc1]

/-- The payload block of a `READ_REGISTER_ANSWER` frame that holds the tuples `ts`,
decoded against the request that lists their addresses, whatever their number. -/
theorem payload_tree_register_answer_calls (fuel : Nat) (tvb : Tvb)
    (ts : List (Byte × List Byte)) (hok : ∀ t ∈ ts, tuple_ok t)
    (hat : at_offset tvb 6 (encode_tuples ts))
    (hend : 6 + (encode_tuples ts).length ≤ 65535) (hfuel : ts.length ≤ fuel) :
    payload_tree fuel tvb 6 (encode_tuples ts).length READ_REGISTER_ANSWER
        (some ⟨(ts.map (fun t => t.1)).length, 0, ts.map (fun t => t.1)⟩)
      = ⟨spec_register_answer_calls ts, .ok ()⟩ := by
  cases ts with
  | nil => exact payload_tree_empty _ _ _ _ _
  | cons t ts' =>
    rw [payload_tree_read_register_answer fuel tvb 6 (t :: ts') (by simp) hok hat hend hfuel]
    rfl

/-- C24, as amended. For every flow and every list of catalog addresses `a_1 .. a_k`: if a
`READ_REGISTER` request with the payload `[a_1, .., a_k]` is the frame of a delivery seen
for the first time, in a state whose table has no record under the request command itself
(as all the states reached from the initial one, last part of the statement); if each
of the deliveries dissected after it, of whatever flow, is observed again or starts with
a frame that is no request, so that none of them is a first-seen delivery whose first
frame is a request; and if then a delivery seen for the first time on the flow of the
request is a `READ_REGISTER_ANSWER` frame of at most 65535 octets whose payload is each
`a_j` followed by the number of value octets the catalog declares for it: then the answer
is correlated to that request (the request context is the record of the request
parameters), the call returns the delivery's length, and the payload decodes to exactly
`k` register entries, in order, entry `j` being that of `a_j` over its value octets,
rendered by the register's formatting strategy, without any marker of octets not
interpreted. -/
theorem C24_read_register_answer_correlated (fuel : Nat) (st : State) (p1 p2 : packet_info)
    (seq1 seq2 ck1 ck2 : Nat) (ts : List (Byte × List Byte)) (mid : List (Tvb × packet_info))
    (hok : ∀ t ∈ ts, tuple_ok t)
    (hseq1 : seq1 < 65536) (hseq2 : seq2 < 65536) (hck1 : ck1 < 65536) (hck2 : ck2 < 65536)
    (hlen : (encode_tuples ts).length + 8 ≤ 65535)
    (hflow : p2.conv_index = p1.conv_index)
    (hvis : p1.visited = false)
    (hnew1 : p_get_proto_data st.proto_data p1.num = none)
    (hinv : ∀ e ∈ st.FiveCo_requests_hash, e.1.usExpCmd ≠ READ_REGISTER)
    (hmid : no_new_requests fuel mid
      (dissect_FiveCoLegacy fuel (encode_frame (read_register_request seq1 ts ck1)) p1 st).state)
    (hnew2 : p_get_proto_data (state_after_request fuel st p1 seq1 ts ck1 mid).proto_data p2.num
      = none)
    (hfuel : ts.length ≤ fuel) (hfuel0 : 0 < fuel) :
    (correlate p2 (state_after_request fuel st p1 seq1 ts ck1 mid)
        false READ_REGISTER_ANSWER (encode_tuples ts)).2.2
      = some ⟨ts.length, 0, ts.map (fun t => t.1)⟩ ∧
    dissect_FiveCoLegacy fuel (encode_frame (read_register_answer seq2 ts ck2)) p2
        (state_after_request fuel st p1 seq1 ts ck1 mid)
      = .returned ((encode_tuples ts).length + 8)
          (correlate p2 (state_after_request fuel st p1 seq1 ts ck1 mid)
            false READ_REGISTER_ANSWER (encode_tuples ts)).1
          ([.col_protocol, .col_clear]
            ++ frame_summary 0 READ_REGISTER_ANSWER seq2 (encode_tuples ts).length
                (frame_checksum (read_register_answer seq2 ts ck2)) ck2
            ++ ([.add_item ⟨.proto_FiveCoLegacy, 0, (encode_tuples ts).length + 8⟩,
                 .append_text ⟨.proto_FiveCoLegacy, 0, (encode_tuples ts).length + 8⟩
                   (.type_name READ_REGISTER_ANSWER),
                 .add_item ⟨.hf_fiveco_header, 0, 6⟩, .add_item ⟨.hf_fiveco_fct, 0, 2⟩,
                 .add_item ⟨.hf_fiveco_id, 2, 2⟩, .add_item ⟨.hf_fiveco_length, 4, 2⟩]
                ++ spec_register_answer_calls ts
                ++ [.add_checksum (6 + (encode_tuples ts).length)
                      (frame_checksum (read_register_answer seq2 ts ck2)) ck2])) ∧
    (spec_register_entries 6 ts).length = ts.length ∧
    (∀ j, (spec_register_entries 6 ts)[j]? = ts[j]?.map (spec_register_entry (tuple_start 6 ts j))) ∧
    (∀ e ∈ (spec_register_entries 6 ts).flatten, ∀ s l,
      e ≠ .add_item ⟨.hf_fiveco_regreaduk, s, l⟩) ∧
    (∀ (ds : List (Tvb × packet_info)),
      ∀ e ∈ (run_deliveries fuel ds ⟨0, [], []⟩).FiveCo_requests_hash,
        e.1.usExpCmd ≠ READ_REGISTER) := by
  have hge := encode_tuples_length_ge ts
  have hmaplen : (ts.map (fun t => t.1)).length = ts.length := List.length_map _ _
  -- the request delivery
  have hst1 := read_register_request_leaves fuel st p1 seq1 ck1 ts hseq1 hck1 (by omega) hvis
    hnew1 hinv hfuel0
  -- the deliveries in between
  obtain ⟨hg, hh⟩ := run_keeps_requests fuel mid _ hmid
  have hg2 : (state_after_request fuel st p1 seq1 ts ck1 mid).g_unInternalID
      = (st.g_unInternalID + 1) % 18446744073709551616 := by
    unfold state_after_request
    rw [hg, hst1]
  have hh2 : (state_after_request fuel st p1 seq1 ts ck1 mid).FiveCo_requests_hash
      = g_hash_table_insert st.FiveCo_requests_hash
          ⟨p1.conv_index, (st.g_unInternalID + 1) % 18446744073709551616, READ_REGISTER_ANSWER⟩
          ⟨(ts.map (fun t => t.1)).length, 0, ts.map (fun t => t.1)⟩ := by
    unfold state_after_request
    rw [hh, hst1]
  -- the answer delivery
  have hc2 := correlate_read_register_answer p2 (state_after_request fuel st p1 seq1 ts ck1 mid)
    (encode_tuples ts) ⟨(ts.map (fun t => t.1)).length, 0, ts.map (fun t => t.1)⟩ hnew2
    (by rw [hh2, hg2, hflow]; exact lookup_insert_self _ _ _)
  have hwf2 : (read_register_answer seq2 ts ck2).wf :=
    ⟨by show READ_REGISTER_ANSWER ∈ knownCommandCodes; decide, hseq2,
      by show (encode_tuples ts).length < 65536; omega, hck2⟩
  have hctx : (correlate p2 (state_after_request fuel st p1 seq1 ts ck1 mid)
      false READ_REGISTER_ANSWER (encode_tuples ts)).2.2
      = some ⟨(ts.map (fun t => t.1)).length, 0, ts.map (fun t => t.1)⟩ := by
    rw [hc2]
  have hP2 := payload_tree_register_answer_calls fuel
    (encode_frame (read_register_answer seq2 ts ck2)) ts hok
    (show at_offset _ 6 (encode_tuples ts)
      from encode_frame_at (read_register_answer seq2 ts ck2)) (by omega) hfuel
  have hd2 := dissect_single_frame fuel p2 (state_after_request fuel st p1 seq1 ts ck1 mid)
    (read_register_answer seq2 ts ck2) _ hwf2
    (by show (encode_tuples ts).length + 8 ≤ 65535; omega) hfuel0
    (by
      show payload_tree fuel _ 6 (encode_tuples ts).length READ_REGISTER_ANSWER
        (correlate p2 _ false READ_REGISTER_ANSWER (encode_tuples ts)).2.2 = _
      rw [hctx]
      exact hP2)
  refine ⟨?_, hd2, register_entries_length ts 6, register_entries_get ts 6,
    register_entries_no_marker ts 6,
    fun ds => no_read_register_key_run fuel ds ⟨0, [], []⟩ (by intro e he; simp at he)⟩
  rw [hctx, hmaplen]

set_option maxRecDepth 100000 in
/-- Witness of C24 as amended, on the claim's witness with three deliveries in between:
the request `[0x14]` on flow 7 (packet 1); then a `FLASH_AREA_ERASE` frame on flow 8
(packet 2), a `READ_REGISTER_ANSWER` frame on flow 9 (packet 3), and the request delivery
of packet 1 observed again; then the answer `[0x14, 0x2D]` on flow 7 (packet 4). The
answer is decoded against the request: the entry of TCP Timeout is the register's own
field over the value octet at offset 7, `2D`, which its formatter `dispTimeout` renders
as `45 secondes`. -/
theorem C24_read_register_answer_correlated_witness :
    encode_frame (read_register_request 1 [(0x14, [0x2D])] 0xEBDC)
      = [0x00, 0x21, 0x00, 0x01, 0x00, 0x01, 0x14, 0xEB, 0xDC]
    ∧ encode_frame (read_register_answer 2 [(0x14, [0x2D])] 0xEBAB)
      = [0x00, 0x23, 0x00, 0x02, 0x00, 0x02, 0x14, 0x2D, 0xEB, 0xAB]
    ∧ state_after_request 5 ⟨0, [], []⟩ ⟨1, false, 7⟩ 1 [(0x14, [0x2D])] 0xEBDC
        [([0x00, 0x31, 0x00, 0x00, 0x00, 0x00, 0xFF, 0xCE], ⟨2, false, 8⟩),
         ([0x00, 0x23, 0x00, 0x02, 0x00, 0x02, 0x14, 0x2D, 0xEB, 0xAB], ⟨3, false, 9⟩),
         ([0x00, 0x21, 0x00, 0x01, 0x00, 0x01, 0x14, 0xEB, 0xDC], ⟨1, true, 7⟩)]
      = ⟨1, [(⟨7, 1, READ_REGISTER_ANSWER⟩, ⟨1, 0, [0x14]⟩)], [(3, 1), (2, 1), (1, 1)]⟩
    ∧ dissect_FiveCoLegacy 5 (encode_frame (read_register_answer 2 [(0x14, [0x2D])] 0xEBAB))
        ⟨4, false, 7⟩
        (state_after_request 5 ⟨0, [], []⟩ ⟨1, false, 7⟩ 1 [(0x14, [0x2D])] 0xEBDC
          [([0x00, 0x31, 0x00, 0x00, 0x00, 0x00, 0xFF, 0xCE], ⟨2, false, 8⟩),
           ([0x00, 0x23, 0x00, 0x02, 0x00, 0x02, 0x14, 0x2D, 0xEB, 0xAB], ⟨3, false, 9⟩),
           ([0x00, 0x21, 0x00, 0x01, 0x00, 0x01, 0x14, 0xEB, 0xDC], ⟨1, true, 7⟩)])
      = .returned 10
          ⟨1, [(⟨7, 1, READ_REGISTER_ANSWER⟩, ⟨1, 0, [0x14]⟩)],
            [(4, 1), (3, 1), (2, 1), (1, 1)]⟩
          [.col_protocol, .col_clear, .col_frame false 0x23 2 2,
           .add_item ⟨.proto_FiveCoLegacy, 0, 10⟩,
           .append_text ⟨.proto_FiveCoLegacy, 0, 10⟩ (.type_name 0x23),
           .add_item ⟨.hf_fiveco_header, 0, 6⟩, .add_item ⟨.hf_fiveco_fct, 0, 2⟩,
           .add_item ⟨.hf_fiveco_id, 2, 2⟩, .add_item ⟨.hf_fiveco_length, 4, 2⟩,
           .add_item ⟨.hf_fiveco_data, 6, 2⟩, .add_item ⟨.nsWsHeaderID 0x14, 7, 1⟩,
           .add_checksum 8 0xEBAB 0xEBAB]
    ∧ Event.value (encode_frame (read_register_answer 2 [(0x14, [0x2D])] 0xEBAB))
        (.add_item ⟨.nsWsHeaderID 0x14, 7, 1⟩) = [0x2D]
    ∧ dispTimeout 0x2D = "45 secondes" :=
  ⟨by decide, by decide, by decide,
   (C24_read_register_answer_correlated 5 ⟨0, [], []⟩ ⟨1, false, 7⟩ ⟨4, false, 7⟩ 1 2 0xEBDC
      0xEBAB [(0x14, [0x2D])]
      [([0x00, 0x31, 0x00, 0x00, 0x00, 0x00, 0xFF, 0xCE], ⟨2, false, 8⟩),
       ([0x00, 0x23, 0x00, 0x02, 0x00, 0x02, 0x14, 0x2D, 0xEB, 0xAB], ⟨3, false, 9⟩),
       ([0x00, 0x21, 0x00, 0x01, 0x00, 0x01, 0x14, 0xEB, 0xDC], ⟨1, true, 7⟩)]
      (by decide) (by decide) (by decide) (by decide) (by decide)
      (by decide) rfl rfl rfl (by decide)
      ⟨Or.inr (by decide), Or.inr (by decide), Or.inl (by decide), trivial⟩
      (by decide) (by decide) (by decide)).2.1.trans (by decide),
   by decide, by decide⟩

/-! ## The key of the pending-request record (C14) -/

/-- Every record the correlator block creates is keyed by the flow, the expected answer
command of the frame's command and the value of the counter; it holds the frame's
parameters. -/
theorem correlate_record_key (pinfo : packet_info) (st : State) (r : Bool) (h : Nat)
    (p : List Byte) :
    (correlate pinfo st r h p).1.FiveCo_requests_hash = st.FiveCo_requests_hash ∨
    (correlate pinfo st r h p).1.FiveCo_requests_hash
      = g_hash_table_insert st.FiveCo_requests_hash
          ⟨pinfo.conv_index, (correlate pinfo st r h p).1.g_unInternalID,
            expected_answer_command h⟩ ⟨p.length, 0, p⟩ := by
  have hh := assign_hash pinfo st r h
  unfold correlate
  simp only
  split
  · right
    simp only [hh]
  · left
    exact hh

/-- C14, as amended. For a first-seen request frame with command `c` (one of the six
commands of the request class of lines 306-307), when no record is found under the flow,
the frame's id and `c` itself (the lookup of line 322): the counter is incremented, the
frame is given its new value as id, and a record that holds the frame's parameters is
created under the key (flow, `expected_answer_command c`, id), where
`expected_answer_command` maps `I2C_READ` to `I2C_READ_ANSWER`, `I2C_WRITE` to
`I2C_WRITE_ANSWER`, `I2C_SCAN` to `I2C_SCAN_ANSWER`, `I2C_READ_WRITE_ACK` to
`I2C_READ_WRITE_ACK_ANSWER`, `READ_REGISTER` to `READ_REGISTER_ANSWER`, and
`WRITE_REGISTER`, the request command that has no answer mapping, to itself: a record is
created for `WRITE_REGISTER` too, under (flow, `WRITE_REGISTER`, id). For a frame whose
command is not of the request class, met with the flag `isRequest` down (as the first
frame of a delivery is), no record is created. Whatever the frame, the packet and the
state are, a record the block creates is keyed by the flow, the expected answer command
of the frame's command and the value of the counter. -/
theorem C14_request_record_key (pinfo : packet_info) (st : State) (r : Bool) (c : Nat)
    (payload : List Byte) (hvis : pinfo.visited = false)
    (hnew : p_get_proto_data st.proto_data pinfo.num = none)
    (hreq : is_request_command c = true)
    (hfree : g_hash_table_lookup st.FiveCo_requests_hash
      ⟨pinfo.conv_index, (st.g_unInternalID + 1) % 18446744073709551616, c⟩ = none) :
    correlate pinfo st r c payload
      = (⟨(st.g_unInternalID + 1) % 18446744073709551616,
          g_hash_table_insert st.FiveCo_requests_hash
            ⟨pinfo.conv_index, (st.g_unInternalID + 1) % 18446744073709551616,
              expected_answer_command c⟩ ⟨payload.length, 0, payload⟩,
          p_add_proto_data st.proto_data pinfo.num
            ((st.g_unInternalID + 1) % 18446744073709551616)⟩,
         true, some ⟨payload.length, 0, payload⟩)
    ∧ g_hash_table_lookup (correlate pinfo st r c payload).1.FiveCo_requests_hash
        ⟨pinfo.conv_index, (st.g_unInternalID + 1) % 18446744073709551616,
          expected_answer_command c⟩ = some ⟨payload.length, 0, payload⟩
    ∧ (c = I2C_READ ∨ c = I2C_WRITE ∨ c = I2C_SCAN ∨ c = I2C_READ_WRITE_ACK ∨
        c = READ_REGISTER ∨ c = WRITE_REGISTER)
    ∧ expected_answer_command I2C_READ = I2C_READ_ANSWER
    ∧ expected_answer_command I2C_WRITE = I2C_WRITE_ANSWER
    ∧ expected_answer_command I2C_SCAN = I2C_SCAN_ANSWER
    ∧ expected_answer_command I2C_READ_WRITE_ACK = I2C_READ_WRITE_ACK_ANSWER
    ∧ expected_answer_command READ_REGISTER = READ_REGISTER_ANSWER
    ∧ expected_answer_command WRITE_REGISTER = WRITE_REGISTER
    ∧ (∀ (h : Nat) (p : List Byte), is_request_command h = false →
        (correlate pinfo st false h p).1.FiveCo_requests_hash = st.FiveCo_requests_hash)
    ∧ (∀ (q : packet_info) (s : State) (b : Bool) (h : Nat) (p : List Byte),
        (correlate q s b h p).1.FiveCo_requests_hash = s.FiveCo_requests_hash ∨
        (correlate q s b h p).1.FiveCo_requests_hash
          = g_hash_table_insert s.FiveCo_requests_hash
              ⟨q.conv_index, (correlate q s b h p).1.g_unInternalID,
                expected_answer_command h⟩ ⟨p.length, 0, p⟩) := by
  have hc : correlate pinfo st r c payload
      = (⟨(st.g_unInternalID + 1) % 18446744073709551616,
          g_hash_table_insert st.FiveCo_requests_hash
            ⟨pinfo.conv_index, (st.g_unInternalID + 1) % 18446744073709551616,
              expected_answer_command c⟩ ⟨payload.length, 0, payload⟩,
          p_add_proto_data st.proto_data pinfo.num
            ((st.g_unInternalID + 1) % 18446744073709551616)⟩,
         true, some ⟨payload.length, 0, payload⟩) := by
    unfold correlate assign_internal_id
    simp only [hnew, hreq, if_true, hvis, hfree, Bool.not_false, Option.isNone_none,
      Bool.and_self]
  refine ⟨hc, ?_, ?_, by decide, by decide, by decide, by decide, by decide, by decide, ?_,
    fun q s b h p => correlate_record_key q s b h p⟩
  · rw [hc]
    exact lookup_insert_self _ _ _
  · unfold is_request_command at hreq
    simp only [Bool.or_eq_true, beq_iff_eq] at hreq
    simpa only [or_assoc] using hreq
  · intro h p hh
    exact (correlate_not_request pinfo st h p hh).2.1

set_option maxRecDepth 100000 in
/-- Witness of C14 as amended, on a first-seen `WRITE_REGISTER` frame with the parameter
octet `02` (packet 1, flow 7, initial state): the record is created under (flow 7,
`WRITE_REGISTER`, id 1); the call on the delivery `00 22 00 02 00 01 02 FD DA` leaves that
state. -/
theorem C14_request_record_key_witness :
    correlate ⟨1, false, 7⟩ ⟨0, [], []⟩ false WRITE_REGISTER [0x02]
      = (⟨1, [(⟨7, 1, WRITE_REGISTER⟩, ⟨1, 0, [0x02]⟩)], [(1, 1)]⟩, true,
          some ⟨1, 0, [0x02]⟩)
    ∧ (dissect_FiveCoLegacy 5 [0, 0x22, 0, 2, 0, 1, 2, 0xFD, 0xDA]
        ⟨1, false, 7⟩ ⟨0, [], []⟩).state
      = ⟨1, [(⟨7, 1, WRITE_REGISTER⟩, ⟨1, 0, [0x02]⟩)], [(1, 1)]⟩ :=
  ⟨(C14_request_record_key ⟨1, false, 7⟩ ⟨0, [], []⟩ false WRITE_REGISTER [0x02] rfl rfl
      (by decide) (by decide)).1.trans (by decide),
    by decide⟩

/-! ## A payload block that does not complete (C10) -/

/-- The frame-by-frame walk over well-formed frames of which one has a payload block that
does not complete: the walk does not return, and the frames decoded into the summary are
those up to and including the first such frame. -/
theorem walk_frames_incomplete (ifuel : Nat) (tvb : Tvb) (pinfo : packet_info)
    (hlen : tvb.length ≤ 65535) :
    ∀ (fs : List Frame) (pre : List Byte) (s : Loop),
      tvb = pre ++ encode_frames fs → s.tcp_data_offset = pre.length →
      (∀ f ∈ fs, f.wf) → payloads_complete ifuel tvb pinfo fs s = false →
      (walk_frames ifuel tvb pinfo fs s).value? = none ∧
      ∃ k, k < fs.length ∧
        frame_summaries (walk_frames ifuel tvb pinfo fs s).trace
          = frame_summaries s.out
            ++ (fs.take (k + 1)).map (fun f => (f.cmd, f.seq, f.payload.length)) := by
  intro fs
  induction fs with
  | nil =>
    intro pre s _ _ _ hpc
    simp [payloads_complete] at hpc
  | cons f fs ih =>
    intro pre s htvb hs hwf hpc
    have hf := hwf f (List.mem_cons_self _ _)
    have hflen := encode_frame_length f
    have htvb' : tvb = pre ++ (encode_frame f ++ encode_frames fs) := htvb
    have hfit : s.tcp_data_offset + f.payload.length + 8 ≤ tvb.length := by
      rw [htvb', hs]; simp [hflen]; omega
    have hrx : tvb_get_ntohs tvb (s.tcp_data_offset + f.payload.length + 6) = .ok f.trailer := by
      rw [htvb', hs]; exact encoded_trailer pre _ f hf.2.2.2
    obtain ⟨hres, hsum, _⟩ := frame_tree_projections ifuel tvb s.tcp_data_offset f.cmd
      f.payload.length (correlate pinfo s.st s.isRequest f.cmd f.payload).2.2
      (frame_checksum f) f.trailer hfit hlen hrx
    unfold payloads_complete frame_step_fields at hpc
    simp only at hpc
    unfold walk_frames frame_step_fields
    simp only
    cases hp : (payload_tree ifuel tvb (s.tcp_data_offset + 6) f.payload.length f.cmd
        (correlate pinfo s.st s.isRequest f.cmd f.payload).2.2).res with
    | exn =>
      rw [hp] at hres
      rw [hres]
      refine ⟨rfl, 0, by simp, ?_⟩
      simp only [Outcome.trace, frame_summaries_append, frame_summaries_summary, hsum,
        List.append_nil, List.take_succ_cons, List.take_zero, List.map_cons, List.map_nil]
    | fuel =>
      rw [hp] at hres
      rw [hres]
      refine ⟨rfl, 0, by simp, ?_⟩
      simp only [Outcome.trace, frame_summaries_append, frame_summaries_summary, hsum,
        List.append_nil, List.take_succ_cons, List.take_zero, List.map_cons, List.map_nil]
    | ok u =>
      rw [hp] at hres
      rw [hres] at hpc ⊢
      cases u
      simp only [hp, decide_True, Bool.true_and] at hpc
      simp only
      obtain ⟨h1, k, hk, h2⟩ := ih (pre ++ encode_frame f)
        { tcp_data_offset := s.tcp_data_offset + f.payload.length + 8,
          isRequest := (correlate pinfo s.st s.isRequest f.cmd f.payload).2.1,
          st := (correlate pinfo s.st s.isRequest f.cmd f.payload).1,
          out := s.out ++ frame_summary s.tcp_data_offset f.cmd f.seq f.payload.length
              (frame_checksum f) f.trailer
            ++ (frame_tree ifuel tvb s.tcp_data_offset f.cmd f.payload.length
              (correlate pinfo s.st s.isRequest f.cmd f.payload).2.2 (frame_checksum f)).out }
        (by rw [htvb']; simp)
        (by simp [hs, hflen]; omega)
        (fun g hg => hwf g (List.mem_cons_of_mem _ hg))
        hpc
      refine ⟨h1, k + 1, by simp only [List.length_cons]; omega, ?_⟩
      rw [h2]
      simp only [frame_summaries_append, frame_summaries_summary, hsum, List.append_nil,
        List.take_succ_cons, List.map_cons, List.append_assoc, List.singleton_append]

end FiveCo
